import Mathlib

/-!
Fiwix virtual console: escape-sequence parser and echo engine.

A shallow embedding of `drivers/char/console.c`.  Every function of the C file
that the write path runs is translated to a Lean function of the same name on
an explicit state.  The video backend, the line discipline and the timer are
external collaborators: a call to one of them is recorded, with its arguments,
in the `log` of the state, in call order.

Integers.  `int` is 32 bits on the i386 target.  Arithmetic on a value that an
escape parameter can make arbitrarily large (`parmv1`, `parmv2`, `parms[]` and
the cursor targets computed from them) is reduced with `wrap32`, the
two's-complement wrap-around that the machine instructions compute.  Steps of
one on the cursor and on `nparms` are bounded by the geometry and by the
number of bytes consumed and are left unreduced.
-/

namespace Fiwix

/-! ## Constants of the absent headers -/

/-- Constants of `console.h` and friends, which the C file uses and does not
define: they are parameters of the embedding. -/
structure Consts where
  /-- number of slots of `parms[]`, `sizeof(vc->parms)` in slots -/
  MAX_PARMS : Nat
  MAX_TAB_COLS : Nat
  TAB_SIZE : Nat
  /-- the packed default attribute -/
  DEF_MODE : Nat
  SCREENS_LOG : Int
  COLOR_BLACK : Nat
  COLOR_RED : Nat
  COLOR_GREEN : Nat
  COLOR_BROWN : Nat
  COLOR_BLUE : Nat
  COLOR_MAGENTA : Nat
  COLOR_CYAN : Nat
  COLOR_WHITE : Nat

/-- Scroll direction argument of `video.scroll_screen`. -/
inductive Dir where
  | SCROLL_UP
  | SCROLL_DOWN
  deriving DecidableEq, Repr

/-- Mode argument of `video.show_cursor`. -/
inductive CursorMode where
  | ON
  | OFF
  | COND
  deriving DecidableEq, Repr

/-- Values of `vt_mode.mode`. -/
inductive VtMode where
  | VT_AUTO
  | VT_PROCESS
  deriving DecidableEq, Repr

/-- Values of `vc_mode`. -/
inductive KdMode where
  | KD_TEXT
  | KD_GRAPHICS
  deriving DecidableEq, Repr

/-- One call to an external collaborator.  A call that takes `vc` records the
fields of `vc` the callee reads: the cursor for `put_char`, `insert_char`,
`delete_char` and `update_curpos`, the scroll region for `scroll_screen`. -/
inductive Event where
  | put_char (x y : Int) (color_attr : Nat) (ch : Nat)
  | write_screen (off count : Int) (attr : Nat)
  | scroll_screen (top lines y : Int) (dir : Dir)
  | insert_char (x y : Int)
  | delete_char (x y : Int)
  | update_curpos (x y : Int)
  | show_cursor (mode : CursorMode)
  | restore_screen
  | beep
  | set_leds (led_status : Nat)
  | termios_reset
  | tty_input
  | vcbuf_scroll_up
  | wakeup
  deriving DecidableEq, Repr

/-! ## Data model -/

/-- The C `struct winsize`. -/
structure winsize where
  ws_row : Int
  ws_col : Int
  ws_xpixel : Int
  ws_ypixel : Int
  deriving DecidableEq, Repr

/-- The fields of `struct tty` the console driver touches.  `read_q` and
`write_q` hold the queued bytes, oldest first. -/
structure tty where
  tab_stop : Int → Bool
  pid : Int
  winsize : winsize
  lnext : Bool
  read_q : List Nat
  write_q : List Nat

/-- The C `struct vt_mode`. -/
structure vt_mode where
  mode : VtMode
  waitv : Int
  relsig : Int
  acqsig : Int
  frsig : Int
  deriving DecidableEq, Repr

/-- The C `struct vconsole`.  `parms` is the array `parms[]` indexed the way
the C code indexes it, with no bound check: an index outside
`0 .. MAX_PARMS-1` is a slot outside the array, and what a store there hits
in C is not part of the record (`step_defined` says which steps make none).  The two bits of `flags` are
the fields `has_focus` (CONSOLE_HAS_FOCUS) and `blanked` (CONSOLE_BLANKED);
`vidmem = 0` is the NULL pointer. -/
structure vconsole where
  x : Int
  y : Int
  top : Int
  lines : Int
  columns : Int
  check_x : Bool
  led_status : Nat
  scrlock : Bool
  numlock : Bool
  capslock : Bool
  esc : Bool
  sbracket : Bool
  semicolon : Bool
  question : Bool
  parmv1 : Int
  parmv2 : Int
  nparms : Int
  parms : Int → Int
  color_attr : Nat
  bold : Bool
  underline : Bool
  blink : Bool
  reverse : Bool
  insert_mode : Bool
  saved_x : Int
  saved_y : Int
  vc_mode : KdMode
  vt_mode : vt_mode
  switchto_tty : Int
  has_focus : Bool
  blanked : Bool
  vidmem : Nat
  tty : tty

/-- The fields of the global `video` the write path touches. -/
structure video_parms where
  columns : Int
  lines : Int
  buf_top : Int
  buf_y : Int
  address : Nat
  deriving DecidableEq, Repr

/-- One virtual console together with the globals its write path touches and
the record of the external calls made so far, oldest first. -/
structure State where
  vc : vconsole
  video : video_parms
  log : List Event

/-! ## Helpers -/

/-- Two's-complement reduction of an integer to 32 bits. -/
def wrap32 (i : Int) : Int := (i + 2147483648) % 4294967296 - 2147483648

/-- Number of iterations of `while(count--)` for a 32-bit `count`. -/
def loopCount (count : Int) : Nat := (count % 4294967296).toNat

/-- Record a call to an external collaborator. -/
def call (s : State) (e : Event) : State := { s with log := s.log ++ [e] }

/-- Record `n` identical calls in a row. -/
def calls (s : State) (n : Nat) (e : Event) : State :=
  { s with log := s.log ++ List.replicate n e }

/-- The macro `CSE`: `vc->esc = 0`. -/
def CSE (s : State) : State := { s with vc := { s.vc with esc := false } }

/-- Modelled from the spec: the macro `IS_NUMERIC` of the absent `ctype.h`;
the spec has the digits `0`..`9` accumulate into the parameters. -/
def IS_NUMERIC (ch : Nat) : Bool := decide (48 ≤ ch) && decide (ch ≤ 57)

/-- The string `VT100ID`, `ESC [ ? 1 ; 2 c`. -/
def VT100ID : List Nat := [27, 91, 63, 49, 59, 50, 99]

/-- The string `DEVICE_OK`, `ESC [ 0 n`. -/
def DEVICE_OK : List Nat := [27, 91, 48, 110]

/-- The macro `SCREEN_SIZE`. -/
def SCREEN_SIZE (s : State) : Int := s.video.columns * s.video.lines

/-- The macro `VC_BUF_LINES`. -/
def VC_BUF_LINES (k : Consts) (s : State) : Int := s.video.lines * k.SCREENS_LOG

/-- The table `ansi_color_table[]`. -/
def ansi_color_table (k : Consts) (n : Nat) : Nat :=
  [k.COLOR_BLACK, k.COLOR_RED, k.COLOR_GREEN, k.COLOR_BROWN,
   k.COLOR_BLUE, k.COLOR_MAGENTA, k.COLOR_CYAN, k.COLOR_WHITE].getD n 0

/-! ## The functions of `console.c` -/

/-- The C function `adjust`: clamp and store a cursor target. -/
def adjust (vc : vconsole) (x y : Int) : vconsole :=
  let x1 := if x < 0 then 0 else x
  let x2 := if x1 ≥ vc.columns then vc.columns - 1 else x1
  let y1 := if y < 0 then 0 else y
  let y2 := if y1 ≥ vc.lines then vc.lines - 1 else y1
  { vc with x := x2, y := y2 }

/-- The C function `cr`. -/
def cr (vc : vconsole) : vconsole := { vc with x := 0 }

/-- The C function `lf`. -/
def lf (s : State) : State :=
  if s.vc.y = s.vc.lines then
    call s (Event.scroll_screen s.vc.top s.vc.lines 0 Dir.SCROLL_UP)
  else
    { s with vc := { s.vc with y := s.vc.y + 1 } }

/-- The C function `ri`. -/
def ri (s : State) : State :=
  if s.vc.y = 0 then
    call s (Event.scroll_screen s.vc.top s.vc.lines 0 Dir.SCROLL_DOWN)
  else
    { s with vc := { s.vc with y := s.vc.y - 1 } }

/-- The C function `csi_J`. -/
def csi_J (s : State) (mode : Int) : State :=
  if mode = 0 then
    let s1 := call s (Event.write_screen (s.vc.y * s.vc.columns + s.vc.x)
      (s.vc.columns - s.vc.x) s.vc.color_attr)
    call s1 (Event.write_screen ((s.vc.y + 1) * s.vc.columns)
      (SCREEN_SIZE s - (s.vc.y + 1) * s.vc.columns) s.vc.color_attr)
  else if mode = 1 then
    let s1 := call s (Event.write_screen (s.vc.y * s.vc.columns) (s.vc.x + 1) s.vc.color_attr)
    call s1 (Event.write_screen 0 (s.vc.y * s.vc.columns) s.vc.color_attr)
  else if mode = 2 then
    call s (Event.write_screen 0 (SCREEN_SIZE s) s.vc.color_attr)
  else
    s

/-- The C function `csi_K`. -/
def csi_K (s : State) (mode : Int) : State :=
  if mode = 0 then
    call s (Event.write_screen (s.vc.y * s.vc.columns + s.vc.x)
      (s.vc.columns - s.vc.x) s.vc.color_attr)
  else if mode = 1 then
    call s (Event.write_screen (s.vc.y * s.vc.columns) (s.vc.x + 1) s.vc.color_attr)
  else if mode = 2 then
    call s (Event.write_screen (s.vc.y * s.vc.columns) s.vc.columns s.vc.color_attr)
  else
    s

/-- The C function `csi_X`. -/
def csi_X (s : State) (count : Int) : State :=
  let count1 := if count > s.vc.columns - s.vc.x then s.vc.columns - s.vc.x else count
  call s (Event.write_screen (s.vc.y * s.vc.columns + s.vc.x) count1 s.vc.color_attr)

/-- The C function `csi_L`. -/
def csi_L (s : State) (count : Int) : State :=
  let count1 := if count > s.vc.lines - s.vc.top then s.vc.lines - s.vc.top else count
  calls s (loopCount count1) (Event.scroll_screen s.vc.top s.vc.lines s.vc.y Dir.SCROLL_DOWN)

/-- The C function `csi_M`. -/
def csi_M (s : State) (count : Int) : State :=
  let count1 := if count > s.vc.lines - s.vc.top then s.vc.lines - s.vc.top else count
  calls s (loopCount count1) (Event.scroll_screen s.vc.top s.vc.lines s.vc.y Dir.SCROLL_UP)

/-- The C function `csi_P`. -/
def csi_P (s : State) (count : Int) : State :=
  let count1 := if count > s.vc.columns then s.vc.columns else count
  calls s (loopCount count1) (Event.delete_char s.vc.x s.vc.y)

/-- The C function `csi_at`. -/
def csi_at (s : State) (count : Int) : State :=
  let count1 := if count > s.vc.columns then s.vc.columns else count
  calls s (loopCount count1) (Event.insert_char s.vc.x s.vc.y)

/-- The C function `default_color_attr`. -/
def default_color_attr (k : Consts) (vc : vconsole) : vconsole :=
  { vc with color_attr := k.DEF_MODE, bold := false, underline := false,
            blink := false, reverse := false }

/-- The swap of the two colour fields that `csi_m` applies for reverse video. -/
def swap_colors (c : Nat) : Nat :=
  ((c &&& 0x7000) >>> 4) ||| ((c &&& 0x0700) <<< 4) ||| (c &&& 0x8800)

/-- One round of the `switch(vc->parms[n])` of `csi_m`.  The case labels are
the `SGR_*` constants of the absent header, with the values the spec gives
them: 0 default, 1 bold, 5 blink, 7 reverse, 21 and 22 bold off, 25 blink off,
27 reverse off, 30..37 foreground, 40..47 background. -/
def csi_m_case (k : Consts) (vc : vconsole) (p : Int) : vconsole :=
  if p = 0 then default_color_attr k vc
  else if p = 1 then { vc with bold := true }
  else if p = 5 then { vc with blink := true }
  else if p = 7 then { vc with reverse := true }
  else if p = 21 ∨ p = 22 then { vc with bold := false }
  else if p = 25 then { vc with blink := false }
  else if p = 27 then { vc with reverse := false }
  else if 30 ≤ p ∧ p ≤ 37 then
    { vc with color_attr :=
        ((vc.color_attr &&& 0xF8FF) ||| ansi_color_table k (p - 30).toNat) % 65536 }
  else if 40 ≤ p ∧ p ≤ 47 then
    { vc with color_attr :=
        ((vc.color_attr &&& 0x8FFF) ||| (ansi_color_table k (p - 40).toNat <<< 4)) % 65536 }
  else vc

/-- The C function `csi_m`. -/
def csi_m (k : Consts) (vc : vconsole) : vconsole :=
  let vc1 := if vc.reverse then { vc with color_attr := swap_colors vc.color_attr } else vc
  let vc2 := (List.range vc1.nparms.toNat).foldl
    (fun (v : vconsole) (n : Nat) => csi_m_case k v (v.parms (n : Int))) vc1
  let vc3 := if vc2.bold then { vc2 with color_attr := vc2.color_attr ||| 0x0800 }
             else { vc2 with color_attr := vc2.color_attr &&& 0xF7FF }
  let vc4 := if vc3.blink then { vc3 with color_attr := vc3.color_attr ||| 0x8000 }
             else { vc3 with color_attr := vc3.color_attr &&& 0x7FFF }
  if vc4.reverse then { vc4 with color_attr := swap_colors vc4.color_attr } else vc4

/-- The C function `init_vt`. -/
def init_vt (vc : vconsole) : vconsole :=
  { vc with
    vt_mode := { mode := VtMode.VT_AUTO, waitv := 0, relsig := 0, acqsig := 0, frsig := 0 },
    vc_mode := KdMode.KD_TEXT,
    tty := { vc.tty with pid := 0 },
    switchto_tty := -1 }

/-- The C function `insert_seq`: the first `count` bytes of `buf` are put on
the read queue, then the input callback of the tty is called.  The queue is
taken to have room for them. -/
def insert_seq (s : State) (buf : List Nat) (count : Nat) : State :=
  call { s with vc := { s.vc with tty := { s.vc.tty with
    read_q := s.vc.tty.read_q ++ buf.take count } } } Event.tty_input

/-- The inner loop of the tab handler,
`while(vc->x < (vc->columns - 1)) { if(vc->tty->tab_stop[++vc->x]) break; }`,
on the column alone; each round advances the column, so `columns - 1 - x`
rounds are all the loop can make. -/
def tab_scan (tab_stop : Int → Bool) (columns : Int) : Nat → Int → Int
  | 0, x => x
  | fuel + 1, x =>
    if x < columns - 1 then
      if tab_stop (x + 1) then x + 1 else tab_scan tab_stop columns fuel (x + 1)
    else x

/-- The tab loop applied to a console. -/
def tab_forward (vc : vconsole) : vconsole :=
  { vc with x := tab_scan vc.tty.tab_stop vc.columns (vc.columns - 1 - vc.x).toNat vc.x }

/-- The `if(vc->y >= vc->lines)` block that `echo_char` runs before
`put_char` and again after every byte. -/
def echo_scroll (s : State) : State :=
  if s.vc.y ≥ s.vc.lines then
    let s1 := call s (Event.scroll_screen s.vc.top s.vc.lines 0 Dir.SCROLL_UP)
    { s1 with vc := { s1.vc with y := s1.vc.y - 1 } }
  else s

/-- The branch `ch == '\b'` of `echo_char`. -/
def echo_bs (s : State) : State :=
  if s.vc.x ≠ 0 then { s with vc := { s.vc with x := s.vc.x - 1 } } else s

/-- The statement `if(vc->flags & CONSOLE_HAS_FOCUS) video.buf_y++` of
`echo_char`. -/
def buf_y_incr (s : State) : State :=
  if s.vc.has_focus then { s with video := { s.video with buf_y := s.video.buf_y + 1 } } else s

/-- The branch `ch == '\n'` of `echo_char`. -/
def echo_lf (s : State) : State :=
  buf_y_incr { s with vc := { cr s.vc with y := s.vc.y + 1 } }

/-- The branch `ch == '\t'` of `echo_char`. -/
def echo_tab (s : State) : State :=
  { s with vc := { tab_forward s.vc with check_x := true } }

/-- The deferred wrap that opens the last branch of `echo_char`. -/
def echo_wrap (s : State) : State :=
  if s.vc.x = s.vc.columns - 1 ∧ s.vc.check_x = true then
    buf_y_incr { s with vc := { s.vc with x := 0, y := s.vc.y + 1 } }
  else s

/-- The `if(vc->x < vc->columns - 1)` block that closes the last branch of
`echo_char`. -/
def echo_advance (s : State) : State :=
  if s.vc.x < s.vc.columns - 1 then
    { s with vc := { s.vc with check_x := false, x := s.vc.x + 1 } }
  else
    { s with vc := { s.vc with check_x := true } }

/-- The last branch of the `if` chain of `echo_char`: a byte that is put on
the screen. -/
def echo_print (s : State) (ch : Nat) : State :=
  let b := echo_scroll (echo_wrap s)
  echo_advance (call b (Event.put_char b.vc.x b.vc.y b.vc.color_attr ch))

/-- The `if` chain of `echo_char` over the byte `ch`, which is not NUL. -/
def echo_dispatch (s : State) (ch : Nat) : State :=
  if ch = 8 then echo_bs s
  else if ch = 7 then call s Event.beep
  else if ch = 13 then { s with vc := cr s.vc }
  else if ch = 10 then echo_lf s
  else if ch = 9 then echo_tab s
  else echo_print s ch

/-- The block of `echo_char` that rolls the scrollback ring. -/
def echo_vcbuf (k : Consts) (s : State) : State :=
  if s.vc.has_focus ∧ s.video.buf_y ≥ VC_BUF_LINES k s then
    let s1 := call s Event.vcbuf_scroll_up
    { s1 with video := { s1.video with buf_y := s1.video.buf_y - 1 } }
  else s

/-- One round of the `while(count--)` loop of `echo_char`. -/
def echo_byte (k : Consts) (s : State) (ch : Nat) : State :=
  if ch = 0 then s
  else echo_vcbuf k (echo_scroll (echo_dispatch s ch))

/-- The opening block of `echo_char`: leave the scrollback view. -/
def echo_restore (s : State) : State :=
  if s.vc.has_focus ∧ s.video.buf_top ≠ 0 then
    let a := call (call s Event.restore_screen) (Event.show_cursor CursorMode.ON)
    { a with video := { a.video with buf_top := 0 } }
  else s

/-- The C function `echo_char` on the `count` bytes of `buf`. -/
def echo_char (k : Consts) (s : State) (buf : List Nat) : State :=
  let s1 := buf.foldl (echo_byte k) (echo_restore s)
  call s1 (Event.update_curpos s1.vc.x s1.vc.y)

/-- The C function `vconsole_reset`. -/
def vconsole_reset (k : Consts) (s : State) : State :=
  let vc1 : vconsole := { s.vc with
    top := 0, lines := s.video.lines, columns := s.video.columns, check_x := false,
    led_status := 0 }
  let s1 := call { s with vc := vc1 } (Event.set_leds 0)
  let vc2 : vconsole := { s1.vc with
    scrlock := false, numlock := false, capslock := false,
    esc := false, sbracket := false, semicolon := false, question := false,
    parmv1 := 0, parmv2 := 0, nparms := 0,
    parms := fun i => if 0 ≤ i ∧ i < (k.MAX_PARMS : Int) then 0 else s1.vc.parms i }
  let vc3 : vconsole := { default_color_attr k vc2 with
    insert_mode := false, saved_x := 0, saved_y := 0 }
  let vc4 : vconsole := { vc3 with tty := { vc3.tty with
    tab_stop := fun n =>
      if 0 ≤ n ∧ n < (k.MAX_TAB_COLS : Int) then decide (n % (k.TAB_SIZE : Int) = 0)
      else vc3.tty.tab_stop n } }
  let s2 := call { s1 with vc := vc4 } Event.termios_reset
  let vc5 : vconsole := { s2.vc with tty := { s2.vc.tty with
    winsize := { ws_row := s2.vc.lines - s2.vc.top, ws_col := s2.vc.columns,
                 ws_xpixel := 0, ws_ypixel := 0 },
    lnext := false } }
  let vc6 : vconsole := { init_vt vc5 with blanked := false }
  call { s2 with vc := vc6 } (Event.update_curpos vc6.x vc6.y)

/-- Modelled from the spec: the digits of the `%d` conversion of the absent
`sprintk`, most significant first ("formatted as decimal"). -/
def dec_digits : Nat → Nat → List Nat
  | 0, _ => []
  | fuel + 1, n => if n < 10 then [48 + n] else dec_digits fuel (n / 10) ++ [48 + n % 10]

/-- Modelled from the spec: the `%d` conversion of the absent `sprintk`, a
minus sign for a negative number, then its decimal digits. -/
def dec (i : Int) : List Nat :=
  if i < 0 then 45 :: dec_digits (i.natAbs + 1) i.natAbs else dec_digits (i.natAbs + 1) i.natAbs

/-- The string `sprintk(curpos, "\033[%d;%dR", vc->y, vc->x)` builds.  The
buffer `char curpos[8]` has no counterpart here: the string is the report
whatever its length.  It is what the code builds only while string and NUL
fit the eight bytes, which `curpos_fits` says; past that `sprintk` writes
behind the buffer. -/
def curpos (vc : vconsole) : List Nat := [27, 91] ++ dec vc.y ++ [59] ++ dec vc.x ++ [82]

/-- The statement `vc->parmv1 = !vc->parmv1 ? 1 : vc->parmv1`. -/
def parm_or_1 (s : State) : State :=
  { s with vc := { s.vc with parmv1 := if s.vc.parmv1 = 0 then 1 else s.vc.parmv1 } }

/-- The statement `vc->parmv1 = vc->parmv1 ? vc->parmv1 - 1 : vc->parmv1`. -/
def parm_less_1 (s : State) : State :=
  { s with vc := { s.vc with
    parmv1 := if s.vc.parmv1 ≠ 0 then wrap32 (s.vc.parmv1 - 1) else s.vc.parmv1 } }

/-- The case `'\033'` of the switch that ends the loop body. -/
def esc_open (s : State) : State :=
  { s with vc := { s.vc with esc := true, sbracket := false, semicolon := false,
                             question := false, parmv1 := 0, parmv2 := 0 } }

/-- The switch of `vconsole_write` that ends its loop body: ESC opens a
sequence, any other byte goes to `echo_char`. -/
def ground (k : Consts) (s : State) (ch : Nat) : State :=
  if ch = 27 then esc_open s
  else echo_char k s [ch]

/-- The branch `if(IS_NUMERIC(ch))` of the loop body.  The store
`vc->parms[vc->nparms]` is made at the index `nparms` as it is, in a map over
all indexes.  It is the store of the code only while `nparms` is inside
`parms[MAX_PARMS]`, which `parms_store_ok` says; past the array the C store
lands on what lies behind it, which this map does not follow. -/
def csi_digit (s : State) (ch : Nat) : State :=
  let d : Int := (ch : Int) - 48
  let vc1 : vconsole :=
    if s.vc.semicolon then { s.vc with parmv2 := wrap32 (wrap32 (s.vc.parmv2 * 10) + d) }
    else { s.vc with parmv1 := wrap32 (wrap32 (s.vc.parmv1 * 10) + d) }
  { s with vc := { vc1 with parms := fun i =>
      if i = vc1.nparms then wrap32 (wrap32 (vc1.parms i * 10) + d) else vc1.parms i } }

/-- Case `A`, Cursor Up, before `CSE`. -/
def cursor_up (s : State) : State :=
  let a := parm_or_1 s
  { a with vc := adjust a.vc a.vc.x (wrap32 (a.vc.y - a.vc.parmv1)) }

/-- Case `B`, Cursor Down, before `CSE`. -/
def cursor_down (s : State) : State :=
  let a := parm_or_1 s
  { a with vc := adjust a.vc a.vc.x (wrap32 (a.vc.y + a.vc.parmv1)) }

/-- Case `C`, Cursor Forward, before `CSE`. -/
def cursor_forward (s : State) : State :=
  let a := parm_or_1 s
  { a with vc := adjust a.vc (wrap32 (a.vc.x + a.vc.parmv1)) a.vc.y }

/-- Case `D`, Cursor Backward, before `CSE`. -/
def cursor_backward (s : State) : State :=
  let a := parm_or_1 s
  { a with vc := adjust a.vc (wrap32 (a.vc.x - a.vc.parmv1)) a.vc.y }

/-- Case `E`, Cursor Next Line(s), before `CSE`. -/
def cursor_next_line (s : State) : State :=
  let a := parm_or_1 s
  { a with vc := adjust a.vc 0 (wrap32 (a.vc.y + a.vc.parmv1)) }

/-- Case `F`, Cursor Previous Line(s), before `CSE`. -/
def cursor_prev_line (s : State) : State :=
  let a := parm_or_1 s
  { a with vc := adjust a.vc 0 (wrap32 (a.vc.y - a.vc.parmv1)) }

/-- Cases `G` and backquote, Cursor Horizontal Position, before `CSE`. -/
def cursor_column (s : State) : State :=
  let a := parm_less_1 s
  { a with vc := adjust a.vc a.vc.parmv1 a.vc.y }

/-- Cases `H` and `f`, Cursor Home, before `CSE`. -/
def cursor_home (s : State) : State :=
  let a := parm_less_1 s
  let b : State := { a with vc := { a.vc with
    parmv2 := if a.vc.parmv2 ≠ 0 then wrap32 (a.vc.parmv2 - 1) else a.vc.parmv2 } }
  { b with vc := adjust b.vc b.vc.parmv2 b.vc.parmv1 }

/-- Case `I`, Cursor Forward Tabulation, before `CSE`. -/
def cursor_tab (s : State) : State :=
  let a := parm_or_1 s
  let vc1 := Nat.iterate tab_forward (loopCount a.vc.parmv1) a.vc
  let vc2 : vconsole := { vc1 with parmv1 := -1 }
  { a with vc := adjust vc2 vc2.x vc2.y }

/-- Case `d`, Cursor Vertical Position, before `CSE`. -/
def cursor_row (s : State) : State :=
  let a := parm_less_1 s
  { a with vc := adjust a.vc a.vc.x a.vc.parmv1 }

/-- The cases `A B C D E F G H I d f` and the backquote of the switch over the
final byte of a CSI sequence: the cursor movements.  The result is `none` for
any other byte. -/
def csi_move (s : State) (ch : Nat) : Option State :=
  if ch = 65 then some (CSE (cursor_up s))
  else if ch = 66 then some (CSE (cursor_down s))
  else if ch = 67 then some (CSE (cursor_forward s))
  else if ch = 68 then some (CSE (cursor_backward s))
  else if ch = 69 then some (CSE (cursor_next_line s))
  else if ch = 70 then some (CSE (cursor_prev_line s))
  else if ch = 71 ∨ ch = 96 then some (CSE (cursor_column s))
  else if ch = 72 ∨ ch = 102 then some (CSE (cursor_home s))
  else if ch = 73 then some (CSE (cursor_tab s))
  else if ch = 100 then some (CSE (cursor_row s))
  else none

/-- The statement `vc->parmv1 = !vc->parmv1 ? 1 : vc->parmv1` followed by a
call `g(vc, vc->parmv1)`. -/
def with_parm_or_1 (g : State → Int → State) (s : State) : State :=
  g (parm_or_1 s) (parm_or_1 s).vc.parmv1

/-- The loop `while(vc->parmv1--) video.scroll_screen(vc, 0, dir)` of the
cases `S` and `T`; it leaves `parmv1` at -1. -/
def scroll_n (dir : Dir) (s : State) (count : Int) : State :=
  let b := calls s (loopCount count) (Event.scroll_screen s.vc.top s.vc.lines 0 dir)
  { b with vc := { b.vc with parmv1 := -1 } }

/-- The cases `@ J K L M P S T X` of the switch over the final byte of a CSI
sequence: erasing, inserting, deleting and scrolling.  The result is `none`
for any other byte. -/
def csi_edit (s : State) (ch : Nat) : Option State :=
  if ch = 64 then some (CSE (with_parm_or_1 csi_at s))
  else if ch = 74 then some (CSE (csi_J s s.vc.parmv1))
  else if ch = 75 then some (CSE (csi_K s s.vc.parmv1))
  else if ch = 76 then some (CSE (with_parm_or_1 csi_L s))
  else if ch = 77 then some (CSE (with_parm_or_1 csi_M s))
  else if ch = 80 then some (CSE (with_parm_or_1 csi_P s))
  else if ch = 83 then some (CSE (with_parm_or_1 (scroll_n Dir.SCROLL_UP) s))
  else if ch = 84 then some (CSE (with_parm_or_1 (scroll_n Dir.SCROLL_DOWN) s))
  else if ch = 88 then some (CSE (with_parm_or_1 csi_X s))
  else none

/-- The two statements of the cases `ESC 7` and `CSI s`. -/
def save_cursor (s : State) : State :=
  { s with vc := { s.vc with saved_x := s.vc.x, saved_y := s.vc.y } }

/-- The two statements of the cases `ESC 8` and `CSI u`. -/
def restore_cursor (s : State) : State :=
  { s with vc := { s.vc with x := s.vc.saved_x, y := s.vc.saved_y } }

/-- The case `c` of the CSI switch before `CSE`; `numeric` is the local
variable of `vconsole_write`. -/
def csi_c (s : State) (numeric : Bool) : State :=
  if numeric = false then insert_seq s VT100ID 7 else s

/-- The case `g` of the CSI switch before `CSE`. -/
def csi_g (k : Consts) (s : State) : State :=
  let ts := s.vc.tty.tab_stop
  let ts1 : Int → Bool :=
    if s.vc.parmv1 = 0 then fun n => if n = s.vc.x then false else ts n
    else if s.vc.parmv1 = 3 ∨ s.vc.parmv1 = 5 then
      fun n => if 0 ≤ n ∧ n < (k.MAX_TAB_COLS : Int) then false else ts n
    else ts
  { s with vc := { s.vc with tty := { s.vc.tty with tab_stop := ts1 } } }

/-- The case `h` of the CSI switch before `CSE`. -/
def csi_h (s : State) : State :=
  if s.vc.question then
    if s.vc.parmv1 = 25 then call s (Event.show_cursor CursorMode.ON)
    else if s.vc.parmv1 = 4 then { s with vc := { s.vc with insert_mode := true } }
    else s
  else s

/-- The case `l` of the CSI switch before `CSE`. -/
def csi_l (s : State) : State :=
  if s.vc.question then
    if s.vc.parmv1 = 25 then call s (Event.show_cursor CursorMode.OFF)
    else if s.vc.parmv1 = 4 then { s with vc := { s.vc with insert_mode := false } }
    else s
  else s

/-- The case `n` of the CSI switch before `CSE`. -/
def csi_n (s : State) : State :=
  if s.vc.question = false then
    if s.vc.parmv1 = 5 then insert_seq s DEVICE_OK 4
    else if s.vc.parmv1 = 6 then insert_seq s (curpos s.vc) (curpos s.vc).length
    else s
  else s

/-- The case `r` of the CSI switch before `CSE`. -/
def csi_r (s : State) : State :=
  let p1 := if s.vc.parmv1 = 0 then s.vc.parmv1 + 1 else s.vc.parmv1
  let p2 := if s.vc.parmv2 = 0 then s.video.lines else s.vc.parmv2
  let vc1 : vconsole := { s.vc with parmv1 := p1, parmv2 := p2 }
  if p1 < p2 ∧ p2 ≤ s.video.lines then
    { s with vc := adjust { vc1 with top := wrap32 (p1 - 1), lines := p2 } 0 0 }
  else { s with vc := vc1 }

/-- The cases `c g h l m n r s u` of the switch over the final byte of a CSI
sequence.  `numeric` is the local variable of `vconsole_write`.  The result is
`none` for any other byte. -/
def csi_misc (k : Consts) (s : State) (numeric : Bool) (ch : Nat) : Option State :=
  if ch = 99 then some (CSE (csi_c s numeric))
  else if ch = 103 then some (CSE (csi_g k s))
  else if ch = 104 then some (CSE (csi_h s))
  else if ch = 108 then some (CSE (csi_l s))
  else if ch = 109 then
    some (CSE { s with vc := csi_m k { s.vc with nparms := s.vc.nparms + 1 } })
  else if ch = 110 then some (CSE (csi_n s))
  else if ch = 114 then some (CSE (csi_r s))
  else if ch = 115 then some (CSE (save_cursor s))
  else if ch = 117 then some (CSE (restore_cursor s))
  else none

/-- The case `';'` of the switch inside a CSI sequence. -/
def csi_semicolon (s : State) : State :=
  { s with vc := { s.vc with semicolon := true, parmv2 := 0, nparms := s.vc.nparms + 1 } }

/-- The case `'?'` of the switch inside a CSI sequence. -/
def csi_question (s : State) : State :=
  { s with vc := { s.vc with question := true } }

/-- The branch `if(vc->sbracket)` of the loop body: a byte inside a CSI
sequence.  The second component is the local variable `numeric`. -/
def csi (k : Consts) (s : State) (numeric : Bool) (ch : Nat) : State × Bool :=
  if IS_NUMERIC ch = true then (csi_digit s ch, true)
  else if ch = 59 then (csi_semicolon s, numeric)
  else if ch = 63 then (csi_question s, numeric)
  else
    match csi_move s ch with
    | some r => (r, numeric)
    | none =>
      match csi_edit s ch with
      | some r => (r, numeric)
      | none =>
        match csi_misc k s numeric ch with
        | some r => (r, numeric)
        | none => (ground k (CSE s) ch, numeric)

/-- The case `'['` of the switch over the byte that follows ESC. -/
def esc_bracket (k : Consts) (s : State) : State :=
  { s with vc := { s.vc with
                     sbracket := true, semicolon := false, question := false,
                     parmv1 := 0, parmv2 := 0, nparms := 0,
                     parms := fun i =>
                       if 0 ≤ i ∧ i < (k.MAX_PARMS : Int) then 0 else s.vc.parms i } }

/-- The statement of the case `ESC H`. -/
def set_tab (s : State) : State :=
  { s with vc := { s.vc with tty := { s.vc.tty with
    tab_stop := fun n => if n = s.vc.x then true else s.vc.tty.tab_stop n } } }

/-- The statements of the case `ESC c` before `CSE`. -/
def esc_c (k : Consts) (s : State) : State :=
  let a := vconsole_reset k s
  let b : State := { a with vc := { a.vc with x := 0, y := 0 } }
  csi_J b 2

/-- The `else` branch of `if(vc->sbracket)`: the byte that follows ESC. -/
def escseq (k : Consts) (s : State) (ch : Nat) : State :=
  if ch = 91 then esc_bracket k s
  else if ch = 55 then CSE (save_cursor s)
  else if ch = 56 then CSE (restore_cursor s)
  else if ch = 68 then CSE (lf s)
  else if ch = 69 then CSE (lf { s with vc := cr s.vc })
  else if ch = 72 then CSE (set_tab s)
  else if ch = 77 then CSE (ri s)
  else if ch = 90 then CSE (insert_seq s VT100ID 7)
  else if ch = 99 then CSE (esc_c k s)
  else ground k (CSE s) ch

/-- The body of the `while` loop of `vconsole_write` for the byte `ch` taken
from the write queue.  The second component is the local variable `numeric`. -/
def vconsole_write_body (k : Consts) (s : State) (numeric : Bool) (ch : Nat) : State × Bool :=
  if s.vc.esc then
    if s.vc.sbracket then csi k s numeric ch
    else (escseq k s ch, numeric)
  else (ground k s ch, numeric)

/-- The `while` loop of `vconsole_write` over the bytes of the write queue.
The result holds the state, the local variable `numeric`, the local variable
`ch` (the last byte taken) and the bytes left in the queue. -/
def vconsole_write_loop (k : Consts) (s : State) (numeric : Bool) (ch : Nat) :
    List Nat → State × Bool × Nat × List Nat
  | [] => (s, numeric, ch, [])
  | c :: q =>
    if s.vc.scrlock then (s, numeric, ch, c :: q)
    else
      let r := vconsole_write_body k s numeric c
      vconsole_write_loop k r.1 r.2 c q

/-- The loop body run over the bytes `q` in turn, from a state and a value of
`numeric`: what the loop of `vconsole_write` does while the console is not
scroll-locked. -/
def feed (k : Consts) (p : State × Bool) (q : List Nat) : State × Bool :=
  q.foldl (fun p b => vconsole_write_body k p.1 p.2 b) p

/-- The opening block of `vconsole_write`: leave the scrollback view. -/
def vconsole_write_restore (s : State) : State :=
  if s.vc.has_focus ∧ s.video.buf_top ≠ 0 then
    let a := call s Event.restore_screen
    let b : State := { a with video := { a.video with buf_top := 0 } }
    call (call b (Event.show_cursor CursorMode.ON)) (Event.update_curpos b.vc.x b.vc.y)
  else s

/-- The state `s` with the bytes `q` in the write queue of its tty. -/
def with_write_q (s : State) (q : List Nat) : State :=
  { s with vc := { s.vc with tty := { s.vc.tty with write_q := q } } }

/-- The closing block of `vconsole_write`, `if(ch) { ... }`, for the last
byte `ch` the loop took. -/
def vconsole_write_finish (s : State) (ch : Nat) : State :=
  if ch ≠ 0 then
    let s2 := if s.vc.vc_mode ≠ KdMode.KD_GRAPHICS then
               call s (Event.update_curpos s.vc.x s.vc.y) else s
    call s2 Event.wakeup
  else s

/-- The C function `vconsole_write`. -/
def vconsole_write (k : Consts) (s : State) : State :=
  let s0 := vconsole_write_restore s
  let r := vconsole_write_loop k s0 false 0 s0.vc.tty.write_q
  vconsole_write_finish (with_write_q r.1 r.2.2.2) r.2.2.1

/-! ## A concrete console, for the examples -/

/-- Example values of the constants: a VGA text console. -/
def k0 : Consts :=
  { MAX_PARMS := 16, MAX_TAB_COLS := 132, TAB_SIZE := 8, DEF_MODE := 0x0700, SCREENS_LOG := 6,
    COLOR_BLACK := 0x0000, COLOR_RED := 0x0400, COLOR_GREEN := 0x0200, COLOR_BROWN := 0x0600,
    COLOR_BLUE := 0x0100, COLOR_MAGENTA := 0x0500, COLOR_CYAN := 0x0300, COLOR_WHITE := 0x0700 }

/-- An 80x25 console as `vconsole_reset` leaves it, with the cursor at the
origin and empty queues. -/
def vc0 : vconsole :=
  { x := 0, y := 0, top := 0, lines := 25, columns := 80, check_x := false,
    led_status := 0, scrlock := false, numlock := false, capslock := false,
    esc := false, sbracket := false, semicolon := false, question := false,
    parmv1 := 0, parmv2 := 0, nparms := 0, parms := fun _ => 0,
    color_attr := 0x0700, bold := false, underline := false, blink := false, reverse := false,
    insert_mode := false, saved_x := 0, saved_y := 0,
    vc_mode := KdMode.KD_TEXT,
    vt_mode := { mode := VtMode.VT_AUTO, waitv := 0, relsig := 0, acqsig := 0, frsig := 0 },
    switchto_tty := -1, has_focus := false, blanked := false, vidmem := 0,
    tty := { tab_stop := fun n => decide (n % 8 = 0), pid := 0,
             winsize := { ws_row := 25, ws_col := 80, ws_xpixel := 0, ws_ypixel := 0 },
             lnext := false, read_q := [], write_q := [] } }

/-- The console `vc0` on an 80x25 screen, nothing logged yet. -/
def s0 : State :=
  { vc := vc0,
    video := { columns := 80, lines := 25, buf_top := 0, buf_y := 0, address := 0xB8000 },
    log := [] }

/-- The state `s` with the cursor at `(x, y)`. -/
def with_cursor (s : State) (x y : Int) : State :=
  { s with vc := { s.vc with x := x, y := y } }

/-! ## Predicates used by the statements and their proofs -/

/-- Invariant 3 of the data model. -/
def Inv3 (vc : vconsole) : Prop :=
  0 ≤ vc.x ∧ vc.x < vc.columns ∧ 0 ≤ vc.y ∧ vc.y < vc.lines ∧ vc.top < vc.lines

instance (vc : vconsole) : Decidable (Inv3 vc) := by unfold Inv3; infer_instance

/-- A function of the console that does not look at the colour fields. -/
def AttrBlind {α : Type} (f : vconsole → α) : Prop :=
  ∀ (v : vconsole) (c : Nat) (b1 b2 b3 b4 : Bool),
    f { v with color_attr := c, bold := b1, underline := b2, blink := b3, reverse := b4 } = f v

/-- The console `v` with the fields which the cursor movements, the parser,
the attribute code and the tab code write taken from `w`. -/
def overlay (v w : vconsole) : vconsole :=
  { v with x := w.x, y := w.y, check_x := w.check_x, esc := w.esc, sbracket := w.sbracket,
           semicolon := w.semicolon, question := w.question, parmv1 := w.parmv1,
           parmv2 := w.parmv2, nparms := w.nparms, parms := w.parms,
           color_attr := w.color_attr, bold := w.bold, underline := w.underline,
           blink := w.blink, reverse := w.reverse, insert_mode := w.insert_mode,
           saved_x := w.saved_x, saved_y := w.saved_y,
           tty := { v.tty with tab_stop := w.tty.tab_stop } }

/-- A function of the console that looks at none of the fields which the
cursor movements, the parser, the attribute code and the tab code write. -/
def Stable {α : Type} (f : vconsole → α) : Prop :=
  ∀ (v w : vconsole), f (overlay v w) = f v

/-- The finals of the switch over the byte that follows ESC, other than the
bracket, each with the state its case builds before `CSE`. -/
def esc_table (k : Consts) (s : State) : List (Nat × State) :=
  [(55, save_cursor s), (56, restore_cursor s), (68, lf s), (69, lf { s with vc := cr s.vc }),
   (72, set_tab s), (77, ri s), (90, insert_seq s VT100ID 7), (99, esc_c k s)]

/-- The final bytes of the switch inside a CSI sequence, each with the state
its case builds before `CSE`. -/
def csi_table (k : Consts) (s : State) (numeric : Bool) : List (Nat × State) :=
  [(65, cursor_up s), (66, cursor_down s), (67, cursor_forward s), (68, cursor_backward s),
   (69, cursor_next_line s), (70, cursor_prev_line s), (71, cursor_column s),
   (96, cursor_column s), (72, cursor_home s), (102, cursor_home s), (73, cursor_tab s),
   (100, cursor_row s),
   (64, with_parm_or_1 csi_at s), (74, csi_J s s.vc.parmv1), (75, csi_K s s.vc.parmv1),
   (76, with_parm_or_1 csi_L s), (77, with_parm_or_1 csi_M s), (80, with_parm_or_1 csi_P s),
   (83, with_parm_or_1 (scroll_n Dir.SCROLL_UP) s),
   (84, with_parm_or_1 (scroll_n Dir.SCROLL_DOWN) s), (88, with_parm_or_1 csi_X s),
   (99, csi_c s numeric), (103, csi_g k s), (104, csi_h s), (108, csi_l s),
   (109, { s with vc := csi_m k { s.vc with nparms := s.vc.nparms + 1 } }),
   (110, csi_n s), (114, csi_r s), (115, save_cursor s), (117, restore_cursor s)]

/-- The bytes that have a case in the switch after ESC. -/
def esc_finals : List Nat := [91, 55, 56, 68, 69, 72, 77, 90, 99]

/-- The bytes, other than the digits, that have a case in the switch inside a
CSI sequence. -/
def csi_finals : List Nat :=
  [59, 63, 65, 66, 67, 68, 69, 70, 71, 96, 72, 102, 73, 100, 64, 74, 75, 76, 77, 80, 83, 84, 88,
   99, 103, 104, 108, 109, 110, 114, 115, 117]

/-- A function of the console that, besides being stable, looks neither at
the read queue nor at the scroll region: only a reset can change it. -/
def Fixed {α : Type} (f : vconsole → α) : Prop :=
  Stable f ∧
  (∀ (v : vconsole) (q : List Nat), f { v with tty := { v.tty with read_q := q } } = f v) ∧
  (∀ (v : vconsole) (a b : Int), f { v with top := a, lines := b } = f v)

/-- The console `v` with the parser variables, the colour fields, the insert
flag, the saved cursor and the tab stops taken from `w`. -/
def parser_overlay (v w : vconsole) : vconsole :=
  { v with esc := w.esc, sbracket := w.sbracket,
           semicolon := w.semicolon, question := w.question, parmv1 := w.parmv1,
           parmv2 := w.parmv2, nparms := w.nparms, parms := w.parms,
           color_attr := w.color_attr, bold := w.bold, underline := w.underline,
           blink := w.blink, reverse := w.reverse, insert_mode := w.insert_mode,
           saved_x := w.saved_x, saved_y := w.saved_y,
           tty := { v.tty with tab_stop := w.tty.tab_stop } }

/-- A function of the console that may look at the cursor and the geometry
and looks at none of the parser variables, the colour fields, the insert
flag, the saved cursor and the tab stops. -/
def Calm {α : Type} (f : vconsole → α) : Prop :=
  ∀ (v w : vconsole), f (parser_overlay v w) = f v

/-- The cursor, the deferred-wrap flag and the geometry of a console. -/
def geo (v : vconsole) : Int × Int × Bool × Int × Int × Int :=
  (v.x, v.y, v.check_x, v.top, v.lines, v.columns)

/-- The state `t` has the geometry and the deferred-wrap flag of `s` and,
when the geometry has at least one column and one line, a cursor inside it:
what a cursor movement makes of `s`. -/
def Clamped (s t : State) : Prop :=
  t.vc.columns = s.vc.columns ∧ t.vc.lines = s.vc.lines ∧ t.vc.top = s.vc.top ∧
  t.vc.check_x = s.vc.check_x ∧
  (1 ≤ s.vc.columns → 1 ≤ s.vc.lines →
    0 ≤ t.vc.x ∧ t.vc.x < s.vc.columns ∧ 0 ≤ t.vc.y ∧ t.vc.y < s.vc.lines)

/-- Invariant 3 with the cursor allowed on the line just below the scroll
region, `y = lines`: the state between a line feed and the scroll that
`echo_char` and `lf` do for it. -/
def Inv3_below (vc : vconsole) : Prop :=
  0 ≤ vc.x ∧ vc.x < vc.columns ∧ 0 ≤ vc.y ∧ vc.y ≤ vc.lines ∧ vc.top < vc.lines ∧ 0 < vc.lines

/-! ## Byte streams named by the claims -/

/-- The final bytes of the CSI cursor movements `A B C D E F G H d f` and the
backquote. -/
def move_finals : List Nat := [65, 66, 67, 68, 69, 70, 71, 96, 72, 102, 100]

/-- The bytes of the CSI sequence with the parameter bytes `parms` and the
final byte `final`. -/
def csi_seq (parms : List Nat) (final : Nat) : List Nat := [27, 91] ++ parms ++ [final]

/-- A CSI cursor movement with arbitrary numeric parameters: the parameter
bytes are digits and semicolons, in any number and order, and the final byte
is one of `move_finals`. -/
def MoveSeq (p : List Nat × Nat) : Prop :=
  (∀ b ∈ p.1, IS_NUMERIC b = true ∨ b = 59) ∧ p.2 ∈ move_finals

/-- The bytes of a list of CSI sequences, one after the other. -/
def csi_stream : List (List Nat × Nat) → List Nat
  | [] => []
  | p :: l => csi_seq p.1 p.2 ++ csi_stream l

/-- A function of the console that looks neither at the cursor nor at the
deferred-wrap flag: the echo path cannot change it. -/
def CursorBlind {α : Type} (f : vconsole → α) : Prop :=
  ∀ (v : vconsole) (a b : Int) (c : Bool), f { v with x := a, y := b, check_x := c } = f v

/-- The bytes that `echo_char` puts on the screen: every byte but NUL, BS,
BEL, CR, LF, HT, and ESC, which never reaches `echo_char`. -/
def printable (b : Nat) : Prop := b ∉ [0, 8, 7, 13, 10, 9, 27]

instance (b : Nat) : Decidable (printable b) := by unfold printable; infer_instance

/-- The `put_char` calls of a log, each as column, row and glyph. -/
def put_chars : List Event → List (Int × Int × Nat)
  | [] => []
  | Event.put_char x y _ ch :: l => (x, y, ch) :: put_chars l
  | _ :: l => put_chars l

/-- The number of `scroll_screen` calls of a log. -/
def scrolls : List Event → Nat
  | [] => 0
  | Event.scroll_screen _ _ _ _ :: l => scrolls l + 1
  | _ :: l => scrolls l

/-- The calls of a log that change screen cells: `put_char`, `write_screen`,
`scroll_screen`, `insert_char` and `delete_char`. -/
def cell_writes : List Event → List Event
  | [] => []
  | Event.put_char x y a ch :: l => Event.put_char x y a ch :: cell_writes l
  | Event.write_screen o c a :: l => Event.write_screen o c a :: cell_writes l
  | Event.scroll_screen t b y d :: l => Event.scroll_screen t b y d :: cell_writes l
  | Event.insert_char x y :: l => Event.insert_char x y :: cell_writes l
  | Event.delete_char x y :: l => Event.delete_char x y :: cell_writes l
  | _ :: l => cell_writes l

/-- A CSI `m` sequence with one parameter more than `parms[]` has slots:
`ESC [`, as many semicolons as there are slots, the digit `7`, and `m`. -/
def overflow_seq (k : Consts) : List Nat :=
  [27, 91] ++ List.replicate k.MAX_PARMS 59 ++ [55, 109]

/-- The cells of row `y` from column `x` on, one per glyph of `q`: column,
row and glyph. -/
def row_cells (x y : Int) : List Nat → List (Int × Int × Nat)
  | [] => []
  | b :: q => (x, y, b) :: row_cells (x + 1) y q

/-! ## The pending-wrap example and the streams of interrogations -/

/-- The number the digit bytes `ds` make of the parameter value `v`: each
digit multiplies the value by ten and adds itself, as the branch
`if(IS_NUMERIC(ch))` does when nothing overflows. -/
def digit_val (v : Int) (ds : List Nat) : Int :=
  ds.foldl (fun (a : Int) (d : Nat) => a * 10 + ((d : Int) - 48)) v

/-- The first parameter the case `r` works with: a missing or zero `a` is 1. -/
def region_a (a : Int) : Int := if a = 0 then 1 else a

/-- The second parameter the case `r` works with: a missing or zero `b` is
the number of lines of the screen. -/
def region_b (video_lines b : Int) : Int := if b = 0 then video_lines else b

/-- What the spec asks of `CSI a ; b r`, for the state `s` before the
sequence, the state `r` after it and the two parameters as the case `r`
takes them: cut the region and home the cursor when `a < b ≤ video.lines`,
leave region and cursor alone otherwise. -/
def region_set (s r : State) (a b : Int) : Prop :=
  (a < b ∧ b ≤ s.video.lines →
    r.vc.top = a - 1 ∧ r.vc.lines = b ∧ r.vc.x = 0 ∧ r.vc.y = 0) ∧
  (¬ (a < b ∧ b ≤ s.video.lines) →
    r.vc.top = s.vc.top ∧ r.vc.lines = s.vc.lines ∧ r.vc.x = s.vc.x ∧ r.vc.y = s.vc.y)

/-- The first or second parameter, whichever the digits go to. -/
def parm_slot (v : vconsole) : Int := if v.semicolon then v.parmv2 else v.parmv1

/-- The other parameter. -/
def parm_other (v : vconsole) : Int := if v.semicolon then v.parmv1 else v.parmv2

/-- What a logged call may do to the cells when the scroll region is
`[top, lines)` on a console of `columns` columns and the input is text: a
glyph is put inside the columns and on a row above `lines`, a scroll is the
scroll of the region by one line upwards; no other call changes cells. -/
def region_event (top lines columns : Int) : Event → Prop
  | Event.put_char x y _ _ => 0 ≤ x ∧ x < columns ∧ 0 ≤ y ∧ y < lines
  | Event.scroll_screen t l y d => t = top ∧ l = lines ∧ y = 0 ∧ d = Dir.SCROLL_UP
  | Event.write_screen _ _ _ => False
  | Event.insert_char _ _ => False
  | Event.delete_char _ _ => False
  | _ => True

instance (top lines columns : Int) (e : Event) : Decidable (region_event top lines columns e) := by
  cases e <;> unfold region_event <;> infer_instance

/-- The log `new` is the log `old` followed by calls that all satisfy `P`. -/
def Extends (P : Event → Prop) (old new : List Event) : Prop :=
  ∃ l, new = old ++ l ∧ ∀ e ∈ l, P e

/-- The region of a console: `top`, `lines` and `columns`. -/
def region (v : vconsole) : Int × Int × Int := (v.top, v.lines, v.columns)

/-- One piece of cursor-movement input: a CSI sequence with the parameter
bytes `p` and the final byte `final`, or a single byte. -/
inductive Move
  | csi (p : List Nat) (final : Nat)
  | byte (b : Nat)

/-- The pieces the round trip allows: a CSI cursor movement (`MoveSeq`), or
any byte but ESC (BS, CR, LF, HT and the printable bytes among them). -/
def move_ok : Move → Prop
  | Move.csi p final => MoveSeq (p, final)
  | Move.byte b => b ≠ 27

/-- The bytes of a piece of movement input. -/
def move_bytes : Move → List Nat
  | Move.csi p final => csi_seq p final
  | Move.byte b => [b]

/-- The bytes of a list of pieces, one after the other. -/
def move_stream : List Move → List Nat
  | [] => []
  | m :: l => move_bytes m ++ move_stream l

/-- The saved cursor of a console. -/
def saved (v : vconsole) : Int × Int := (v.saved_x, v.saved_y)

/-- The attribute fields of a console: the packed attribute and the four
flags that `csi_m` reads and writes. -/
structure Attr where
  color_attr : Nat
  bold : Bool
  underline : Bool
  blink : Bool
  reverse : Bool
  deriving DecidableEq, Repr

/-- The attribute fields of the console `v`. -/
def attr_of (v : vconsole) : Attr :=
  { color_attr := v.color_attr, bold := v.bold, underline := v.underline, blink := v.blink,
    reverse := v.reverse }

/-- The function `csi_m_case` on the attribute fields alone. -/
def sgr_case (k : Consts) (a : Attr) (p : Int) : Attr :=
  if p = 0 then
    { color_attr := k.DEF_MODE, bold := false, underline := false, blink := false,
      reverse := false }
  else if p = 1 then { a with bold := true }
  else if p = 5 then { a with blink := true }
  else if p = 7 then { a with reverse := true }
  else if p = 21 ∨ p = 22 then { a with bold := false }
  else if p = 25 then { a with blink := false }
  else if p = 27 then { a with reverse := false }
  else if 30 ≤ p ∧ p ≤ 37 then
    { a with color_attr :=
        ((a.color_attr &&& 0xF8FF) ||| ansi_color_table k (p - 30).toNat) % 65536 }
  else if 40 ≤ p ∧ p ≤ 47 then
    { a with color_attr :=
        ((a.color_attr &&& 0x8FFF) ||| (ansi_color_table k (p - 40).toNat <<< 4)) % 65536 }
  else a

/-- The bold and blink bits of the packed attribute `c` set from the two
flags, as the end of `csi_m` sets them. -/
def attr_norm (bold blink : Bool) (c : Nat) : Nat :=
  let c1 := if bold then c ||| 0x0800 else c &&& 0xF7FF
  if blink then c1 ||| 0x8000 else c1 &&& 0x7FFF

/-- The function `csi_m` on the attribute fields alone, for the parameters
`ps` that `parms[0 .. nparms-1]` hold. -/
def sgr (k : Consts) (a : Attr) (ps : List Int) : Attr :=
  let a1 := if a.reverse then { a with color_attr := swap_colors a.color_attr } else a
  let a2 := ps.foldl (sgr_case k) a1
  let a3 : Attr := { a2 with color_attr := attr_norm a2.bold a2.blink a2.color_attr }
  if a3.reverse then { a3 with color_attr := swap_colors a3.color_attr } else a3

/-- The packed attribute holds attribute bits only (bits 8 to 15), and its
bold bit 11 and blink bit 15 are the flags `bold` and `blink`. -/
def attr_ok (v : vconsole) : Prop :=
  v.color_attr &&& 0xFF00 = v.color_attr ∧ v.color_attr.testBit 11 = v.bold ∧
  v.color_attr.testBit 15 = v.blink

instance (v : vconsole) : Decidable (attr_ok v) := by unfold attr_ok; infer_instance

/-- The bytes of the SGR sequence `ESC [ da m`. -/
def sgr_one (da : List Nat) : List Nat := [27, 91] ++ da ++ [109]

/-- The bytes of the SGR sequence `ESC [ da ; db m`. -/
def sgr_two (da db : List Nat) : List Nat := [27, 91] ++ da ++ [59] ++ db ++ [109]

/-- The column `r` is the first tab stop to the right of the column `x`, or
the last column `columns - 1` when no tab stop lies between: what the spec
asks of a HT taken in column `x`. -/
def next_tab (tab_stop : Int → Bool) (columns x r : Int) : Prop :=
  x < r ∧ r ≤ columns - 1 ∧ (tab_stop r = true ∨ r = columns - 1) ∧
  ∀ j, x < j → j < r → tab_stop j = false

/-- Modelled from the spec: the backend's `write_screen(from, n, a)` "fills
n cells with (space, a)".  A screen gives the glyph and the attribute of the
cell at each linear offset; the cells filled are those at the offsets
`off ≤ i < off + count`. -/
def fill (scr : Int → Nat × Nat) (off count : Int) (a : Nat) : Int → Nat × Nat :=
  fun i => if off ≤ i ∧ i < off + count then (32, a) else scr i

/-- Modelled from the spec: the screen that the calls of a log make of the
screen `scr`, for a log whose calls to the backend leave the cells alone or
are `write_screen` calls; `none` for a log with another call that changes
what the screen shows. -/
def paint (scr : Int → Nat × Nat) : List Event → Option (Int → Nat × Nat)
  | [] => some scr
  | Event.write_screen o c a :: l => paint (fill scr o c a) l
  | Event.put_char _ _ _ _ :: _ => none
  | Event.scroll_screen _ _ _ _ :: _ => none
  | Event.insert_char _ _ :: _ => none
  | Event.delete_char _ _ :: _ => none
  | Event.restore_screen :: _ => none
  | _ :: l => paint scr l

/-- The screen that the spec describes after an erase display of mode `m`
with the cursor at the linear offset `pos` of a screen of `size` cells and
the attribute `a`: mode 0 blanks from the cursor to the end, mode 1 from the
start to the cursor, mode 2 everything, any other mode nothing. -/
def erase_display (scr : Int → Nat × Nat) (size pos : Int) (a : Nat) (m : Int) :
    Int → Nat × Nat :=
  fun i =>
    if (m = 0 ∧ pos ≤ i ∧ i < size) ∨ (m = 1 ∧ 0 ≤ i ∧ i ≤ pos) ∨ (m = 2 ∧ 0 ≤ i ∧ i < size)
    then (32, a) else scr i

/-- The linear offset of the cursor. -/
def cursor_offset (v : vconsole) : Int := v.y * v.columns + v.x

/-- The state of a console that the spec lists for a reset, on a screen with
the parameters `video`: full screen size, default attribute, parser state
cleared, tab stops at the multiples of `TAB_SIZE`, LEDs and locks off, VT
mode AUTO, no controlling pid, text mode, and the window size of the
screen. -/
def reset_post (k : Consts) (video : video_parms) (v : vconsole) : Prop :=
  v.top = 0 ∧ v.lines = video.lines ∧ v.columns = video.columns ∧
  attr_of v = { color_attr := k.DEF_MODE, bold := false, underline := false, blink := false,
                reverse := false } ∧
  (v.esc, v.sbracket, v.semicolon, v.question) = (false, false, false, false) ∧
  (v.parmv1, v.parmv2, v.nparms) = (0, 0, 0) ∧
  (∀ i : Int, 0 ≤ i → i < (k.MAX_PARMS : Int) → v.parms i = 0) ∧
  (∀ n : Int, 0 ≤ n → n < (k.MAX_TAB_COLS : Int) →
    (v.tty.tab_stop n = true ↔ n % (k.TAB_SIZE : Int) = 0)) ∧
  v.led_status = 0 ∧ (v.scrlock, v.numlock, v.capslock) = (false, false, false) ∧
  v.vt_mode.mode = VtMode.VT_AUTO ∧ v.tty.pid = 0 ∧ v.vc_mode = KdMode.KD_TEXT ∧
  v.tty.winsize.ws_row = video.lines ∧ v.tty.winsize.ws_col = video.columns

/-- A console with a scroll region, bold, blinking, reverse red text, the
cursor moved, a tab stop set in column 1 and bytes of an unfinished CSI
sequence taken, with an empty record of calls, for the examples of a
reset. -/
def s_used : State :=
  { (feed k0 (s0, false) [27, 91, 52, 59, 49, 48, 114, 27, 91, 49, 59, 53, 59, 55, 59, 51, 49,
      109, 65, 27, 72, 66, 27, 91, 51, 59]).1 with log := [] }

/-! ## The table of consoles and the switch between them -/

/-- Two's-complement reduction of an integer to 16 bits, for the
`short int current_cons`. -/
def wrap16 (i : Int) : Int := (i + 32768) % 65536 - 32768

/-- One call to an external collaborator made by the code that sets up the
consoles and switches between them.  `on n e` is a call `e` made for the
console `vc[n]`. -/
inductive Call where
  | on (cons : Int) (e : Event)
  | kill_pid (pid sig : Int)
  | vcbuf_refresh (cons : Int)
  | cursor_blink (cons : Int)
  | get_curpos (cons : Int)
  | printk
  | register_tty (minor : Int)
  | register_device
  | register_console
  deriving DecidableEq, Repr

/-- The globals `vc[]`, `current_cons` and `video`, and the record of the
external calls made so far, oldest first.  `vc` is indexed the way the C code
indexes the array, with no bound check; the array has the entries
`0 .. NR_VCONSOLES`. -/
structure Consoles where
  vc : Int → vconsole
  current_cons : Int
  video : video_parms
  log : List Call

/-- The index `i` is inside `struct vconsole vc[NR_VCONSOLES + 1]`. -/
def in_table (nr : Nat) (i : Int) : Prop := 0 ≤ i ∧ i ≤ (nr : Int)

instance (nr : Nat) (i : Int) : Decidable (in_table nr i) := by unfold in_table; infer_instance

/-- The table with the entry `n` replaced by `v`. -/
def set_vc (c : Consoles) (n : Int) (v : vconsole) : Consoles :=
  { c with vc := fun i => if i = n then v else c.vc i }

/-- Append one call to the record. -/
def emit (c : Consoles) (e : Call) : Consoles := { c with log := c.log ++ [e] }

/-- A function of one console run on the entry `n` of the table: it sees the
global `video`, and its calls are recorded as made for `vc[n]`. -/
def on_vc (c : Consoles) (n : Int) (f : State → State) : Consoles :=
  let r := f { vc := c.vc n, video := c.video, log := [] }
  { c with vc := fun i => if i = n then r.vc else c.vc i,
           video := r.video,
           log := c.log ++ r.log.map (Call.on n) }

/-- The block of `vconsole_select_final` that asks the process in control of
the incoming console; `kill` is what `kill_pid` returns. -/
def select_acquire (c : Consoles) (new_cons : Int) (kill : Int) : Consoles :=
  if (c.vc new_cons).vt_mode.mode = VtMode.VT_PROCESS then
    let a := emit c (Call.kill_pid (c.vc new_cons).tty.pid (c.vc new_cons).vt_mode.acqsig)
    if kill ≠ 0 then set_vc a new_cons (init_vt (a.vc new_cons)) else a
  else c

/-- The block `if(video.buf_top)` of `vconsole_select_final`. -/
def select_unscroll (c : Consoles) : Consoles :=
  if c.video.buf_top ≠ 0 then
    let a : Consoles := { c with video := { c.video with buf_top := 0 } }
    emit (emit a (Call.on a.current_cons (Event.show_cursor CursorMode.ON)))
      (Call.on a.current_cons
        (Event.update_curpos (a.vc a.current_cons).x (a.vc a.current_cons).y))
  else c

/-- The statements of `vconsole_select_final` from `vc[current_cons].vidmem =
NULL` on. -/
def select_focus (c : Consoles) (new_cons : Int) : Consoles :=
  let c1 := set_vc c c.current_cons { c.vc c.current_cons with vidmem := 0, has_focus := false }
  let c2 := set_vc c1 new_cons
    { c1.vc new_cons with vidmem := c1.video.address, has_focus := true }
  let c3 := emit c2 (Call.on new_cons Event.restore_screen)
  let c4 : Consoles := { c3 with current_cons := wrap16 new_cons }
  let c5 := emit c4 (Call.on c4.current_cons (Event.set_leds (c4.vc c4.current_cons).led_status))
  let c6 := emit c5 (Call.on c5.current_cons
    (Event.update_curpos (c5.vc c5.current_cons).x (c5.vc c5.current_cons).y))
  let c7 : Consoles :=
    { c6 with video := { c6.video with buf_y := (c6.vc c6.current_cons).y, buf_top := 0 } }
  emit (emit (emit c7 (Call.vcbuf_refresh c7.current_cons))
    (Call.on c7.current_cons (Event.show_cursor CursorMode.COND)))
    (Call.cursor_blink c7.current_cons)

/-- The C function `vconsole_select_final`; `kill` is what `kill_pid` returns
if it is called.  The result is `none` when the function reads or writes an
entry outside the table `vc[]`. -/
def vconsole_select_final (nr : Nat) (c : Consoles) (new_cons : Int) (kill : Int) :
    Option Consoles :=
  if c.current_cons ≠ new_cons then
    if in_table nr new_cons ∧ in_table nr c.current_cons ∧ in_table nr (wrap16 new_cons) then
      some (select_focus (select_unscroll (select_acquire c new_cons kill)) new_cons)
    else none
  else some c

/-- The C function `vconsole_select`; `kill1` is what the `kill_pid` of this
function returns if it is called, `kill2` the same for the one of
`vconsole_select_final`.  The result is `none` when an entry outside the
table `vc[]` is read or written. -/
def vconsole_select (nr : Nat) (c : Consoles) (new_cons : Int) (kill1 kill2 : Int) :
    Option Consoles :=
  let t := wrap32 (new_cons + 1)
  if c.current_cons ≠ t then
    if in_table nr c.current_cons then
      if (c.vc c.current_cons).vt_mode.mode = VtMode.VT_PROCESS then
        let a := emit c (Call.kill_pid (c.vc c.current_cons).tty.pid
          (c.vc c.current_cons).vt_mode.acqsig)
        if kill1 = 0 then
          some (set_vc a a.current_cons { a.vc a.current_cons with switchto_tty := t })
        else
          let b := set_vc a a.current_cons (init_vt (a.vc a.current_cons))
          if (b.vc b.current_cons).vc_mode = KdMode.KD_GRAPHICS then some b
          else vconsole_select_final nr b t kill2
      else if (c.vc c.current_cons).vc_mode = KdMode.KD_GRAPHICS then some c
      else vconsole_select_final nr c t kill2
    else none
  else some c

/-- One round of the loop of `console_init` over the consoles; `reg` is what
`register_tty` returns and `t` the tty that `get_tty` finds.  The screen
buffer `vc[n].screen` and the function pointers of the tty are not
modelled. -/
def console_init_vc (k : Consts) (c : Consoles) (n : Int) (reg : Int) (t : tty) : Consoles :=
  let a := emit c (Call.register_tty n)
  if reg = 0 then
    let b := set_vc a n { a.vc n with tty := t, vidmem := 0 }
    on_vc b n (vconsole_reset k)
  else a

/-- The messages `console_init` prints first; `vga` and `vesafb` are the two
bits of `video.flags`. -/
def console_init_banner (vga vesafb : Bool) (c : Consoles) : Consoles :=
  let a := if vga then emit c Call.printk else c
  if vesafb then emit (emit a Call.printk) Call.printk else a

/-- The loop of `console_init` over the consoles `1 .. nr`. -/
def console_init_loop (k : Consts) (nr : Nat) (reg : Int → Int) (ttys : Int → tty)
    (c : Consoles) : Consoles :=
  (List.range nr).foldl
    (fun (c : Consoles) (i : Nat) =>
      console_init_vc k c ((i : Int) + 1) (reg ((i : Int) + 1)) (ttys ((i : Int) + 1))) c

/-- The statements of `console_init` after the loop, from `current_cons = 1`
on.  Modelled from the spec is `video.get_curpos`, which "seeds (x, y) from
existing hardware state at boot": the position `hw`.  The copy of the video
memory into the screen buffer and the minor numbers are not modelled. -/
def console_init_focus (hw : Int × Int) (syscon : Bool) (d : Consoles) : Consoles :=
  let e : Consoles := { d with current_cons := 1 }
  let f := emit e (Call.on e.current_cons (Event.show_cursor CursorMode.ON))
  let g := set_vc f f.current_cons
    { f.vc f.current_cons with vidmem := f.video.address, has_focus := true }
  let h := emit g (Call.get_curpos g.current_cons)
  let i := set_vc h h.current_cons { h.vc h.current_cons with x := hw.1, y := hw.2 }
  let j := emit i (Call.on i.current_cons
    (Event.update_curpos (i.vc i.current_cons).x (i.vc i.current_cons).y))
  let l : Consoles :=
    { j with video := { j.video with buf_y := (j.vc j.current_cons).y, buf_top := 0 } }
  let m := emit (emit l Call.register_device) Call.register_device
  if syscon then emit m Call.register_console else m

/-- The C function `console_init` for `NR_VCONSOLES = nr`.  `vga` and
`vesafb` are the two bits of `video.flags`, `reg n` is what `register_tty`
returns for the console `n`, `ttys n` the tty that `get_tty` finds for it,
`hw` the cursor position that `video.get_curpos` reads, and `syscon` what
`is_vconsole(_syscondev)` gives. -/
def console_init (k : Consts) (nr : Nat) (vga vesafb : Bool) (reg : Int → Int)
    (ttys : Int → tty) (hw : Int × Int) (syscon : Bool) (c : Consoles) : Consoles :=
  console_init_focus hw syscon (console_init_loop k nr reg ttys (console_init_banner vga vesafb c))

/-- One call of the switching code, with what `kill_pid` returns where it is
called. -/
inductive Switch where
  | select (new_cons : Int) (kill1 kill2 : Int)
  | final (new_cons : Int) (kill : Int)
  deriving DecidableEq, Repr

/-- The console a call asks for, counted from 1: `vconsole_select` takes the
number counted from 0. -/
def switch_target : Switch → Int
  | Switch.select n _ _ => n + 1
  | Switch.final t _ => t

/-- One call of the switching code. -/
def run_switch (nr : Nat) (c : Consoles) : Switch → Option Consoles
  | Switch.select n k1 k2 => vconsole_select nr c n k1 k2
  | Switch.final t k1 => vconsole_select_final nr c t k1

/-- A list of calls of the switching code, one after the other. -/
def run_switches (nr : Nat) (c : Consoles) : List Switch → Option Consoles
  | [] => some c
  | op :: l => (run_switch nr c op).bind (fun r => run_switches nr r l)

/-- Invariant 1 of the data model: `current_cons` is one of the consoles
`1 .. NR_VCONSOLES`, the entry `vc[current_cons]` is the only one of the
table with CONSOLE_HAS_FOCUS, its `vidmem` is `video.address`, and every
other entry has `vidmem = NULL`. -/
def Focus (nr : Nat) (c : Consoles) : Prop :=
  1 ≤ c.current_cons ∧ c.current_cons ≤ (nr : Int) ∧
  ∀ i, in_table nr i →
    ((c.vc i).has_focus = true ↔ i = c.current_cons) ∧
    (c.vc i).vidmem = if i = c.current_cons then c.video.address else 0

/-- The focus flag and the video memory pointer of a console. -/
def foc (v : vconsole) : Bool × Nat := (v.has_focus, v.vidmem)

/-- The table before `console_init`, for the examples: every entry is the
console `vc0`, without the focus flag and with a NULL `vidmem`; entry 2 is
in VT_PROCESS mode and entry 3 in KD_GRAPHICS mode, which `console_init`
resets for the consoles it registers. -/
def boot : Consoles :=
  { vc := fun i =>
      if i = 2 then { vc0 with vt_mode := { vc0.vt_mode with mode := VtMode.VT_PROCESS } }
      else if i = 3 then { vc0 with vc_mode := KdMode.KD_GRAPHICS }
      else vc0,
    current_cons := 0,
    video := s0.video,
    log := [] }

/-! ## Examples of switches between consoles -/

/-- A table of four consoles after `console_init`, with the console 1, the
current one, put in VT_PROCESS mode by its owner, the process 42, and the
console 3 in KD_GRAPHICS mode. -/
def c_process : Consoles :=
  let c := console_init k0 4 true false (fun _ => 0) (fun _ => vc0.tty) (0, 0) true boot
  let c1 := set_vc c 1 { c.vc 1 with
    vt_mode := { (c.vc 1).vt_mode with mode := VtMode.VT_PROCESS, acqsig := 10 },
    tty := { (c.vc 1).tty with pid := 42 } }
  set_vc c1 3 { c1.vc 3 with vc_mode := KdMode.KD_GRAPHICS }

/-- A table of four consoles after `console_init`, console 1 current, with
the console 3 put in KD_GRAPHICS mode. -/
def c_target_graphics : Consoles :=
  let c := console_init k0 4 true false (fun _ => 0) (fun _ => vc0.tty) (0, 0) true boot
  set_vc c 3 { c.vc 3 with vc_mode := KdMode.KD_GRAPHICS }

/-- A table of four consoles after `console_init`, with the console 1, the
current one, put in KD_GRAPHICS mode. -/
def c_current_graphics : Consoles :=
  let c := console_init k0 4 true false (fun _ => 0) (fun _ => vc0.tty) (0, 0) true boot
  set_vc c 1 { c.vc 1 with vc_mode := KdMode.KD_GRAPHICS }

/-! ## The system call `sys_chmod` -/

/-- Constants of `stat.h`, `fs.h` and `errno.h`, which `chmod.c` uses and
does not define: they are parameters of the embedding. -/
structure ChmodConsts where
  S_IFMT : Nat
  INODE_DIRTY : Nat
  EROFS : Int
  EPERM : Int

/-- The fields of `struct inode` that `sys_chmod` writes.  `i_mode` has the
type `__mode_t` of the argument `mode`, so that storing a value built from
the two does not truncate it. -/
structure inode where
  i_mode : Nat
  i_ctime : Int
  state : Nat
  deriving DecidableEq, Repr

/-- What the functions and macros that are not in `chmod.c` give during one
call of `sys_chmod`: the values `malloc_name`, `namei` and
`check_user_permission` return, whether `IS_RDONLY_FS(i)` holds, and the
time `CURRENT_TIME`. -/
structure ChmodEnv where
  malloc_name : Int
  namei : Int
  IS_RDONLY_FS : Bool
  check_user_permission : Int
  CURRENT_TIME : Int

/-- One call that `sys_chmod` makes. -/
inductive KCall where
  | malloc_name
  | namei
  | check_user_permission
  | iput
  | free_name
  deriving DecidableEq, Repr

/-- The bits of `~a` for an `int` of 32 bits. -/
def not32 (a : Nat) : Nat := 0xFFFFFFFF ^^^ a

/-- The C function `sys_chmod`, for the inode `i` that `namei` finds: the
value returned, the inode as the function leaves it when it calls `iput`,
and the calls made, oldest first.  What `iput` and `free_name` do is not
modelled. -/
def sys_chmod (k : ChmodConsts) (e : ChmodEnv) (i : inode) (mode : Nat) :
    Int × inode × List KCall :=
  if e.malloc_name < 0 then (e.malloc_name, i, [KCall.malloc_name])
  else if e.namei ≠ 0 then (e.namei, i, [KCall.malloc_name, KCall.namei, KCall.free_name])
  else if e.IS_RDONLY_FS then
    (-k.EROFS, i, [KCall.malloc_name, KCall.namei, KCall.iput, KCall.free_name])
  else if e.check_user_permission ≠ 0 then
    (-k.EPERM, i, [KCall.malloc_name, KCall.namei, KCall.check_user_permission, KCall.iput,
      KCall.free_name])
  else
    let i1 : inode := { i with i_mode := i.i_mode &&& k.S_IFMT }
    let i2 : inode := { i1 with i_mode := i1.i_mode ||| (mode &&& not32 k.S_IFMT) }
    let i3 : inode := { i2 with i_ctime := e.CURRENT_TIME }
    let i4 : inode := { i3 with state := i3.state ||| k.INODE_DIRTY }
    (0, i4, [KCall.malloc_name, KCall.namei, KCall.check_user_permission, KCall.iput,
      KCall.free_name])

/-- Example values of the constants of `sys_chmod`. -/
def kc0 : ChmodConsts := { S_IFMT := 0o170000, INODE_DIRTY := 2, EROFS := 30, EPERM := 1 }

/-- A call in which every lookup and check succeeds, at the time 1000. -/
def env_ok : ChmodEnv :=
  { malloc_name := 0, namei := 0, IS_RDONLY_FS := false, check_user_permission := 0,
    CURRENT_TIME := 1000 }

/-- A call for a file of a file system mounted read-only. -/
def env_rofs : ChmodEnv :=
  { malloc_name := 0, namei := 0, IS_RDONLY_FS := true, check_user_permission := 0,
    CURRENT_TIME := 1000 }

/-- A regular file of mode 0644, clean, last changed at the time 5. -/
def i_file : inode := { i_mode := 0o100644, i_ctime := 5, state := 0 }

/-! ## The bounds of `parms[]` and of `curpos[]` -/

/-- The store `vc->parms[vc->nparms]`, which a digit inside a CSI sequence
makes in the state `s`, is inside the array `parms[MAX_PARMS]`. -/
def parms_store_ok (k : Consts) (s : State) : Prop :=
  0 ≤ s.vc.nparms ∧ s.vc.nparms < (k.MAX_PARMS : Int)

instance (k : Consts) (s : State) : Decidable (parms_store_ok k s) := by
  unfold parms_store_ok; infer_instance

/-- The size of the buffer `char curpos[8]` of the case `n`. -/
def CURPOS_SIZE : Nat := 8

/-- The string that `sprintk` builds for the cursor of `vc` and the NUL that
ends it fit the buffer `curpos`. -/
def curpos_fits (vc : vconsole) : Prop := (curpos vc).length + 1 ≤ CURPOS_SIZE

instance (vc : vconsole) : Decidable (curpos_fits vc) := by unfold curpos_fits; infer_instance

/-- The loop body, run for the byte `ch` in the state `s`, stays inside the
arrays `parms[]` and `curpos[]`: inside a CSI sequence a digit is stored at
`parms[nparms]`, the final `m` has `csi_m` read `parms[0 .. nparms]`, and the
final `n` of a cursor report has `sprintk` write the report to `curpos`.
Where this fails the C code leaves the array, and what the model makes of
the step is not what the code does. -/
def step_defined (k : Consts) (s : State) (ch : Nat) : Prop :=
  s.vc.esc = true ∧ s.vc.sbracket = true →
    (IS_NUMERIC ch = true → parms_store_ok k s) ∧
    (ch = 109 → 0 ≤ s.vc.nparms ∧ s.vc.nparms + 1 ≤ (k.MAX_PARMS : Int)) ∧
    (ch = 110 ∧ s.vc.question = false ∧ s.vc.parmv1 = 6 → curpos_fits s.vc)

instance (k : Consts) (s : State) (ch : Nat) : Decidable (step_defined k s ch) := by
  unfold step_defined; infer_instance

/-- Every step of the loop of `vconsole_write` over the bytes `q`, from the
state and the value of `numeric` in `p`, stays inside `parms[]` and
`curpos[]`. -/
def run_defined (k : Consts) : State × Bool → List Nat → Prop
  | _, [] => True
  | p, b :: q => step_defined k p.1 b ∧ run_defined k (vconsole_write_body k p.1 p.2 b) q

instance run_defined_decidable (k : Consts) :
    (p : State × Bool) → (q : List Nat) → Decidable (run_defined k p q)
  | _, [] => isTrue trivial
  | p, b :: q =>
    have := run_defined_decidable k (vconsole_write_body k p.1 p.2 b) q
    by unfold run_defined; infer_instance

/-- The parameter bytes `p` of a CSI sequence hold fewer than `MAX_PARMS`
separators, so that every digit among them is stored inside `parms[]`. -/
def sep_bound (k : Consts) (p : List Nat) : Prop := p.count 59 < k.MAX_PARMS

instance (k : Consts) (p : List Nat) : Decidable (sep_bound k p) := by
  unfold sep_bound; infer_instance

/-- The value the digit bytes `ds` make of the parameter value `v` in an
`int` of 32 bits: `*= 10` and `+= ch - '0'` for each digit, as the branch
`if(IS_NUMERIC(ch))` has them, each reduced to 32 bits. -/
def digit_wrap (v : Int) (ds : List Nat) : Int :=
  ds.foldl (fun (a : Int) (d : Nat) => wrap32 (wrap32 (a * 10) + ((d : Int) - 48))) v

/-- The CSI movements among the pieces hold fewer than `MAX_PARMS`
separators each. -/
def move_bound (k : Consts) : Move → Prop
  | Move.csi p _ => sep_bound k p
  | Move.byte _ => True

instance (k : Consts) (m : Move) : Decidable (move_bound k m) := by
  cases m <;> (unfold move_bound; infer_instance)

/-- What the case `r` of the code makes of the state `s`, for the state `r`
after the sequence and the two parameters as the case takes them, values of
an `int` of 32 bits: when `a < b ≤ video.lines` the region is cut with no
test of `a` against 1, and `adjust(vc, 0, 0)` puts the cursor on row
`b - 1` when the new `lines` is not positive; otherwise region and cursor
are left alone. -/
def region_code (s r : State) (a b : Int) : Prop :=
  (a < b ∧ b ≤ s.video.lines →
    r.vc.top = wrap32 (a - 1) ∧ r.vc.lines = b ∧ r.vc.x = 0 ∧
    r.vc.y = if b ≤ 0 then b - 1 else 0) ∧
  (¬ (a < b ∧ b ≤ s.video.lines) →
    r.vc.top = s.vc.top ∧ r.vc.lines = s.vc.lines ∧ r.vc.x = s.vc.x ∧ r.vc.y = s.vc.y)

instance (s r : State) (a b : Int) : Decidable (region_code s r a b) := by
  unfold region_code; infer_instance

/-! # Theorems -/

set_option maxRecDepth 100000

/-! ## Frame lemmas -/

@[simp] theorem call_vc (s : State) (e : Event) : (call s e).vc = s.vc := rfl
@[simp] theorem call_video (s : State) (e : Event) : (call s e).video = s.video := rfl
@[simp] theorem call_log (s : State) (e : Event) : (call s e).log = s.log ++ [e] := rfl
@[simp] theorem calls_vc (s : State) (n : Nat) (e : Event) : (calls s n e).vc = s.vc := rfl
@[simp] theorem calls_video (s : State) (n : Nat) (e : Event) : (calls s n e).video = s.video := rfl
@[simp] theorem calls_log (s : State) (n : Nat) (e : Event) :
    (calls s n e).log = s.log ++ List.replicate n e := rfl

theorem stable_attr {α : Type} {f : vconsole → α} (hf : Stable f) : AttrBlind f :=
  fun v c b1 b2 b3 b4 =>
    hf v { v with color_attr := c, bold := b1, underline := b2, blink := b3, reverse := b4 }

theorem attr_set_frame {α : Type} (f : vconsole → α) (hf : AttrBlind f) (v : vconsole) (c : Nat) :
    f { v with color_attr := c } = f v :=
  hf v c v.bold v.underline v.blink v.reverse

theorem csi_m_case_frame {α : Type} (f : vconsole → α) (hf : AttrBlind f) (k : Consts)
    (v : vconsole) (p : Int) : f (csi_m_case k v p) = f v := by
  unfold csi_m_case default_color_attr
  by_cases h0 : p = 0
  · rw [if_pos h0]; exact hf v _ _ _ _ _
  rw [if_neg h0]
  by_cases h1 : p = 1
  · rw [if_pos h1]; exact hf v v.color_attr true v.underline v.blink v.reverse
  rw [if_neg h1]
  by_cases h2 : p = 5
  · rw [if_pos h2]; exact hf v v.color_attr v.bold v.underline true v.reverse
  rw [if_neg h2]
  by_cases h3 : p = 7
  · rw [if_pos h3]; exact hf v v.color_attr v.bold v.underline v.blink true
  rw [if_neg h3]
  by_cases h4 : p = 21 ∨ p = 22
  · rw [if_pos h4]; exact hf v v.color_attr false v.underline v.blink v.reverse
  rw [if_neg h4]
  by_cases h5 : p = 25
  · rw [if_pos h5]; exact hf v v.color_attr v.bold v.underline false v.reverse
  rw [if_neg h5]
  by_cases h6 : p = 27
  · rw [if_pos h6]; exact hf v v.color_attr v.bold v.underline v.blink false
  rw [if_neg h6]
  by_cases h7 : 30 ≤ p ∧ p ≤ 37
  · rw [if_pos h7]; exact attr_set_frame f hf v _
  rw [if_neg h7]
  by_cases h8 : 40 ≤ p ∧ p ≤ 47
  · rw [if_pos h8]; exact attr_set_frame f hf v _
  rw [if_neg h8]

theorem csi_m_fold_frame {α : Type} (f : vconsole → α) (hf : AttrBlind f) (k : Consts)
    (l : List Nat) (v : vconsole) :
    f (l.foldl (fun (v : vconsole) (n : Nat) => csi_m_case k v (v.parms (n : Int))) v) = f v := by
  induction l generalizing v with
  | nil => rfl
  | cons a l ih => rw [List.foldl_cons, ih, csi_m_case_frame f hf]

theorem ite_attr_frame {α : Type} (f : vconsole → α) (hf : AttrBlind f) (v : vconsole)
    (b : Prop) [Decidable b] (c : Nat) :
    f (if b then { v with color_attr := c } else v) = f v := by
  by_cases h : b
  · rw [if_pos h]; exact attr_set_frame f hf v c
  · rw [if_neg h]

theorem ite_attr_frame2 {α : Type} (f : vconsole → α) (hf : AttrBlind f) (v : vconsole)
    (b : Prop) [Decidable b] (c d : Nat) :
    f (if b then { v with color_attr := c } else { v with color_attr := d }) = f v := by
  by_cases h : b
  · rw [if_pos h]; exact attr_set_frame f hf v c
  · rw [if_neg h]; exact attr_set_frame f hf v d

theorem csi_m_frame {α : Type} (f : vconsole → α) (hf : AttrBlind f) (k : Consts)
    (v : vconsole) : f (csi_m k v) = f v := by
  unfold csi_m
  rw [ite_attr_frame f hf, ite_attr_frame2 f hf, ite_attr_frame2 f hf, csi_m_fold_frame f hf,
    ite_attr_frame f hf]

/-! ### The echo path, for any function blind to the cursor -/

theorem stable_cursor_blind {α : Type} {f : vconsole → α} (hf : Stable f) : CursorBlind f :=
  fun v a b c => hf v { v with x := a, y := b, check_x := c }

theorem blind_x {α : Type} {f : vconsole → α} (hf : CursorBlind f) (v : vconsole) (a : Int) :
    f { v with x := a } = f v := hf v a v.y v.check_x

theorem blind_y {α : Type} {f : vconsole → α} (hf : CursorBlind f) (v : vconsole) (b : Int) :
    f { v with y := b } = f v := hf v v.x b v.check_x

theorem tab_forward_blind {α : Type} {f : vconsole → α} (hf : CursorBlind f) (v : vconsole) :
    f (tab_forward v) = f v := blind_x hf v _

theorem iterate_tab_forward_blind {α : Type} {f : vconsole → α} (hf : CursorBlind f) (n : Nat)
    (v : vconsole) : f (Nat.iterate tab_forward n v) = f v := by
  induction n generalizing v with
  | zero => rfl
  | succ n ih => rw [Function.iterate_succ_apply, ih, tab_forward_blind hf]

theorem adjust_blind {α : Type} {f : vconsole → α} (hf : CursorBlind f) (v : vconsole) (a b : Int) :
    f (adjust v a b) = f v := hf v _ _ v.check_x

theorem echo_scroll_blind {α : Type} {f : vconsole → α} (hf : CursorBlind f) (s : State) :
    f (echo_scroll s).vc = f s.vc := by
  unfold echo_scroll
  by_cases h : s.vc.y ≥ s.vc.lines
  · rw [if_pos h]; exact blind_y hf _ _
  · rw [if_neg h]

theorem buf_y_incr_vc (s : State) : (buf_y_incr s).vc = s.vc := by
  unfold buf_y_incr; by_cases h : s.vc.has_focus = true
  · rw [if_pos h]
  · rw [if_neg h]

theorem echo_vcbuf_vc (k : Consts) (s : State) : (echo_vcbuf k s).vc = s.vc := by
  unfold echo_vcbuf
  by_cases h : s.vc.has_focus = true ∧ s.video.buf_y ≥ VC_BUF_LINES k s
  · rw [if_pos h]; rfl
  · rw [if_neg h]

theorem echo_restore_vc (s : State) : (echo_restore s).vc = s.vc := by
  unfold echo_restore
  by_cases h : s.vc.has_focus = true ∧ s.video.buf_top ≠ 0
  · rw [if_pos h]; rfl
  · rw [if_neg h]

theorem echo_wrap_blind {α : Type} {f : vconsole → α} (hf : CursorBlind f) (s : State) :
    f (echo_wrap s).vc = f s.vc := by
  unfold echo_wrap
  by_cases h : s.vc.x = s.vc.columns - 1 ∧ s.vc.check_x = true
  · rw [if_pos h, buf_y_incr_vc]; exact hf s.vc 0 _ s.vc.check_x
  · rw [if_neg h]

theorem echo_advance_blind {α : Type} {f : vconsole → α} (hf : CursorBlind f) (s : State) :
    f (echo_advance s).vc = f s.vc := by
  unfold echo_advance
  by_cases h : s.vc.x < s.vc.columns - 1
  · rw [if_pos h]; exact hf s.vc _ s.vc.y false
  · rw [if_neg h]; exact hf s.vc s.vc.x s.vc.y true

theorem echo_print_blind {α : Type} {f : vconsole → α} (hf : CursorBlind f) (s : State) (ch : Nat) :
    f (echo_print s ch).vc = f s.vc := by
  unfold echo_print
  simp only []
  rw [echo_advance_blind hf, call_vc, echo_scroll_blind hf, echo_wrap_blind hf]

theorem echo_dispatch_blind {α : Type} {f : vconsole → α} (hf : CursorBlind f) (s : State) (ch : Nat) :
    f (echo_dispatch s ch).vc = f s.vc := by
  unfold echo_dispatch
  by_cases h8 : ch = 8
  · rw [if_pos h8]; unfold echo_bs
    by_cases hx : s.vc.x ≠ 0
    · rw [if_pos hx]; exact blind_x hf _ _
    · rw [if_neg hx]
  rw [if_neg h8]
  by_cases h7 : ch = 7
  · rw [if_pos h7, call_vc]
  rw [if_neg h7]
  by_cases h13 : ch = 13
  · rw [if_pos h13]; exact blind_x hf _ _
  rw [if_neg h13]
  by_cases h10 : ch = 10
  · rw [if_pos h10]; unfold echo_lf; rw [buf_y_incr_vc]
    exact hf s.vc 0 _ s.vc.check_x
  rw [if_neg h10]
  by_cases h9 : ch = 9
  · rw [if_pos h9]; exact hf s.vc _ s.vc.y true
  rw [if_neg h9]
  exact echo_print_blind hf s ch

theorem echo_byte_blind {α : Type} {f : vconsole → α} (hf : CursorBlind f) (k : Consts) (s : State)
    (ch : Nat) : f (echo_byte k s ch).vc = f s.vc := by
  unfold echo_byte
  by_cases h : ch = 0
  · rw [if_pos h]
  · rw [if_neg h, echo_vcbuf_vc, echo_scroll_blind hf, echo_dispatch_blind hf]

theorem echo_fold_blind {α : Type} {f : vconsole → α} (hf : CursorBlind f) (k : Consts)
    (buf : List Nat) (s : State) : f (buf.foldl (echo_byte k) s).vc = f s.vc := by
  induction buf generalizing s with
  | nil => rfl
  | cons a l ih => rw [List.foldl_cons, ih, echo_byte_blind hf]

theorem echo_char_blind {α : Type} {f : vconsole → α} (hf : CursorBlind f) (k : Consts) (s : State)
    (buf : List Nat) : f (echo_char k s buf).vc = f s.vc := by
  unfold echo_char
  simp only []
  rw [call_vc, echo_fold_blind hf, echo_restore_vc]

/-! ### The same for the stable functions -/

theorem stable_x {α : Type} {f : vconsole → α} (hf : Stable f) (v : vconsole) (a : Int) :
    f { v with x := a } = f v := blind_x (stable_cursor_blind hf) v a

theorem iterate_tab_forward_stable {α : Type} {f : vconsole → α} (hf : Stable f) (n : Nat)
    (v : vconsole) : f (Nat.iterate tab_forward n v) = f v :=
  iterate_tab_forward_blind (stable_cursor_blind hf) n v

theorem adjust_stable {α : Type} {f : vconsole → α} (hf : Stable f) (v : vconsole) (a b : Int) :
    f (adjust v a b) = f v := adjust_blind (stable_cursor_blind hf) v a b

theorem echo_char_stable {α : Type} {f : vconsole → α} (hf : Stable f) (k : Consts) (s : State)
    (buf : List Nat) : f (echo_char k s buf).vc = f s.vc :=
  echo_char_blind (stable_cursor_blind hf) k s buf

/-! ### The parser -/

theorem stable_all {α : Type} {f : vconsole → α} (hf : Stable f) (v w : vconsole)
    (h : w = overlay v w) : f w = f v := by
  rw [h]; exact hf v w

theorem CSE_stable {α : Type} {f : vconsole → α} (hf : Stable f) (s : State) :
    f (CSE s).vc = f s.vc := stable_all hf _ _ rfl

theorem esc_open_stable {α : Type} {f : vconsole → α} (hf : Stable f) (s : State) :
    f (esc_open s).vc = f s.vc := stable_all hf _ _ rfl

theorem esc_bracket_stable {α : Type} {f : vconsole → α} (hf : Stable f) (k : Consts)
    (s : State) : f (esc_bracket k s).vc = f s.vc := stable_all hf _ _ rfl

theorem csi_semicolon_stable {α : Type} {f : vconsole → α} (hf : Stable f) (s : State) :
    f (csi_semicolon s).vc = f s.vc := stable_all hf _ _ rfl

theorem csi_question_stable {α : Type} {f : vconsole → α} (hf : Stable f) (s : State) :
    f (csi_question s).vc = f s.vc := stable_all hf _ _ rfl

theorem save_cursor_stable {α : Type} {f : vconsole → α} (hf : Stable f) (s : State) :
    f (save_cursor s).vc = f s.vc := stable_all hf _ _ rfl

theorem restore_cursor_stable {α : Type} {f : vconsole → α} (hf : Stable f) (s : State) :
    f (restore_cursor s).vc = f s.vc := stable_all hf _ _ rfl

theorem set_tab_stable {α : Type} {f : vconsole → α} (hf : Stable f) (s : State) :
    f (set_tab s).vc = f s.vc := stable_all hf _ _ rfl

theorem parm_or_1_stable {α : Type} {f : vconsole → α} (hf : Stable f) (s : State) :
    f (parm_or_1 s).vc = f s.vc := stable_all hf _ _ rfl

theorem parm_less_1_stable {α : Type} {f : vconsole → α} (hf : Stable f) (s : State) :
    f (parm_less_1 s).vc = f s.vc := stable_all hf _ _ rfl

theorem csi_digit_stable {α : Type} {f : vconsole → α} (hf : Stable f) (s : State) (ch : Nat) :
    f (csi_digit s ch).vc = f s.vc := by
  unfold csi_digit
  by_cases h : s.vc.semicolon = true
  · simp only [if_pos h]; exact stable_all hf _ _ rfl
  · simp only [if_neg h]; exact stable_all hf _ _ rfl

theorem lf_stable {α : Type} {f : vconsole → α} (hf : Stable f) (s : State) :
    f (lf s).vc = f s.vc := by
  unfold lf
  by_cases h : s.vc.y = s.vc.lines
  · rw [if_pos h]; rfl
  · rw [if_neg h]; exact stable_all hf _ _ rfl

theorem ri_stable {α : Type} {f : vconsole → α} (hf : Stable f) (s : State) :
    f (ri s).vc = f s.vc := by
  unfold ri
  by_cases h : s.vc.y = 0
  · rw [if_pos h]; rfl
  · rw [if_neg h]; exact stable_all hf _ _ rfl

theorem cursor_up_stable {α : Type} {f : vconsole → α} (hf : Stable f) (s : State) :
    f (cursor_up s).vc = f s.vc := by
  unfold cursor_up
  simp only []
  rw [adjust_stable hf, parm_or_1_stable hf]

theorem cursor_down_stable {α : Type} {f : vconsole → α} (hf : Stable f) (s : State) :
    f (cursor_down s).vc = f s.vc := by
  unfold cursor_down
  simp only []
  rw [adjust_stable hf, parm_or_1_stable hf]

theorem cursor_forward_stable {α : Type} {f : vconsole → α} (hf : Stable f) (s : State) :
    f (cursor_forward s).vc = f s.vc := by
  unfold cursor_forward
  simp only []
  rw [adjust_stable hf, parm_or_1_stable hf]

theorem cursor_backward_stable {α : Type} {f : vconsole → α} (hf : Stable f) (s : State) :
    f (cursor_backward s).vc = f s.vc := by
  unfold cursor_backward
  simp only []
  rw [adjust_stable hf, parm_or_1_stable hf]

theorem cursor_next_line_stable {α : Type} {f : vconsole → α} (hf : Stable f) (s : State) :
    f (cursor_next_line s).vc = f s.vc := by
  unfold cursor_next_line
  simp only []
  rw [adjust_stable hf, parm_or_1_stable hf]

theorem cursor_prev_line_stable {α : Type} {f : vconsole → α} (hf : Stable f) (s : State) :
    f (cursor_prev_line s).vc = f s.vc := by
  unfold cursor_prev_line
  simp only []
  rw [adjust_stable hf, parm_or_1_stable hf]

theorem cursor_column_stable {α : Type} {f : vconsole → α} (hf : Stable f) (s : State) :
    f (cursor_column s).vc = f s.vc := by
  unfold cursor_column
  simp only []
  rw [adjust_stable hf, parm_less_1_stable hf]

theorem cursor_home_stable {α : Type} {f : vconsole → α} (hf : Stable f) (s : State) :
    f (cursor_home s).vc = f s.vc := by
  unfold cursor_home
  simp only []
  rw [adjust_stable hf, stable_all hf (parm_less_1 s).vc _ rfl, parm_less_1_stable hf]

theorem cursor_row_stable {α : Type} {f : vconsole → α} (hf : Stable f) (s : State) :
    f (cursor_row s).vc = f s.vc := by
  unfold cursor_row
  simp only []
  rw [adjust_stable hf, parm_less_1_stable hf]

theorem cursor_tab_stable {α : Type} {f : vconsole → α} (hf : Stable f) (s : State) :
    f (cursor_tab s).vc = f s.vc := by
  unfold cursor_tab
  simp only []
  rw [adjust_stable hf]
  rw [stable_all hf (Nat.iterate tab_forward (loopCount (parm_or_1 s).vc.parmv1) (parm_or_1 s).vc)
    _ rfl]
  rw [iterate_tab_forward_stable hf, parm_or_1_stable hf]

theorem csi_J_vc (s : State) (m : Int) : (csi_J s m).vc = s.vc := by
  unfold csi_J; split_ifs <;> rfl

theorem csi_K_vc (s : State) (m : Int) : (csi_K s m).vc = s.vc := by
  unfold csi_K; split_ifs <;> rfl

theorem csi_X_vc (s : State) (m : Int) : (csi_X s m).vc = s.vc := rfl
theorem csi_L_vc (s : State) (m : Int) : (csi_L s m).vc = s.vc := rfl
theorem csi_M_vc (s : State) (m : Int) : (csi_M s m).vc = s.vc := rfl
theorem csi_P_vc (s : State) (m : Int) : (csi_P s m).vc = s.vc := rfl
theorem csi_at_vc (s : State) (m : Int) : (csi_at s m).vc = s.vc := rfl

theorem scroll_n_stable {α : Type} {f : vconsole → α} (hf : Stable f) (d : Dir) (s : State)
    (c : Int) : f (scroll_n d s c).vc = f s.vc := stable_all hf _ _ rfl

theorem with_parm_or_1_stable {α : Type} {f : vconsole → α} (hf : Stable f)
    (g : State → Int → State) (hg : ∀ s c, f (g s c).vc = f s.vc) (s : State) :
    f (with_parm_or_1 g s).vc = f s.vc :=
  (hg _ _).trans (parm_or_1_stable hf s)

theorem csi_g_stable {α : Type} {f : vconsole → α} (hf : Stable f) (k : Consts) (s : State) :
    f (csi_g k s).vc = f s.vc := stable_all hf _ _ rfl

theorem csi_h_stable {α : Type} {f : vconsole → α} (hf : Stable f) (s : State) :
    f (csi_h s).vc = f s.vc := by
  unfold csi_h
  by_cases hq : s.vc.question = true
  · rw [if_pos hq]
    by_cases h1 : s.vc.parmv1 = 25
    · rw [if_pos h1]; rfl
    rw [if_neg h1]
    by_cases h2 : s.vc.parmv1 = 4
    · rw [if_pos h2]; exact stable_all hf _ _ rfl
    · rw [if_neg h2]
  · rw [if_neg hq]

theorem csi_l_stable {α : Type} {f : vconsole → α} (hf : Stable f) (s : State) :
    f (csi_l s).vc = f s.vc := by
  unfold csi_l
  by_cases hq : s.vc.question = true
  · rw [if_pos hq]
    by_cases h1 : s.vc.parmv1 = 25
    · rw [if_pos h1]; rfl
    rw [if_neg h1]
    by_cases h2 : s.vc.parmv1 = 4
    · rw [if_pos h2]; exact stable_all hf _ _ rfl
    · rw [if_neg h2]
  · rw [if_neg hq]

theorem sgr_stable {α : Type} {f : vconsole → α} (hf : Stable f) (k : Consts) (s : State) :
    f (csi_m k { s.vc with nparms := s.vc.nparms + 1 }) = f s.vc :=
  (csi_m_frame f (stable_attr hf) k _).trans (stable_all hf _ _ rfl)

/-! ### The loop body as a transition table -/

theorem csi_table_hit (k : Consts) (s : State) (n : Bool) (ch : Nat) (t : State)
    (h : (ch, t) ∈ csi_table k s n) : csi k s n ch = (CSE t, n) := by
  simp only [csi_table, List.mem_cons, Prod.mk.injEq, List.mem_singleton, List.not_mem_nil,
    or_false] at h
  rcases h with ⟨ec1, et1⟩ | ⟨ec2, et2⟩ | ⟨ec3, et3⟩ | ⟨ec4, et4⟩ | ⟨ec5, et5⟩ | ⟨ec6, et6⟩ |
    ⟨ec7, et7⟩ | ⟨ec8, et8⟩ | ⟨ec9, et9⟩ | ⟨ec10, et10⟩ | ⟨ec11, et11⟩ | ⟨ec12, et12⟩ |
    ⟨ec13, et13⟩ | ⟨ec14, et14⟩ | ⟨ec15, et15⟩ | ⟨ec16, et16⟩ | ⟨ec17, et17⟩ | ⟨ec18, et18⟩ |
    ⟨ec19, et19⟩ | ⟨ec20, et20⟩ | ⟨ec21, et21⟩ | ⟨ec22, et22⟩ | ⟨ec23, et23⟩ | ⟨ec24, et24⟩ |
    ⟨ec25, et25⟩ | ⟨ec26, et26⟩ | ⟨ec27, et27⟩ | ⟨ec28, et28⟩ | ⟨ec29, et29⟩ | ⟨ec30, et30⟩
  all_goals subst_vars
  all_goals rfl

theorem csi_table_miss (k : Consts) (s : State) (n : Bool) (ch : Nat)
    (hd : IS_NUMERIC ch = false) (h : ch ∉ csi_finals) :
    csi k s n ch = (ground k (CSE s) ch, n) := by
  simp only [csi_finals, List.mem_cons, List.mem_singleton, List.not_mem_nil, or_false,
    not_or] at h
  obtain ⟨nf1, nf2, nf3, nf4, nf5, nf6, nf7, nf8, nf9, nf10, nf11, nf12, nf13, nf14, nf15, nf16,
    nf17, nf18, nf19, nf20, nf21, nf22, nf23, nf24, nf25, nf26, nf27, nf28, nf29, nf30, nf31,
    nf32⟩ := h
  unfold csi csi_move csi_edit csi_misc
  simp only [hd, nf1, nf2, nf3, nf4, nf5, nf6, nf7, nf8, nf9, nf10, nf11, nf12, nf13, nf14,
    nf15, nf16, nf17, nf18, nf19, nf20, nf21, nf22, nf23, nf24, nf25, nf26, nf27, nf28, nf29,
    nf30, nf31, nf32, if_false, or_self, Bool.false_eq_true]

theorem csi_finals_hit (k : Consts) (s : State) (n : Bool) (ch : Nat) (h : ch ∈ csi_finals) :
    ch = 59 ∨ ch = 63 ∨ ∃ t, (ch, t) ∈ csi_table k s n := by
  simp only [csi_finals, List.mem_cons, List.mem_singleton, List.not_mem_nil, or_false] at h
  rcases h with rfl | rfl | rfl | rfl | rfl | rfl | rfl | rfl | rfl | rfl | rfl | rfl | rfl |
    rfl | rfl | rfl | rfl | rfl | rfl | rfl | rfl | rfl | rfl | rfl | rfl | rfl | rfl | rfl |
    rfl | rfl | rfl | rfl
  · exact Or.inl rfl
  · exact Or.inr (Or.inl rfl)
  all_goals
    refine Or.inr (Or.inr ?_)
    simp [csi_table]

/-- Every way the branch `if(vc->sbracket)` can go. -/
theorem csi_cases (k : Consts) (s : State) (n : Bool) (ch : Nat) :
    (IS_NUMERIC ch = true ∧ csi k s n ch = (csi_digit s ch, true)) ∨
    (ch = 59 ∧ csi k s n ch = (csi_semicolon s, n)) ∨
    (ch = 63 ∧ csi k s n ch = (csi_question s, n)) ∨
    (∃ t, (ch, t) ∈ csi_table k s n ∧ csi k s n ch = (CSE t, n)) ∨
    (IS_NUMERIC ch = false ∧ ch ∉ csi_finals ∧ csi k s n ch = (ground k (CSE s) ch, n)) := by
  by_cases hd : IS_NUMERIC ch = true
  · left; refine ⟨hd, ?_⟩; unfold csi; rw [if_pos hd]
  have hd' : IS_NUMERIC ch = false := by simpa using hd
  by_cases hf : ch ∈ csi_finals
  · rcases csi_finals_hit k s n ch hf with rfl | rfl | ⟨t, ht⟩
    · right; left; exact ⟨rfl, rfl⟩
    · right; right; left; exact ⟨rfl, rfl⟩
    · right; right; right; left; exact ⟨t, ht, csi_table_hit k s n ch t ht⟩
  · right; right; right; right; exact ⟨hd', hf, csi_table_miss k s n ch hd' hf⟩

theorem esc_table_hit (k : Consts) (s : State) (ch : Nat) (t : State)
    (h : (ch, t) ∈ esc_table k s) : escseq k s ch = CSE t := by
  simp only [esc_table, List.mem_cons, Prod.mk.injEq, List.mem_singleton, List.not_mem_nil,
    or_false] at h
  rcases h with ⟨ec1, et1⟩ | ⟨ec2, et2⟩ | ⟨ec3, et3⟩ | ⟨ec4, et4⟩ | ⟨ec5, et5⟩ | ⟨ec6, et6⟩ |
    ⟨ec7, et7⟩ | ⟨ec8, et8⟩
  all_goals subst_vars
  all_goals rfl

theorem esc_table_miss (k : Consts) (s : State) (ch : Nat) (h : ch ∉ esc_finals) :
    escseq k s ch = ground k (CSE s) ch := by
  simp only [esc_finals, List.mem_cons, List.mem_singleton, List.not_mem_nil, or_false,
    not_or] at h
  obtain ⟨nf1, nf2, nf3, nf4, nf5, nf6, nf7, nf8, nf9⟩ := h
  unfold escseq
  simp only [nf1, nf2, nf3, nf4, nf5, nf6, nf7, nf8, nf9, if_false]

theorem esc_finals_hit (k : Consts) (s : State) (ch : Nat) (h : ch ∈ esc_finals) :
    ch = 91 ∨ ∃ t, (ch, t) ∈ esc_table k s := by
  simp only [esc_finals, List.mem_cons, List.mem_singleton, List.not_mem_nil, or_false] at h
  rcases h with rfl | rfl | rfl | rfl | rfl | rfl | rfl | rfl | rfl
  · exact Or.inl rfl
  all_goals
    refine Or.inr ?_
    simp [esc_table]

/-- Every way the byte that follows ESC can go. -/
theorem escseq_cases (k : Consts) (s : State) (ch : Nat) :
    (ch = 91 ∧ escseq k s ch = esc_bracket k s) ∨
    (∃ t, (ch, t) ∈ esc_table k s ∧ escseq k s ch = CSE t) ∨
    (ch ∉ esc_finals ∧ escseq k s ch = ground k (CSE s) ch) := by
  by_cases hf : ch ∈ esc_finals
  · rcases esc_finals_hit k s ch hf with rfl | ⟨t, ht⟩
    · left; exact ⟨rfl, rfl⟩
    · right; left; exact ⟨t, ht, esc_table_hit k s ch t ht⟩
  · right; right; exact ⟨hf, esc_table_miss k s ch hf⟩

/-- A stable function of the console is not changed by the final byte of a
CSI sequence, the cases `c`, `n` and `r` apart. -/
theorem csi_table_stable {α : Type} {f : vconsole → α} (hf : Stable f) (k : Consts) (s : State)
    (n : Bool) (ch : Nat) (t : State) (h : (ch, t) ∈ csi_table k s n)
    (hc : ch ≠ 99) (hn : ch ≠ 110) (hr : ch ≠ 114) : f t.vc = f s.vc := by
  simp only [csi_table, List.mem_cons, Prod.mk.injEq, List.mem_singleton, List.not_mem_nil,
    or_false] at h
  rcases h with ⟨ec1, et1⟩ | ⟨ec2, et2⟩ | ⟨ec3, et3⟩ | ⟨ec4, et4⟩ | ⟨ec5, et5⟩ | ⟨ec6, et6⟩ |
    ⟨ec7, et7⟩ | ⟨ec8, et8⟩ | ⟨ec9, et9⟩ | ⟨ec10, et10⟩ | ⟨ec11, et11⟩ | ⟨ec12, et12⟩ |
    ⟨ec13, et13⟩ | ⟨ec14, et14⟩ | ⟨ec15, et15⟩ | ⟨ec16, et16⟩ | ⟨ec17, et17⟩ | ⟨ec18, et18⟩ |
    ⟨ec19, et19⟩ | ⟨ec20, et20⟩ | ⟨ec21, et21⟩ | ⟨ec22, et22⟩ | ⟨ec23, et23⟩ | ⟨ec24, et24⟩ |
    ⟨ec25, et25⟩ | ⟨ec26, et26⟩ | ⟨ec27, et27⟩ | ⟨ec28, et28⟩ | ⟨ec29, et29⟩ | ⟨ec30, et30⟩
  all_goals subst_vars
  · exact cursor_up_stable hf s
  · exact cursor_down_stable hf s
  · exact cursor_forward_stable hf s
  · exact cursor_backward_stable hf s
  · exact cursor_next_line_stable hf s
  · exact cursor_prev_line_stable hf s
  · exact cursor_column_stable hf s
  · exact cursor_column_stable hf s
  · exact cursor_home_stable hf s
  · exact cursor_home_stable hf s
  · exact cursor_tab_stable hf s
  · exact cursor_row_stable hf s
  · exact with_parm_or_1_stable hf _ (fun _ _ => rfl) s
  · rw [csi_J_vc]
  · rw [csi_K_vc]
  · exact with_parm_or_1_stable hf _ (fun _ _ => rfl) s
  · exact with_parm_or_1_stable hf _ (fun _ _ => rfl) s
  · exact with_parm_or_1_stable hf _ (fun _ _ => rfl) s
  · exact with_parm_or_1_stable hf _ (scroll_n_stable hf _) s
  · exact with_parm_or_1_stable hf _ (scroll_n_stable hf _) s
  · exact with_parm_or_1_stable hf _ (fun _ _ => rfl) s
  · exact absurd rfl hc
  · exact csi_g_stable hf k s
  · exact csi_h_stable hf s
  · exact csi_l_stable hf s
  · exact sgr_stable hf k s
  · exact absurd rfl hn
  · exact absurd rfl hr
  · exact save_cursor_stable hf s
  · exact restore_cursor_stable hf s

/-- A stable function of the console is not changed by the byte that follows
ESC, the cases `Z` and `c` apart. -/
theorem esc_table_stable {α : Type} {f : vconsole → α} (hf : Stable f) (k : Consts) (s : State)
    (ch : Nat) (t : State) (h : (ch, t) ∈ esc_table k s)
    (hZ : ch ≠ 90) (hc : ch ≠ 99) : f t.vc = f s.vc := by
  simp only [esc_table, List.mem_cons, Prod.mk.injEq, List.mem_singleton, List.not_mem_nil,
    or_false] at h
  rcases h with ⟨ec1, et1⟩ | ⟨ec2, et2⟩ | ⟨ec3, et3⟩ | ⟨ec4, et4⟩ | ⟨ec5, et5⟩ | ⟨ec6, et6⟩ |
    ⟨ec7, et7⟩ | ⟨ec8, et8⟩
  all_goals subst_vars
  · exact save_cursor_stable hf s
  · exact restore_cursor_stable hf s
  · exact lf_stable hf s
  · exact (lf_stable hf _).trans (stable_x hf _ _)
  · exact set_tab_stable hf s
  · exact ri_stable hf s
  · exact absurd rfl hZ
  · exact absurd rfl hc

theorem ground_stable {α : Type} {f : vconsole → α} (hf : Stable f) (k : Consts) (s : State)
    (ch : Nat) : f (ground k s ch).vc = f s.vc := by
  unfold ground
  by_cases h : ch = 27
  · rw [if_pos h]; exact esc_open_stable hf s
  · rw [if_neg h]; exact echo_char_stable hf k s _

/-- The loop body leaves every stable function of the console as it was,
unless the byte is the final byte of one of five sequences: the device-id and
status queries, the scroll-region setting and the reset. -/
theorem body_stable {α : Type} {f : vconsole → α} (hf : Stable f) (k : Consts) (s : State)
    (n : Bool) (ch : Nat) :
    f (vconsole_write_body k s n ch).1.vc = f s.vc ∨
    ∃ t, (vconsole_write_body k s n ch).1 = CSE t ∧
      (t = insert_seq s VT100ID 7 ∨ t = csi_c s n ∨ t = csi_n s ∨ t = csi_r s ∨ t = esc_c k s) := by
  unfold vconsole_write_body
  by_cases he : s.vc.esc = true
  · rw [if_pos he]
    by_cases hb : s.vc.sbracket = true
    · rw [if_pos hb]
      rcases csi_cases k s n ch with ⟨_, h⟩ | ⟨_, h⟩ | ⟨_, h⟩ | ⟨t, ht, h⟩ | ⟨_, _, h⟩ <;> rw [h]
      · exact Or.inl (csi_digit_stable hf s ch)
      · exact Or.inl (csi_semicolon_stable hf s)
      · exact Or.inl (csi_question_stable hf s)
      · by_cases hc : ch = 99
        · subst hc
          refine Or.inr ⟨t, rfl, Or.inr (Or.inl ?_)⟩
          simpa [csi_table] using ht
        by_cases hn : ch = 110
        · subst hn
          refine Or.inr ⟨t, rfl, Or.inr (Or.inr (Or.inl ?_))⟩
          simpa [csi_table] using ht
        by_cases hr : ch = 114
        · subst hr
          refine Or.inr ⟨t, rfl, Or.inr (Or.inr (Or.inr (Or.inl ?_)))⟩
          simpa [csi_table] using ht
        exact Or.inl ((CSE_stable hf t).trans (csi_table_stable hf k s n ch t ht hc hn hr))
      · exact Or.inl ((ground_stable hf k _ ch).trans (CSE_stable hf s))
    · rw [if_neg hb]
      rcases escseq_cases k s ch with ⟨_, h⟩ | ⟨t, ht, h⟩ | ⟨_, h⟩ <;> simp only [h]
      · exact Or.inl (esc_bracket_stable hf k s)
      · by_cases hZ : ch = 90
        · subst hZ
          refine Or.inr ⟨t, rfl, Or.inl ?_⟩
          simpa [esc_table] using ht
        by_cases hc : ch = 99
        · subst hc
          refine Or.inr ⟨t, rfl, Or.inr (Or.inr (Or.inr (Or.inr ?_)))⟩
          simpa [esc_table] using ht
        exact Or.inl ((CSE_stable hf t).trans (esc_table_stable hf k s ch t ht hZ hc))
      · exact Or.inl ((ground_stable hf k _ ch).trans (CSE_stable hf s))
  · rw [if_neg he]
    exact Or.inl (ground_stable hf k s ch)

theorem insert_seq_fixed {α : Type} {f : vconsole → α} (hf : Fixed f) (s : State)
    (b : List Nat) (c : Nat) : f (insert_seq s b c).vc = f s.vc :=
  hf.2.1 s.vc _

theorem csi_c_fixed {α : Type} {f : vconsole → α} (hf : Fixed f) (s : State) (n : Bool) :
    f (csi_c s n).vc = f s.vc := by
  unfold csi_c
  by_cases h : n = false
  · rw [if_pos h]; exact insert_seq_fixed hf s _ _
  · rw [if_neg h]

theorem csi_n_fixed {α : Type} {f : vconsole → α} (hf : Fixed f) (s : State) :
    f (csi_n s).vc = f s.vc := by
  unfold csi_n
  by_cases hq : s.vc.question = false
  · rw [if_pos hq]
    by_cases h1 : s.vc.parmv1 = 5
    · rw [if_pos h1]; exact insert_seq_fixed hf s _ _
    rw [if_neg h1]
    by_cases h2 : s.vc.parmv1 = 6
    · rw [if_pos h2]; exact insert_seq_fixed hf s _ _
    · rw [if_neg h2]
  · rw [if_neg hq]

theorem ite_ind {α : Type} (P : α → Prop) (c : Prop) [Decidable c] (a b : α)
    (ha : P a) (hb : P b) : P (if c then a else b) := by
  by_cases h : c
  · rw [if_pos h]; exact ha
  · rw [if_neg h]; exact hb

theorem csi_r_fixed {α : Type} {f : vconsole → α} (hf : Fixed f) (s : State) :
    f (csi_r s).vc = f s.vc := by
  unfold csi_r
  refine ite_ind (fun r : State => f r.vc = f s.vc) _ _ _ ?_ ?_
  · exact (adjust_stable hf.1 _ _ _).trans ((hf.2.2 _ _ _).trans (stable_all hf.1 s.vc _ rfl))
  · exact stable_all hf.1 s.vc _ rfl

/-- Only the reset can change a fixed function of the console. -/
theorem body_fixed {α : Type} {f : vconsole → α} (hf : Fixed f) (k : Consts) (s : State)
    (n : Bool) (ch : Nat) :
    f (vconsole_write_body k s n ch).1.vc = f s.vc ∨
    (vconsole_write_body k s n ch).1 = CSE (esc_c k s) := by
  rcases body_stable hf.1 k s n ch with h | ⟨t, h, rfl | rfl | rfl | rfl | rfl⟩
  · exact Or.inl h
  · exact Or.inl (by rw [h]; exact (CSE_stable hf.1 _).trans (insert_seq_fixed hf s _ _))
  · exact Or.inl (by rw [h]; exact (CSE_stable hf.1 _).trans (csi_c_fixed hf s n))
  · exact Or.inl (by rw [h]; exact (CSE_stable hf.1 _).trans (csi_n_fixed hf s))
  · exact Or.inl (by rw [h]; exact (CSE_stable hf.1 _).trans (csi_r_fixed hf s))
  · exact Or.inr h

theorem fixed_scrlock : Fixed (fun v : vconsole => v.scrlock) :=
  ⟨fun _ _ => rfl, fun _ _ => rfl, fun _ _ _ => rfl⟩

theorem fixed_columns : Fixed (fun v : vconsole => v.columns) :=
  ⟨fun _ _ => rfl, fun _ _ => rfl, fun _ _ _ => rfl⟩

theorem fixed_has_focus : Fixed (fun v : vconsole => v.has_focus) :=
  ⟨fun _ _ => rfl, fun _ _ => rfl, fun _ _ _ => rfl⟩

theorem esc_c_scrlock (k : Consts) (s : State) : (CSE (esc_c k s)).vc.scrlock = false := rfl

/-- The loop body never sets the scroll lock. -/
theorem body_scrlock (k : Consts) (s : State) (n : Bool) (ch : Nat)
    (h : s.vc.scrlock = false) : (vconsole_write_body k s n ch).1.vc.scrlock = false := by
  rcases body_fixed fixed_scrlock k s n ch with h1 | h1
  · exact h1.trans h
  · rw [h1]; rfl

theorem feed_nil (k : Consts) (p : State × Bool) : feed k p [] = p := rfl

theorem feed_cons (k : Consts) (p : State × Bool) (b : Nat) (q : List Nat) :
    feed k p (b :: q) = feed k (vconsole_write_body k p.1 p.2 b) q := rfl

theorem feed_append (k : Consts) (p : State × Bool) (a b : List Nat) :
    feed k p (a ++ b) = feed k (feed k p a) b := by
  unfold feed; rw [List.foldl_append]

theorem feed_scrlock (k : Consts) (q : List Nat) (p : State × Bool)
    (h : p.1.vc.scrlock = false) : (feed k p q).1.vc.scrlock = false := by
  induction q generalizing p with
  | nil => exact h
  | cons b q ih => rw [feed_cons]; exact ih _ (body_scrlock k p.1 p.2 b h)

/-- While the console is not scroll-locked the loop of `vconsole_write` takes
every byte of the queue through the loop body. -/
theorem loop_unlocked (k : Consts) (q : List Nat) (s : State) (n : Bool) (c : Nat)
    (h : s.vc.scrlock = false) :
    vconsole_write_loop k s n c q =
      ((feed k (s, n) q).1, (feed k (s, n) q).2, q.getLastD c, []) := by
  induction q generalizing s n c with
  | nil => rfl
  | cons b q ih =>
    rw [vconsole_write_loop, if_neg (by simp [h])]
    simp only []
    rw [ih _ _ _ (body_scrlock k s n b h)]
    cases q <;> rfl

theorem vconsole_write_restore_vc (s : State) : (vconsole_write_restore s).vc = s.vc := by
  unfold vconsole_write_restore
  exact ite_ind (fun r : State => r.vc = s.vc) _ _ _ rfl rfl

theorem vconsole_write_finish_vc (s : State) (c : Nat) :
    (vconsole_write_finish s c).vc = s.vc := by
  unfold vconsole_write_finish
  refine ite_ind (fun r : State => r.vc = s.vc) _ _ _ ?_ rfl
  simp only [call_vc]
  exact ite_ind (fun r : State => r.vc = s.vc) _ _ _ rfl rfl

/-- A call of `vconsole_write` on a console that is not scroll-locked. -/
theorem vconsole_write_unlocked (k : Consts) (s : State) (h : s.vc.scrlock = false) :
    vconsole_write k s =
      vconsole_write_finish
        (with_write_q (feed k (vconsole_write_restore s, false) s.vc.tty.write_q).1 [])
        (s.vc.tty.write_q.getLastD 0) := by
  unfold vconsole_write
  simp only []
  rw [loop_unlocked k _ _ _ _ (by rw [vconsole_write_restore_vc]; exact h),
    vconsole_write_restore_vc]

/-! ### Frames for the cursor and the geometry -/

theorem calm_all {α : Type} {f : vconsole → α} (hf : Calm f) (v w : vconsole)
    (h : w = parser_overlay v w) : f w = f v := by
  rw [h]; exact hf v w

theorem esc_open_calm {α : Type} {f : vconsole → α} (hf : Calm f) (s : State) :
    f (esc_open s).vc = f s.vc := calm_all hf _ _ rfl

theorem esc_bracket_calm {α : Type} {f : vconsole → α} (hf : Calm f) (k : Consts)
    (s : State) : f (esc_bracket k s).vc = f s.vc := calm_all hf _ _ rfl

theorem csi_semicolon_calm {α : Type} {f : vconsole → α} (hf : Calm f) (s : State) :
    f (csi_semicolon s).vc = f s.vc := calm_all hf _ _ rfl

theorem parm_less_1_calm {α : Type} {f : vconsole → α} (hf : Calm f) (s : State) :
    f (parm_less_1 s).vc = f s.vc := calm_all hf _ _ rfl

theorem csi_digit_calm {α : Type} {f : vconsole → α} (hf : Calm f) (s : State) (ch : Nat) :
    f (csi_digit s ch).vc = f s.vc := by
  unfold csi_digit
  by_cases h : s.vc.semicolon = true
  · simp only [if_pos h]; exact calm_all hf _ _ rfl
  · simp only [if_neg h]; exact calm_all hf _ _ rfl

theorem calm_geo : Calm geo := fun _ _ => rfl

theorem calm_read_q : Calm (fun v : vconsole => v.tty.read_q) := fun _ _ => rfl

/-! ### Cursor movements -/

theorem adjust_clamped (v : vconsole) (a b : Int) :
    (adjust v a b).columns = v.columns ∧ (adjust v a b).lines = v.lines ∧
    (adjust v a b).top = v.top ∧ (adjust v a b).check_x = v.check_x ∧
    (1 ≤ v.columns → 1 ≤ v.lines →
      0 ≤ (adjust v a b).x ∧ (adjust v a b).x < v.columns ∧
      0 ≤ (adjust v a b).y ∧ (adjust v a b).y < v.lines) := by
  refine ⟨rfl, rfl, rfl, rfl, ?_⟩
  intro hc hl
  simp only [adjust]
  split_ifs <;> omega

theorem clamped_of_adjust (s t : State) (v : vconsole) (a b : Int)
    (ht : t.vc = adjust v a b)
    (h : (v.check_x, v.top, v.lines, v.columns) =
      (s.vc.check_x, s.vc.top, s.vc.lines, s.vc.columns)) : Clamped s t := by
  simp only [Prod.mk.injEq] at h
  obtain ⟨h3, h4, h5, h6⟩ := h
  obtain ⟨c1, c2, c3, c4, c5⟩ := adjust_clamped v a b
  unfold Clamped
  rw [ht, c1, c2, c3, c4, h3, h4, h5, h6]
  refine ⟨rfl, rfl, rfl, rfl, ?_⟩
  intro hc hl
  rw [h6, h5] at c5
  exact c5 hc hl

theorem cursor_up_clamped (s : State) : Clamped s (cursor_up s) :=
  clamped_of_adjust s _ (parm_or_1 s).vc _ _ rfl rfl

theorem cursor_down_clamped (s : State) : Clamped s (cursor_down s) :=
  clamped_of_adjust s _ (parm_or_1 s).vc _ _ rfl rfl

theorem cursor_forward_clamped (s : State) : Clamped s (cursor_forward s) :=
  clamped_of_adjust s _ (parm_or_1 s).vc _ _ rfl rfl

theorem cursor_backward_clamped (s : State) : Clamped s (cursor_backward s) :=
  clamped_of_adjust s _ (parm_or_1 s).vc _ _ rfl rfl

theorem cursor_next_line_clamped (s : State) : Clamped s (cursor_next_line s) :=
  clamped_of_adjust s _ (parm_or_1 s).vc _ _ rfl rfl

theorem cursor_prev_line_clamped (s : State) : Clamped s (cursor_prev_line s) :=
  clamped_of_adjust s _ (parm_or_1 s).vc _ _ rfl rfl

theorem cursor_column_clamped (s : State) : Clamped s (cursor_column s) :=
  clamped_of_adjust s _ (parm_less_1 s).vc _ _ rfl rfl

theorem cursor_home_clamped (s : State) : Clamped s (cursor_home s) := by
  unfold cursor_home
  exact clamped_of_adjust s _ _ _ _ rfl rfl

theorem cursor_row_clamped (s : State) : Clamped s (cursor_row s) :=
  clamped_of_adjust s _ (parm_less_1 s).vc _ _ rfl rfl

theorem iterate_tab_forward_geo (n : Nat) (v : vconsole) :
    ((Nat.iterate tab_forward n v).check_x, (Nat.iterate tab_forward n v).top,
      (Nat.iterate tab_forward n v).lines, (Nat.iterate tab_forward n v).columns) =
    (v.check_x, v.top, v.lines, v.columns) := by
  induction n generalizing v with
  | zero => rfl
  | succ n ih => rw [Function.iterate_succ_apply, ih]; rfl

theorem cursor_tab_clamped (s : State) : Clamped s (cursor_tab s) := by
  unfold cursor_tab
  refine clamped_of_adjust s _ _ _ _ rfl ?_
  exact iterate_tab_forward_geo (loopCount (parm_or_1 s).vc.parmv1) (parm_or_1 s).vc

/-- Every cursor-movement final leaves the cursor inside the geometry. -/
theorem csi_table_clamped (k : Consts) (s : State) (n : Bool) (ch : Nat) (t : State)
    (h : (ch, t) ∈ csi_table k s n)
    (hm : ch ∈ [65, 66, 67, 68, 69, 70, 71, 96, 72, 102, 73, 100]) : Clamped s t := by
  simp only [csi_table, List.mem_cons, Prod.mk.injEq, List.mem_singleton, List.not_mem_nil,
    or_false] at h
  rcases h with ⟨ec1, et1⟩ | ⟨ec2, et2⟩ | ⟨ec3, et3⟩ | ⟨ec4, et4⟩ | ⟨ec5, et5⟩ | ⟨ec6, et6⟩ |
    ⟨ec7, et7⟩ | ⟨ec8, et8⟩ | ⟨ec9, et9⟩ | ⟨ec10, et10⟩ | ⟨ec11, et11⟩ | ⟨ec12, et12⟩ |
    ⟨ec13, et13⟩ | ⟨ec14, et14⟩ | ⟨ec15, et15⟩ | ⟨ec16, et16⟩ | ⟨ec17, et17⟩ | ⟨ec18, et18⟩ |
    ⟨ec19, et19⟩ | ⟨ec20, et20⟩ | ⟨ec21, et21⟩ | ⟨ec22, et22⟩ | ⟨ec23, et23⟩ | ⟨ec24, et24⟩ |
    ⟨ec25, et25⟩ | ⟨ec26, et26⟩ | ⟨ec27, et27⟩ | ⟨ec28, et28⟩ | ⟨ec29, et29⟩ | ⟨ec30, et30⟩
  all_goals subst_vars
  · exact cursor_up_clamped s
  · exact cursor_down_clamped s
  · exact cursor_forward_clamped s
  · exact cursor_backward_clamped s
  · exact cursor_next_line_clamped s
  · exact cursor_prev_line_clamped s
  · exact cursor_column_clamped s
  · exact cursor_column_clamped s
  · exact cursor_home_clamped s
  · exact cursor_home_clamped s
  · exact cursor_tab_clamped s
  · exact cursor_row_clamped s
  all_goals exact absurd hm (by decide)

/-! ### The echo path and invariant 3 -/

theorem inv3_below_of_inv3 (v : vconsole) (h : Inv3 v) : Inv3_below v := by
  unfold Inv3 at h; unfold Inv3_below; omega

theorem echo_scroll_inv3 (s : State) (h : Inv3_below s.vc) : Inv3 (echo_scroll s).vc := by
  unfold Inv3_below at h
  unfold echo_scroll Inv3
  by_cases hy : s.vc.y ≥ s.vc.lines
  · rw [if_pos hy]; simp only [call_vc]; omega
  · rw [if_neg hy]; omega

theorem tab_scan_bounds (ts : Int → Bool) (c : Int) (fuel : Nat) (x : Int) :
    x ≤ tab_scan ts c fuel x ∧ (tab_scan ts c fuel x ≤ x ∨ tab_scan ts c fuel x ≤ c - 1) := by
  induction fuel generalizing x with
  | zero => simp [tab_scan]
  | succ n ih =>
    simp only [tab_scan]
    split_ifs with h1 h2
    · omega
    · have := ih (x + 1); omega
    · omega

theorem echo_wrap_below (s : State) (h : Inv3 s.vc) : Inv3_below (echo_wrap s).vc := by
  unfold Inv3 at h
  unfold echo_wrap Inv3_below
  by_cases hw : s.vc.x = s.vc.columns - 1 ∧ s.vc.check_x = true
  · rw [if_pos hw, buf_y_incr_vc]; simp only []; omega
  · rw [if_neg hw]; omega

theorem echo_advance_inv3 (s : State) (h : Inv3 s.vc) : Inv3 (echo_advance s).vc := by
  unfold Inv3 at h
  unfold echo_advance Inv3
  by_cases hw : s.vc.x < s.vc.columns - 1
  · rw [if_pos hw]; simp only []; omega
  · rw [if_neg hw]; simp only []; omega

theorem echo_print_inv3 (s : State) (ch : Nat) (h : Inv3 s.vc) : Inv3 (echo_print s ch).vc := by
  unfold echo_print
  exact echo_advance_inv3 _ (echo_scroll_inv3 _ (echo_wrap_below s h))

theorem echo_dispatch_below (s : State) (ch : Nat) (h : Inv3 s.vc) :
    Inv3_below (echo_dispatch s ch).vc := by
  have hb := inv3_below_of_inv3 _ h
  unfold echo_dispatch
  refine ite_ind (fun r : State => Inv3_below r.vc) _ _ _ ?_ ?_
  · unfold echo_bs
    by_cases hx : s.vc.x ≠ 0
    · rw [if_pos hx]; unfold Inv3 at h; unfold Inv3_below; simp only []; omega
    · rw [if_neg hx]; exact hb
  refine ite_ind (fun r : State => Inv3_below r.vc) _ _ _ hb ?_
  refine ite_ind (fun r : State => Inv3_below r.vc) _ _ _ ?_ ?_
  · unfold Inv3 at h; unfold Inv3_below; beta_reduce; simp only [cr]; omega
  refine ite_ind (fun r : State => Inv3_below r.vc) _ _ _ ?_ ?_
  · beta_reduce; unfold echo_lf; rw [buf_y_incr_vc]
    unfold Inv3 at h; unfold Inv3_below; simp only [cr]; omega
  refine ite_ind (fun r : State => Inv3_below r.vc) _ _ _ ?_ ?_
  · unfold Inv3 at h; unfold Inv3_below; beta_reduce; simp only [echo_tab, tab_forward]
    have := tab_scan_bounds s.vc.tty.tab_stop s.vc.columns (s.vc.columns - 1 - s.vc.x).toNat s.vc.x
    omega
  · exact inv3_below_of_inv3 _ (echo_print_inv3 s ch h)

theorem echo_byte_inv3 (k : Consts) (s : State) (ch : Nat) (h : Inv3 s.vc) :
    Inv3 (echo_byte k s ch).vc := by
  unfold echo_byte
  refine ite_ind (fun r : State => Inv3 r.vc) _ _ _ h ?_
  beta_reduce
  rw [echo_vcbuf_vc]
  exact echo_scroll_inv3 _ (echo_dispatch_below s ch h)

theorem echo_char_inv3 (k : Consts) (s : State) (ch : Nat) (h : Inv3 s.vc) :
    Inv3 (echo_char k s [ch]).vc := by
  unfold echo_char
  simp only [List.foldl_cons, List.foldl_nil, call_vc]
  exact echo_byte_inv3 k _ ch (by rw [echo_restore_vc]; exact h)

theorem inv3_of_geo (v w : vconsole) (h : geo w = geo v) (hv : Inv3 v) : Inv3 w := by
  simp only [geo, Prod.mk.injEq] at h
  obtain ⟨h1, h2, -, h4, h5, h6⟩ := h
  unfold Inv3 at hv ⊢
  rw [h1, h2, h4, h5, h6]; exact hv

theorem inv3_of_clamped (s t : State) (h : Clamped s t) (hv : Inv3 s.vc) : Inv3 t.vc := by
  obtain ⟨c1, c2, c3, -, c5⟩ := h
  unfold Inv3 at hv ⊢
  have := c5 (by omega) (by omega)
  rw [c1, c2, c3]; omega

theorem wrap32_id (i : Int) (h1 : -2147483648 ≤ i) (h2 : i < 2147483648) : wrap32 i = i := by
  unfold wrap32; omega

/-- ESC opens a sequence from any state of the parser. -/
theorem body_ESC (k : Consts) (s : State) (n : Bool) :
    vconsole_write_body k s n 27 = (esc_open s, n) := by
  unfold vconsole_write_body
  by_cases he : s.vc.esc = true
  · rw [if_pos he]
    by_cases hb : s.vc.sbracket = true
    · rw [if_pos hb, csi_table_miss k s n 27 rfl (by decide)]; rfl
    · rw [if_neg hb, esc_table_miss k s 27 (by decide)]; rfl
  · rw [if_neg he]; rfl

theorem body_bracket (k : Consts) (s : State) (n : Bool) (he : s.vc.esc = true)
    (hb : s.vc.sbracket = false) :
    vconsole_write_body k s n 91 = (esc_bracket k s, n) := by
  unfold vconsole_write_body
  rw [if_pos he, if_neg (by simp [hb])]; rfl

theorem body_csi (k : Consts) (s : State) (n : Bool) (ch : Nat) (he : s.vc.esc = true)
    (hb : s.vc.sbracket = true) : vconsole_write_body k s n ch = csi k s n ch := by
  unfold vconsole_write_body
  rw [if_pos he, if_pos hb]

/-- The two bytes `ESC [` put the parser inside a CSI sequence, from any
state. -/
theorem feed_csi_open (k : Consts) (s : State) (n : Bool) (q : List Nat) :
    feed k (s, n) (27 :: 91 :: q) = feed k (esc_bracket k (esc_open s), n) q := by
  rw [feed_cons, body_ESC, feed_cons, body_bracket k _ n rfl rfl]

theorem csi_parm_byte (k : Consts) (s : State) (n : Bool) (b : Nat)
    (hb : IS_NUMERIC b = true ∨ b = 59) :
    ((csi k s n b).1.vc.esc, (csi k s n b).1.vc.sbracket, geo (csi k s n b).1.vc) =
      (s.vc.esc, s.vc.sbracket, geo s.vc) := by
  rcases hb with hb | rfl
  · unfold csi; rw [if_pos hb]
    unfold csi_digit
    by_cases h : s.vc.semicolon = true
    · simp only [if_pos h]; rfl
    · simp only [if_neg h]; rfl
  · rfl

/-- Parameter bytes keep the parser inside the CSI sequence and leave the
cursor and the geometry alone. -/
theorem feed_parms (k : Consts) (q : List Nat) (s : State) (n : Bool)
    (hq : ∀ b ∈ q, IS_NUMERIC b = true ∨ b = 59)
    (he : s.vc.esc = true) (hb : s.vc.sbracket = true) :
    (feed k (s, n) q).1.vc.esc = true ∧ (feed k (s, n) q).1.vc.sbracket = true ∧
    geo (feed k (s, n) q).1.vc = geo s.vc := by
  induction q generalizing s n with
  | nil => exact ⟨he, hb, rfl⟩
  | cons b q ih =>
    rw [feed_cons, body_csi k s n b he hb]
    have h := csi_parm_byte k s n b (hq b (List.mem_cons_self _ _))
    simp only [Prod.mk.injEq] at h
    obtain ⟨h1, h2, h3⟩ := h
    obtain ⟨i1, i2, i3⟩ := ih (csi k s n b).1 (csi k s n b).2
      (fun c hc => hq c (List.mem_cons_of_mem _ hc)) (h1.trans he) (h2.trans hb)
    exact ⟨i1, i2, i3.trans h3⟩

theorem clamped_of_geo (s s1 t : State) (h : geo s1.vc = geo s.vc) (hc : Clamped s1 t) :
    Clamped s t := by
  simp only [geo, Prod.mk.injEq] at h
  obtain ⟨-, -, h3, h4, h5, h6⟩ := h
  unfold Clamped at hc ⊢
  rw [h3, h4, h5, h6] at hc
  exact hc

theorem clamped_CSE (s t : State) (hc : Clamped s t) : Clamped s (CSE t) := hc

/-- The final byte of a cursor movement leaves the cursor inside the geometry
and the parser in GROUND. -/
theorem csi_move_final (k : Consts) (s : State) (n : Bool) (ch : Nat)
    (hm : ch ∈ move_finals) :
    Clamped s (csi k s n ch).1 ∧ (csi k s n ch).1.vc.esc = false := by
  have hm' : ch ∈ [65, 66, 67, 68, 69, 70, 71, 96, 72, 102, 73, 100] := by
    simp only [move_finals, List.mem_cons, List.mem_singleton, List.not_mem_nil, or_false] at hm ⊢
    tauto
  rcases csi_cases k s n ch with ⟨hd, _⟩ | ⟨rfl, _⟩ | ⟨rfl, _⟩ | ⟨t, ht, h⟩ | ⟨_, hf, _⟩
  · exfalso
    simp only [move_finals, List.mem_cons, List.mem_singleton, List.not_mem_nil, or_false] at hm
    rcases hm with rfl | rfl | rfl | rfl | rfl | rfl | rfl | rfl | rfl | rfl | rfl <;>
      exact absurd hd (by decide)
  · exact absurd hm (by decide)
  · exact absurd hm (by decide)
  · rw [h]
    exact ⟨clamped_CSE s t (csi_table_clamped k s n ch t ht hm'), rfl⟩
  · exfalso
    apply hf
    simp only [move_finals, List.mem_cons, List.mem_singleton, List.not_mem_nil, or_false] at hm
    simp only [csi_finals, List.mem_cons, List.mem_singleton, List.not_mem_nil, or_false]
    tauto

/-- One cursor-movement sequence, run from any state of the parser. -/
theorem feed_move_seq (k : Consts) (s : State) (n : Bool) (p : List Nat × Nat)
    (hp : MoveSeq p) :
    Clamped s (feed k (s, n) (csi_seq p.1 p.2)).1 := by
  obtain ⟨hq, hm⟩ := hp
  have e : csi_seq p.1 p.2 = 27 :: 91 :: (p.1 ++ [p.2]) := by simp [csi_seq]
  rw [e, feed_csi_open, feed_append]
  obtain ⟨i1, i2, i3⟩ := feed_parms k p.1 (esc_bracket k (esc_open s)) n hq rfl rfl
  rw [feed_cons, feed_nil, body_csi k _ _ _ i1 i2]
  exact clamped_of_geo s _ _ i3 (csi_move_final k _ _ p.2 hm).1

/-- The cursor is inside the geometry. -/
theorem feed_move_stream (k : Consts) (l : List (List Nat × Nat)) (s : State) (n : Bool)
    (hl : ∀ p ∈ l, MoveSeq p) (hc : 1 ≤ s.vc.columns) (hli : 1 ≤ s.vc.lines)
    (hstart : l ≠ [] ∨
      (0 ≤ s.vc.x ∧ s.vc.x < s.vc.columns ∧ 0 ≤ s.vc.y ∧ s.vc.y < s.vc.lines)) :
    (feed k (s, n) (csi_stream l)).1.vc.columns = s.vc.columns ∧
    (feed k (s, n) (csi_stream l)).1.vc.lines = s.vc.lines ∧
    0 ≤ (feed k (s, n) (csi_stream l)).1.vc.x ∧
    (feed k (s, n) (csi_stream l)).1.vc.x < s.vc.columns ∧
    0 ≤ (feed k (s, n) (csi_stream l)).1.vc.y ∧
    (feed k (s, n) (csi_stream l)).1.vc.y < s.vc.lines := by
  induction l generalizing s n with
  | nil =>
    rcases hstart with h | h
    · exact absurd rfl h
    · exact ⟨rfl, rfl, h⟩
  | cons p l ih =>
    rw [csi_stream, feed_append]
    obtain ⟨c1, c2, -, -, c5⟩ := feed_move_seq k s n p (hl p (List.mem_cons_self _ _))
    have c5' := c5 hc hli
    have := ih (feed k (s, n) (csi_seq p.1 p.2)).1 (feed k (s, n) (csi_seq p.1 p.2)).2
      (fun q hq => hl q (List.mem_cons_of_mem _ hq)) (by rw [c1]; exact hc)
      (by rw [c2]; exact hli) (Or.inr (by rw [c1, c2]; exact c5'))
    rw [c1, c2] at this
    exact this

theorem with_write_q_vc_tty (s : State) (q : List Nat) :
    (with_write_q s q).vc.tty.write_q = q := rfl

/-! ## C1: invariant 3, the exceptions -/

/-- C3 fails as stated.  After `ESC`, and after `ESC [`, the byte `x` is not
dropped: `put_char` is called for it and the cursor moves from column 0 to
column 1. -/
theorem unknown_byte_echoed :
    (120 ∉ esc_finals ∧
      (vconsole_write_body k0 (feed k0 (s0, false) [27]).1 false 120).1.log =
        [Event.put_char 0 0 0x0700 120, Event.update_curpos 1 0] ∧
      (feed k0 (s0, false) [27]).1.vc.x = 0 ∧
      (vconsole_write_body k0 (feed k0 (s0, false) [27]).1 false 120).1.vc.x = 1) ∧
    (120 ∉ csi_finals ∧ IS_NUMERIC 120 = false ∧
      (vconsole_write_body k0 (feed k0 (s0, false) [27, 91]).1 false 120).1.log =
        [Event.put_char 0 0 0x0700 120, Event.update_curpos 1 0] ∧
      (feed k0 (s0, false) [27, 91]).1.vc.x = 0 ∧
      (vconsole_write_body k0 (feed k0 (s0, false) [27, 91]).1 false 120).1.vc.x = 1) := by
  decide

/-- C3, amended.  When ESC is followed by a byte without a case in the switch
(or a CSI sequence meets a byte that is neither a digit nor one of its
finals), the sequence is over and the byte is handled as the same byte is in
GROUND: an ESC opens a new sequence, any other byte goes to `echo_char`, after
which the parser is in GROUND. -/
theorem unknown_byte_to_ground (k : Consts) (s : State) (n : Bool) (ch : Nat)
    (he : s.vc.esc = true)
    (hunk : (s.vc.sbracket = false ∧ ch ∉ esc_finals) ∨
      (s.vc.sbracket = true ∧ IS_NUMERIC ch = false ∧ ch ∉ csi_finals)) :
    vconsole_write_body k s n ch = vconsole_write_body k (CSE s) n ch ∧
    (ch = 27 → (vconsole_write_body k s n ch).1 = esc_open s) ∧
    (ch ≠ 27 → (vconsole_write_body k s n ch).1 = echo_char k (CSE s) [ch] ∧
      (vconsole_write_body k s n ch).1.vc.esc = false) := by
  have hg : vconsole_write_body k s n ch = (ground k (CSE s) ch, n) := by
    unfold vconsole_write_body
    rw [if_pos he]
    rcases hunk with ⟨hb, hf⟩ | ⟨hb, hd, hf⟩
    · rw [if_neg (by simp [hb]), esc_table_miss k s ch hf]
    · rw [if_pos hb, csi_table_miss k s n ch hd hf]
  have hc : vconsole_write_body k (CSE s) n ch = (ground k (CSE s) ch, n) := by
    unfold vconsole_write_body
    rw [if_neg (by simp [CSE])]
  refine ⟨hg.trans hc.symm, ?_, ?_⟩
  · intro h27
    rw [hg]; subst h27; rfl
  · intro h27
    rw [hg]
    have : ground k (CSE s) ch = echo_char k (CSE s) [ch] := by
      unfold ground; rw [if_neg h27]
    rw [this]
    exact ⟨rfl, @echo_char_blind _ (fun v => v.esc) (fun _ _ _ _ => rfl) k (CSE s) [ch]⟩

/-- The amended C3 at the byte `x` after `ESC`. -/
theorem unknown_byte_to_ground_witness :
    (feed k0 (s0, false) [27]).1.vc.esc = true ∧
    (vconsole_write_body k0 (feed k0 (s0, false) [27]).1 false 120).1 =
      echo_char k0 (CSE (feed k0 (s0, false) [27]).1) [120] :=
  ⟨by decide,
   ((unknown_byte_to_ground k0 (feed k0 (s0, false) [27]).1 false 120 (by decide)
      (Or.inl ⟨by decide, by decide⟩)).2.2 (by decide)).1⟩

/-! ### Logs -/

theorem cell_writes_append (a b : List Event) :
    cell_writes (a ++ b) = cell_writes a ++ cell_writes b := by
  induction a with
  | nil => rfl
  | cons e a ih => cases e <;> simp [cell_writes, ih]

theorem restore_cell_writes (s : State) :
    cell_writes (vconsole_write_restore s).log = cell_writes s.log := by
  unfold vconsole_write_restore
  refine ite_ind (fun r : State => cell_writes r.log = cell_writes s.log) _ _ _ ?_ rfl
  simp [cell_writes_append, cell_writes]

theorem finish_cell_writes (s : State) (c : Nat) :
    cell_writes (vconsole_write_finish s c).log = cell_writes s.log := by
  unfold vconsole_write_finish
  refine ite_ind (fun r : State => cell_writes r.log = cell_writes s.log) _ _ _ ?_ rfl
  simp only [call_log, cell_writes_append]
  refine ite_ind (fun r : State => cell_writes r.log ++ cell_writes [Event.wakeup] =
    cell_writes s.log) _ _ _ ?_ ?_ <;> simp [cell_writes_append, cell_writes]

theorem restore_read_q (s : State) :
    (vconsole_write_restore s).vc.tty.read_q = s.vc.tty.read_q := by
  rw [vconsole_write_restore_vc]

/-! ### The cursor report -/

theorem feed_report (k : Consts) (s : State) (n : Bool) :
    (feed k (s, n) [27, 91, 54, 110]).1 =
      CSE (insert_seq (csi_digit (esc_bracket k (esc_open s)) 54)
        (curpos s.vc) (curpos s.vc).length) := by
  rw [feed_csi_open]; rfl

theorem read_q_CSE_insert_seq (t : State) (b : List Nat) (c : Nat) :
    (CSE (insert_seq t b c)).vc.tty.read_q = t.vc.tty.read_q ++ b.take c := rfl

theorem log_CSE_insert_seq (t : State) (b : List Nat) (c : Nat) :
    (CSE (insert_seq t b c)).log = t.log ++ [Event.tty_input] := rfl

theorem geo_CSE_insert_seq (t : State) (b : List Nat) (c : Nat) :
    geo (CSE (insert_seq t b c)).vc = geo t.vc := rfl

theorem curpos_congr (v w : vconsole) (hx : v.x = w.x) (hy : v.y = w.y) :
    curpos v = curpos w := by
  unfold curpos; rw [hx, hy]

/-- The state of the parser after `ESC [` and one digit has the read queue,
the cursor and the log it started from. -/
theorem open_digit_frame (k : Consts) (s : State) (d : Nat) :
    (csi_digit (esc_bracket k (esc_open s)) d).vc.tty.read_q = s.vc.tty.read_q ∧
    geo (csi_digit (esc_bracket k (esc_open s)) d).vc = geo s.vc ∧
    (csi_digit (esc_bracket k (esc_open s)) d).log = s.log :=
  ⟨(csi_digit_calm calm_read_q _ _).trans
      ((esc_bracket_calm calm_read_q k _).trans (esc_open_calm calm_read_q s)),
   (csi_digit_calm calm_geo _ _).trans
      ((esc_bracket_calm calm_geo k _).trans (esc_open_calm calm_geo s)),
   rfl⟩

/-! ## C7 and C10: the flag `numeric` -/

theorem feed_J_c (k : Consts) (s : State) (n : Bool) :
    (feed k (s, n) [27, 91, 50, 74, 27, 91, 99]).1.vc.tty.read_q = s.vc.tty.read_q := by
  rw [feed_csi_open]; rfl

theorem feed_c (k : Consts) (s : State) :
    (feed k (s, false) [27, 91, 99]).1.vc.tty.read_q = s.vc.tty.read_q ++ VT100ID := by
  rw [feed_csi_open]; rfl

theorem feed_1_c (k : Consts) (s : State) (n : Bool) :
    (feed k (s, n) [27, 91, 49, 99]).1.vc.tty.read_q = s.vc.tty.read_q := by
  rw [feed_csi_open]; rfl

theorem feed_1 (k : Consts) (s : State) (n : Bool) :
    (feed k (s, n) [27, 91, 49]).1 = csi_digit (esc_bracket k (esc_open s)) 49 := by
  rw [feed_csi_open]; rfl

/-- The read queue after a call of `vconsole_write` on a console that is not
scroll-locked. -/
theorem vconsole_write_read_q (k : Consts) (s : State) (q : List Nat)
    (hlock : s.vc.scrlock = false) :
    (vconsole_write k (with_write_q s q)).vc.tty.read_q =
      (feed k (vconsole_write_restore (with_write_q s q), false) q).1.vc.tty.read_q := by
  rw [vconsole_write_unlocked k (with_write_q s q) hlock, vconsole_write_finish_vc,
    with_write_q_vc_tty]
  rfl

/-- C7, the code at the failing input.  In one call of `vconsole_write`,
`ESC [ c` after `ESC [ 2 J` appends nothing to the read queue, although no
digit stands between its bracket and its `c`: the local variable `numeric`
still holds the 1 that the digit of the earlier sequence put there.  The same
`ESC [ c` alone in a call appends the seven bytes of the device id. -/
theorem device_id_lost (k : Consts) (s : State) (hlock : s.vc.scrlock = false) :
    (vconsole_write k (with_write_q s [27, 91, 50, 74, 27, 91, 99])).vc.tty.read_q =
      s.vc.tty.read_q ∧
    (vconsole_write k (with_write_q s [27, 91, 99])).vc.tty.read_q =
      s.vc.tty.read_q ++ [27, 91, 63, 49, 59, 50, 99] := by
  constructor
  · rw [vconsole_write_read_q k s _ hlock, feed_J_c, vconsole_write_restore_vc]; rfl
  · rw [vconsole_write_read_q k s _ hlock, feed_c, vconsole_write_restore_vc]; rfl

/-- C7 on the reset console. -/
theorem device_id_lost_witness :
    s0.vc.scrlock = false ∧
    (vconsole_write k0 (with_write_q s0 [27, 91, 50, 74, 27, 91, 99])).vc.tty.read_q = [] ∧
    (vconsole_write k0 (with_write_q s0 [27, 91, 99])).vc.tty.read_q =
      [27, 91, 63, 49, 59, 50, 99] :=
  ⟨rfl, device_id_lost k0 s0 rfl⟩

/-- The parser after `ESC [` and one digit: inside a CSI sequence. -/
theorem open_digit_state (k : Consts) (s : State) (d : Nat) :
    (csi_digit (esc_bracket k (esc_open s)) d).vc.esc = true ∧
    (csi_digit (esc_bracket k (esc_open s)) d).vc.sbracket = true ∧
    (csi_digit (esc_bracket k (esc_open s)) d).vc.scrlock = s.vc.scrlock := by
  unfold csi_digit
  refine ⟨rfl, rfl, rfl⟩

theorem csi_c_unnumbered (k : Consts) (s : State) (he : s.vc.esc = true)
    (hb : s.vc.sbracket = true) :
    (feed k (s, false) [99]).1.vc.tty.read_q = s.vc.tty.read_q ++ VT100ID := by
  rw [feed_cons, feed_nil, body_csi k _ _ _ he hb]
  rfl

/-- C10, the code at the failing input.  The bytes `ESC [ 1 c` written in one
call of `vconsole_write` append nothing to the read queue; written as
`ESC [ 1` in one call and `c` in the next they append the device id, because
the second call starts with `numeric = 0`. -/
theorem split_write_differs (k : Consts) (s : State) (hlock : s.vc.scrlock = false) :
    (vconsole_write k (with_write_q s [27, 91, 49, 99])).vc.tty.read_q = s.vc.tty.read_q ∧
    (vconsole_write k (with_write_q (vconsole_write k (with_write_q s [27, 91, 49])) [99])
      ).vc.tty.read_q = s.vc.tty.read_q ++ [27, 91, 63, 49, 59, 50, 99] := by
  constructor
  · rw [vconsole_write_read_q k s _ hlock, feed_1_c, vconsole_write_restore_vc]; rfl
  · have hR := vconsole_write_restore_vc (with_write_q s [27, 91, 49])
    obtain ⟨p1, p2, p3⟩ := open_digit_state k (vconsole_write_restore (with_write_q s [27, 91, 49])) 49
    obtain ⟨f1, -, -⟩ := open_digit_frame k (vconsole_write_restore (with_write_q s [27, 91, 49])) 49
    have hT : (vconsole_write k (with_write_q s [27, 91, 49])).vc =
        (with_write_q (csi_digit (esc_bracket k (esc_open
          (vconsole_write_restore (with_write_q s [27, 91, 49])))) 49) []).vc := by
      rw [vconsole_write_unlocked k (with_write_q s [27, 91, 49]) hlock, vconsole_write_finish_vc,
        with_write_q_vc_tty, feed_1]
    rw [hR] at p3 f1
    generalize csi_digit (esc_bracket k (esc_open
          (vconsole_write_restore (with_write_q s [27, 91, 49])))) 49 = F at p1 p2 p3 f1 hT
    generalize vconsole_write k (with_write_q s [27, 91, 49]) = T at hT ⊢
    have e1 : T.vc.esc = true := by rw [hT]; exact p1
    have e2 : T.vc.sbracket = true := by rw [hT]; exact p2
    have e3 : T.vc.scrlock = false := by rw [hT]; exact p3.trans hlock
    have e4 : T.vc.tty.read_q = s.vc.tty.read_q := by rw [hT]; exact f1
    have hv2 := vconsole_write_restore_vc (with_write_q T [99])
    rw [vconsole_write_read_q k T _ e3,
      csi_c_unnumbered k _ (by rw [hv2]; exact e1) (by rw [hv2]; exact e2), hv2]
    show T.vc.tty.read_q ++ _ = _
    rw [e4]; rfl

/-- C10 on the reset console. -/
theorem split_write_differs_witness :
    s0.vc.scrlock = false ∧
    (vconsole_write k0 (with_write_q s0 [27, 91, 49, 99])).vc.tty.read_q = [] ∧
    (vconsole_write k0 (with_write_q (vconsole_write k0 (with_write_q s0 [27, 91, 49])) [99])
      ).vc.tty.read_q = [27, 91, 63, 49, 59, 50, 99] :=
  ⟨rfl, split_write_differs k0 s0 rfl⟩

/-! ## C4: the parameter vector -/

/-- Semicolons inside a CSI sequence: each one moves `nparms` on by one, with
no bound, and leaves `parms[]` alone. -/
theorem feed_semicolons (k : Consts) (j : Nat) (s : State) (n : Bool)
    (he : s.vc.esc = true) (hb : s.vc.sbracket = true) :
    (feed k (s, n) (List.replicate j 59)).1.vc.esc = true ∧
    (feed k (s, n) (List.replicate j 59)).1.vc.sbracket = true ∧
    (feed k (s, n) (List.replicate j 59)).1.vc.nparms = s.vc.nparms + j ∧
    (feed k (s, n) (List.replicate j 59)).1.vc.parms = s.vc.parms ∧
    (feed k (s, n) (List.replicate j 59)).1.vc.scrlock = s.vc.scrlock := by
  induction j generalizing s n with
  | zero => exact ⟨he, hb, by simp [feed_nil], rfl, rfl⟩
  | succ j ih =>
    rw [List.replicate_succ, feed_cons, body_csi k s n 59 he hb]
    obtain ⟨i1, i2, i3, i4, i5⟩ := ih (csi k s n 59).1 (csi k s n 59).2 he hb
    refine ⟨i1, i2, ?_, i4, i5⟩
    rw [i3]
    show s.vc.nparms + 1 + (j : Int) = s.vc.nparms + ((j + 1 : Nat) : Int)
    push_cast; ring

/-- The slot that a digit writes is `parms[nparms]`, whatever `nparms` is. -/
theorem csi_digit_slot (s : State) (d : Nat) :
    (csi_digit s d).vc.parms s.vc.nparms =
      wrap32 (wrap32 (s.vc.parms s.vc.nparms * 10) + ((d : Int) - 48)) ∧
    (csi_digit s d).vc.nparms = s.vc.nparms ∧
    (csi_digit s d).vc.esc = s.vc.esc ∧ (csi_digit s d).vc.sbracket = s.vc.sbracket := by
  unfold csi_digit
  by_cases h : s.vc.semicolon = true
  · simp only [if_pos h, if_true]; exact ⟨trivial, trivial, trivial, trivial⟩
  · simp only [if_neg h, if_true]; exact ⟨trivial, trivial, trivial, trivial⟩

theorem ite_color_frame {α : Type} (f : vconsole → α)
    (hf : ∀ (v : vconsole) (c : Nat), f { v with color_attr := c } = f v) (v : vconsole)
    (b : Prop) [Decidable b] (c : Nat) :
    f (if b then { v with color_attr := c } else v) = f v := by
  by_cases h : b
  · rw [if_pos h]; exact hf v c
  · rw [if_neg h]

theorem ite_color_frame2 {α : Type} (f : vconsole → α)
    (hf : ∀ (v : vconsole) (c : Nat), f { v with color_attr := c } = f v) (v : vconsole)
    (b : Prop) [Decidable b] (c d : Nat) :
    f (if b then { v with color_attr := c } else { v with color_attr := d }) = f v := by
  by_cases h : b
  · rw [if_pos h]; exact hf v c
  · rw [if_neg h]; exact hf v d

/-- The last parameter that `csi_m` reads is `parms[nparms - 1]`: when it is 7
the reverse flag is set on return. -/
theorem csi_m_last_reverse (k : Consts) (v : vconsole) (N : Nat)
    (hn : v.nparms = (N : Int) + 1) (hp : v.parms (N : Int) = 7) :
    (csi_m k v).reverse = true := by
  unfold csi_m
  rw [ite_color_frame (fun v => v.reverse) (fun _ _ => rfl),
    ite_color_frame2 (fun v => v.reverse) (fun _ _ => rfl),
    ite_color_frame2 (fun v => v.reverse) (fun _ _ => rfl)]
  have h1 : (if v.reverse = true then { v with color_attr := swap_colors v.color_attr }
      else v).nparms.toNat = N + 1 := by
    rw [ite_color_frame (fun v => v.nparms.toNat) (fun _ _ => rfl), hn]
    omega
  have h2 : (if v.reverse = true then { v with color_attr := swap_colors v.color_attr }
      else v).parms = v.parms := ite_color_frame (fun v => v.parms) (fun _ _ => rfl) _ _ _
  rw [h1, List.range_succ, List.foldl_append, List.foldl_cons, List.foldl_nil,
    csi_m_fold_frame (fun v => v.parms) (fun _ _ _ _ _ _ => rfl), h2, hp]
  rfl

/-! ## C5: the deferred wrap -/

theorem put_chars_append (a b : List Event) :
    put_chars (a ++ b) = put_chars a ++ put_chars b := by
  induction a with
  | nil => rfl
  | cons e a ih => cases e <;> simp [put_chars, ih]

theorem scrolls_append (a b : List Event) : scrolls (a ++ b) = scrolls a + scrolls b := by
  induction a with
  | nil => simp [scrolls]
  | cons e a ih => cases e <;> simp [scrolls, ih]; omega

/-- What the statements about printing observe of a state: the console, the
`put_char` calls and the number of `scroll_screen` calls. -/
theorem obs_restore (s : State) :
    (echo_restore s).vc = s.vc ∧ put_chars (echo_restore s).log = put_chars s.log ∧
    scrolls (echo_restore s).log = scrolls s.log := by
  unfold echo_restore
  refine ite_ind (fun r : State => r.vc = s.vc ∧ put_chars r.log = put_chars s.log ∧
    scrolls r.log = scrolls s.log) _ _ _ ?_ ⟨rfl, rfl, rfl⟩
  refine ⟨rfl, ?_, ?_⟩
  · simp [put_chars_append, put_chars]
  · simp [scrolls_append, scrolls]

theorem obs_vcbuf (k : Consts) (s : State) :
    (echo_vcbuf k s).vc = s.vc ∧ put_chars (echo_vcbuf k s).log = put_chars s.log ∧
    scrolls (echo_vcbuf k s).log = scrolls s.log := by
  unfold echo_vcbuf
  refine ite_ind (fun r : State => r.vc = s.vc ∧ put_chars r.log = put_chars s.log ∧
    scrolls r.log = scrolls s.log) _ _ _ ?_ ⟨rfl, rfl, rfl⟩
  refine ⟨rfl, ?_, ?_⟩
  · simp [put_chars_append, put_chars]
  · simp [scrolls_append, scrolls]

theorem obs_wrestore (s : State) :
    (vconsole_write_restore s).vc = s.vc ∧
    put_chars (vconsole_write_restore s).log = put_chars s.log ∧
    scrolls (vconsole_write_restore s).log = scrolls s.log := by
  unfold vconsole_write_restore
  refine ite_ind (fun r : State => r.vc = s.vc ∧ put_chars r.log = put_chars s.log ∧
    scrolls r.log = scrolls s.log) _ _ _ ?_ ⟨rfl, rfl, rfl⟩
  refine ⟨rfl, ?_, ?_⟩
  · simp [put_chars_append, put_chars]
  · simp [scrolls_append, scrolls]

theorem obs_finish (s : State) (c : Nat) :
    (vconsole_write_finish s c).vc = s.vc ∧
    put_chars (vconsole_write_finish s c).log = put_chars s.log ∧
    scrolls (vconsole_write_finish s c).log = scrolls s.log := by
  refine ⟨vconsole_write_finish_vc s c, ?_, ?_⟩
  · unfold vconsole_write_finish
    refine ite_ind (fun r : State => put_chars r.log = put_chars s.log) _ _ _ ?_ rfl
    simp only [call_log, put_chars_append]
    refine ite_ind (fun r : State => put_chars r.log ++ put_chars [Event.wakeup] =
      put_chars s.log) _ _ _ ?_ ?_ <;> simp [put_chars_append, put_chars]
  · unfold vconsole_write_finish
    refine ite_ind (fun r : State => scrolls r.log = scrolls s.log) _ _ _ ?_ rfl
    simp only [call_log, scrolls_append]
    refine ite_ind (fun r : State => scrolls r.log + scrolls [Event.wakeup] =
      scrolls s.log) _ _ _ ?_ ?_ <;> simp [scrolls_append, scrolls]

/-- A byte printed without a pending wrap, on a row of the scroll region. -/
theorem echo_print_plain (s : State) (b : Nat)
    (hw : ¬ (s.vc.x = s.vc.columns - 1 ∧ s.vc.check_x = true)) (hy : s.vc.y < s.vc.lines) :
    echo_print s b =
      echo_advance (call s (Event.put_char s.vc.x s.vc.y s.vc.color_attr b)) := by
  unfold echo_print echo_wrap
  rw [if_neg hw]
  unfold echo_scroll
  rw [if_neg (by omega)]

theorem echo_advance_obs (s : State) :
    (echo_advance s).vc.x = (if s.vc.x < s.vc.columns - 1 then s.vc.x + 1 else s.vc.x) ∧
    (echo_advance s).vc.check_x = (if s.vc.x < s.vc.columns - 1 then false else true) ∧
    (echo_advance s).vc.y = s.vc.y ∧ (echo_advance s).log = s.log := by
  unfold echo_advance
  by_cases h : s.vc.x < s.vc.columns - 1
  · simp only [if_pos h]; exact ⟨trivial, trivial, trivial, trivial⟩
  · simp only [if_neg h]; exact ⟨trivial, trivial, trivial, trivial⟩

/-- A byte printed without a pending wrap: where it goes and where the cursor
is left. -/
theorem echo_print_plain_obs (s : State) (b : Nat)
    (hw : ¬ (s.vc.x = s.vc.columns - 1 ∧ s.vc.check_x = true)) (hy : s.vc.y < s.vc.lines) :
    (echo_print s b).vc.x = (if s.vc.x < s.vc.columns - 1 then s.vc.x + 1 else s.vc.x) ∧
    (echo_print s b).vc.check_x = (if s.vc.x < s.vc.columns - 1 then false else true) ∧
    (echo_print s b).vc.y = s.vc.y ∧
    (echo_print s b).log = s.log ++ [Event.put_char s.vc.x s.vc.y s.vc.color_attr b] := by
  rw [echo_print_plain s b hw hy]
  exact echo_advance_obs _

/-- A byte printed with a pending wrap, on a console of two columns or more:
it goes to column 0 of the next row, after one `scroll_screen` when that row
is below the scroll region, and the cursor is left in column 1. -/
theorem echo_print_wrap_obs (s : State) (b : Nat)
    (hw : s.vc.x = s.vc.columns - 1 ∧ s.vc.check_x = true) (hc : 2 ≤ s.vc.columns) :
    (echo_print s b).vc.x = 1 ∧ (echo_print s b).vc.check_x = false ∧
    (echo_print s b).vc.y = (if s.vc.y + 1 ≥ s.vc.lines then s.vc.y else s.vc.y + 1) ∧
    (echo_print s b).log = s.log ++
      (if s.vc.y + 1 ≥ s.vc.lines then
        [Event.scroll_screen s.vc.top s.vc.lines 0 Dir.SCROLL_UP,
         Event.put_char 0 s.vc.y s.vc.color_attr b]
       else [Event.put_char 0 (s.vc.y + 1) s.vc.color_attr b]) := by
  unfold echo_print echo_wrap
  rw [if_pos hw]
  have hb : ∀ t : State, (buf_y_incr t).vc = t.vc ∧ (buf_y_incr t).log = t.log := by
    intro t; unfold buf_y_incr
    exact ite_ind (fun r : State => r.vc = t.vc ∧ r.log = t.log) _ _ _ ⟨rfl, rfl⟩ ⟨rfl, rfl⟩
  obtain ⟨b1, b2⟩ := hb { s with vc := { s.vc with x := 0, y := s.vc.y + 1 } }
  generalize buf_y_incr { s with vc := { s.vc with x := 0, y := s.vc.y + 1 } } = T at b1 b2
  obtain ⟨a1, a2, a3, a4⟩ := echo_advance_obs
    (call (echo_scroll T) (Event.put_char (echo_scroll T).vc.x (echo_scroll T).vc.y
      (echo_scroll T).vc.color_attr b))
  simp only []
  rw [a1, a2, a3, a4]
  simp only [call_vc, call_log]
  unfold echo_scroll
  by_cases hy : s.vc.y + 1 ≥ s.vc.lines
  · have hy' : T.vc.y ≥ T.vc.lines := by rw [b1]; exact hy
    simp only [if_pos hy', if_pos hy, call_vc, call_log, b1, b2, List.append_assoc,
      List.singleton_append]
    refine ⟨?_, ?_, ?_, ?_⟩
    · rw [if_pos (by omega)]; rfl
    · rw [if_pos (by omega)]
    · omega
    · rw [show s.vc.y + 1 - 1 = s.vc.y by omega]
  · have hy' : ¬ T.vc.y ≥ T.vc.lines := by rw [b1]; exact hy
    simp only [if_neg hy', if_neg hy, b1, b2]
    refine ⟨?_, ?_, trivial, trivial⟩
    · rw [if_pos (by omega)]; rfl
    · rw [if_pos (by omega)]

/-- A printable byte taken in GROUND goes through `echo_char` to
`echo_print`. -/
theorem body_print (k : Consts) (s : State) (n : Bool) (b : Nat) (he : s.vc.esc = false)
    (hb : printable b) :
    vconsole_write_body k s n b =
      (call (echo_vcbuf k (echo_scroll (echo_print (echo_restore s) b)))
        (Event.update_curpos (echo_vcbuf k (echo_scroll (echo_print (echo_restore s) b))).vc.x
          (echo_vcbuf k (echo_scroll (echo_print (echo_restore s) b))).vc.y), n) := by
  simp only [printable, List.mem_cons, List.mem_singleton, List.not_mem_nil, or_false,
    not_or] at hb
  obtain ⟨h0, h8, h7, h13, h10, h9, h27⟩ := hb
  unfold vconsole_write_body
  rw [if_neg (by simp [he])]
  unfold ground
  rw [if_neg h27]
  unfold echo_char
  simp only [List.foldl_cons, List.foldl_nil]
  unfold echo_byte
  rw [if_neg h0]
  unfold echo_dispatch
  rw [if_neg h8, if_neg h7, if_neg h13, if_neg h10, if_neg h9]

/-- What a printable byte taken in GROUND makes of the state, given what
`echo_print` makes of it, when `echo_print` leaves the cursor on a row of the
scroll region. -/
theorem print_step (k : Consts) (s : State) (n : Bool) (b : Nat) (he : s.vc.esc = false)
    (hb : printable b)
    (hy : (echo_print (echo_restore s) b).vc.y < (echo_print (echo_restore s) b).vc.lines) :
    (vconsole_write_body k s n b).2 = n ∧
    (vconsole_write_body k s n b).1.vc = (echo_print (echo_restore s) b).vc ∧
    put_chars (vconsole_write_body k s n b).1.log =
      put_chars (echo_print (echo_restore s) b).log ∧
    scrolls (vconsole_write_body k s n b).1.log =
      scrolls (echo_print (echo_restore s) b).log := by
  rw [body_print k s n b he hb]
  have hs : echo_scroll (echo_print (echo_restore s) b) = echo_print (echo_restore s) b := by
    unfold echo_scroll; rw [if_neg (by omega)]
  rw [hs]
  obtain ⟨v1, v2, v3⟩ := obs_vcbuf k (echo_print (echo_restore s) b)
  refine ⟨rfl, v1, ?_, ?_⟩
  · simp only [call_log, put_chars_append, v2]; simp [put_chars]
  · simp only [call_log, scrolls_append, v3]; simp [scrolls]

/-- A printable byte taken in GROUND with no wrap pending. -/
theorem step_plain (k : Consts) (s : State) (n : Bool) (b : Nat) (he : s.vc.esc = false)
    (hb : printable b)
    (hw : ¬ (s.vc.x = s.vc.columns - 1 ∧ s.vc.check_x = true)) (hy : s.vc.y < s.vc.lines) :
    (vconsole_write_body k s n b).2 = n ∧
    (vconsole_write_body k s n b).1.vc.x =
      (if s.vc.x < s.vc.columns - 1 then s.vc.x + 1 else s.vc.x) ∧
    (vconsole_write_body k s n b).1.vc.check_x =
      (if s.vc.x < s.vc.columns - 1 then false else true) ∧
    (vconsole_write_body k s n b).1.vc.y = s.vc.y ∧
    put_chars (vconsole_write_body k s n b).1.log = put_chars s.log ++ [(s.vc.x, s.vc.y, b)] ∧
    scrolls (vconsole_write_body k s n b).1.log = scrolls s.log ∧
    (vconsole_write_body k s n b).1.vc.esc = false ∧
    (vconsole_write_body k s n b).1.vc.lines = s.vc.lines ∧
    (vconsole_write_body k s n b).1.vc.columns = s.vc.columns := by
  obtain ⟨r1, r2, r3⟩ := obs_restore s
  have hw' : ¬ ((echo_restore s).vc.x = (echo_restore s).vc.columns - 1 ∧
      (echo_restore s).vc.check_x = true) := by rw [r1]; exact hw
  obtain ⟨o1, o2, o3, o4⟩ := echo_print_plain_obs (echo_restore s) b hw' (by rw [r1]; exact hy)
  have hl : (echo_print (echo_restore s) b).vc.lines = s.vc.lines :=
    (@echo_print_blind _ (fun v => v.lines) (fun _ _ _ _ => rfl) _ _).trans (by rw [r1])
  have hc : (echo_print (echo_restore s) b).vc.columns = s.vc.columns :=
    (@echo_print_blind _ (fun v => v.columns) (fun _ _ _ _ => rfl) _ _).trans (by rw [r1])
  have hesc : (echo_print (echo_restore s) b).vc.esc = false :=
    (@echo_print_blind _ (fun v => v.esc) (fun _ _ _ _ => rfl) _ _).trans (by rw [r1]; exact he)
  obtain ⟨p1, p2, p3, p4⟩ := print_step k s n b he hb (by rw [o3, hl, r1]; exact hy)
  rw [r1] at o1 o2 o3 o4
  refine ⟨p1, ?_, ?_, ?_, ?_, ?_, ?_, ?_, ?_⟩
  · rw [p2, o1]
  · rw [p2, o2]
  · rw [p2, o3]
  · rw [p3, o4, put_chars_append, r2]; rfl
  · rw [p4, o4, scrolls_append, r3]; rfl
  · rw [p2, hesc]
  · rw [p2, hl]
  · rw [p2, hc]

/-- A printable byte taken in GROUND with a wrap pending, on a console of two
columns or more. -/
theorem step_wrap (k : Consts) (s : State) (n : Bool) (b : Nat) (he : s.vc.esc = false)
    (hb : printable b)
    (hw : s.vc.x = s.vc.columns - 1 ∧ s.vc.check_x = true) (hc2 : 2 ≤ s.vc.columns)
    (hy : s.vc.y < s.vc.lines) :
    (vconsole_write_body k s n b).1.vc.x = 1 ∧
    (vconsole_write_body k s n b).1.vc.y =
      (if s.vc.y + 1 = s.vc.lines then s.vc.y else s.vc.y + 1) ∧
    put_chars (vconsole_write_body k s n b).1.log = put_chars s.log ++
      [(0, if s.vc.y + 1 = s.vc.lines then s.vc.y else s.vc.y + 1, b)] ∧
    scrolls (vconsole_write_body k s n b).1.log =
      scrolls s.log + (if s.vc.y + 1 = s.vc.lines then 1 else 0) := by
  obtain ⟨r1, r2, r3⟩ := obs_restore s
  obtain ⟨o1, -, o3, o4⟩ := echo_print_wrap_obs (echo_restore s) b (by rw [r1]; exact hw)
    (by rw [r1]; exact hc2)
  have hl : (echo_print (echo_restore s) b).vc.lines = s.vc.lines :=
    (@echo_print_blind _ (fun v => v.lines) (fun _ _ _ _ => rfl) _ _).trans (by rw [r1])
  rw [r1] at o3 o4
  have hge : (s.vc.y + 1 ≥ s.vc.lines) ↔ (s.vc.y + 1 = s.vc.lines) := by omega
  simp only [hge] at o3 o4
  obtain ⟨-, p2, p3, p4⟩ := print_step k s n b he hb (by
    rw [o3, hl]; split_ifs <;> omega)
  refine ⟨?_, ?_, ?_, ?_⟩
  · rw [p2, o1]
  · rw [p2, o3]
  · rw [p3, o4, put_chars_append, r2]
    split_ifs <;> rfl
  · rw [p4, o4, scrolls_append, r3]
    split_ifs <;> rfl

theorem row_cells_append (x y : Int) (a b : List Nat) :
    row_cells x y (a ++ b) = row_cells x y a ++ row_cells (x + a.length) y b := by
  induction a generalizing x with
  | nil => simp [row_cells]
  | cons c a ih =>
    have e : x + ((c :: a).length : Int) = x + 1 + (a.length : Int) := by
      simp only [List.length_cons, Nat.cast_add, Nat.cast_one]; ring
    rw [e, List.cons_append, row_cells, row_cells, ih (x + 1), List.cons_append]

/-- Printable bytes that stay clear of the last column: one `put_char` each,
left to right on the row of the cursor. -/
theorem feed_row (k : Consts) (q : List Nat) (s : State) (n : Bool) (he : s.vc.esc = false)
    (hq : ∀ b ∈ q, printable b) (hy : s.vc.y < s.vc.lines)
    (hx : s.vc.x + q.length ≤ s.vc.columns - 1) :
    (feed k (s, n) q).2 = n ∧
    (feed k (s, n) q).1.vc.x = s.vc.x + q.length ∧
    (feed k (s, n) q).1.vc.y = s.vc.y ∧
    (q ≠ [] → (feed k (s, n) q).1.vc.check_x = false) ∧
    put_chars (feed k (s, n) q).1.log = put_chars s.log ++ row_cells s.vc.x s.vc.y q ∧
    scrolls (feed k (s, n) q).1.log = scrolls s.log ∧
    (feed k (s, n) q).1.vc.esc = false ∧
    (feed k (s, n) q).1.vc.lines = s.vc.lines ∧
    (feed k (s, n) q).1.vc.columns = s.vc.columns := by
  induction q generalizing s n with
  | nil => simp [feed_nil, row_cells, he]
  | cons b q ih =>
    simp only [List.length_cons, Nat.cast_add, Nat.cast_one] at hx
    have hlt : s.vc.x < s.vc.columns - 1 := by omega
    obtain ⟨t1, t2, t3, t4, t5, t6, t7, t8, t9⟩ := step_plain k s n b he
      (hq b (List.mem_cons_self _ _)) (by omega) hy
    rw [if_pos hlt] at t2 t3
    rw [feed_cons]
    obtain ⟨i1, i2, i3, i4, i5, i6, i7, i8, i9⟩ := ih (vconsole_write_body k s n b).1
      (vconsole_write_body k s n b).2 t7 (fun c hc => hq c (List.mem_cons_of_mem _ hc))
      (by rw [t4, t8]; exact hy) (by rw [t2, t9]; omega)
    refine ⟨i1.trans t1, ?_, ?_, ?_, ?_, ?_, i7, ?_, ?_⟩
    · rw [i2, t2]; simp only [List.length_cons, Nat.cast_add, Nat.cast_one]; ring
    · rw [i3, t4]
    · intro _
      by_cases hq0 : q = []
      · subst hq0; rw [feed_nil]; exact t3
      · exact i4 hq0
    · rw [i5, t5, t2, t4, List.append_assoc]; rfl
    · rw [i6, t6]
    · rw [i8, t8]
    · rw [i9, t9]

/-- A full row of printable bytes from column 0. -/
theorem feed_full_row (k : Consts) (q : List Nat) (s : State) (n : Bool)
    (he : s.vc.esc = false) (hq : ∀ b ∈ q, printable b) (hy : s.vc.y < s.vc.lines)
    (hx : s.vc.x = 0) (hc : 2 ≤ s.vc.columns) (hlen : (q.length : Int) = s.vc.columns) :
    (feed k (s, n) q).2 = n ∧
    (feed k (s, n) q).1.vc.x = s.vc.columns - 1 ∧
    (feed k (s, n) q).1.vc.check_x = true ∧
    (feed k (s, n) q).1.vc.y = s.vc.y ∧
    put_chars (feed k (s, n) q).1.log = put_chars s.log ++ row_cells 0 s.vc.y q ∧
    scrolls (feed k (s, n) q).1.log = scrolls s.log ∧
    (feed k (s, n) q).1.vc.esc = false ∧
    (feed k (s, n) q).1.vc.lines = s.vc.lines ∧
    (feed k (s, n) q).1.vc.columns = s.vc.columns := by
  have hne : q ≠ [] := by
    intro h; subst h; simp at hlen; omega
  have hsplit := List.dropLast_append_getLast hne
  have hla : ((q.dropLast).length : Int) = s.vc.columns - 1 := by
    rw [List.length_dropLast]
    have : 1 ≤ q.length := List.length_pos.mpr hne
    omega
  have hane : q.dropLast ≠ [] := by
    intro h; rw [h] at hla; simp at hla; omega
  generalize q.dropLast = a at hsplit hla hane
  generalize q.getLast hne = c at hsplit
  subst hsplit
  have hqa : ∀ b ∈ a, printable b := fun b hb => hq b (List.mem_append_left _ hb)
  have hqc : printable c := hq c (List.mem_append_right _ (List.mem_singleton_self c))
  obtain ⟨i1, i2, i3, i4, i5, i6, i7, i8, i9⟩ := feed_row k a s n he hqa hy (by rw [hx, hla]; omega)
  rw [feed_append, feed_cons, feed_nil]
  have hnw : ¬ ((feed k (s, n) a).1.vc.x = (feed k (s, n) a).1.vc.columns - 1 ∧
      (feed k (s, n) a).1.vc.check_x = true) := by
    rw [i4 hane]; simp
  obtain ⟨t1, t2, t3, t4, t5, t6, t7, t8, t9⟩ := step_plain k (feed k (s, n) a).1
    (feed k (s, n) a).2 c i7 hqc hnw (by rw [i3, i8]; exact hy)
  have hnl : ¬ ((feed k (s, n) a).1.vc.x < (feed k (s, n) a).1.vc.columns - 1) := by
    rw [i2, i9, hx, hla]; omega
  rw [if_neg hnl] at t2 t3
  refine ⟨t1.trans i1, ?_, t3, ?_, ?_, ?_, t7, ?_, ?_⟩
  · rw [t2, i2, hx, hla]; omega
  · rw [t4, i3]
  · rw [t5, i5, row_cells_append, i2, i3, hx, List.append_assoc]; rfl
  · rw [t6, i6]
  · rw [t8, i8]
  · rw [t9, i9]

/-- A full row of printable bytes from column 0 and one printable byte
more. -/
theorem feed_row_and_one (k : Consts) (q : List Nat) (b : Nat) (s : State) (n : Bool)
    (he : s.vc.esc = false) (hq : ∀ c ∈ q, printable c) (hb : printable b)
    (hy : s.vc.y < s.vc.lines)
    (hx : s.vc.x = 0) (hc : 2 ≤ s.vc.columns) (hlen : (q.length : Int) = s.vc.columns) :
    (feed k (s, n) (q ++ [b])).1.vc.x = 1 ∧
    (feed k (s, n) (q ++ [b])).1.vc.y =
      (if s.vc.y + 1 = s.vc.lines then s.vc.y else s.vc.y + 1) ∧
    put_chars (feed k (s, n) (q ++ [b])).1.log = put_chars s.log ++ row_cells 0 s.vc.y q ++
      [(0, if s.vc.y + 1 = s.vc.lines then s.vc.y else s.vc.y + 1, b)] ∧
    scrolls (feed k (s, n) (q ++ [b])).1.log =
      scrolls s.log + (if s.vc.y + 1 = s.vc.lines then 1 else 0) := by
  obtain ⟨-, i2, i3, i4, i5, i6, i7, i8, i9⟩ := feed_full_row k q s n he hq hy hx hc hlen
  rw [feed_append, feed_cons, feed_nil]
  obtain ⟨t1, t2, t3, t4⟩ := step_wrap k (feed k (s, n) q).1 (feed k (s, n) q).2 b i7 hb
    ⟨by rw [i2, i9], i3⟩ (by rw [i9]; exact hc) (by rw [i4, i8]; exact hy)
  rw [i4, i8] at t2 t3 t4
  exact ⟨t1, t2, by rw [t3, i5], by rw [t4, i6]⟩

/-- C5, amended.  On a console of two columns or more that is in GROUND and
not scroll-locked, with the cursor in column 0 of a row `y < lines`, writing
exactly `columns` printable bytes leaves `x = columns - 1`, `check_x` set and
`y` unchanged, with one `put_char` per byte, left to right on row `y`, and no
`scroll_screen`.  One more printable byte is put in column 0 and leaves the
cursor in column 1: on row `y + 1` with no `scroll_screen` when
`y + 1 < lines`; on row `y` itself, which is `lines - 1`, after exactly one
`scroll_screen`, when `y + 1 = lines`. -/
theorem deferred_wrap (k : Consts) (s : State) (q : List Nat) (b : Nat)
    (hlock : s.vc.scrlock = false) (he : s.vc.esc = false)
    (hc : 2 ≤ s.vc.columns) (hx : s.vc.x = 0) (hy : s.vc.y < s.vc.lines)
    (hq : ∀ c ∈ q, printable c) (hlen : (q.length : Int) = s.vc.columns)
    (hb : printable b) :
    ((vconsole_write k (with_write_q s q)).vc.x = s.vc.columns - 1 ∧
     (vconsole_write k (with_write_q s q)).vc.check_x = true ∧
     (vconsole_write k (with_write_q s q)).vc.y = s.vc.y ∧
     put_chars (vconsole_write k (with_write_q s q)).log =
       put_chars s.log ++ row_cells 0 s.vc.y q ∧
     scrolls (vconsole_write k (with_write_q s q)).log = scrolls s.log) ∧
    ((vconsole_write k (with_write_q s (q ++ [b]))).vc.x = 1 ∧
     (vconsole_write k (with_write_q s (q ++ [b]))).vc.y =
       (if s.vc.y + 1 = s.vc.lines then s.vc.y else s.vc.y + 1) ∧
     put_chars (vconsole_write k (with_write_q s (q ++ [b]))).log =
       put_chars s.log ++ row_cells 0 s.vc.y q ++
         [(0, if s.vc.y + 1 = s.vc.lines then s.vc.y else s.vc.y + 1, b)] ∧
     scrolls (vconsole_write k (with_write_q s (q ++ [b]))).log =
       scrolls s.log + (if s.vc.y + 1 = s.vc.lines then 1 else 0)) := by
  constructor
  · obtain ⟨w1, w2, w3⟩ := obs_wrestore (with_write_q s q)
    obtain ⟨-, i2, i3, i4, i5, i6, -, -, -⟩ := feed_full_row k q
      (vconsole_write_restore (with_write_q s q)) false (by rw [w1]; exact he) hq
      (by rw [w1]; exact hy) (by rw [w1]; exact hx) (by rw [w1]; exact hc)
      (by rw [w1]; exact hlen)
    rw [w1] at i2 i4 i5
    rw [w2] at i5
    rw [w3] at i6
    rw [vconsole_write_unlocked k (with_write_q s q) hlock, with_write_q_vc_tty]
    obtain ⟨f1, f2, f3⟩ := obs_finish
      (with_write_q (feed k (vconsole_write_restore (with_write_q s q), false) q).1 [])
      (q.getLastD 0)
    rw [f1, f2, f3]
    exact ⟨i2, i3, i4, i5, i6⟩
  · obtain ⟨w1, w2, w3⟩ := obs_wrestore (with_write_q s (q ++ [b]))
    obtain ⟨i1, i2, i3, i4⟩ := feed_row_and_one k q b
      (vconsole_write_restore (with_write_q s (q ++ [b]))) false (by rw [w1]; exact he) hq hb
      (by rw [w1]; exact hy) (by rw [w1]; exact hx) (by rw [w1]; exact hc)
      (by rw [w1]; exact hlen)
    rw [w1] at i2 i3 i4
    rw [w2] at i3
    rw [w3] at i4
    rw [vconsole_write_unlocked k (with_write_q s (q ++ [b])) hlock, with_write_q_vc_tty]
    obtain ⟨f1, f2, f3⟩ := obs_finish
      (with_write_q (feed k (vconsole_write_restore (with_write_q s (q ++ [b])), false)
        (q ++ [b])).1 []) ((q ++ [b]).getLastD 0)
    rw [f1, f2, f3]
    exact ⟨i1, i2, i3, i4⟩

/-- C5 fails as stated on the last row of the scroll region: after 80
printable bytes from column 0 of row 24 of an 80x25 console, the 81st leaves
the cursor in column 1 of row 24, after one scroll, and not on row 25. -/
theorem wrap_on_last_row :
    (with_cursor s0 0 24).vc.columns = 80 ∧ (with_cursor s0 0 24).vc.lines = 25 ∧
    (vconsole_write k0 (with_write_q (with_cursor s0 0 24) (List.replicate 80 65))).vc.y = 24 ∧
    (vconsole_write k0 (with_write_q (with_cursor s0 0 24) (List.replicate 81 65))).vc.x = 1 ∧
    (vconsole_write k0 (with_write_q (with_cursor s0 0 24) (List.replicate 81 65))).vc.y = 24 ∧
    (vconsole_write k0 (with_write_q (with_cursor s0 0 24) (List.replicate 81 65))).vc.y ≠
      24 + 1 := by
  decide

/-- The amended C5 on the reset 80x25 console: 80 bytes `A` leave the cursor
in column 79 of row 0, and a byte `B` after them leaves it in column 1 of
row 1. -/
theorem deferred_wrap_witness :
    (s0.vc.scrlock = false ∧ s0.vc.esc = false ∧ 2 ≤ s0.vc.columns ∧ s0.vc.x = 0 ∧
      s0.vc.y < s0.vc.lines) ∧
    (vconsole_write k0 (with_write_q s0 (List.replicate 80 65))).vc.x = 79 ∧
    (vconsole_write k0 (with_write_q s0 (List.replicate 80 65))).vc.check_x = true ∧
    (vconsole_write k0 (with_write_q s0 (List.replicate 80 65 ++ [66]))).vc.x = 1 ∧
    (vconsole_write k0 (with_write_q s0 (List.replicate 80 65 ++ [66]))).vc.y = 1 :=
  ⟨by decide,
   (deferred_wrap k0 s0 (List.replicate 80 65) 66 rfl rfl (by decide) rfl (by decide)
     (by decide) (by decide) (by decide)).1.1,
   (deferred_wrap k0 s0 (List.replicate 80 65) 66 rfl rfl (by decide) rfl (by decide)
     (by decide) (by decide) (by decide)).1.2.1,
   (deferred_wrap k0 s0 (List.replicate 80 65) 66 rfl rfl (by decide) rfl (by decide)
     (by decide) (by decide) (by decide)).2.1,
   (deferred_wrap k0 s0 (List.replicate 80 65) 66 rfl rfl (by decide) rfl (by decide)
     (by decide) (by decide) (by decide)).2.2.1⟩

/-! ## C6: what cancels the deferred wrap -/

/-- A byte other than NUL and ESC taken in GROUND goes through `echo_char`
to the `if` chain over the byte. -/
theorem body_echo (k : Consts) (s : State) (n : Bool) (ch : Nat) (he : s.vc.esc = false)
    (h0 : ch ≠ 0) (h27 : ch ≠ 27) :
    vconsole_write_body k s n ch =
      (call (echo_vcbuf k (echo_scroll (echo_dispatch (echo_restore s) ch)))
        (Event.update_curpos (echo_vcbuf k (echo_scroll (echo_dispatch (echo_restore s) ch))).vc.x
          (echo_vcbuf k (echo_scroll (echo_dispatch (echo_restore s) ch))).vc.y), n) := by
  unfold vconsole_write_body
  rw [if_neg (by simp [he])]
  unfold ground
  rw [if_neg h27]
  unfold echo_char
  simp only [List.foldl_cons, List.foldl_nil]
  unfold echo_byte
  rw [if_neg h0]

theorem buf_y_incr_log (s : State) : (buf_y_incr s).log = s.log := by
  unfold buf_y_incr
  exact ite_ind (fun r : State => r.log = s.log) _ _ _ rfl rfl

theorem is_numeric_range (b : Nat) (h : IS_NUMERIC b = true) : 48 ≤ b ∧ b ≤ 57 := by
  simpa [IS_NUMERIC] using h

theorem digit_val_nil (v : Int) : digit_val v [] = v := rfl

theorem digit_val_cons (v : Int) (d : Nat) (ds : List Nat) :
    digit_val v (d :: ds) = digit_val (v * 10 + ((d : Int) - 48)) ds := rfl

theorem digit_val_mono (ds : List Nat) (v : Int) (hv : 0 ≤ v)
    (hd : ∀ b ∈ ds, IS_NUMERIC b = true) : v ≤ digit_val v ds := by
  induction ds generalizing v with
  | nil => exact le_refl _
  | cons d ds ih =>
    rw [digit_val_cons]
    have hr := is_numeric_range d (hd d (List.mem_cons_self _ _))
    have := ih (v * 10 + ((d : Int) - 48)) (by omega)
      (fun b hb => hd b (List.mem_cons_of_mem _ hb))
    omega

/-- What one digit makes of the two parameter values. -/
theorem csi_digit_parm (s : State) (ch : Nat) :
    (csi_digit s ch).vc.semicolon = s.vc.semicolon ∧
    (csi_digit s ch).video = s.video ∧ (csi_digit s ch).log = s.log ∧
    (s.vc.semicolon = false →
      (csi_digit s ch).vc.parmv1 = wrap32 (wrap32 (s.vc.parmv1 * 10) + ((ch : Int) - 48)) ∧
      (csi_digit s ch).vc.parmv2 = s.vc.parmv2) ∧
    (s.vc.semicolon = true →
      (csi_digit s ch).vc.parmv2 = wrap32 (wrap32 (s.vc.parmv2 * 10) + ((ch : Int) - 48)) ∧
      (csi_digit s ch).vc.parmv1 = s.vc.parmv1) := by
  unfold csi_digit
  by_cases h : s.vc.semicolon = true
  · simp only [if_pos h]
    exact ⟨by trivial, by trivial, by trivial, fun h2 => absurd h (by simp [h2]),
      fun _ => ⟨by trivial, by trivial⟩⟩
  · simp only [if_neg h]
    exact ⟨by trivial, by trivial, by trivial, fun _ => ⟨by trivial, by trivial⟩,
      fun h2 => absurd h2 h⟩

theorem csi_digit_slot_val (s : State) (ch : Nat) :
    parm_slot (csi_digit s ch).vc = wrap32 (wrap32 (parm_slot s.vc * 10) + ((ch : Int) - 48)) ∧
    parm_other (csi_digit s ch).vc = parm_other s.vc := by
  obtain ⟨h1, -, -, h4, h5⟩ := csi_digit_parm s ch
  unfold parm_slot parm_other
  rw [h1]
  by_cases h : s.vc.semicolon = true
  · obtain ⟨a, b⟩ := h5 h
    rw [if_pos h, if_pos h, if_pos h, if_pos h]; exact ⟨a, b⟩
  · have h' : s.vc.semicolon = false := by simpa using h
    obtain ⟨a, b⟩ := h4 h'
    rw [if_neg h, if_neg h, if_neg h, if_neg h]; exact ⟨a, b⟩

/-- Digits inside a CSI sequence accumulate into the current parameter, as
long as its value stays below 2^31, and change nothing else that the case
`r` looks at. -/
theorem feed_digits (k : Consts) (ds : List Nat) (s : State) (n : Bool)
    (hd : ∀ b ∈ ds, IS_NUMERIC b = true)
    (he : s.vc.esc = true) (hb : s.vc.sbracket = true)
    (h0 : 0 ≤ parm_slot s.vc) (hmax : digit_val (parm_slot s.vc) ds < 2147483648) :
    (feed k (s, n) ds).1.vc.esc = true ∧ (feed k (s, n) ds).1.vc.sbracket = true ∧
    (feed k (s, n) ds).1.vc.semicolon = s.vc.semicolon ∧
    geo (feed k (s, n) ds).1.vc = geo s.vc ∧
    (feed k (s, n) ds).1.video = s.video ∧
    (feed k (s, n) ds).1.log = s.log ∧
    parm_slot (feed k (s, n) ds).1.vc = digit_val (parm_slot s.vc) ds ∧
    parm_other (feed k (s, n) ds).1.vc = parm_other s.vc := by
  induction ds generalizing s n with
  | nil => exact ⟨he, hb, rfl, rfl, rfl, rfl, rfl, rfl⟩
  | cons d ds ih =>
    have hdd := hd d (List.mem_cons_self _ _)
    have hr := is_numeric_range d hdd
    have hbody : vconsole_write_body k s n d = (csi_digit s d, true) := by
      rw [body_csi k s n d he hb]; unfold csi; rw [if_pos hdd]
    rw [feed_cons, hbody]
    obtain ⟨c1, c2, c3, -, -⟩ := csi_digit_parm s d
    obtain ⟨v1, v2⟩ := csi_digit_slot_val s d
    rw [digit_val_cons] at hmax
    have hmono := digit_val_mono ds (parm_slot s.vc * 10 + ((d : Int) - 48)) (by omega)
      (fun b hb => hd b (List.mem_cons_of_mem _ hb))
    have hw : wrap32 (wrap32 (parm_slot s.vc * 10) + ((d : Int) - 48)) =
        parm_slot s.vc * 10 + ((d : Int) - 48) := by
      rw [wrap32_id (parm_slot s.vc * 10) (by omega) (by omega)]
      exact wrap32_id _ (by omega) (by omega)
    rw [hw] at v1
    obtain ⟨i1, i2, i3, i4, i5, i6, i7, i8⟩ := ih (csi_digit s d) true
      (fun b hb => hd b (List.mem_cons_of_mem _ hb))
      ((csi_digit_slot s d).2.2.1.trans he) ((csi_digit_slot s d).2.2.2.trans hb)
      (by rw [v1]; omega) (by rw [v1]; exact hmax)
    refine ⟨i1, i2, i3.trans c1, i4.trans (csi_digit_calm calm_geo s d), i5.trans c2,
      i6.trans c3, ?_, i8.trans v2⟩
    rw [i7, v1, digit_val_cons]

theorem region_set_congr (s s1 r : State) (a b : Int) (hg : geo s1.vc = geo s.vc)
    (hv : s1.video.lines = s.video.lines) (h : region_set s1 r a b) : region_set s r a b := by
  simp only [geo, Prod.mk.injEq] at hg
  obtain ⟨g1, g2, -, g4, g5, -⟩ := hg
  unfold region_set at h ⊢
  rw [hv, g1, g2, g4, g5] at h
  exact h

/-- The case `r` on its own. -/
theorem csi_r_after (S : State) (hc : 1 ≤ S.vc.columns) (hp : 0 ≤ S.vc.parmv1)
    (hp2 : S.vc.parmv1 < 2147483648) :
    region_set S (csi_r S) (region_a S.vc.parmv1) (region_b S.video.lines S.vc.parmv2) := by
  have ea : (if S.vc.parmv1 = 0 then S.vc.parmv1 + 1 else S.vc.parmv1) =
      region_a S.vc.parmv1 := by
    unfold region_a; split_ifs <;> omega
  have ha : 1 ≤ region_a S.vc.parmv1 ∧ region_a S.vc.parmv1 < 2147483648 := by
    unfold region_a; split_ifs <;> omega
  have eb : (if S.vc.parmv2 = 0 then S.video.lines else S.vc.parmv2) =
      region_b S.video.lines S.vc.parmv2 := rfl
  unfold csi_r
  simp only []
  rw [ea, eb]
  generalize region_a S.vc.parmv1 = a at ha ⊢
  generalize region_b S.video.lines S.vc.parmv2 = b
  unfold region_set
  by_cases h : a < b ∧ b ≤ S.video.lines
  · rw [if_pos h]
    refine ⟨fun _ => ?_, fun h2 => absurd h h2⟩
    simp only [adjust]
    rw [wrap32_id (a - 1) (by omega) (by omega)]
    refine ⟨by trivial, by trivial, ?_, ?_⟩
    · split_ifs <;> omega
    · split_ifs <;> omega
  · rw [if_neg h]
    exact ⟨fun h2 => absurd h2 h, fun _ => ⟨rfl, rfl, rfl, rfl⟩⟩

theorem body_r (k : Consts) (S : State) (n : Bool) (he : S.vc.esc = true)
    (hb : S.vc.sbracket = true) : (vconsole_write_body k S n 114).1 = CSE (csi_r S) := by
  rw [body_csi k S n 114 he hb, csi_table_hit k S n 114 (csi_r S) (by simp [csi_table])]

theorem region_set_CSE (s r : State) (a b : Int) (h : region_set s r a b) :
    region_set s (CSE r) a b := h

/-- The sequence `ESC [ da r`: the second parameter is missing. -/
theorem feed_region_one (k : Consts) (s : State) (n : Bool) (da : List Nat)
    (hda : ∀ c ∈ da, IS_NUMERIC c = true) (ha : digit_val 0 da < 2147483648)
    (hc : 1 ≤ s.vc.columns) :
    region_set s (feed k (s, n) (csi_seq da 114)).1
      (region_a (digit_val 0 da)) s.video.lines := by
  have e : csi_seq da 114 = 27 :: 91 :: (da ++ [114]) := by simp [csi_seq]
  rw [e, feed_csi_open, feed_append, feed_cons, feed_nil]
  obtain ⟨i1, i2, i3, i4, i5, -, i7, i8⟩ := feed_digits k da (esc_bracket k (esc_open s)) n hda
    rfl rfl (le_refl _) ha
  have hs : (feed k (esc_bracket k (esc_open s), n) da).1.vc.semicolon = false := i3
  have p1 : (feed k (esc_bracket k (esc_open s), n) da).1.vc.parmv1 = digit_val 0 da := by
    have := i7; unfold parm_slot at this; rw [hs] at this; exact this
  have p2 : (feed k (esc_bracket k (esc_open s), n) da).1.vc.parmv2 = 0 := by
    have := i8; unfold parm_other at this; rw [hs] at this; exact this
  have hmono := digit_val_mono da 0 (le_refl _) hda
  rw [body_r k _ _ i1 i2]
  refine region_set_CSE _ _ _ _ (region_set_congr s _ _ _ _ i4 (congrArg video_parms.lines i5) ?_)
  have hcol : (feed k (esc_bracket k (esc_open s), n) da).1.vc.columns = s.vc.columns := by
    have := i4; simp only [geo, Prod.mk.injEq] at this; exact this.2.2.2.2.2
  have h := csi_r_after (feed k (esc_bracket k (esc_open s), n) da).1 (by rw [hcol]; exact hc)
    (by rw [p1]; exact hmono) (by rw [p1]; exact ha)
  have hrb : region_b (feed k (esc_bracket k (esc_open s), n) da).1.video.lines 0 =
      s.video.lines := by
    unfold region_b; rw [if_pos rfl]; exact congrArg video_parms.lines i5
  rw [p1, p2, hrb] at h
  exact h

/-- The sequence `ESC [ da ; db r`. -/
theorem feed_region_two (k : Consts) (s : State) (n : Bool) (da db : List Nat)
    (hda : ∀ c ∈ da, IS_NUMERIC c = true) (hdb : ∀ c ∈ db, IS_NUMERIC c = true)
    (ha : digit_val 0 da < 2147483648) (hb : digit_val 0 db < 2147483648)
    (hc : 1 ≤ s.vc.columns) :
    region_set s (feed k (s, n) (csi_seq (da ++ [59] ++ db) 114)).1
      (region_a (digit_val 0 da)) (region_b s.video.lines (digit_val 0 db)) := by
  have e : csi_seq (da ++ [59] ++ db) 114 = 27 :: 91 :: (da ++ (59 :: (db ++ [114]))) := by
    simp [csi_seq]
  rw [e, feed_csi_open, feed_append, feed_cons]
  obtain ⟨i1, i2, i3, i4, i5, -, i7, i8⟩ := feed_digits k da (esc_bracket k (esc_open s)) n hda
    rfl rfl (le_refl _) ha
  have hs : (feed k (esc_bracket k (esc_open s), n) da).1.vc.semicolon = false := i3
  have p1 : (feed k (esc_bracket k (esc_open s), n) da).1.vc.parmv1 = digit_val 0 da := by
    have := i7; unfold parm_slot at this; rw [hs] at this; exact this
  generalize feed k (esc_bracket k (esc_open s), n) da = P at i1 i2 i4 i5 p1 ⊢
  have hsemi : vconsole_write_body k P.1 P.2 59 = (csi_semicolon P.1, P.2) := by
    rw [body_csi k P.1 P.2 59 i1 i2]; rfl
  rw [hsemi, feed_append, feed_cons, feed_nil]
  obtain ⟨j1, j2, j3, j4, j5, -, j7, j8⟩ := feed_digits k db (csi_semicolon P.1) P.2 hdb
    i1 i2 (le_refl _) hb
  have hs2 : (feed k (csi_semicolon P.1, P.2) db).1.vc.semicolon = true := j3
  have q2 : (feed k (csi_semicolon P.1, P.2) db).1.vc.parmv2 = digit_val 0 db := by
    have := j7; unfold parm_slot at this; rw [hs2] at this; exact this
  have q1 : (feed k (csi_semicolon P.1, P.2) db).1.vc.parmv1 = digit_val 0 da := by
    have := j8; unfold parm_other at this; rw [hs2] at this; exact this.trans p1
  have hmono := digit_val_mono da 0 (le_refl _) hda
  have hg : geo (feed k (csi_semicolon P.1, P.2) db).1.vc = geo s.vc :=
    j4.trans ((csi_semicolon_calm calm_geo P.1).trans i4)
  have hv : (feed k (csi_semicolon P.1, P.2) db).1.video.lines = s.video.lines :=
    (congrArg video_parms.lines j5).trans (congrArg video_parms.lines i5)
  rw [body_r k _ _ j1 j2]
  refine region_set_CSE _ _ _ _ (region_set_congr s _ _ _ _ hg hv ?_)
  have hcol : (feed k (csi_semicolon P.1, P.2) db).1.vc.columns = s.vc.columns := by
    have := hg; simp only [geo, Prod.mk.injEq] at this; exact this.2.2.2.2.2
  have h := csi_r_after (feed k (csi_semicolon P.1, P.2) db).1 (by rw [hcol]; exact hc)
    (by rw [q1]; exact hmono) (by rw [q1]; exact ha)
  rw [q1, q2, hv] at h
  exact h

theorem restore_video_lines (s : State) :
    (vconsole_write_restore s).video.lines = s.video.lines := by
  unfold vconsole_write_restore
  exact ite_ind (fun r : State => r.video.lines = s.video.lines) _ _ _ rfl rfl

/-- The cursor, the deferred-wrap flag and the geometry after a call of
`vconsole_write` on a console that is not scroll-locked. -/
theorem vconsole_write_geo (k : Consts) (s : State) (q : List Nat)
    (hlock : s.vc.scrlock = false) :
    geo (vconsole_write k (with_write_q s q)).vc =
      geo (feed k (vconsole_write_restore (with_write_q s q), false) q).1.vc := by
  rw [vconsole_write_unlocked k (with_write_q s q) hlock, vconsole_write_finish_vc,
    with_write_q_vc_tty]
  rfl

theorem region_set_write (k : Consts) (s : State) (q : List Nat) (a b : Int)
    (hlock : s.vc.scrlock = false)
    (h : region_set (vconsole_write_restore (with_write_q s q))
      (feed k (vconsole_write_restore (with_write_q s q), false) q).1 a b) :
    region_set s (vconsole_write k (with_write_q s q)) a b := by
  have hg := vconsole_write_geo k s q hlock
  have h1 := region_set_congr s _ _ a b
    (by rw [vconsole_write_restore_vc]; rfl) (restore_video_lines (with_write_q s q)) h
  simp only [geo, Prod.mk.injEq] at hg
  obtain ⟨g1, g2, -, g4, g5, -⟩ := hg
  unfold region_set at h1 ⊢
  rw [g1, g2, g4, g5]
  exact h1

/-- Scroll-region setting while no parameter wraps.  `da` and `db` are the digit bytes of the
two parameters, either of them possibly empty, each with a value below 2^31,
on a console with at least one column.  With `a` the value of `da`, a missing
or zero `a` taken as 1, and `b` the value of `db`, a missing or zero `b`
taken as `video.lines`: after `ESC [ da ; db r`, if `a < b ≤ video.lines`
then `top = a - 1`, `lines = b` and the cursor is `(0, 0)`, otherwise `top`,
`lines`, `x` and `y` are as before.  The same holds for `ESC [ da r`, where
`b` is missing.  Both are stated for the loop body run over the bytes, from
any state of the parser, and for a call of `vconsole_write` on a console that
is not scroll-locked. -/
theorem scroll_region_small (k : Consts) (s : State) (n : Bool) (da db : List Nat)
    (hda : ∀ c ∈ da, IS_NUMERIC c = true) (hdb : ∀ c ∈ db, IS_NUMERIC c = true)
    (ha : digit_val 0 da < 2147483648) (hb : digit_val 0 db < 2147483648)
    (hc : 1 ≤ s.vc.columns) :
    region_set s (feed k (s, n) (csi_seq (da ++ [59] ++ db) 114)).1
      (region_a (digit_val 0 da)) (region_b s.video.lines (digit_val 0 db)) ∧
    region_set s (feed k (s, n) (csi_seq da 114)).1 (region_a (digit_val 0 da)) s.video.lines ∧
    (s.vc.scrlock = false →
      region_set s (vconsole_write k (with_write_q s (csi_seq (da ++ [59] ++ db) 114)))
        (region_a (digit_val 0 da)) (region_b s.video.lines (digit_val 0 db)) ∧
      region_set s (vconsole_write k (with_write_q s (csi_seq da 114)))
        (region_a (digit_val 0 da)) s.video.lines) := by
  refine ⟨feed_region_two k s n da db hda hdb ha hb hc, feed_region_one k s n da hda ha hc, ?_⟩
  intro hlock
  constructor
  · refine region_set_write k s _ _ _ hlock ?_
    have h := feed_region_two k (vconsole_write_restore
      (with_write_q s (csi_seq (da ++ [59] ++ db) 114))) false da db hda hdb ha hb
      (by rw [vconsole_write_restore_vc]; exact hc)
    rw [restore_video_lines] at h
    exact h
  · refine region_set_write k s _ _ _ hlock ?_
    have h := feed_region_one k (vconsole_write_restore
      (with_write_q s (csi_seq da 114))) false da hda ha
      (by rw [vconsole_write_restore_vc]; exact hc)
    rw [restore_video_lines] at h
    exact h

/-- C12 fails as stated.  On the reset 80x25 console the input
`ESC [ 4 ; 10 r ESC [ H A LF B LF C` sets the region `top = 3`, `lines = 10`,
and the glyphs `A`, `B`, `C` are put on rows 0, 1 and 2, which lie outside
the rows 3 to 9: `ESC [ H` homes the cursor to row 0, not to row `top`. -/
theorem region_home_row0 :
    (vconsole_write k0 (with_write_q s0
      [27, 91, 52, 59, 49, 48, 114, 27, 91, 72, 65, 10, 66, 10, 67])).vc.top = 3 ∧
    (vconsole_write k0 (with_write_q s0
      [27, 91, 52, 59, 49, 48, 114, 27, 91, 72, 65, 10, 66, 10, 67])).vc.lines = 10 ∧
    put_chars (vconsole_write k0 (with_write_q s0
      [27, 91, 52, 59, 49, 48, 114, 27, 91, 72, 65, 10, 66, 10, 67])).log =
      [(0, 0, 65), (0, 1, 66), (0, 2, 67)] ∧
    cell_writes (vconsole_write k0 (with_write_q s0
      [27, 91, 52, 59, 49, 48, 114, 27, 91, 72, 65, 10, 66, 10, 67])).log =
      [Event.put_char 0 0 0x0700 65, Event.put_char 0 1 0x0700 66,
       Event.put_char 0 2 0x0700 67] := by
  decide

/-! ## C12: where text is written once a scroll region is set -/

theorem extends_refl (P : Event → Prop) (l : List Event) : Extends P l l :=
  ⟨[], (List.append_nil l).symm, fun _ h => absurd h (List.not_mem_nil _)⟩

theorem extends_trans (P : Event → Prop) (a b c : List Event) (h1 : Extends P a b)
    (h2 : Extends P b c) : Extends P a c := by
  obtain ⟨l1, e1, p1⟩ := h1
  obtain ⟨l2, e2, p2⟩ := h2
  refine ⟨l1 ++ l2, by rw [e2, e1, List.append_assoc], ?_⟩
  intro e he
  rcases List.mem_append.mp he with h | h
  · exact p1 e h
  · exact p2 e h

theorem extends_call (P : Event → Prop) (s : State) (e : Event) (h : P e) :
    Extends P s.log (call s e).log :=
  ⟨[e], rfl, fun x hx => by rw [List.mem_singleton.mp hx]; exact h⟩

theorem extends_eq (P : Event → Prop) (a b : List Event) (h : b = a) : Extends P a b := by
  rw [h]; exact extends_refl P a

theorem region_blind : CursorBlind region := fun _ _ _ _ => rfl

theorem echo_restore_ext (T L C : Int) (s : State) :
    Extends (region_event T L C) s.log (echo_restore s).log := by
  unfold echo_restore
  refine ite_ind (fun r : State => Extends (region_event T L C) s.log r.log) _ _ _ ?_
    (extends_refl _ _)
  exact ⟨[Event.restore_screen, Event.show_cursor CursorMode.ON],
    by simp [call], fun e he => by
      simp only [List.mem_cons, List.mem_singleton, List.not_mem_nil, or_false] at he
      rcases he with rfl | rfl <;> trivial⟩

theorem echo_vcbuf_ext (T L C : Int) (k : Consts) (s : State) :
    Extends (region_event T L C) s.log (echo_vcbuf k s).log := by
  unfold echo_vcbuf
  refine ite_ind (fun r : State => Extends (region_event T L C) s.log r.log) _ _ _ ?_
    (extends_refl _ _)
  exact ⟨[Event.vcbuf_scroll_up], rfl, fun e he => by
    rw [List.mem_singleton.mp he]; trivial⟩

theorem echo_scroll_ext (s : State) :
    Extends (region_event s.vc.top s.vc.lines s.vc.columns) s.log (echo_scroll s).log := by
  unfold echo_scroll
  refine ite_ind (fun r : State =>
    Extends (region_event s.vc.top s.vc.lines s.vc.columns) s.log r.log) _ _ _ ?_
    (extends_refl _ _)
  exact ⟨[Event.scroll_screen s.vc.top s.vc.lines 0 Dir.SCROLL_UP], rfl, fun e he => by
    rw [List.mem_singleton.mp he]; exact ⟨rfl, rfl, rfl, rfl⟩⟩

theorem echo_wrap_log (s : State) : (echo_wrap s).log = s.log := by
  unfold echo_wrap
  refine ite_ind (fun r : State => r.log = s.log) _ _ _ ?_ rfl
  beta_reduce
  rw [buf_y_incr_log]

theorem echo_advance_log (s : State) : (echo_advance s).log = s.log := by
  unfold echo_advance
  exact ite_ind (fun r : State => r.log = s.log) _ _ _ rfl rfl

/-- A byte that is put on the screen, from a state that satisfies
invariant 3, is put inside the columns on a row above `lines`. -/
theorem echo_print_ext (s : State) (ch : Nat) (h : Inv3 s.vc) :
    Extends (region_event s.vc.top s.vc.lines s.vc.columns) s.log (echo_print s ch).log := by
  have hw := echo_wrap_below s h
  have hr : region (echo_wrap s).vc = region s.vc := echo_wrap_blind region_blind s
  have hs := echo_scroll_inv3 _ hw
  have hr2 : region (echo_scroll (echo_wrap s)).vc = region s.vc :=
    (echo_scroll_blind region_blind _).trans hr
  have e1 := echo_scroll_ext (echo_wrap s)
  simp only [region, Prod.mk.injEq] at hr hr2
  rw [hr.1, hr.2.1, hr.2.2, echo_wrap_log] at e1
  unfold echo_print
  simp only []
  rw [echo_advance_log]
  refine extends_trans _ _ _ _ e1 (extends_call _ _ _ ?_)
  unfold Inv3 at hs
  rw [hr2.2.1, hr2.2.2] at hs
  exact ⟨hs.1, hs.2.1, hs.2.2.1, hs.2.2.2.1⟩

theorem echo_dispatch_ext (s : State) (ch : Nat) (h : Inv3 s.vc) :
    Extends (region_event s.vc.top s.vc.lines s.vc.columns) s.log (echo_dispatch s ch).log := by
  unfold echo_dispatch
  refine ite_ind (fun r : State =>
    Extends (region_event s.vc.top s.vc.lines s.vc.columns) s.log r.log) _ _ _ ?_ ?_
  · unfold echo_bs
    exact ite_ind (fun r : State =>
      Extends (region_event s.vc.top s.vc.lines s.vc.columns) s.log r.log) _ _ _
      (extends_refl _ _) (extends_refl _ _)
  refine ite_ind (fun r : State =>
    Extends (region_event s.vc.top s.vc.lines s.vc.columns) s.log r.log) _ _ _ ?_ ?_
  · exact extends_call _ _ _ trivial
  refine ite_ind (fun r : State =>
    Extends (region_event s.vc.top s.vc.lines s.vc.columns) s.log r.log) _ _ _ ?_ ?_
  · exact extends_refl _ _
  refine ite_ind (fun r : State =>
    Extends (region_event s.vc.top s.vc.lines s.vc.columns) s.log r.log) _ _ _ ?_ ?_
  · unfold echo_lf
    beta_reduce
    rw [buf_y_incr_log]; exact extends_refl _ _
  refine ite_ind (fun r : State =>
    Extends (region_event s.vc.top s.vc.lines s.vc.columns) s.log r.log) _ _ _ ?_ ?_
  · exact extends_refl _ _
  · exact echo_print_ext s ch h

/-- A byte other than ESC taken in GROUND, from a state that satisfies
invariant 3, changes cells only by glyphs put above `lines` and by scrolls
of the region, and leaves invariant 3, the region and GROUND in place. -/
theorem text_step (k : Consts) (s : State) (n : Bool) (b : Nat) (he : s.vc.esc = false)
    (hb : b ≠ 27) (h : Inv3 s.vc) :
    Extends (region_event s.vc.top s.vc.lines s.vc.columns) s.log
      (vconsole_write_body k s n b).1.log ∧
    Inv3 (vconsole_write_body k s n b).1.vc ∧
    region (vconsole_write_body k s n b).1.vc = region s.vc ∧
    (vconsole_write_body k s n b).1.vc.esc = false := by
  have hbody : vconsole_write_body k s n b = (echo_char k s [b], n) := by
    unfold vconsole_write_body
    rw [if_neg (by simp [he])]
    unfold ground
    rw [if_neg hb]
  rw [hbody]
  refine ⟨?_, echo_char_inv3 k s b h, echo_char_blind region_blind k s [b],
    (@echo_char_blind _ (fun v : vconsole => v.esc) (fun _ _ _ _ => rfl) k s [b]).trans he⟩
  unfold echo_char
  simp only [List.foldl_cons, List.foldl_nil]
  refine extends_trans _ _ _ _ ?_ (extends_call _ _ _ trivial)
  refine extends_trans _ _ _ _ (echo_restore_ext _ _ _ s) ?_
  have hv := echo_restore_vc s
  generalize echo_restore s = S at hv ⊢
  rw [← hv] at h ⊢
  unfold echo_byte
  refine ite_ind (fun r : State =>
    Extends (region_event S.vc.top S.vc.lines S.vc.columns) S.log r.log) _ _ _
    (extends_refl _ _) ?_
  beta_reduce
  refine extends_trans _ _ _ _ (echo_dispatch_ext S b h) ?_
  have hr : region (echo_dispatch S b).vc = region S.vc := echo_dispatch_blind region_blind S b
  simp only [region, Prod.mk.injEq] at hr
  have e2 := echo_scroll_ext (echo_dispatch S b)
  rw [hr.1, hr.2.1, hr.2.2] at e2
  exact extends_trans _ _ _ _ e2 (echo_vcbuf_ext _ _ _ k _)

/-- A run of bytes without ESC. -/
theorem text_feed (k : Consts) (q : List Nat) (s : State) (n : Bool) (he : s.vc.esc = false)
    (hq : 27 ∉ q) (h : Inv3 s.vc) :
    Extends (region_event s.vc.top s.vc.lines s.vc.columns) s.log (feed k (s, n) q).1.log ∧
    Inv3 (feed k (s, n) q).1.vc ∧
    region (feed k (s, n) q).1.vc = region s.vc ∧
    (feed k (s, n) q).1.vc.esc = false := by
  induction q generalizing s n with
  | nil => exact ⟨extends_refl _ _, h, rfl, he⟩
  | cons b q ih =>
    rw [feed_cons]
    have hb : b ≠ 27 := fun hh => hq (by simp [hh])
    have hq2 : 27 ∉ q := fun hh => hq (List.mem_cons_of_mem _ hh)
    obtain ⟨b1, b2, b3, b4⟩ := text_step k s n b he hb h
    obtain ⟨i1, i2, i3, i4⟩ := ih (vconsole_write_body k s n b).1
      (vconsole_write_body k s n b).2 b4 hq2 b2
    have hr := b3
    simp only [region, Prod.mk.injEq] at hr
    rw [hr.1, hr.2.1, hr.2.2] at i1
    exact ⟨extends_trans _ _ _ _ b1 i1, i2, i3.trans b3, i4⟩

theorem cursor_home_origin (S : State) (h1 : S.vc.parmv1 = 0) (h2 : S.vc.parmv2 = 0)
    (hc : 1 ≤ S.vc.columns) (hl : 1 ≤ S.vc.lines) :
    (cursor_home S).vc.x = 0 ∧ (cursor_home S).vc.y = 0 := by
  unfold cursor_home parm_less_1
  simp only [adjust, h1, h2, ne_eq, not_true_eq_false, if_false]
  constructor
  · split_ifs <;> omega
  · split_ifs <;> omega

/-- The sequence `ESC [ H`, from any state of the parser. -/
theorem feed_home (k : Consts) (s : State) (n : Bool) (h : Inv3 s.vc) :
    (feed k (s, n) [27, 91, 72]).1.log = s.log ∧
    Inv3 (feed k (s, n) [27, 91, 72]).1.vc ∧
    region (feed k (s, n) [27, 91, 72]).1.vc = region s.vc ∧
    (feed k (s, n) [27, 91, 72]).1.vc.esc = false ∧
    (feed k (s, n) [27, 91, 72]).1.vc.x = 0 ∧ (feed k (s, n) [27, 91, 72]).1.vc.y = 0 := by
  rw [feed_csi_open, feed_cons, feed_nil, body_csi k _ n 72 rfl rfl,
    csi_table_hit k _ n 72 (cursor_home (esc_bracket k (esc_open s))) (by simp [csi_table])]
  have hcl := cursor_home_clamped (esc_bracket k (esc_open s))
  have hi : Inv3 (esc_bracket k (esc_open s)).vc :=
    inv3_of_geo _ _ ((esc_bracket_calm calm_geo k _).trans (esc_open_calm calm_geo s)) h
  have hi2 := inv3_of_clamped _ _ hcl hi
  have hcol : 1 ≤ (esc_bracket k (esc_open s)).vc.columns ∧
      1 ≤ (esc_bracket k (esc_open s)).vc.lines := by
    unfold Inv3 at hi; omega
  have ho := cursor_home_origin (esc_bracket k (esc_open s)) rfl rfl hcol.1 hcol.2
  obtain ⟨c1, c2, c3, -, -⟩ := hcl
  refine ⟨rfl, hi2, ?_, rfl, ho.1, ho.2⟩
  show region (cursor_home (esc_bracket k (esc_open s))).vc = region s.vc
  unfold region
  rw [c1, c2, c3]
  rfl

theorem wrestore_ext (T L C : Int) (s : State) :
    Extends (region_event T L C) s.log (vconsole_write_restore s).log := by
  unfold vconsole_write_restore
  refine ite_ind (fun r : State => Extends (region_event T L C) s.log r.log) _ _ _ ?_
    (extends_refl _ _)
  exact ⟨[Event.restore_screen, Event.show_cursor CursorMode.ON,
      Event.update_curpos s.vc.x s.vc.y],
    by simp [call], fun e he => by
      simp only [List.mem_cons, List.mem_singleton, List.not_mem_nil, or_false] at he
      rcases he with rfl | rfl | rfl <;> trivial⟩

theorem finish_ext (T L C : Int) (s : State) (c : Nat) :
    Extends (region_event T L C) s.log (vconsole_write_finish s c).log := by
  unfold vconsole_write_finish
  refine ite_ind (fun r : State => Extends (region_event T L C) s.log r.log) _ _ _ ?_
    (extends_refl _ _)
  beta_reduce
  refine extends_trans _ _ _ _ ?_ (extends_call _ _ _ trivial)
  exact ite_ind (fun r : State => Extends (region_event T L C) s.log r.log) _ _ _
    (extends_call _ _ _ trivial) (extends_refl _ _)

/-- C12, amended.  From a state that satisfies invariant 3, whatever the
scroll region `[top, lines)`, `ESC [ H` puts the cursor at column 0 of row 0,
the first row of the screen, not of the region; the bytes other than ESC
that follow (printable bytes and LFs among them) put their glyphs inside the
columns on rows `0 ≤ y < lines`, scroll only the region, by one line
upwards, and make no other call that changes cells, so no cell on a row at
or below `lines` is written; the region is as it was.  Stated for the loop
body run over the bytes, from any state of the parser, and for a call of
`vconsole_write` on a console that is not scroll-locked. -/
theorem region_text (k : Consts) (s : State) (n : Bool) (q : List Nat)
    (hinv : Inv3 s.vc) (hq : 27 ∉ q) :
    ((feed k (s, n) [27, 91, 72]).1.vc.x = 0 ∧ (feed k (s, n) [27, 91, 72]).1.vc.y = 0) ∧
    (Extends (region_event s.vc.top s.vc.lines s.vc.columns) s.log
        (feed k (s, n) ([27, 91, 72] ++ q)).1.log ∧
      region (feed k (s, n) ([27, 91, 72] ++ q)).1.vc = region s.vc) ∧
    (s.vc.scrlock = false →
      Extends (region_event s.vc.top s.vc.lines s.vc.columns) s.log
        (vconsole_write k (with_write_q s ([27, 91, 72] ++ q))).log ∧
      region (vconsole_write k (with_write_q s ([27, 91, 72] ++ q))).vc = region s.vc) := by
  have key : ∀ (S : State) (m : Bool), Inv3 S.vc →
      Extends (region_event S.vc.top S.vc.lines S.vc.columns) S.log
        (feed k (S, m) ([27, 91, 72] ++ q)).1.log ∧
      region (feed k (S, m) ([27, 91, 72] ++ q)).1.vc = region S.vc := by
    intro S m hS
    obtain ⟨f1, f2, f3, f4, -, -⟩ := feed_home k S m hS
    rw [feed_append]
    obtain ⟨t1, -, t3, -⟩ := text_feed k q (feed k (S, m) [27, 91, 72]).1
      (feed k (S, m) [27, 91, 72]).2 f4 hq f2
    have hr := f3
    simp only [region, Prod.mk.injEq] at hr
    rw [hr.1, hr.2.1, hr.2.2, f1] at t1
    exact ⟨t1, t3.trans f3⟩
  refine ⟨⟨(feed_home k s n hinv).2.2.2.2.1, (feed_home k s n hinv).2.2.2.2.2⟩,
    key s n hinv, ?_⟩
  intro hlock
  have hv := vconsole_write_restore_vc (with_write_q s ([27, 91, 72] ++ q))
  have hk := key (vconsole_write_restore (with_write_q s ([27, 91, 72] ++ q))) false
    (by rw [hv]; exact hinv)
  rw [hv] at hk
  rw [vconsole_write_unlocked k (with_write_q s ([27, 91, 72] ++ q)) hlock, with_write_q_vc_tty]
  constructor
  · refine extends_trans _ _ _ _ ?_ (finish_ext _ _ _ _ _)
    exact extends_trans _ _ _ _ (wrestore_ext _ _ _ (with_write_q s ([27, 91, 72] ++ q))) hk.1
  · rw [vconsole_write_finish_vc]
    exact hk.2

/-- The amended C12 on the scenario S4: after `ESC [ 4 ; 10 r` on the reset
80x25 console, the input `ESC [ H A LF B LF C` puts `A`, `B` and `C` on rows
0, 1 and 2. -/
theorem region_text_witness :
    (Inv3 (vconsole_write k0 (with_write_q s0 [27, 91, 52, 59, 49, 48, 114])).vc ∧
      (vconsole_write k0 (with_write_q s0 [27, 91, 52, 59, 49, 48, 114])).vc.scrlock = false ∧
      region (vconsole_write k0 (with_write_q s0 [27, 91, 52, 59, 49, 48, 114])).vc
        = (3, 10, 80)) ∧
    region (vconsole_write k0 (with_write_q
      (vconsole_write k0 (with_write_q s0 [27, 91, 52, 59, 49, 48, 114]))
      ([27, 91, 72] ++ [65, 10, 66, 10, 67]))).vc =
      region (vconsole_write k0 (with_write_q s0 [27, 91, 52, 59, 49, 48, 114])).vc ∧
    put_chars (vconsole_write k0 (with_write_q
      (vconsole_write k0 (with_write_q s0 [27, 91, 52, 59, 49, 48, 114]))
      ([27, 91, 72] ++ [65, 10, 66, 10, 67]))).log = [(0, 0, 65), (0, 1, 66), (0, 2, 67)] :=
  ⟨by decide,
   ((region_text k0 (vconsole_write k0 (with_write_q s0 [27, 91, 52, 59, 49, 48, 114])) false
      [65, 10, 66, 10, 67] (by decide) (by decide)).2.2 (by decide)).2,
   by decide⟩

/-! ## C13: the saved cursor -/

theorem saved_blind : CursorBlind saved := fun _ _ _ _ => rfl

theorem csi_digit_saved (s : State) (d : Nat) : saved (csi_digit s d).vc = saved s.vc := by
  unfold csi_digit
  by_cases h : s.vc.semicolon = true
  · simp only [if_pos h]; rfl
  · simp only [if_neg h]; rfl

theorem parm_byte_saved (k : Consts) (s : State) (n : Bool) (b : Nat)
    (hb : IS_NUMERIC b = true ∨ b = 59) : saved (csi k s n b).1.vc = saved s.vc := by
  rcases hb with hb | rfl
  · unfold csi; rw [if_pos hb]; exact csi_digit_saved s b
  · rfl

theorem feed_parms_saved (k : Consts) (q : List Nat) (s : State) (n : Bool)
    (hq : ∀ b ∈ q, IS_NUMERIC b = true ∨ b = 59)
    (he : s.vc.esc = true) (hb : s.vc.sbracket = true) :
    saved (feed k (s, n) q).1.vc = saved s.vc := by
  induction q generalizing s n with
  | nil => rfl
  | cons b q ih =>
    rw [feed_cons, body_csi k s n b he hb]
    have h := csi_parm_byte k s n b (hq b (List.mem_cons_self _ _))
    simp only [Prod.mk.injEq] at h
    obtain ⟨h1, h2, -⟩ := h
    rw [ih (csi k s n b).1 (csi k s n b).2 (fun c hc => hq c (List.mem_cons_of_mem _ hc))
      (h1.trans he) (h2.trans hb)]
    exact parm_byte_saved k s n b (hq b (List.mem_cons_self _ _))

theorem adjust_saved (v : vconsole) (a b : Int) : saved (adjust v a b) = saved v := rfl

/-- No cursor movement touches the saved cursor. -/
theorem move_final_saved (k : Consts) (s : State) (n : Bool) (ch : Nat)
    (hm : ch ∈ move_finals) : saved (csi k s n ch).1.vc = saved s.vc := by
  simp only [move_finals, List.mem_cons, List.mem_singleton, List.not_mem_nil, or_false] at hm
  rcases hm with rfl | rfl | rfl | rfl | rfl | rfl | rfl | rfl | rfl | rfl | rfl
  · rw [csi_table_hit k s n 65 (cursor_up s) (by simp [csi_table])]; rfl
  · rw [csi_table_hit k s n 66 (cursor_down s) (by simp [csi_table])]; rfl
  · rw [csi_table_hit k s n 67 (cursor_forward s) (by simp [csi_table])]; rfl
  · rw [csi_table_hit k s n 68 (cursor_backward s) (by simp [csi_table])]; rfl
  · rw [csi_table_hit k s n 69 (cursor_next_line s) (by simp [csi_table])]; rfl
  · rw [csi_table_hit k s n 70 (cursor_prev_line s) (by simp [csi_table])]; rfl
  · rw [csi_table_hit k s n 71 (cursor_column s) (by simp [csi_table])]; rfl
  · rw [csi_table_hit k s n 96 (cursor_column s) (by simp [csi_table])]; rfl
  · rw [csi_table_hit k s n 72 (cursor_home s) (by simp [csi_table])]; rfl
  · rw [csi_table_hit k s n 102 (cursor_home s) (by simp [csi_table])]; rfl
  · rw [csi_table_hit k s n 100 (cursor_row s) (by simp [csi_table])]; rfl

/-- One piece of movement input, met in GROUND, leaves the saved cursor as
it was and the parser in GROUND. -/
theorem feed_move (k : Consts) (m : Move) (s : State) (n : Bool) (he : s.vc.esc = false)
    (hm : move_ok m) :
    saved (feed k (s, n) (move_bytes m)).1.vc = saved s.vc ∧
    (feed k (s, n) (move_bytes m)).1.vc.esc = false := by
  cases m with
  | csi p final =>
    obtain ⟨hq, hf⟩ := hm
    have e : move_bytes (Move.csi p final) = 27 :: 91 :: (p ++ [final]) := by
      simp [move_bytes, csi_seq]
    rw [e, feed_csi_open, feed_append, feed_cons, feed_nil]
    obtain ⟨i1, i2, -⟩ := feed_parms k p (esc_bracket k (esc_open s)) n hq rfl rfl
    have i3 := feed_parms_saved k p (esc_bracket k (esc_open s)) n hq rfl rfl
    rw [body_csi k _ _ _ i1 i2]
    exact ⟨(move_final_saved k _ _ final hf).trans i3, (csi_move_final k _ _ final hf).2⟩
  | byte b =>
    show saved (feed k (s, n) [b]).1.vc = saved s.vc ∧ (feed k (s, n) [b]).1.vc.esc = false
    rw [feed_cons, feed_nil]
    have hbody : vconsole_write_body k s n b = (echo_char k s [b], n) := by
      unfold vconsole_write_body
      rw [if_neg (by simp [he])]
      unfold ground
      rw [if_neg hm]
    rw [hbody]
    exact ⟨echo_char_blind saved_blind k s [b],
      (@echo_char_blind _ (fun v : vconsole => v.esc) (fun _ _ _ _ => rfl) k s [b]).trans he⟩

theorem feed_moves (k : Consts) (l : List Move) (s : State) (n : Bool) (he : s.vc.esc = false)
    (hl : ∀ m ∈ l, move_ok m) :
    saved (feed k (s, n) (move_stream l)).1.vc = saved s.vc ∧
    (feed k (s, n) (move_stream l)).1.vc.esc = false := by
  induction l generalizing s n with
  | nil => exact ⟨rfl, he⟩
  | cons m l ih =>
    show saved (feed k (s, n) (move_bytes m ++ move_stream l)).1.vc = saved s.vc ∧
      (feed k (s, n) (move_bytes m ++ move_stream l)).1.vc.esc = false
    rw [feed_append]
    obtain ⟨h1, h2⟩ := feed_move k m s n he (hl m (List.mem_cons_self _ _))
    obtain ⟨i1, i2⟩ := ih (feed k (s, n) (move_bytes m)).1 (feed k (s, n) (move_bytes m)).2 h2
      (fun j hj => hl j (List.mem_cons_of_mem _ hj))
    exact ⟨i1.trans h1, i2⟩

theorem body_after_esc (k : Consts) (s : State) (n : Bool) (ch : Nat) :
    vconsole_write_body k (esc_open s) n ch = (escseq k (esc_open s) ch, n) := by
  unfold vconsole_write_body
  rw [if_pos (show (esc_open s).vc.esc = true from rfl),
    if_neg (show ¬ (esc_open s).vc.sbracket = true by simp [esc_open])]

theorem feed_save (k : Consts) (s : State) (n : Bool) :
    feed k (s, n) [27, 55] = (CSE (save_cursor (esc_open s)), n) := by
  rw [feed_cons, body_ESC, feed_cons, feed_nil, body_after_esc,
    esc_table_hit k _ 55 (save_cursor (esc_open s)) (by simp [esc_table])]

theorem feed_restore (k : Consts) (s : State) (n : Bool) :
    feed k (s, n) [27, 56] = (CSE (restore_cursor (esc_open s)), n) := by
  rw [feed_cons, body_ESC, feed_cons, feed_nil, body_after_esc,
    esc_table_hit k _ 56 (restore_cursor (esc_open s)) (by simp [esc_table])]

theorem feed_csi_save (k : Consts) (s : State) (n : Bool) :
    feed k (s, n) [27, 91, 115] = (CSE (save_cursor (esc_bracket k (esc_open s))), n) := by
  rw [feed_csi_open, feed_cons, feed_nil, body_csi k _ n 115 rfl rfl,
    csi_table_hit k _ n 115 (save_cursor (esc_bracket k (esc_open s))) (by simp [csi_table])]

theorem feed_csi_restore (k : Consts) (s : State) (n : Bool) :
    feed k (s, n) [27, 91, 117] = (CSE (restore_cursor (esc_bracket k (esc_open s))), n) := by
  rw [feed_csi_open, feed_cons, feed_nil, body_csi k _ n 117 rfl rfl,
    csi_table_hit k _ n 117 (restore_cursor (esc_bracket k (esc_open s)))
      (by simp [csi_table])]

/-- The round trip at the level of the loop body. -/
theorem feed_round_trip (k : Consts) (s : State) (n : Bool) (l : List Move)
    (hl : ∀ m ∈ l, move_ok m) :
    ((feed k (s, n) ([27, 55] ++ move_stream l ++ [27, 56])).1.vc.x = s.vc.x ∧
      (feed k (s, n) ([27, 55] ++ move_stream l ++ [27, 56])).1.vc.y = s.vc.y) ∧
    ((feed k (s, n) ([27, 91, 115] ++ move_stream l ++ [27, 91, 117])).1.vc.x = s.vc.x ∧
      (feed k (s, n) ([27, 91, 115] ++ move_stream l ++ [27, 91, 117])).1.vc.y = s.vc.y) := by
  constructor
  · rw [feed_append, feed_append, feed_save]
    obtain ⟨h1, -⟩ := feed_moves k l (CSE (save_cursor (esc_open s))) n rfl hl
    generalize feed k (CSE (save_cursor (esc_open s)), n) (move_stream l) = P at h1 ⊢
    rw [feed_restore]
    have h2 : saved P.1.vc = (s.vc.x, s.vc.y) := h1
    simp only [saved, Prod.mk.injEq] at h2
    exact ⟨h2.1, h2.2⟩
  · rw [feed_append, feed_append, feed_csi_save]
    obtain ⟨h1, -⟩ := feed_moves k l (CSE (save_cursor (esc_bracket k (esc_open s)))) n rfl hl
    generalize feed k (CSE (save_cursor (esc_bracket k (esc_open s))), n) (move_stream l) = P
      at h1 ⊢
    rw [feed_csi_restore]
    have h2 : saved P.1.vc = (s.vc.x, s.vc.y) := h1
    simp only [saved, Prod.mk.injEq] at h2
    exact ⟨h2.1, h2.2⟩

/-! ## The attribute fields under `csi_m` -/

theorem csi_m_case_attr (k : Consts) (v : vconsole) (p : Int) :
    attr_of (csi_m_case k v p) = sgr_case k (attr_of v) p := by
  unfold csi_m_case sgr_case default_color_attr
  by_cases h0 : p = 0
  · rw [if_pos h0, if_pos h0]; rfl
  rw [if_neg h0, if_neg h0]
  by_cases h1 : p = 1
  · rw [if_pos h1, if_pos h1]; rfl
  rw [if_neg h1, if_neg h1]
  by_cases h2 : p = 5
  · rw [if_pos h2, if_pos h2]; rfl
  rw [if_neg h2, if_neg h2]
  by_cases h3 : p = 7
  · rw [if_pos h3, if_pos h3]; rfl
  rw [if_neg h3, if_neg h3]
  by_cases h4 : p = 21 ∨ p = 22
  · rw [if_pos h4, if_pos h4]; rfl
  rw [if_neg h4, if_neg h4]
  by_cases h5 : p = 25
  · rw [if_pos h5, if_pos h5]; rfl
  rw [if_neg h5, if_neg h5]
  by_cases h6 : p = 27
  · rw [if_pos h6, if_pos h6]; rfl
  rw [if_neg h6, if_neg h6]
  by_cases h7 : 30 ≤ p ∧ p ≤ 37
  · rw [if_pos h7, if_pos h7]; rfl
  rw [if_neg h7, if_neg h7]
  by_cases h8 : 40 ≤ p ∧ p ≤ 47
  · rw [if_pos h8, if_pos h8]; rfl
  rw [if_neg h8, if_neg h8]

theorem csi_m_fold_attr (k : Consts) (l : List Nat) (v : vconsole) :
    attr_of (l.foldl (fun (v : vconsole) (n : Nat) => csi_m_case k v (v.parms (n : Int))) v) =
      (l.map (fun (n : Nat) => v.parms (n : Int))).foldl (sgr_case k) (attr_of v) := by
  induction l generalizing v with
  | nil => rfl
  | cons a l ih =>
    rw [List.foldl_cons, ih, List.map_cons, List.foldl_cons, csi_m_case_attr]
    have hp : (csi_m_case k v (v.parms (a : Int))).parms = v.parms :=
      csi_m_case_frame (fun v => v.parms) (fun _ _ _ _ _ _ => rfl) k v _
    rw [hp]

theorem attr_bold_step (v : vconsole) :
    attr_of (if v.bold = true then { v with color_attr := v.color_attr ||| 0x0800 }
      else { v with color_attr := v.color_attr &&& 0xF7FF }) =
    { attr_of v with color_attr :=
        if v.bold = true then v.color_attr ||| 0x0800 else v.color_attr &&& 0xF7FF } := by
  by_cases h : v.bold = true
  · rw [if_pos h, if_pos h]; rfl
  · rw [if_neg h, if_neg h]; rfl

theorem attr_blink_step (v : vconsole) :
    attr_of (if v.blink = true then { v with color_attr := v.color_attr ||| 0x8000 }
      else { v with color_attr := v.color_attr &&& 0x7FFF }) =
    { attr_of v with color_attr :=
        if v.blink = true then v.color_attr ||| 0x8000 else v.color_attr &&& 0x7FFF } := by
  by_cases h : v.blink = true
  · rw [if_pos h, if_pos h]; rfl
  · rw [if_neg h, if_neg h]; rfl

theorem attr_reverse_step (v : vconsole) :
    attr_of (if v.reverse = true then { v with color_attr := swap_colors v.color_attr }
      else v) =
    (if (attr_of v).reverse = true then
      { attr_of v with color_attr := swap_colors (attr_of v).color_attr } else attr_of v) := by
  by_cases h : v.reverse = true
  · rw [if_pos h, if_pos (show (attr_of v).reverse = true from h)]; rfl
  · rw [if_neg h, if_neg (show ¬ (attr_of v).reverse = true from h)]

/-- The function `csi_m` on the attribute fields is `sgr` on the parameters
`parms[0 .. nparms-1]`. -/
theorem csi_m_attr (k : Consts) (v : vconsole) :
    attr_of (csi_m k v) =
      sgr k (attr_of v) ((List.range v.nparms.toNat).map (fun (n : Nat) => v.parms (n : Int))) := by
  unfold csi_m sgr
  simp only []
  have e1 := attr_reverse_step v
  have e2 : (if v.reverse = true then { v with color_attr := swap_colors v.color_attr }
      else v).nparms = v.nparms := ite_color_frame (fun v => v.nparms) (fun _ _ => rfl) _ _ _
  have e3 : (if v.reverse = true then { v with color_attr := swap_colors v.color_attr }
      else v).parms = v.parms := ite_color_frame (fun v => v.parms) (fun _ _ => rfl) _ _ _
  generalize (if v.reverse = true then { v with color_attr := swap_colors v.color_attr }
      else v) = v1 at e1 e2 e3 ⊢
  rw [e2]
  have e4 := csi_m_fold_attr k (List.range v.nparms.toNat) v1
  rw [e3, e1] at e4
  generalize (List.range v.nparms.toNat).foldl
    (fun (v : vconsole) (n : Nat) => csi_m_case k v (v.parms (n : Int))) v1 = v2 at e4 ⊢
  rw [← e4]
  have e5 := attr_bold_step v2
  generalize (if v2.bold = true then { v2 with color_attr := v2.color_attr ||| 0x0800 }
      else { v2 with color_attr := v2.color_attr &&& 0xF7FF }) = v3 at e5 ⊢
  have e6 := attr_blink_step v3
  generalize (if v3.blink = true then { v3 with color_attr := v3.color_attr ||| 0x8000 }
      else { v3 with color_attr := v3.color_attr &&& 0x7FFF }) = v4 at e6 ⊢
  rw [attr_reverse_step v4, e6]
  have hk : v3.blink = (attr_of v2).blink := congrArg Attr.blink e5
  have hc : v3.color_attr = (if v2.bold = true then v2.color_attr ||| 0x0800
      else v2.color_attr &&& 0xF7FF) := congrArg Attr.color_attr e5
  rw [hk, hc, e5]
  rfl

/-! ## SGR sequences with one and two parameters -/

theorem csi_digit_attr (s : State) (d : Nat) :
    attr_of (csi_digit s d).vc = attr_of s.vc ∧
    ∀ j, j ≠ s.vc.nparms → (csi_digit s d).vc.parms j = s.vc.parms j := by
  unfold csi_digit
  by_cases h : s.vc.semicolon = true
  · simp only [if_pos h]
    exact ⟨rfl, fun j hj => if_neg hj⟩
  · simp only [if_neg h]
    exact ⟨rfl, fun j hj => if_neg hj⟩

/-- Digits inside a CSI sequence accumulate into the slot `parms[nparms]`,
as long as its value stays below 2^31, and leave the other slots and the
attribute fields alone. -/
theorem feed_digits_slot (k : Consts) (ds : List Nat) (s : State) (n : Bool)
    (hd : ∀ b ∈ ds, IS_NUMERIC b = true)
    (he : s.vc.esc = true) (hb : s.vc.sbracket = true)
    (h0 : 0 ≤ s.vc.parms s.vc.nparms)
    (hmax : digit_val (s.vc.parms s.vc.nparms) ds < 2147483648) :
    (feed k (s, n) ds).1.vc.esc = true ∧ (feed k (s, n) ds).1.vc.sbracket = true ∧
    (feed k (s, n) ds).1.vc.nparms = s.vc.nparms ∧
    attr_of (feed k (s, n) ds).1.vc = attr_of s.vc ∧
    (feed k (s, n) ds).1.vc.parms s.vc.nparms = digit_val (s.vc.parms s.vc.nparms) ds ∧
    (∀ j, j ≠ s.vc.nparms → (feed k (s, n) ds).1.vc.parms j = s.vc.parms j) := by
  induction ds generalizing s n with
  | nil => exact ⟨he, hb, rfl, rfl, rfl, fun _ _ => rfl⟩
  | cons d ds ih =>
    have hdd := hd d (List.mem_cons_self _ _)
    have hr := is_numeric_range d hdd
    have hbody : vconsole_write_body k s n d = (csi_digit s d, true) := by
      rw [body_csi k s n d he hb]; unfold csi; rw [if_pos hdd]
    rw [feed_cons, hbody]
    obtain ⟨c1, c2, c3, c4⟩ := csi_digit_slot s d
    obtain ⟨a1, a2⟩ := csi_digit_attr s d
    rw [digit_val_cons] at hmax
    have hmono := digit_val_mono ds (s.vc.parms s.vc.nparms * 10 + ((d : Int) - 48)) (by omega)
      (fun b hb => hd b (List.mem_cons_of_mem _ hb))
    have hw : wrap32 (wrap32 (s.vc.parms s.vc.nparms * 10) + ((d : Int) - 48)) =
        s.vc.parms s.vc.nparms * 10 + ((d : Int) - 48) := by
      rw [wrap32_id (s.vc.parms s.vc.nparms * 10) (by omega) (by omega)]
      exact wrap32_id _ (by omega) (by omega)
    rw [hw] at c1
    obtain ⟨i1, i2, i3, i4, i5, i6⟩ := ih (csi_digit s d) true
      (fun b hb => hd b (List.mem_cons_of_mem _ hb)) (c3.trans he) (c4.trans hb)
      (by rw [c2, c1]; omega) (by rw [c2, c1]; exact hmax)
    rw [c2] at i5 i6
    refine ⟨i1, i2, i3.trans c2, i4.trans a1, ?_, fun j hj => (i6 j hj).trans (a2 j hj)⟩
    rw [i5, c1, digit_val_cons]

theorem body_m (k : Consts) (S : State) (n : Bool) (he : S.vc.esc = true)
    (hb : S.vc.sbracket = true) :
    (vconsole_write_body k S n 109).1 =
      CSE { S with vc := csi_m k { S.vc with nparms := S.vc.nparms + 1 } } := by
  rw [body_csi k S n 109 he hb,
    csi_table_hit k S n 109 { S with vc := csi_m k { S.vc with nparms := S.vc.nparms + 1 } }
      (by simp [csi_table])]

/-- The attribute fields after `ESC [ da m`. -/
theorem feed_sgr_one (k : Consts) (s : State) (n : Bool) (da : List Nat)
    (hk : 1 ≤ k.MAX_PARMS) (hda : ∀ c ∈ da, IS_NUMERIC c = true)
    (ha : digit_val 0 da < 2147483648) :
    attr_of (feed k (s, n) (sgr_one da)).1.vc = sgr k (attr_of s.vc) [digit_val 0 da] := by
  have e : sgr_one da = 27 :: 91 :: (da ++ [109]) := by simp [sgr_one]
  have z : (esc_bracket k (esc_open s)).vc.parms 0 = 0 := by
    show (if (0 : Int) ≤ 0 ∧ (0 : Int) < (k.MAX_PARMS : Int) then (0 : Int) else _) = 0
    rw [if_pos (by omega)]
  have hn : (esc_bracket k (esc_open s)).vc.nparms = 0 := rfl
  obtain ⟨i1, i2, i3, i4, i5, -⟩ := feed_digits_slot k da (esc_bracket k (esc_open s)) n hda
    rfl rfl (by rw [hn, z]) (by rw [hn, z]; exact ha)
  rw [hn] at i3 i5
  rw [z] at i5
  have i4' : attr_of (feed k (esc_bracket k (esc_open s), n) da).1.vc = attr_of s.vc := i4
  rw [e, feed_csi_open, feed_append, feed_cons, feed_nil]
  generalize feed k (esc_bracket k (esc_open s), n) da = P at i1 i2 i3 i4' i5 ⊢
  rw [body_m k P.1 P.2 i1 i2]
  show attr_of (csi_m k { P.1.vc with nparms := P.1.vc.nparms + 1 }) = _
  rw [csi_m_attr]
  have hl : ({ P.1.vc with nparms := P.1.vc.nparms + 1 } : vconsole).nparms.toNat = 1 := by
    show (P.1.vc.nparms + 1).toNat = 1
    rw [i3]; rfl
  rw [hl]
  show sgr k (attr_of P.1.vc) [P.1.vc.parms ((0 : Nat) : Int)] = _
  rw [i4']
  have i5' : P.1.vc.parms ((0 : Nat) : Int) = digit_val 0 da := i5
  rw [i5']

/-- The attribute fields after `ESC [ da ; db m`. -/
theorem feed_sgr_two (k : Consts) (s : State) (n : Bool) (da db : List Nat)
    (hk : 2 ≤ k.MAX_PARMS) (hda : ∀ c ∈ da, IS_NUMERIC c = true)
    (hdb : ∀ c ∈ db, IS_NUMERIC c = true)
    (ha : digit_val 0 da < 2147483648) (hb : digit_val 0 db < 2147483648) :
    attr_of (feed k (s, n) (sgr_two da db)).1.vc =
      sgr k (attr_of s.vc) [digit_val 0 da, digit_val 0 db] := by
  have e : sgr_two da db = 27 :: 91 :: (da ++ (59 :: (db ++ [109]))) := by simp [sgr_two]
  have z : (esc_bracket k (esc_open s)).vc.parms 0 = 0 := by
    show (if (0 : Int) ≤ 0 ∧ (0 : Int) < (k.MAX_PARMS : Int) then (0 : Int) else _) = 0
    rw [if_pos (by omega)]
  have z1 : (esc_bracket k (esc_open s)).vc.parms 1 = 0 := by
    show (if (0 : Int) ≤ 1 ∧ (1 : Int) < (k.MAX_PARMS : Int) then (0 : Int) else _) = 0
    rw [if_pos (by omega)]
  have hn : (esc_bracket k (esc_open s)).vc.nparms = 0 := rfl
  obtain ⟨i1, i2, i3, i4, i5, i6⟩ := feed_digits_slot k da (esc_bracket k (esc_open s)) n hda
    rfl rfl (by rw [hn, z]) (by rw [hn, z]; exact ha)
  rw [hn] at i3 i5 i6
  rw [z] at i5
  have i7 := (i6 1 (by decide)).trans z1
  have i4' : attr_of (feed k (esc_bracket k (esc_open s), n) da).1.vc = attr_of s.vc := i4
  rw [e, feed_csi_open, feed_append, feed_cons]
  generalize feed k (esc_bracket k (esc_open s), n) da = P at i1 i2 i3 i4' i5 i7 ⊢
  have hsemi : vconsole_write_body k P.1 P.2 59 = (csi_semicolon P.1, P.2) := by
    rw [body_csi k P.1 P.2 59 i1 i2]; rfl
  rw [hsemi, feed_append, feed_cons, feed_nil]
  have hn2 : (csi_semicolon P.1).vc.nparms = 1 := by
    show P.1.vc.nparms + 1 = 1
    rw [i3]; rfl
  have hp2 : (csi_semicolon P.1).vc.parms = P.1.vc.parms := rfl
  obtain ⟨j1, j2, j3, j4, j5, j6⟩ := feed_digits_slot k db (csi_semicolon P.1) P.2 hdb
    i1 i2 (by rw [hn2, hp2, i7]) (by rw [hn2, hp2, i7]; exact hb)
  rw [hn2] at j3 j5 j6
  rw [hp2, i7] at j5
  have j7 := (j6 0 (by decide)).trans ((congrFun hp2 0).trans i5)
  have j4' : attr_of (feed k (csi_semicolon P.1, P.2) db).1.vc = attr_of s.vc :=
    j4.trans i4'
  generalize feed k (csi_semicolon P.1, P.2) db = Q at j1 j2 j3 j4' j5 j7 ⊢
  rw [body_m k Q.1 Q.2 j1 j2]
  show attr_of (csi_m k { Q.1.vc with nparms := Q.1.vc.nparms + 1 }) = _
  rw [csi_m_attr]
  have hl : ({ Q.1.vc with nparms := Q.1.vc.nparms + 1 } : vconsole).nparms.toNat = 2 := by
    show (Q.1.vc.nparms + 1).toNat = 2
    rw [j3]; rfl
  rw [hl]
  show sgr k (attr_of Q.1.vc) [Q.1.vc.parms ((0 : Nat) : Int), Q.1.vc.parms ((1 : Nat) : Int)] = _
  rw [j4']
  have j7' : Q.1.vc.parms ((0 : Nat) : Int) = digit_val 0 da := j7
  have j5' : Q.1.vc.parms ((1 : Nat) : Int) = digit_val 0 db := j5
  rw [j7', j5']

/-- The attribute fields after a call of `vconsole_write` on a console that
is not scroll-locked. -/
theorem vconsole_write_attr (k : Consts) (s : State) (q : List Nat)
    (hlock : s.vc.scrlock = false) :
    attr_of (vconsole_write k (with_write_q s q)).vc =
      attr_of (feed k (vconsole_write_restore (with_write_q s q), false) q).1.vc := by
  rw [vconsole_write_unlocked k (with_write_q s q) hlock, vconsole_write_finish_vc,
    with_write_q_vc_tty]
  rfl

theorem restore_attr (s : State) (q : List Nat) :
    attr_of (vconsole_write_restore (with_write_q s q)).vc = attr_of s.vc := by
  rw [vconsole_write_restore_vc]; rfl

/-! ## Bits of the packed attribute -/

theorem testBit_high (m i : Nat) (hm : m < 65536) (hi : 16 ≤ i) : m.testBit i = false :=
  Nat.testBit_lt_two_pow (lt_of_lt_of_le hm (by
    calc 65536 = 2 ^ 16 := by norm_num
    _ ≤ 2 ^ i := Nat.pow_le_pow_right (by norm_num) hi))

/-- Two swaps of the colour fields give back the attribute byte. -/
theorem swap_swap (c : Nat) : swap_colors (swap_colors c) = c &&& 0xFF00 := by
  apply Nat.eq_of_testBit_eq
  intro i
  unfold swap_colors
  simp only [Nat.testBit_and, Nat.testBit_or, Nat.testBit_shiftLeft, Nat.testBit_shiftRight]
  by_cases hi : i < 20
  · interval_cases i <;> simp [Nat.testBit_to_div_mod]
  · have e1 := testBit_high 0x7000 (4 + i) (by norm_num) (by omega)
    have e3 := testBit_high 0x0700 (i - 4) (by norm_num) (by omega)
    have e4 := testBit_high 0x8800 i (by norm_num) (by omega)
    have e5 := testBit_high 0xFF00 i (by norm_num) (by omega)
    simp [e1, e3, e4, e5]

/-- The swap looks at the attribute byte only. -/
theorem swap_mask (c : Nat) : swap_colors (c &&& 0xFF00) = swap_colors c := by
  apply Nat.eq_of_testBit_eq
  intro i
  unfold swap_colors
  simp only [Nat.testBit_and, Nat.testBit_or, Nat.testBit_shiftLeft, Nat.testBit_shiftRight]
  by_cases hi : i < 20
  · interval_cases i <;> simp [Nat.testBit_to_div_mod]
  · have e1 := testBit_high 0x7000 (4 + i) (by norm_num) (by omega)
    have e3 := testBit_high 0x0700 (i - 4) (by norm_num) (by omega)
    have e4 := testBit_high 0x8800 i (by norm_num) (by omega)
    simp [e1, e3, e4]

theorem norm_mask (b k : Bool) (c : Nat) :
    attr_norm b k (c &&& 0xFF00) = attr_norm b k c &&& 0xFF00 := by
  apply Nat.eq_of_testBit_eq
  intro i
  unfold attr_norm
  cases b <;> cases k <;>
    simp only [Bool.false_eq_true, if_false, if_true, Nat.testBit_and, Nat.testBit_or] <;>
    (by_cases hi : i < 16
     · interval_cases i <;> simp [Nat.testBit_to_div_mod]
     · have e1 := testBit_high 0xFF00 i (by norm_num) (by omega)
       have e2 := testBit_high 0xF7FF i (by norm_num) (by omega)
       have e3 := testBit_high 0x7FFF i (by norm_num) (by omega)
       have e4 := testBit_high 0x0800 i (by norm_num) (by omega)
       have e5 := testBit_high 0x8000 i (by norm_num) (by omega)
       simp [e1, e2, e3, e4, e5])

theorem norm_idem (b k : Bool) (c : Nat) :
    attr_norm b k (attr_norm b k c) = attr_norm b k c := by
  apply Nat.eq_of_testBit_eq
  intro i
  unfold attr_norm
  cases b <;> cases k <;>
    simp only [Bool.false_eq_true, if_false, if_true, Nat.testBit_and, Nat.testBit_or] <;>
    (by_cases hi : i < 16
     · interval_cases i <;> simp [Nat.testBit_to_div_mod]
     · have e2 := testBit_high 0xF7FF i (by norm_num) (by omega)
       have e3 := testBit_high 0x7FFF i (by norm_num) (by omega)
       have e4 := testBit_high 0x0800 i (by norm_num) (by omega)
       have e5 := testBit_high 0x8000 i (by norm_num) (by omega)
       simp [e2, e3, e4, e5])

/-- Setting the bold and blink bits from flags that agree with them changes
nothing. -/
theorem norm_ok (b k : Bool) (c : Nat) (hm : c &&& 0xFF00 = c) (hb : c.testBit 11 = b)
    (hk : c.testBit 15 = k) : attr_norm b k c = c := by
  apply Nat.eq_of_testBit_eq
  intro i
  have hmi := congrArg (fun x => Nat.testBit x i) hm
  simp only [Nat.testBit_and] at hmi
  unfold attr_norm
  subst hb
  subst hk
  by_cases hi : i < 16
  · cases h11 : c.testBit 11 <;> cases h15 : c.testBit 15 <;>
      simp only [Bool.false_eq_true, if_false, if_true, Nat.testBit_and, Nat.testBit_or] <;>
      interval_cases i <;> simp [Nat.testBit_to_div_mod] at h11 h15 ⊢ <;>
      simp [h11, h15]
  · have e1 := testBit_high 0xFF00 i (by norm_num) (by omega)
    rw [e1, Bool.and_false] at hmi
    have e2 := testBit_high 0xF7FF i (by norm_num) (by omega)
    have e3 := testBit_high 0x7FFF i (by norm_num) (by omega)
    have e4 := testBit_high 0x0800 i (by norm_num) (by omega)
    have e5 := testBit_high 0x8000 i (by norm_num) (by omega)
    cases h11 : c.testBit 11 <;> cases h15 : c.testBit 15 <;>
      simp [← hmi, e2, e3, e4, e5]

/-! ## C15 and C14: SGR reset and reverse video -/

theorem sgr_zero (k : Consts) (a : Attr) :
    sgr k a [0] = { color_attr := attr_norm false false k.DEF_MODE, bold := false,
                    underline := false, blink := false, reverse := false } := by
  unfold sgr
  simp [sgr_case]

theorem sgr_seven (k : Consts) (a : Attr) :
    sgr k a [7] =
      { a with reverse := true,
               color_attr := swap_colors (attr_norm a.bold a.blink
                 (if a.reverse = true then swap_colors a.color_attr else a.color_attr)) } := by
  obtain ⟨c, b, u, bl, r⟩ := a
  unfold sgr
  cases r <;> simp [sgr_case]

theorem sgr_reverse_off (k : Consts) (a : Attr) :
    sgr k a [27] =
      { a with reverse := false,
               color_attr := attr_norm a.bold a.blink
                 (if a.reverse = true then swap_colors a.color_attr else a.color_attr) } := by
  obtain ⟨c, b, u, bl, r⟩ := a
  unfold sgr
  cases r <;> simp [sgr_case]

/-- A second `7` changes nothing. -/
theorem sgr_seven_twice (k : Consts) (a : Attr) : sgr k (sgr k a [7]) [7] = sgr k a [7] := by
  rw [sgr_seven k (sgr k a [7]), sgr_seven k a]
  simp only [if_true]
  rw [swap_swap, norm_mask, norm_idem, swap_mask]

theorem sgr_seven_ok (k : Consts) (a : Attr) (hr : a.reverse = false)
    (hm : a.color_attr &&& 0xFF00 = a.color_attr) (hb : a.color_attr.testBit 11 = a.bold)
    (hk : a.color_attr.testBit 15 = a.blink) :
    sgr k a [7] = { a with reverse := true, color_attr := swap_colors a.color_attr } := by
  rw [sgr_seven, hr]
  simp only [Bool.false_eq_true, if_false]
  rw [norm_ok _ _ _ hm hb hk]

theorem sgr_seven_undone (k : Consts) (a : Attr) (hr : a.reverse = false)
    (hm : a.color_attr &&& 0xFF00 = a.color_attr) (hb : a.color_attr.testBit 11 = a.bold)
    (hk : a.color_attr.testBit 15 = a.blink) :
    sgr k (sgr k a [7]) [27] = a := by
  rw [sgr_seven_ok k a hr hm hb hk, sgr_reverse_off]
  simp only [if_true]
  rw [swap_swap, hm, norm_ok _ _ _ hm hb hk]
  obtain ⟨c, b, u, bl, r⟩ := a
  simp only at hr
  rw [hr]

/-- C15.  SGR reset: when `parms[]` has at least one slot and the default
attribute `DEF_MODE` has neither the bold nor the blink bit, `ESC [ 0 m` and
`ESC [ m`, from any state of the console and of the parser, leave
`color_attr = DEF_MODE` and `bold`, `underline`, `blink` and `reverse`
cleared.  Stated for the loop body run over the bytes and for a call of
`vconsole_write` on a console that is not scroll-locked. -/
theorem sgr_reset (k : Consts) (s : State) (n : Bool) (hk : 1 ≤ k.MAX_PARMS)
    (hdef : attr_norm false false k.DEF_MODE = k.DEF_MODE) :
    (attr_of (feed k (s, n) (sgr_one [48])).1.vc =
        { color_attr := k.DEF_MODE, bold := false, underline := false, blink := false,
          reverse := false } ∧
      attr_of (feed k (s, n) (sgr_one [])).1.vc =
        { color_attr := k.DEF_MODE, bold := false, underline := false, blink := false,
          reverse := false }) ∧
    (s.vc.scrlock = false →
      attr_of (vconsole_write k (with_write_q s (sgr_one [48]))).vc =
        { color_attr := k.DEF_MODE, bold := false, underline := false, blink := false,
          reverse := false } ∧
      attr_of (vconsole_write k (with_write_q s (sgr_one []))).vc =
        { color_attr := k.DEF_MODE, bold := false, underline := false, blink := false,
          reverse := false }) := by
  have key : ∀ (S : State) (m : Bool),
      attr_of (feed k (S, m) (sgr_one [48])).1.vc =
        { color_attr := k.DEF_MODE, bold := false, underline := false, blink := false,
          reverse := false } ∧
      attr_of (feed k (S, m) (sgr_one [])).1.vc =
        { color_attr := k.DEF_MODE, bold := false, underline := false, blink := false,
          reverse := false } := by
    intro S m
    constructor
    · rw [feed_sgr_one k S m [48] hk (by decide) (by decide)]
      show sgr k (attr_of S.vc) [0] = _
      rw [sgr_zero, hdef]
    · rw [feed_sgr_one k S m [] hk (by decide) (by decide)]
      show sgr k (attr_of S.vc) [0] = _
      rw [sgr_zero, hdef]
  refine ⟨key s n, fun hlock => ?_⟩
  rw [vconsole_write_attr k s _ hlock, vconsole_write_attr k s _ hlock]
  exact ⟨(key _ false).1, (key _ false).2⟩

/-- C15 on the example console after `ESC [ 1 ; 5 ; 7 ; 31 m`: all four are
undone by `ESC [ 0 m`. -/
theorem sgr_reset_witness :
    (1 ≤ k0.MAX_PARMS ∧ attr_norm false false k0.DEF_MODE = k0.DEF_MODE ∧
      (vconsole_write k0 (with_write_q s0
        [27, 91, 49, 59, 53, 59, 55, 59, 51, 49, 109])).vc.scrlock = false ∧
      attr_of (vconsole_write k0 (with_write_q s0
        [27, 91, 49, 59, 53, 59, 55, 59, 51, 49, 109])).vc =
        { color_attr := 0xC800, bold := true, underline := false, blink := true,
          reverse := true }) ∧
    attr_of (vconsole_write k0 (with_write_q (vconsole_write k0 (with_write_q s0
        [27, 91, 49, 59, 53, 59, 55, 59, 51, 49, 109])) (sgr_one [48]))).vc =
      { color_attr := k0.DEF_MODE, bold := false, underline := false, blink := false,
        reverse := false } :=
  ⟨by decide,
   ((sgr_reset k0 (vconsole_write k0 (with_write_q s0
      [27, 91, 49, 59, 53, 59, 55, 59, 51, 49, 109])) false (by decide) (by decide)).2
      (by decide)).1⟩

/-- C14 fails as stated.  On the reset console, whose reverse flag is off and
whose attribute is 0x0700, `ESC [ 7 m ESC [ 7 m` leaves the attribute 0x7000,
the one the first `ESC [ 7 m` already gave, with the reverse flag on: the two
sequences do not cancel. -/
theorem reverse_not_involutive :
    s0.vc.reverse = false ∧ s0.vc.color_attr = 0x0700 ∧
    (vconsole_write k0 (with_write_q s0 [27, 91, 55, 109])).vc.color_attr = 0x7000 ∧
    (vconsole_write k0 (with_write_q s0 [27, 91, 55, 109, 27, 91, 55, 109])).vc.color_attr
      = 0x7000 ∧
    (vconsole_write k0 (with_write_q s0 [27, 91, 55, 109, 27, 91, 55, 109])).vc.reverse = true ∧
    (vconsole_write k0 (with_write_q s0 [27, 91, 55, 109, 27, 91, 55, 109])).vc.color_attr
      ≠ s0.vc.color_attr := by
  decide

theorem feed_sgr_pair (k : Consts) (s : State) (n : Bool) (da db : List Nat)
    (hk : 1 ≤ k.MAX_PARMS) (hda : ∀ c ∈ da, IS_NUMERIC c = true)
    (hdb : ∀ c ∈ db, IS_NUMERIC c = true)
    (ha : digit_val 0 da < 2147483648) (hb : digit_val 0 db < 2147483648) :
    attr_of (feed k (s, n) (sgr_one da ++ sgr_one db)).1.vc =
      sgr k (sgr k (attr_of s.vc) [digit_val 0 da]) [digit_val 0 db] := by
  rw [feed_append, feed_sgr_one k _ _ db hk hdb hb, feed_sgr_one k s n da hk hda ha]

/-- C14, amended.  When `parms[]` has at least one slot, `ESC [ 7 m` sets the
reverse flag, and a second `ESC [ 7 m` changes no attribute field: the
attribute stays the one the first sequence gave.  From a state whose reverse
flag is off and whose packed attribute holds attribute bits only, with the
bold and blink bits as the flags say, the first `ESC [ 7 m` swaps the two
colour fields of `color_attr`, and it is `ESC [ 27 m` that restores
`color_attr` and the flags.  Stated for the loop body run over the bytes and
for a call of `vconsole_write` on a console that is not scroll-locked. -/
theorem reverse_twice (k : Consts) (s : State) (n : Bool) (hk : 1 ≤ k.MAX_PARMS) :
    (attr_of (feed k (s, n) (sgr_one [55] ++ sgr_one [55])).1.vc =
        attr_of (feed k (s, n) (sgr_one [55])).1.vc ∧
      (feed k (s, n) (sgr_one [55])).1.vc.reverse = true ∧
      (s.vc.reverse = false → attr_ok s.vc →
        (feed k (s, n) (sgr_one [55])).1.vc.color_attr = swap_colors s.vc.color_attr ∧
        attr_of (feed k (s, n) (sgr_one [55] ++ sgr_one [50, 55])).1.vc = attr_of s.vc)) ∧
    (s.vc.scrlock = false →
      attr_of (vconsole_write k (with_write_q s (sgr_one [55] ++ sgr_one [55]))).vc =
        attr_of (vconsole_write k (with_write_q s (sgr_one [55]))).vc ∧
      (vconsole_write k (with_write_q s (sgr_one [55]))).vc.reverse = true ∧
      (s.vc.reverse = false → attr_ok s.vc →
        (vconsole_write k (with_write_q s (sgr_one [55]))).vc.color_attr =
          swap_colors s.vc.color_attr ∧
        attr_of (vconsole_write k (with_write_q s (sgr_one [55] ++ sgr_one [50, 55]))).vc =
          attr_of s.vc)) := by
  have one : ∀ (S : State) (m : Bool),
      attr_of (feed k (S, m) (sgr_one [55])).1.vc = sgr k (attr_of S.vc) [7] :=
    fun S m => feed_sgr_one k S m [55] hk (by decide) (by decide)
  have two : ∀ (S : State) (m : Bool),
      attr_of (feed k (S, m) (sgr_one [55] ++ sgr_one [55])).1.vc = sgr k (attr_of S.vc) [7] :=
    fun S m => (feed_sgr_pair k S m [55] [55] hk (by decide) (by decide) (by decide)
      (by decide)).trans (sgr_seven_twice k _)
  have off : ∀ (S : State) (m : Bool),
      attr_of (feed k (S, m) (sgr_one [55] ++ sgr_one [50, 55])).1.vc =
        sgr k (sgr k (attr_of S.vc) [7]) [27] :=
    fun S m => feed_sgr_pair k S m [55] [50, 55] hk (by decide) (by decide) (by decide)
      (by decide)
  have rev : ∀ a : Attr, (sgr k a [7]).reverse = true := by
    intro a; rw [sgr_seven]
  constructor
  · refine ⟨(two s n).trans (one s n).symm, ?_, ?_⟩
    · exact (congrArg Attr.reverse (one s n)).trans (rev _)
    · intro hr hok
      obtain ⟨h1, h2, h3⟩ := hok
      constructor
      · have := congrArg Attr.color_attr (one s n)
        rw [sgr_seven_ok k (attr_of s.vc) hr h1 h2 h3] at this
        exact this
      · rw [off s n]
        exact sgr_seven_undone k (attr_of s.vc) hr h1 h2 h3
  · intro hlock
    rw [vconsole_write_attr k s _ hlock]
    have w1 := vconsole_write_attr k s (sgr_one [55]) hlock
    have w3 := vconsole_write_attr k s (sgr_one [55] ++ sgr_one [50, 55]) hlock
    rw [one] at w1
    rw [off] at w3
    rw [restore_attr] at w1 w3
    rw [two, restore_attr, w1]
    refine ⟨rfl, ?_, ?_⟩
    · exact (congrArg Attr.reverse w1).trans (rev _)
    · intro hr hok
      obtain ⟨h1, h2, h3⟩ := hok
      constructor
      · have := congrArg Attr.color_attr w1
        rw [sgr_seven_ok k (attr_of s.vc) hr h1 h2 h3] at this
        exact this
      · rw [w3]
        exact sgr_seven_undone k (attr_of s.vc) hr h1 h2 h3

/-- The amended C14 on the reset console: `ESC [ 7 m` gives the attribute
0x7000, and `ESC [ 27 m` after it gives 0x0700 back. -/
theorem reverse_twice_witness :
    (1 ≤ k0.MAX_PARMS ∧ s0.vc.scrlock = false ∧ s0.vc.reverse = false ∧ attr_ok s0.vc ∧
      swap_colors s0.vc.color_attr = 0x7000) ∧
    (vconsole_write k0 (with_write_q s0 (sgr_one [55]))).vc.color_attr =
      swap_colors s0.vc.color_attr ∧
    attr_of (vconsole_write k0 (with_write_q s0 (sgr_one [55] ++ sgr_one [50, 55]))).vc =
      attr_of s0.vc :=
  ⟨by decide,
   (((reverse_twice k0 s0 false (by decide)).2 rfl).2.2 rfl (by decide)).1,
   (((reverse_twice k0 s0 false (by decide)).2 rfl).2.2 rfl (by decide)).2⟩

/-! ## C16: colours and bold -/

/-- The bits of the attribute after a foreground colour `t` is set and the
bold flag is on. -/
theorem fg_bits (c t : Nat) (K : Bool) (ht : t &&& 0x0700 = t) (hK : c.testBit 15 = K) :
    attr_norm true K (((c &&& 0xF8FF) ||| t) % 65536) &&& 0x0700 = t ∧
    (attr_norm true K (((c &&& 0xF8FF) ||| t) % 65536)).testBit 11 = true ∧
    attr_norm true K (((c &&& 0xF8FF) ||| t) % 65536) &&& 0x7000 = c &&& 0x7000 ∧
    (attr_norm true K (((c &&& 0xF8FF) ||| t) % 65536)).testBit 15 = c.testBit 15 := by
  have hT : ∀ i, (t.testBit i && Nat.testBit 0x0700 i) = t.testBit i := by
    intro i
    have := congrArg (fun x => Nat.testBit x i) ht
    simpa only [Nat.testBit_and] using this
  rw [show (65536 : Nat) = 2 ^ 16 by norm_num]
  subst hK
  unfold attr_norm
  refine ⟨?_, ?_, ?_, ?_⟩
  · apply Nat.eq_of_testBit_eq
    intro i
    have hi' := hT i
    cases h : c.testBit 15 <;>
      simp only [Bool.false_eq_true, if_false, if_true, Nat.testBit_and, Nat.testBit_or,
        Nat.testBit_mod_two_pow] <;>
      (by_cases hi : i < 16
       · interval_cases i <;> simp [Nat.testBit_to_div_mod] at hi' ⊢ <;> simp [hi']
       · have e1 := testBit_high 0x0700 i (by norm_num) (by omega)
         rw [e1, Bool.and_false] at hi'
         simp [e1, ← hi'])
  · cases h : c.testBit 15 <;>
      simp only [Bool.false_eq_true, if_false, if_true, Nat.testBit_and, Nat.testBit_or,
        Nat.testBit_mod_two_pow] <;>
      simp [show Nat.testBit 0x0800 11 = true by decide,
        show Nat.testBit 0x7FFF 11 = true by decide]
  · apply Nat.eq_of_testBit_eq
    intro i
    have hi' := hT i
    cases h : c.testBit 15 <;>
      simp only [Bool.false_eq_true, if_false, if_true, Nat.testBit_and, Nat.testBit_or,
        Nat.testBit_mod_two_pow] <;>
      (by_cases hi : i < 16
       · interval_cases i <;> simp [Nat.testBit_to_div_mod] at hi' ⊢ <;> simp [hi']
       · have e1 := testBit_high 0x7000 i (by norm_num) (by omega)
         simp [e1])
  · cases h : c.testBit 15 <;>
      simp only [Bool.false_eq_true, if_false, if_true, Nat.testBit_and, Nat.testBit_or,
        Nat.testBit_mod_two_pow] <;>
      simp [show Nat.testBit 0x8000 15 = true by decide,
        show Nat.testBit 0x7FFF 15 = false by decide]

/-- The bits of the attribute after a background colour `t` is set. -/
theorem bg_bits (c t : Nat) (B K : Bool) (ht : t &&& 0x0700 = t) (hB : c.testBit 11 = B)
    (hK : c.testBit 15 = K) :
    attr_norm B K (((c &&& 0x8FFF) ||| (t <<< 4)) % 65536) &&& 0x7000 = t <<< 4 ∧
    attr_norm B K (((c &&& 0x8FFF) ||| (t <<< 4)) % 65536) &&& 0x0700 = c &&& 0x0700 ∧
    (attr_norm B K (((c &&& 0x8FFF) ||| (t <<< 4)) % 65536)).testBit 11 = c.testBit 11 ∧
    (attr_norm B K (((c &&& 0x8FFF) ||| (t <<< 4)) % 65536)).testBit 15 = c.testBit 15 := by
  have hT : ∀ i, (t.testBit i && Nat.testBit 0x0700 i) = t.testBit i := by
    intro i
    have := congrArg (fun x => Nat.testBit x i) ht
    simpa only [Nat.testBit_and] using this
  have t7 : t.testBit 7 = false := by
    have h := hT 7
    rw [show Nat.testBit 0x0700 7 = false by decide, Bool.and_false] at h
    exact h.symm
  rw [show (65536 : Nat) = 2 ^ 16 by norm_num]
  subst hB
  subst hK
  unfold attr_norm
  refine ⟨?_, ?_, ?_, ?_⟩
  · apply Nat.eq_of_testBit_eq
    intro i
    have hi' := hT (i - 4)
    cases h : c.testBit 15 <;> cases h2 : c.testBit 11 <;>
      simp only [Bool.false_eq_true, if_false, if_true, Nat.testBit_and, Nat.testBit_or,
        Nat.testBit_mod_two_pow, Nat.testBit_shiftLeft] <;>
      (by_cases hi : i < 20
       · interval_cases i <;> simp [Nat.testBit_to_div_mod] at hi' ⊢ <;> simp [hi']
       · have e1 := testBit_high 0x0700 (i - 4) (by norm_num) (by omega)
         have e2 := testBit_high 0x7000 i (by norm_num) (by omega)
         rw [e1, Bool.and_false] at hi'
         simp [e2, ← hi'])
  · apply Nat.eq_of_testBit_eq
    intro i
    have hi' := hT (i - 4)
    cases h : c.testBit 15 <;> cases h2 : c.testBit 11 <;>
      simp only [Bool.false_eq_true, if_false, if_true, Nat.testBit_and, Nat.testBit_or,
        Nat.testBit_mod_two_pow, Nat.testBit_shiftLeft] <;>
      (by_cases hi : i < 20
       · interval_cases i <;> simp [Nat.testBit_to_div_mod] at hi' ⊢ <;> simp [hi']
       · have e2 := testBit_high 0x0700 i (by norm_num) (by omega)
         simp [e2])
  · cases h : c.testBit 15 <;> cases h2 : c.testBit 11 <;>
      simp only [Bool.false_eq_true, if_false, if_true, Nat.testBit_and, Nat.testBit_or,
        Nat.testBit_mod_two_pow, Nat.testBit_shiftLeft] <;>
      simp [show Nat.testBit 0x0800 11 = true by decide,
        show Nat.testBit 0x7FFF 11 = true by decide,
        show Nat.testBit 0xF7FF 11 = false by decide,
        show Nat.testBit 0x8000 11 = false by decide, t7]
  · cases h : c.testBit 15 <;> cases h2 : c.testBit 11 <;>
      simp only [Bool.false_eq_true, if_false, if_true, Nat.testBit_and, Nat.testBit_or,
        Nat.testBit_mod_two_pow, Nat.testBit_shiftLeft] <;>
      simp [show Nat.testBit 0x8000 15 = true by decide,
        show Nat.testBit 0x7FFF 15 = false by decide]

theorem sgr_case_fg (k : Consts) (a : Attr) (j : Nat) (hj : j ≤ 7) :
    sgr_case k a (30 + (j : Int)) =
      { a with color_attr := ((a.color_attr &&& 0xF8FF) ||| ansi_color_table k j) % 65536 } := by
  unfold sgr_case
  iterate 7 rw [if_neg (by omega)]
  rw [if_pos (by omega)]
  have e : (30 + (j : Int) - 30).toNat = j := by simp
  rw [e]

theorem sgr_case_bg (k : Consts) (a : Attr) (j : Nat) (hj : j ≤ 7) :
    sgr_case k a (40 + (j : Int)) =
      { a with color_attr :=
          ((a.color_attr &&& 0x8FFF) ||| (ansi_color_table k j <<< 4)) % 65536 } := by
  unfold sgr_case
  iterate 8 rw [if_neg (by omega)]
  rw [if_pos (by omega)]
  have e : (40 + (j : Int) - 40).toNat = j := by simp
  rw [e]

theorem sgr_case_one (k : Consts) (a : Attr) : sgr_case k a 1 = { a with bold := true } := by
  unfold sgr_case
  rw [if_neg (by decide), if_pos rfl]

theorem sgr_bold_fg (k : Consts) (a : Attr) (j : Nat) (hj : j ≤ 7) (hr : a.reverse = false) :
    (sgr k a [1, 30 + (j : Int)]).color_attr =
      attr_norm true a.blink (((a.color_attr &&& 0xF8FF) ||| ansi_color_table k j) % 65536) := by
  obtain ⟨c, b, u, bl, r⟩ := a
  simp only at hr
  subst hr
  unfold sgr
  simp only [Bool.false_eq_true, if_false, List.foldl_cons, List.foldl_nil]
  rw [sgr_case_one, sgr_case_fg k _ j hj]
  rfl

theorem sgr_bg (k : Consts) (a : Attr) (j : Nat) (hj : j ≤ 7) (hr : a.reverse = false) :
    (sgr k a [40 + (j : Int)]).color_attr =
      attr_norm a.bold a.blink
        (((a.color_attr &&& 0x8FFF) ||| (ansi_color_table k j <<< 4)) % 65536) := by
  obtain ⟨c, b, u, bl, r⟩ := a
  simp only at hr
  subst hr
  unfold sgr
  simp only [Bool.false_eq_true, if_false, List.foldl_cons, List.foldl_nil]
  rw [sgr_case_bg k _ j hj]
  rfl

theorem digit_numeric (j : Nat) (hj : j ≤ 7) : IS_NUMERIC (48 + j) = true := by
  simp [IS_NUMERIC]; omega

theorem digit_val_two (d j : Nat) : digit_val 0 [48 + d, 48 + j] = (d : Int) * 10 + (j : Int) := by
  simp [digit_val]

/-- The packed attribute after `ESC [ 1 ; 3 j m` and after `ESC [ 4 j m`, at
the level of the loop body. -/
theorem feed_colour (k : Consts) (s : State) (n : Bool) (j : Nat) (hk : 2 ≤ k.MAX_PARMS)
    (hj : j ≤ 7) (hr : s.vc.reverse = false) :
    (feed k (s, n) (sgr_two [49] [51, 48 + j])).1.vc.color_attr =
      attr_norm true s.vc.blink
        (((s.vc.color_attr &&& 0xF8FF) ||| ansi_color_table k j) % 65536) ∧
    (feed k (s, n) (sgr_one [52, 48 + j])).1.vc.color_attr =
      attr_norm s.vc.bold s.vc.blink
        (((s.vc.color_attr &&& 0x8FFF) ||| (ansi_color_table k j <<< 4)) % 65536) := by
  have hd : ∀ c ∈ [51, 48 + j], IS_NUMERIC c = true := by
    intro c hc
    simp only [List.mem_cons, List.mem_singleton, List.not_mem_nil, or_false] at hc
    rcases hc with rfl | rfl
    · decide
    · exact digit_numeric j hj
  have hd4 : ∀ c ∈ [52, 48 + j], IS_NUMERIC c = true := by
    intro c hc
    simp only [List.mem_cons, List.mem_singleton, List.not_mem_nil, or_false] at hc
    rcases hc with rfl | rfl
    · decide
    · exact digit_numeric j hj
  have v3 : digit_val 0 [51, 48 + j] = 30 + (j : Int) := by
    have := digit_val_two 3 j; simpa using this
  have v4 : digit_val 0 [52, 48 + j] = 40 + (j : Int) := by
    have := digit_val_two 4 j; simpa using this
  constructor
  · have h := feed_sgr_two k s n [49] [51, 48 + j] hk (by decide) hd (by decide)
      (by rw [v3]; omega)
    rw [v3] at h
    have h2 := congrArg Attr.color_attr h
    rw [show digit_val 0 [49] = 1 from rfl, sgr_bold_fg k (attr_of s.vc) j hj hr] at h2
    exact h2
  · have h := feed_sgr_one k s n [52, 48 + j] (by omega) hd4 (by rw [v4]; omega)
    rw [v4] at h
    have h2 := congrArg Attr.color_attr h
    rw [sgr_bg k (attr_of s.vc) j hj hr] at h2
    exact h2

theorem vconsole_write_colour (k : Consts) (s : State) (j : Nat) (hk : 2 ≤ k.MAX_PARMS)
    (hj : j ≤ 7) (hr : s.vc.reverse = false) (hlock : s.vc.scrlock = false) :
    (vconsole_write k (with_write_q s (sgr_two [49] [51, 48 + j]))).vc.color_attr =
      attr_norm true s.vc.blink
        (((s.vc.color_attr &&& 0xF8FF) ||| ansi_color_table k j) % 65536) ∧
    (vconsole_write k (with_write_q s (sgr_one [52, 48 + j]))).vc.color_attr =
      attr_norm s.vc.bold s.vc.blink
        (((s.vc.color_attr &&& 0x8FFF) ||| (ansi_color_table k j <<< 4)) % 65536) := by
  have w1 := congrArg Attr.color_attr
    (vconsole_write_attr k s (sgr_two [49] [51, 48 + j]) hlock)
  have w2 := congrArg Attr.color_attr (vconsole_write_attr k s (sgr_one [52, 48 + j]) hlock)
  have f1 := (feed_colour k (vconsole_write_restore (with_write_q s (sgr_two [49] [51, 48 + j])))
    false j hk hj (by rw [vconsole_write_restore_vc]; exact hr)).1
  have f2 := (feed_colour k (vconsole_write_restore (with_write_q s (sgr_one [52, 48 + j])))
    false j hk hj (by rw [vconsole_write_restore_vc]; exact hr)).2
  rw [vconsole_write_restore_vc] at f1 f2
  exact ⟨w1.trans f1, w2.trans f2⟩

/-- C16.  SGR colour and bold folding.  `parms[]` has at least two slots, the
entry `j` of `ansi_color_table` (`j` in 0..7) is a foreground colour, that
is, holds bits 8 to 10 only, the reverse flag of the console is off and the
bold and blink bits of its `color_attr` are as its flags say.  Then
`ESC [ 1 ; 3 j m` leaves `color_attr` with the bits 10-8 equal to the table
entry, the bold bit 11 set, and the bits 14-12 and the blink bit 15 as
before; `ESC [ 4 j m` leaves the bits 14-12 equal to the table entry shifted
left by 4 and the bits 10-8, 11 and 15 as before.  Stated for the loop body
run over the bytes and for a call of `vconsole_write` on a console that is
not scroll-locked. -/
theorem sgr_colour (k : Consts) (s : State) (n : Bool) (j : Nat) (hk : 2 ≤ k.MAX_PARMS)
    (hj : j ≤ 7) (ht : ansi_color_table k j &&& 0x0700 = ansi_color_table k j)
    (hr : s.vc.reverse = false) (hB : s.vc.color_attr.testBit 11 = s.vc.bold)
    (hK : s.vc.color_attr.testBit 15 = s.vc.blink) (hlock : s.vc.scrlock = false) :
    (∀ r ∈ [(feed k (s, n) (sgr_two [49] [51, 48 + j])).1.vc.color_attr,
        (vconsole_write k (with_write_q s (sgr_two [49] [51, 48 + j]))).vc.color_attr],
      r &&& 0x0700 = ansi_color_table k j ∧ r.testBit 11 = true ∧
      r &&& 0x7000 = s.vc.color_attr &&& 0x7000 ∧ r.testBit 15 = s.vc.color_attr.testBit 15) ∧
    (∀ r ∈ [(feed k (s, n) (sgr_one [52, 48 + j])).1.vc.color_attr,
        (vconsole_write k (with_write_q s (sgr_one [52, 48 + j]))).vc.color_attr],
      r &&& 0x7000 = ansi_color_table k j <<< 4 ∧
      r &&& 0x0700 = s.vc.color_attr &&& 0x0700 ∧
      r.testBit 11 = s.vc.color_attr.testBit 11 ∧
      r.testBit 15 = s.vc.color_attr.testBit 15) := by
  obtain ⟨f1, f2⟩ := feed_colour k s n j hk hj hr
  obtain ⟨w1, w2⟩ := vconsole_write_colour k s j hk hj hr hlock
  have b1 := fg_bits s.vc.color_attr (ansi_color_table k j) s.vc.blink ht hK
  have b2 := bg_bits s.vc.color_attr (ansi_color_table k j) s.vc.bold s.vc.blink ht hB hK
  constructor
  · intro r hr'
    simp only [List.mem_cons, List.mem_singleton, List.not_mem_nil, or_false] at hr'
    rcases hr' with rfl | rfl
    · rw [f1]; exact b1
    · rw [w1]; exact b1
  · intro r hr'
    simp only [List.mem_cons, List.mem_singleton, List.not_mem_nil, or_false] at hr'
    rcases hr' with rfl | rfl
    · rw [f2]; exact b2
    · rw [w2]; exact b2

/-- C16 on the reset console, whose attribute is the default 0x0700: after
`ESC [ 1 ; 3 1 m` the foreground bits are those of red and the bold bit is
set, the glyphs `E`, `R`, `R` are put with the attribute 0x0C00, and after
`ESC [ 0 m` the glyph `.` is put with the attribute 0x0700. -/
theorem sgr_colour_witness :
    (2 ≤ k0.MAX_PARMS ∧ ansi_color_table k0 1 = 0x0400 ∧ s0.vc.reverse = false ∧
      s0.vc.scrlock = false ∧ s0.vc.color_attr = k0.DEF_MODE) ∧
    (∀ r ∈ [(feed k0 (s0, false) (sgr_two [49] [51, 48 + 1])).1.vc.color_attr,
        (vconsole_write k0 (with_write_q s0 (sgr_two [49] [51, 48 + 1]))).vc.color_attr],
      r &&& 0x0700 = ansi_color_table k0 1 ∧ r.testBit 11 = true ∧
      r &&& 0x7000 = s0.vc.color_attr &&& 0x7000 ∧
      r.testBit 15 = s0.vc.color_attr.testBit 15) ∧
    cell_writes (vconsole_write k0 (with_write_q s0
      [27, 91, 49, 59, 51, 49, 109, 69, 82, 82, 27, 91, 48, 109, 46])).log =
      [Event.put_char 0 0 0x0C00 69, Event.put_char 1 0 0x0C00 82,
       Event.put_char 2 0 0x0C00 82, Event.put_char 3 0 0x0700 46] :=
  ⟨by decide,
   (sgr_colour k0 s0 false 1 (by decide) (by decide) (by decide) rfl (by decide) (by decide)
      rfl).1,
   by decide⟩

/-! ## C17: horizontal tab -/

theorem tab_scan_stop (ts : Int → Bool) (c : Int) (fuel : Nat) (x : Int) (h : ¬ x < c - 1) :
    tab_scan ts c fuel x = x := by
  cases fuel with
  | zero => rfl
  | succ m => simp only [tab_scan]; rw [if_neg h]

/-- The tab loop stops at the first tab stop to the right, or in the last
column. -/
theorem tab_scan_next (ts : Int → Bool) (c : Int) (fuel : Nat) (x : Int)
    (hf : c - 1 - x ≤ (fuel : Int)) (hx : x < c - 1) :
    next_tab ts c x (tab_scan ts c fuel x) := by
  induction fuel generalizing x with
  | zero => exfalso; simp at hf; omega
  | succ m ih =>
    simp only [tab_scan]
    rw [if_pos hx]
    by_cases ht : ts (x + 1) = true
    · rw [if_pos ht]
      exact ⟨by omega, by omega, Or.inl ht, fun j h1 h2 => by omega⟩
    · rw [if_neg ht]
      have htf : ts (x + 1) = false := by simpa using ht
      by_cases hx2 : x + 1 < c - 1
      · obtain ⟨a1, a2, a3, a4⟩ := ih (x + 1) (by push_cast at hf; omega) hx2
        refine ⟨by omega, a2, a3, fun j h1 h2 => ?_⟩
        by_cases hj : j = x + 1
        · rw [hj]; exact htf
        · exact a4 j (by omega) h2
      · rw [tab_scan_stop ts c m (x + 1) hx2]
        refine ⟨by omega, by omega, Or.inr (by omega), fun j h1 h2 => by omega⟩

theorem tab_forward_next (v : vconsole) (hx : v.x < v.columns - 1) :
    next_tab v.tty.tab_stop v.columns v.x (tab_forward v).x := by
  unfold tab_forward
  exact tab_scan_next _ _ _ _ (by rw [Int.toNat_of_nonneg (by omega)]) hx

/-- What a HT taken in GROUND makes of the cursor. -/
theorem body_tab (k : Consts) (s : State) (n : Bool) (he : s.vc.esc = false)
    (hy : s.vc.y < s.vc.lines) :
    (vconsole_write_body k s n 9).1.vc.x = (tab_forward s.vc).x ∧
    (vconsole_write_body k s n 9).1.vc.y = s.vc.y ∧
    (vconsole_write_body k s n 9).1.vc.check_x = true ∧
    (vconsole_write_body k s n 9).1.vc.tty.tab_stop = s.vc.tty.tab_stop := by
  rw [body_echo k s n 9 he (by decide) (by decide)]
  simp only [call_vc, echo_vcbuf_vc]
  have hd : echo_dispatch (echo_restore s) 9 = echo_tab (echo_restore s) := by
    unfold echo_dispatch
    rw [if_neg (by decide), if_neg (by decide), if_neg (by decide), if_neg (by decide),
      if_pos rfl]
  rw [hd]
  have hv := echo_restore_vc s
  generalize echo_restore s = S at hv ⊢
  have hs : echo_scroll (echo_tab S) = echo_tab S := by
    unfold echo_scroll
    rw [if_neg]
    show ¬ (S.vc.y ≥ S.vc.lines)
    rw [hv]; omega
  rw [hs]
  unfold echo_tab
  rw [hv]
  exact ⟨rfl, rfl, rfl, rfl⟩

/-! ## C18: erase display -/

theorem paint_append (l1 l2 : List Event) (scr scr1 : Int → Nat × Nat)
    (h : paint scr l1 = some scr1) : paint scr (l1 ++ l2) = paint scr1 l2 := by
  induction l1 generalizing scr with
  | nil => simp only [paint, Option.some.injEq] at h; rw [← h]; rfl
  | cons e l ih =>
    cases e <;> simp only [paint, List.cons_append] at h ⊢ <;>
      first | exact ih _ h | exact absurd h (by simp)

/-- The calls `csi_J` makes give the screen the spec describes. -/
theorem csi_J_paint (S : State) (m : Int) (scr0 scr : Int → Nat × Nat)
    (hx0 : 0 ≤ S.vc.x) (hx : S.vc.x < S.vc.columns) (hy0 : 0 ≤ S.vc.y)
    (hy : S.vc.y < S.video.lines) (hc : S.vc.columns = S.video.columns)
    (hp : paint scr0 S.log = some scr) :
    paint scr0 (csi_J S m).log =
      some (erase_display scr (SCREEN_SIZE S) (cursor_offset S.vc) S.vc.color_attr m) := by
  have hsz : (S.vc.y + 1) * S.vc.columns ≤ SCREEN_SIZE S := by
    unfold SCREEN_SIZE; rw [← hc, mul_comm S.vc.columns]
    exact Int.mul_le_mul_of_nonneg_right (by omega) (by omega)
  have hyc : 0 ≤ S.vc.y * S.vc.columns := Int.mul_nonneg hy0 (by omega)
  have e1 : (S.vc.y + 1) * S.vc.columns = S.vc.y * S.vc.columns + S.vc.columns := by ring
  rw [e1] at hsz
  unfold csi_J
  by_cases h0 : m = 0
  · rw [if_pos h0]
    simp only [call_log, List.append_assoc]
    rw [paint_append _ _ _ _ hp]
    simp only [List.cons_append, List.nil_append, paint, Option.some.injEq, call_vc, call_video,
      SCREEN_SIZE] at hsz ⊢
    funext i
    simp only [fill, erase_display, cursor_offset, SCREEN_SIZE, e1]
    by_cases c1 : S.vc.y * S.vc.columns + S.vc.columns ≤ i ∧ i < S.vc.y * S.vc.columns +
        S.vc.columns + (S.video.columns * S.video.lines - (S.vc.y * S.vc.columns + S.vc.columns))
    · rw [if_pos c1, if_pos (Or.inl ⟨h0, by omega, by omega⟩)]
    · rw [if_neg c1]
      by_cases c2 : S.vc.y * S.vc.columns + S.vc.x ≤ i ∧
          i < S.vc.y * S.vc.columns + S.vc.x + (S.vc.columns - S.vc.x)
      · rw [if_pos c2, if_pos (Or.inl ⟨h0, by omega, by omega⟩)]
      · rw [if_neg c2, if_neg]
        omega
  · rw [if_neg h0]
    by_cases h1 : m = 1
    · rw [if_pos h1]
      simp only [call_log, List.append_assoc]
      rw [paint_append _ _ _ _ hp]
      simp only [List.cons_append, List.nil_append, paint, Option.some.injEq, call_vc]
      funext i
      simp only [fill, erase_display, cursor_offset]
      by_cases c1 : 0 ≤ i ∧ i < 0 + S.vc.y * S.vc.columns
      · rw [if_pos c1, if_pos (Or.inr (Or.inl ⟨h1, by omega, by omega⟩))]
      · rw [if_neg c1]
        by_cases c2 : S.vc.y * S.vc.columns ≤ i ∧ i < S.vc.y * S.vc.columns + (S.vc.x + 1)
        · rw [if_pos c2, if_pos (Or.inr (Or.inl ⟨h1, by omega, by omega⟩))]
        · rw [if_neg c2, if_neg]
          omega
    · rw [if_neg h1]
      by_cases h2 : m = 2
      · rw [if_pos h2]
        simp only [call_log]
        rw [paint_append _ _ _ _ hp]
        simp only [paint, Option.some.injEq]
        funext i
        simp only [fill, erase_display]
        by_cases c1 : 0 ≤ i ∧ i < 0 + SCREEN_SIZE S
        · rw [if_pos c1, if_pos (Or.inr (Or.inr ⟨h2, by omega, by omega⟩))]
        · rw [if_neg c1, if_neg]
          omega
      · rw [if_neg h2, hp]
        congr 1
        funext i
        simp only [erase_display]
        rw [if_neg]
        omega

theorem csi_J_video (S : State) (m : Int) : (csi_J S m).video = S.video := by
  unfold csi_J
  refine ite_ind (fun r : State => r.video = S.video) _ _ _ rfl ?_
  refine ite_ind (fun r : State => r.video = S.video) _ _ _ rfl ?_
  exact ite_ind (fun r : State => r.video = S.video) _ _ _ rfl rfl

theorem body_J (k : Consts) (S : State) (n : Bool) (he : S.vc.esc = true)
    (hb : S.vc.sbracket = true) :
    (vconsole_write_body k S n 74).1 = CSE (csi_J S S.vc.parmv1) := by
  rw [body_csi k S n 74 he hb,
    csi_table_hit k S n 74 (csi_J S S.vc.parmv1) (by simp [csi_table])]

theorem feed_digits_color (k : Consts) (ds : List Nat) (s : State) (n : Bool)
    (hd : ∀ b ∈ ds, IS_NUMERIC b = true) (he : s.vc.esc = true) (hb : s.vc.sbracket = true) :
    (feed k (s, n) ds).1.vc.color_attr = s.vc.color_attr := by
  induction ds generalizing s n with
  | nil => rfl
  | cons d ds ih =>
    have hdd := hd d (List.mem_cons_self _ _)
    have hbody : vconsole_write_body k s n d = (csi_digit s d, true) := by
      rw [body_csi k s n d he hb]; unfold csi; rw [if_pos hdd]
    rw [feed_cons, hbody, ih (csi_digit s d) true (fun b hb => hd b (List.mem_cons_of_mem _ hb))
      ((csi_digit_slot s d).2.2.1.trans he) ((csi_digit_slot s d).2.2.2.trans hb)]
    exact congrArg Attr.color_attr (csi_digit_attr s d).1

/-- What `ESC [ da J` makes of the screen, of the cursor and of the colour. -/
theorem feed_J (k : Consts) (s : State) (n : Bool) (da : List Nat)
    (hda : ∀ c ∈ da, IS_NUMERIC c = true) (ha : digit_val 0 da < 2147483648)
    (hx0 : 0 ≤ s.vc.x) (hx : s.vc.x < s.vc.columns) (hy0 : 0 ≤ s.vc.y)
    (hy : s.vc.y < s.video.lines) (hc : s.vc.columns = s.video.columns)
    (scr0 scr : Int → Nat × Nat) (hp : paint scr0 s.log = some scr) :
    paint scr0 (feed k (s, n) (csi_seq da 74)).1.log =
      some (erase_display scr (SCREEN_SIZE s) (cursor_offset s.vc) s.vc.color_attr
        (digit_val 0 da)) ∧
    geo (feed k (s, n) (csi_seq da 74)).1.vc = geo s.vc ∧
    (feed k (s, n) (csi_seq da 74)).1.video = s.video ∧
    (feed k (s, n) (csi_seq da 74)).1.vc.color_attr = s.vc.color_attr ∧
    (feed k (s, n) (csi_seq da 74)).1.vc.esc = false := by
  have e : csi_seq da 74 = 27 :: 91 :: (da ++ [74]) := by simp [csi_seq]
  rw [e, feed_csi_open, feed_append, feed_cons, feed_nil]
  obtain ⟨i1, i2, i3, i4, i5, i6, i7, -⟩ := feed_digits k da (esc_bracket k (esc_open s)) n hda
    rfl rfl (le_refl _) ha
  have hcol := feed_digits_color k da (esc_bracket k (esc_open s)) n hda rfl rfl
  have hs : (feed k (esc_bracket k (esc_open s), n) da).1.vc.semicolon = false := i3
  have p1 : (feed k (esc_bracket k (esc_open s), n) da).1.vc.parmv1 = digit_val 0 da := by
    have := i7; unfold parm_slot at this; rw [hs] at this; exact this
  have hg : geo (feed k (esc_bracket k (esc_open s), n) da).1.vc = geo s.vc := i4
  have hv : (feed k (esc_bracket k (esc_open s), n) da).1.video = s.video := i5
  have hl : (feed k (esc_bracket k (esc_open s), n) da).1.log = s.log := i6
  have hcol2 : (feed k (esc_bracket k (esc_open s), n) da).1.vc.color_attr = s.vc.color_attr :=
    hcol
  rw [body_J k _ _ i1 i2, p1]
  generalize (feed k (esc_bracket k (esc_open s), n) da).1 = S at hg hv hl hcol2
  simp only [geo, Prod.mk.injEq] at hg
  obtain ⟨g1, g2, g3, g4, g5, g6⟩ := hg
  have key := csi_J_paint S (digit_val 0 da) scr0 scr (by rw [g1]; exact hx0)
    (by rw [g1, g6]; exact hx) (by rw [g2]; exact hy0) (by rw [g2, hv]; exact hy)
    (by rw [g6, hv]; exact hc) (by rw [hl]; exact hp)
  have e2 : SCREEN_SIZE S = SCREEN_SIZE s := by unfold SCREEN_SIZE; rw [hv]
  have e3 : cursor_offset S.vc = cursor_offset s.vc := by unfold cursor_offset; rw [g1, g2, g6]
  rw [e2, e3, hcol2] at key
  refine ⟨key, ?_, ?_, ?_, rfl⟩
  · show geo (csi_J S (digit_val 0 da)).vc = geo s.vc
    rw [csi_J_vc]; simp only [geo, g1, g2, g3, g4, g5, g6]
  · show (csi_J S (digit_val 0 da)).video = s.video
    rw [csi_J_video, hv]
  · show (csi_J S (digit_val 0 da)).vc.color_attr = s.vc.color_attr
    rw [csi_J_vc, hcol2]

theorem erase_display_twice (scr : Int → Nat × Nat) (size p1 p2 : Int) (a : Nat) :
    erase_display (erase_display scr size p1 a 2) size p2 a 2 = erase_display scr size p1 a 2 := by
  funext i
  simp only [erase_display]
  by_cases c : (0 : Int) ≤ i ∧ i < size
  · rw [if_pos (Or.inr (Or.inr ⟨trivial, c⟩)), if_pos (Or.inr (Or.inr ⟨trivial, c⟩))]
  · rw [if_neg (by omega), if_neg (by omega)]

theorem paint_finish (s : State) (c : Nat) (scr0 scr : Int → Nat × Nat)
    (h : paint scr0 s.log = some scr) : paint scr0 (vconsole_write_finish s c).log = some scr := by
  unfold vconsole_write_finish
  refine ite_ind (fun r : State => paint scr0 r.log = some scr) _ _ _ ?_ h
  beta_reduce
  rw [call_log]
  have h2 : paint scr0 (if s.vc.vc_mode ≠ KdMode.KD_GRAPHICS then
      call s (Event.update_curpos s.vc.x s.vc.y) else s).log = some scr := by
    refine ite_ind (fun r : State => paint scr0 r.log = some scr) _ _ _ ?_ h
    beta_reduce
    rw [call_log, paint_append _ _ _ _ h]; rfl
  rw [paint_append _ _ _ _ h2]; rfl

theorem restore_idle (s : State) (h : s.video.buf_top = 0) : vconsole_write_restore s = s := by
  unfold vconsole_write_restore
  rw [if_neg (by rw [h]; simp)]

/-! ## C19: reset -/

theorem vconsole_reset_post (k : Consts) (s : State) :
    reset_post k s.video (vconsole_reset k s).vc := by
  unfold reset_post
  refine ⟨rfl, rfl, rfl, rfl, rfl, rfl, ?_, ?_, rfl, rfl, rfl, rfl, rfl, ?_, rfl⟩
  · intro i h0 h1
    show (if 0 ≤ i ∧ i < (k.MAX_PARMS : Int) then (0 : Int) else _) = 0
    rw [if_pos ⟨h0, h1⟩]
  · intro n h0 h1
    show (if 0 ≤ n ∧ n < (k.MAX_TAB_COLS : Int) then decide (n % (k.TAB_SIZE : Int) = 0)
      else _) = true ↔ _
    rw [if_pos ⟨h0, h1⟩]
    simp
  · show s.video.lines - 0 = s.video.lines
    omega

theorem vconsole_reset_video (k : Consts) (s : State) : (vconsole_reset k s).video = s.video :=
  rfl

theorem vconsole_reset_log (k : Consts) (s : State) :
    (vconsole_reset k s).log =
      s.log ++ [Event.set_leds 0, Event.termios_reset, Event.update_curpos s.vc.x s.vc.y] := by
  show ((s.log ++ [Event.set_leds 0]) ++ [Event.termios_reset]) ++
    [Event.update_curpos s.vc.x s.vc.y] = _
  simp

theorem feed_reset (k : Consts) (s : State) (n : Bool) :
    feed k (s, n) [27, 99] = (CSE (esc_c k (esc_open s)), n) := by
  rw [feed_cons, body_ESC, feed_cons, feed_nil, body_after_esc,
    esc_table_hit k _ 99 (esc_c k (esc_open s)) (by simp [esc_table])]

theorem esc_c_vc (k : Consts) (s : State) :
    (CSE (esc_c k s)).vc = { (vconsole_reset k s).vc with x := 0, y := 0, esc := false } := by
  show ({ (esc_c k s) with vc := { (esc_c k s).vc with esc := false } } : State).vc = _
  unfold esc_c
  simp only []
  rw [csi_J_vc]

theorem esc_c_post (k : Consts) (s : State) (video : video_parms)
    (h : reset_post k video (vconsole_reset k s).vc) :
    reset_post k video (CSE (esc_c k s)).vc ∧ (CSE (esc_c k s)).vc.x = 0 ∧
      (CSE (esc_c k s)).vc.y = 0 := by
  rw [esc_c_vc]
  exact ⟨h, rfl, rfl⟩

theorem esc_c_log (k : Consts) (s : State) :
    (CSE (esc_c k s)).log =
      s.log ++ [Event.set_leds 0, Event.termios_reset, Event.update_curpos s.vc.x s.vc.y,
        Event.write_screen 0 (SCREEN_SIZE s) k.DEF_MODE] := by
  show (esc_c k s).log = _
  unfold esc_c
  simp only []
  unfold csi_J
  rw [if_neg (by decide), if_neg (by decide), if_pos rfl, call_log]
  show (vconsole_reset k s).log ++ [Event.write_screen 0 (SCREEN_SIZE s) k.DEF_MODE] = _
  rw [vconsole_reset_log]
  simp

theorem fill_all (scr : Int → Nat × Nat) (size p : Int) (a : Nat) :
    fill scr 0 size a = erase_display scr size p a 2 := by
  funext i
  simp only [fill, erase_display]
  by_cases c : (0 : Int) ≤ i ∧ i < size
  · rw [if_pos (by omega), if_pos (Or.inr (Or.inr ⟨trivial, c⟩))]
  · rw [if_neg (by omega), if_neg (by omega)]

theorem esc_c_paint (k : Consts) (s : State) (scr0 scr : Int → Nat × Nat)
    (hp : paint scr0 s.log = some scr) :
    paint scr0 (CSE (esc_c k s)).log =
      some (erase_display scr (SCREEN_SIZE s) 0 k.DEF_MODE 2) := by
  rw [esc_c_log, paint_append _ _ _ _ hp, ← fill_all]
  rfl

theorem reset_post_congr (k : Consts) (v1 v2 : video_parms) (v w : vconsole)
    (hl : v1.lines = v2.lines) (hc : v1.columns = v2.columns)
    (hw : w = { v with tty := { v.tty with write_q := w.tty.write_q } })
    (h : reset_post k v1 v) : reset_post k v2 w := by
  unfold reset_post at h ⊢
  rw [hl, hc] at h
  rw [hw]
  exact h

theorem restore_video_columns (s : State) :
    (vconsole_write_restore s).video.columns = s.video.columns := by
  unfold vconsole_write_restore
  exact ite_ind (fun r : State => r.video.columns = s.video.columns) _ _ _ rfl rfl

/-- C19.  Reset postcondition: for every state, `vconsole_reset` leaves
`top = 0`, `lines = video.lines`, `columns = video.columns`, the attribute
`DEF_MODE` with bold, underline, blink and reverse off, the parser flags
`esc`, `sbracket`, `semicolon`, `question` cleared, `parmv1 = parmv2 =
nparms = 0`, every slot of `parms[]` zero, `tab_stop[n]` set exactly when
`n % TAB_SIZE = 0` for `0 ≤ n < MAX_TAB_COLS`, `led_status = 0`, the three
locks off, `vt_mode.mode = VT_AUTO`, tty pid 0, `vc_mode = KD_TEXT` and the
window size `video.lines` rows by `video.columns` columns; it leaves the
screen parameters alone.  The bytes `ESC c` give the same, with the cursor
at `(0, 0)` and, with a backend whose `write_screen` fills cells with
`(space, a)`, every cell of the screen at `(space, DEF_MODE)`.  Stated for
`vconsole_reset`, for the loop of `vconsole_write`, and for a call of
`vconsole_write` on a console that is not scroll-locked (the screen there
for a console that does not show the scrollback). -/
theorem reset_state (k : Consts) (s : State) (n : Bool) (scr0 scr : Int → Nat × Nat)
    (hp : paint scr0 s.log = some scr) :
    (reset_post k s.video (vconsole_reset k s).vc ∧ (vconsole_reset k s).video = s.video) ∧
    (reset_post k s.video (feed k (s, n) [27, 99]).1.vc ∧
      (feed k (s, n) [27, 99]).1.vc.x = 0 ∧ (feed k (s, n) [27, 99]).1.vc.y = 0 ∧
      paint scr0 (feed k (s, n) [27, 99]).1.log =
        some (erase_display scr (SCREEN_SIZE s) 0 k.DEF_MODE 2)) ∧
    (s.vc.scrlock = false →
      reset_post k s.video (vconsole_write k (with_write_q s [27, 99])).vc ∧
      (vconsole_write k (with_write_q s [27, 99])).vc.x = 0 ∧
      (vconsole_write k (with_write_q s [27, 99])).vc.y = 0 ∧
      (s.video.buf_top = 0 →
        paint scr0 (vconsole_write k (with_write_q s [27, 99])).log =
          some (erase_display scr (SCREEN_SIZE s) 0 k.DEF_MODE 2))) := by
  refine ⟨⟨vconsole_reset_post k s, rfl⟩, ?_, fun hlock => ?_⟩
  · rw [feed_reset]
    obtain ⟨a1, a2, a3⟩ := esc_c_post k (esc_open s) s.video (vconsole_reset_post k (esc_open s))
    exact ⟨a1, a2, a3, esc_c_paint k (esc_open s) scr0 scr hp⟩
  · rw [vconsole_write_unlocked k (with_write_q s [27, 99]) hlock]
    rw [show (with_write_q s [27, 99]).vc.tty.write_q = [27, 99] from rfl, feed_reset]
    generalize hS : vconsole_write_restore (with_write_q s [27, 99]) = S
    have hl : S.video.lines = s.video.lines := by
      rw [← hS, restore_video_lines]; rfl
    have hc : S.video.columns = s.video.columns := by
      rw [← hS, restore_video_columns]; rfl
    obtain ⟨a1, a2, a3⟩ := esc_c_post k (esc_open S) S.video (vconsole_reset_post k (esc_open S))
    refine ⟨?_, ?_, ?_, fun htop => ?_⟩
    · rw [vconsole_write_finish_vc]
      exact reset_post_congr k S.video s.video _ _ hl hc rfl a1
    · rw [vconsole_write_finish_vc]; exact a2
    · rw [vconsole_write_finish_vc]; exact a3
    · have hS2 : S = with_write_q s [27, 99] := by
        rw [← hS]; exact restore_idle _ htop
      have hp2 : paint scr0 (esc_open S).log = some scr := by rw [hS2]; exact hp
      have hz : SCREEN_SIZE (esc_open S) = SCREEN_SIZE s := by rw [hS2]; rfl
      have := esc_c_paint k (esc_open S) scr0 scr hp2
      rw [hz] at this
      exact paint_finish _ _ scr0 _ this

/-- C19 from a console in use: the region, the attribute and the parser are
as listed, the cursor is at the origin and the screen is blank. -/
theorem reset_state_witness :
    (paint (fun _ => (65, 7)) s_used.log = some (fun _ => (65, 7)) ∧ s_used.vc.scrlock = false ∧
      s_used.video.buf_top = 0 ∧ s_used.vc.top = 3 ∧ s_used.vc.color_attr = 0xC800) ∧
    (reset_post k0 s_used.video (vconsole_write k0 (with_write_q s_used [27, 99])).vc ∧
      (vconsole_write k0 (with_write_q s_used [27, 99])).vc.x = 0 ∧
      (vconsole_write k0 (with_write_q s_used [27, 99])).vc.y = 0 ∧
      (s_used.video.buf_top = 0 →
        paint (fun _ => (65, 7)) (vconsole_write k0 (with_write_q s_used [27, 99])).log =
          some (erase_display (fun _ => (65, 7)) (SCREEN_SIZE s_used) 0 k0.DEF_MODE 2))) :=
  ⟨⟨rfl, by decide, by decide, by decide, by decide⟩,
   (reset_state k0 s_used false (fun _ => (65, 7)) (fun _ => (65, 7)) rfl).2.2 (by decide)⟩

/-! ## C20: focus exclusivity -/

theorem wrap16_id (i : Int) (h0 : -32768 ≤ i) (h1 : i < 32768) : wrap16 i = i := by
  unfold wrap16; omega

theorem focus_congr (nr : Nat) (c r : Consoles) (hc : r.current_cons = c.current_cons)
    (ha : r.video.address = c.video.address) (hf : ∀ i, foc (r.vc i) = foc (c.vc i))
    (h : Focus nr c) : Focus nr r := by
  obtain ⟨h1, h2, h3⟩ := h
  refine ⟨by rw [hc]; exact h1, by rw [hc]; exact h2, fun i hi => ?_⟩
  have := hf i
  simp only [foc, Prod.mk.injEq] at this
  rw [this.1, this.2, hc, ha]
  exact h3 i hi

theorem select_acquire_frame (c : Consoles) (t kill : Int) :
    (select_acquire c t kill).current_cons = c.current_cons ∧
    (select_acquire c t kill).video = c.video ∧
    ∀ i, foc ((select_acquire c t kill).vc i) = foc (c.vc i) := by
  unfold select_acquire
  by_cases h : (c.vc t).vt_mode.mode = VtMode.VT_PROCESS
  · rw [if_pos h]
    by_cases hk : kill ≠ 0
    · simp only [if_pos hk]
      refine ⟨rfl, rfl, fun i => ?_⟩
      show foc (if i = t then init_vt (c.vc t) else c.vc i) = foc (c.vc i)
      by_cases hi : i = t
      · rw [if_pos hi, hi]; rfl
      · rw [if_neg hi]
    · simp only [if_neg hk]
      exact ⟨rfl, rfl, fun _ => rfl⟩
  · rw [if_neg h]
    exact ⟨rfl, rfl, fun _ => rfl⟩

theorem select_unscroll_frame (c : Consoles) :
    (select_unscroll c).current_cons = c.current_cons ∧
    (select_unscroll c).video.address = c.video.address ∧
    (select_unscroll c).vc = c.vc := by
  unfold select_unscroll
  by_cases h : c.video.buf_top ≠ 0
  · rw [if_pos h]; exact ⟨rfl, rfl, rfl⟩
  · rw [if_neg h]; exact ⟨rfl, rfl, rfl⟩

theorem select_focus_frame (c : Consoles) (t : Int) :
    (select_focus c t).current_cons = wrap16 t ∧
    (select_focus c t).video.address = c.video.address ∧
    ∀ i, foc ((select_focus c t).vc i) =
      if i = t then (true, c.video.address)
      else if i = c.current_cons then (false, 0) else foc (c.vc i) := by
  refine ⟨rfl, rfl, fun i => ?_⟩
  show foc (if i = t then _ else if i = c.current_cons then _ else c.vc i) = _
  by_cases h1 : i = t
  · rw [if_pos h1, if_pos h1]; rfl
  · rw [if_neg h1, if_neg h1]
    by_cases h2 : i = c.current_cons
    · rw [if_pos h2, if_pos h2]; rfl
    · rw [if_neg h2, if_neg h2]

/-- A call of `vconsole_select_final` for a console of the table keeps
invariant 1 and makes the console the current one. -/
theorem select_final_focus (nr : Nat) (c : Consoles) (t kill : Int) (hnr : nr < 32768)
    (ht1 : 1 ≤ t) (ht2 : t ≤ (nr : Int)) (h : Focus nr c) :
    ∃ r, vconsole_select_final nr c t kill = some r ∧ Focus nr r ∧
      r.video.address = c.video.address ∧ r.current_cons = t := by
  unfold vconsole_select_final
  by_cases hne : c.current_cons ≠ t
  · rw [if_pos hne]
    have hw : wrap16 t = t := wrap16_id t (by omega) (by omega)
    obtain ⟨h1, h2, h3⟩ := h
    rw [if_pos ⟨⟨by omega, ht2⟩, ⟨by omega, h2⟩, by rw [hw]; exact ⟨by omega, ht2⟩⟩]
    refine ⟨_, rfl, ?_⟩
    obtain ⟨a1, a2, a3⟩ := select_acquire_frame c t kill
    obtain ⟨b1, b2, b3⟩ := select_unscroll_frame (select_acquire c t kill)
    obtain ⟨d1, d2, d3⟩ := select_focus_frame (select_unscroll (select_acquire c t kill)) t
    rw [b1, a1, b2, a2, b3] at d3
    rw [b2, a2] at d2
    rw [hw] at d1
    generalize select_focus (select_unscroll (select_acquire c t kill)) t = r at d1 d2 d3
    refine ⟨⟨by rw [d1]; exact ht1, by rw [d1]; exact ht2, fun i hin => ?_⟩, d2, d1⟩
    have e := d3 i
    rw [a3 i] at e
    rw [d1, d2]
    by_cases hi : i = t
    · rw [if_pos hi] at e
      simp only [foc, Prod.mk.injEq] at e
      rw [e.1, e.2, if_pos hi]
      simp [hi]
    · rw [if_neg hi] at e
      rw [if_neg hi]
      by_cases hc : i = c.current_cons
      · rw [if_pos hc] at e
        simp only [foc, Prod.mk.injEq] at e
        rw [e.1, e.2]
        simp [hi]
      · rw [if_neg hc] at e
        simp only [foc, Prod.mk.injEq] at e
        obtain ⟨f1, f2⟩ := h3 i hin
        rw [e.1, e.2, f2, if_neg hc]
        refine ⟨?_, rfl⟩
        rw [f1]
        exact ⟨fun x => absurd x hc, fun x => absurd x hi⟩
  · rw [if_neg hne]
    have : c.current_cons = t := by
      by_contra x; exact hne x
    exact ⟨c, rfl, h, rfl, this⟩

/-- A call of `vconsole_select` for a console of the table keeps
invariant 1, whatever `kill_pid` returns. -/
theorem select_keeps_focus (nr : Nat) (c : Consoles) (n kill1 kill2 : Int) (hnr : nr < 32768)
    (ht1 : 1 ≤ n + 1) (ht2 : n + 1 ≤ (nr : Int)) (h : Focus nr c) :
    ∃ r, vconsole_select nr c n kill1 kill2 = some r ∧ Focus nr r ∧
      r.video.address = c.video.address := by
  have hw : wrap32 (n + 1) = n + 1 := wrap32_id _ (by omega) (by omega)
  unfold vconsole_select
  simp only [hw]
  by_cases hne : c.current_cons ≠ n + 1
  · rw [if_pos hne]
    have hin : in_table nr c.current_cons := ⟨by have := h.1; omega, h.2.1⟩
    rw [if_pos hin]
    by_cases hp : (c.vc c.current_cons).vt_mode.mode = VtMode.VT_PROCESS
    · rw [if_pos hp]
      by_cases hk : kill1 = 0
      · rw [if_pos hk]
        refine ⟨_, rfl, focus_congr nr c _ rfl rfl (fun i => ?_) h, rfl⟩
        show foc (if i = c.current_cons then _ else c.vc i) = foc (c.vc i)
        by_cases hi : i = c.current_cons
        · rw [if_pos hi, hi]; rfl
        · rw [if_neg hi]
      · rw [if_neg hk]
        have hb : Focus nr (set_vc (emit c (Call.kill_pid (c.vc c.current_cons).tty.pid
            (c.vc c.current_cons).vt_mode.acqsig)) c.current_cons
            (init_vt (c.vc c.current_cons))) := by
          refine focus_congr nr c _ rfl rfl (fun i => ?_) h
          show foc (if i = c.current_cons then _ else c.vc i) = foc (c.vc i)
          by_cases hi : i = c.current_cons
          · rw [if_pos hi, hi]; rfl
          · rw [if_neg hi]
        refine ite_ind (fun o : Option Consoles => ∃ r, o = some r ∧ Focus nr r ∧
          r.video.address = c.video.address) _ _ _ ?_ ?_
        · exact ⟨_, rfl, hb, rfl⟩
        · obtain ⟨r, e1, e2, e3, -⟩ := select_final_focus nr _ (n + 1) kill2 hnr ht1 ht2 hb
          exact ⟨r, e1, e2, e3⟩
    · rw [if_neg hp]
      by_cases hg : (c.vc c.current_cons).vc_mode = KdMode.KD_GRAPHICS
      · rw [if_pos hg]; exact ⟨c, rfl, h, rfl⟩
      · rw [if_neg hg]
        obtain ⟨r, e1, e2, e3, -⟩ := select_final_focus nr c (n + 1) kill2 hnr ht1 ht2 h
        exact ⟨r, e1, e2, e3⟩
  · rw [if_neg hne]
    exact ⟨c, rfl, h, rfl⟩

theorem run_switches_focus (nr : Nat) (hnr : nr < 32768) (ops : List Switch) (c : Consoles)
    (hops : ∀ op ∈ ops, 1 ≤ switch_target op ∧ switch_target op ≤ (nr : Int))
    (h : Focus nr c) :
    ∃ r, run_switches nr c ops = some r ∧ Focus nr r ∧ r.video.address = c.video.address := by
  induction ops generalizing c with
  | nil => exact ⟨c, rfl, h, rfl⟩
  | cons op l ih =>
    obtain ⟨t1, t2⟩ := hops op (List.mem_cons_self _ _)
    have step : ∃ r, run_switch nr c op = some r ∧ Focus nr r ∧
        r.video.address = c.video.address := by
      cases op with
      | select n k1 k2 => exact select_keeps_focus nr c n k1 k2 hnr t1 t2 h
      | final t k1 =>
        obtain ⟨r, e1, e2, e3, -⟩ := select_final_focus nr c t k1 hnr t1 t2 h
        exact ⟨r, e1, e2, e3⟩
    obtain ⟨r, e1, e2, e3⟩ := step
    obtain ⟨r2, g1, g2, g3⟩ := ih r (fun o ho => hops o (List.mem_cons_of_mem _ ho)) e2
    refine ⟨r2, ?_, g2, g3.trans e3⟩
    show (run_switch nr c op).bind (fun r => run_switches nr r l) = some r2
    rw [e1]; exact g1

theorem set_vc_foc (c : Consoles) (n : Int) (v : vconsole) (i : Int) :
    foc ((set_vc c n v).vc i) = if i = n then foc v else foc (c.vc i) := by
  show foc (if i = n then v else c.vc i) = _
  by_cases e : i = n
  · rw [if_pos e, if_pos e]
  · rw [if_neg e, if_neg e]

theorem on_vc_reset_frame (k : Consts) (c : Consoles) (n : Int) :
    (on_vc c n (vconsole_reset k)).video = c.video ∧
    (on_vc c n (vconsole_reset k)).current_cons = c.current_cons ∧
    ∀ i, foc ((on_vc c n (vconsole_reset k)).vc i) = foc (c.vc i) := by
  refine ⟨rfl, rfl, fun i => ?_⟩
  show foc (if i = n then (vconsole_reset k { vc := c.vc n, video := c.video, log := [] }).vc
    else c.vc i) = _
  by_cases e : i = n
  · rw [if_pos e, e]; rfl
  · rw [if_neg e]

theorem console_init_vc_frame (k : Consts) (c : Consoles) (n reg : Int) (t : tty) :
    (console_init_vc k c n reg t).video.address = c.video.address ∧
    (console_init_vc k c n reg t).current_cons = c.current_cons ∧
    ∀ i, foc (c.vc i) = (false, 0) → foc ((console_init_vc k c n reg t).vc i) = (false, 0) := by
  unfold console_init_vc
  by_cases h : reg = 0
  · simp only [if_pos h]
    generalize hv : ({ (emit c (Call.register_tty n)).vc n with tty := t, vidmem := 0 } :
      vconsole) = v
    have hfv : foc v = ((c.vc n).has_focus, 0) := by rw [← hv]; rfl
    obtain ⟨o1, o2, o3⟩ := on_vc_reset_frame k (set_vc (emit c (Call.register_tty n)) n v) n
    refine ⟨by rw [o1]; rfl, by rw [o2]; rfl, fun i hi => ?_⟩
    rw [o3 i, set_vc_foc]
    by_cases e : i = n
    · rw [if_pos e, hfv, ← e]
      simp only [foc, Prod.mk.injEq] at hi
      rw [hi.1]
    · rw [if_neg e]; exact hi
  · simp only [if_neg h]
    exact ⟨rfl, rfl, fun i hi => hi⟩

theorem console_init_loop_frame (k : Consts) (reg : Int → Int) (ttys : Int → tty)
    (l : List Nat) (c : Consoles) :
    (l.foldl (fun (c : Consoles) (i : Nat) =>
      console_init_vc k c ((i : Int) + 1) (reg ((i : Int) + 1)) (ttys ((i : Int) + 1)))
      c).video.address = c.video.address ∧
    ∀ i, foc (c.vc i) = (false, 0) →
      foc ((l.foldl (fun (c : Consoles) (i : Nat) =>
        console_init_vc k c ((i : Int) + 1) (reg ((i : Int) + 1)) (ttys ((i : Int) + 1)))
        c).vc i) = (false, 0) := by
  induction l generalizing c with
  | nil => exact ⟨rfl, fun _ h => h⟩
  | cons a l ih =>
    obtain ⟨f1, -, f3⟩ := console_init_vc_frame k c ((a : Int) + 1) (reg ((a : Int) + 1))
      (ttys ((a : Int) + 1))
    obtain ⟨g1, g2⟩ := ih (console_init_vc k c ((a : Int) + 1) (reg ((a : Int) + 1))
      (ttys ((a : Int) + 1)))
    rw [List.foldl_cons]
    exact ⟨g1.trans f1, fun i hi => g2 i (f3 i hi)⟩

theorem console_init_banner_frame (vga vesafb : Bool) (c : Consoles) :
    (console_init_banner vga vesafb c).video = c.video ∧
    (console_init_banner vga vesafb c).vc = c.vc := by
  unfold console_init_banner
  cases vga <;> cases vesafb <;> exact ⟨rfl, rfl⟩

theorem console_init_focus_frame (hw : Int × Int) (syscon : Bool) (d : Consoles) :
    (console_init_focus hw syscon d).current_cons = 1 ∧
    (console_init_focus hw syscon d).video.address = d.video.address ∧
    ∀ i, foc ((console_init_focus hw syscon d).vc i) =
      if i = 1 then (true, d.video.address) else foc (d.vc i) := by
  unfold console_init_focus
  cases syscon
  all_goals
    refine ⟨rfl, rfl, fun i => ?_⟩
    show foc (if i = 1 then _ else if i = 1 then _ else d.vc i) = _
    by_cases e : i = 1
    · rw [if_pos e, if_pos e]
      show foc ({ (if (1 : Int) = 1 then _ else d.vc 1 : vconsole) with x := hw.1, y := hw.2 }) = _
      rw [if_pos rfl]; rfl
    · rw [if_neg e, if_neg e, if_neg e]

/-- The state `console_init` leaves satisfies invariant 1, with the console
1 in focus, when no entry of the table had the focus flag or a video memory
pointer before. -/
theorem console_init_inv (k : Consts) (nr : Nat) (vga vesafb : Bool) (reg : Int → Int)
    (ttys : Int → tty) (hw : Int × Int) (syscon : Bool) (c : Consoles) (h1 : 1 ≤ nr)
    (hz : ∀ i, in_table nr i → foc (c.vc i) = (false, 0)) :
    Focus nr (console_init k nr vga vesafb reg ttys hw syscon c) ∧
    (console_init k nr vga vesafb reg ttys hw syscon c).current_cons = 1 ∧
    (console_init k nr vga vesafb reg ttys hw syscon c).video.address = c.video.address := by
  unfold console_init
  obtain ⟨b1, b2⟩ := console_init_banner_frame vga vesafb c
  obtain ⟨l1, l2⟩ := console_init_loop_frame k reg ttys (List.range nr)
    (console_init_banner vga vesafb c)
  rw [b1] at l1
  rw [b2] at l2
  obtain ⟨f1, f2, f3⟩ := console_init_focus_frame hw syscon
    (console_init_loop k nr reg ttys (console_init_banner vga vesafb c))
  have l1' : (console_init_loop k nr reg ttys (console_init_banner vga vesafb c)).video.address =
    c.video.address := l1
  refine ⟨⟨by rw [f1], by rw [f1]; show (1 : Int) ≤ (nr : Int); omega, fun i hi => ?_⟩, f1,
    f2.trans l1'⟩
  have e := f3 i
  rw [f1, f2]
  by_cases e1 : i = 1
  · rw [if_pos e1] at e
    simp only [foc, Prod.mk.injEq] at e
    rw [e.1, e.2, if_pos e1]
    simp [e1]
  · rw [if_neg e1] at e
    have e2 : foc ((console_init_loop k nr reg ttys (console_init_banner vga vesafb c)).vc i) =
      (false, 0) := l2 i (hz i hi)
    rw [e2] at e
    simp only [foc, Prod.mk.injEq] at e
    rw [e.1, e.2, if_neg e1]
    simp [e1]

/-- C20.  Focus exclusivity: `console_init`, run for at least one and fewer
than 32768 consoles on a table of which no entry has CONSOLE_HAS_FOCUS or a
video memory pointer (static storage), leaves the console 1 current; after
any list of calls of `vconsole_select` and `vconsole_select_final` whose
target, counted from 1, is one of `1 .. NR_VCONSOLES`, whatever `kill_pid`
returns in each, no entry outside the table has been touched, `current_cons`
is one of `1 .. NR_VCONSOLES`, an entry of the table has CONSOLE_HAS_FOCUS
exactly when it is `vc[current_cons]`, the `vidmem` of that entry is
`video.address`, which has not changed, and the `vidmem` of every other
entry is NULL. -/
theorem focus_exclusive (k : Consts) (nr : Nat) (vga vesafb : Bool) (reg : Int → Int)
    (ttys : Int → tty) (hw : Int × Int) (syscon : Bool) (c : Consoles) (ops : List Switch)
    (h1 : 1 ≤ nr) (hnr : nr < 32768)
    (hz : ∀ i, in_table nr i → foc (c.vc i) = (false, 0))
    (hops : ∀ op ∈ ops, 1 ≤ switch_target op ∧ switch_target op ≤ (nr : Int)) :
    (console_init k nr vga vesafb reg ttys hw syscon c).current_cons = 1 ∧
    ∃ r, run_switches nr (console_init k nr vga vesafb reg ttys hw syscon c) ops = some r ∧
      Focus nr r ∧ r.video.address = c.video.address := by
  obtain ⟨a1, a2, a3⟩ := console_init_inv k nr vga vesafb reg ttys hw syscon c h1 hz
  obtain ⟨r, b1, b2, b3⟩ := run_switches_focus nr hnr ops _ hops a1
  exact ⟨a2, r, b1, b2, b3.trans a3⟩

theorem boot_foc (i : Int) : foc (boot.vc i) = (false, 0) := by
  show foc (if i = 2 then _ else if i = 3 then _ else vc0) = (false, 0)
  by_cases e2 : i = 2
  · rw [if_pos e2]; rfl
  · rw [if_neg e2]
    by_cases e3 : i = 3
    · rw [if_pos e3]; rfl
    · rw [if_neg e3]; rfl

/-- C20 for four consoles, of which the third could not be registered and
was left in graphics mode: after the switches to the consoles 2, 4 and 3,
console 3 is current and is the only one with the focus flag and a `vidmem`;
the switch to console 1 asked for next keeps the invariant as well. -/
theorem focus_exclusive_witness :
    (1 ≤ 4 ∧ 4 < 32768 ∧ (∀ i, in_table 4 i → foc (boot.vc i) = (false, 0)) ∧
      ∀ op ∈ [Switch.select 1 0 0, Switch.final 4 1, Switch.select 2 0 1, Switch.select 0 0 0],
        1 ≤ switch_target op ∧ switch_target op ≤ ((4 : Nat) : Int)) ∧
    ((console_init k0 4 true false (fun n => if n = 3 then 1 else 0) (fun _ => vc0.tty) (5, 7)
        true boot).current_cons = 1 ∧
      ∃ r, run_switches 4 (console_init k0 4 true false (fun n => if n = 3 then 1 else 0)
          (fun _ => vc0.tty) (5, 7) true boot)
          [Switch.select 1 0 0, Switch.final 4 1, Switch.select 2 0 1, Switch.select 0 0 0] =
            some r ∧
        Focus 4 r ∧ r.video.address = boot.video.address) ∧
    (run_switches 4 (console_init k0 4 true false (fun n => if n = 3 then 1 else 0)
        (fun _ => vc0.tty) (5, 7) true boot)
        [Switch.select 1 0 0, Switch.final 4 1, Switch.select 2 0 1]).map
      (fun r => (r.current_cons, (List.range 5).map (fun (i : Nat) => foc (r.vc (i : Int))))) =
      some (3, [(false, 0), (false, 0), (false, 0), (true, 0xB8000), (false, 0)]) :=
  ⟨⟨by decide, by decide,
      fun i _ => boot_foc i,
      by decide⟩,
    focus_exclusive k0 4 true false (fun n => if n = 3 then 1 else 0) (fun _ => vc0.tty) (5, 7)
      true boot [Switch.select 1 0 0, Switch.final 4 1, Switch.select 2 0 1, Switch.select 0 0 0]
      (by decide) (by decide)
      (fun i _ => boot_foc i)
      (by decide),
    by decide⟩

/-! ## C21: the handoff of a console in VT_PROCESS mode -/

theorem set_vc_same (c : Consoles) (n : Int) (v : vconsole) : (set_vc c n v).vc n = v := by
  show (if n = n then v else c.vc n) = v
  rw [if_pos rfl]

theorem set_vc_other (c : Consoles) (n i : Int) (v : vconsole) (h : i ≠ n) :
    (set_vc c n v).vc i = c.vc i := by
  show (if i = n then v else c.vc i) = c.vc i
  rw [if_neg h]

theorem select_acquire_other (c : Consoles) (t kill i : Int) (h : i ≠ t) :
    (select_acquire c t kill).vc i = c.vc i := by
  unfold select_acquire
  refine ite_ind (fun r : Consoles => r.vc i = c.vc i) _ _ _ ?_ rfl
  beta_reduce
  refine ite_ind (fun r : Consoles => r.vc i = c.vc i) _ _ _ ?_ rfl
  exact set_vc_other _ _ _ _ h

theorem select_acquire_log (c : Consoles) (t kill : Int) :
    ∃ l, (select_acquire c t kill).log = c.log ++ l ∧
      ∀ e ∈ l, e = Call.kill_pid (c.vc t).tty.pid (c.vc t).vt_mode.acqsig := by
  unfold select_acquire
  refine ite_ind (fun r : Consoles => ∃ l, r.log = c.log ++ l ∧
    ∀ e ∈ l, e = Call.kill_pid (c.vc t).tty.pid (c.vc t).vt_mode.acqsig) _ _ _ ?_
    ⟨[], by simp, by simp⟩
  beta_reduce
  refine ite_ind (fun r : Consoles => ∃ l, r.log = c.log ++ l ∧
    ∀ e ∈ l, e = Call.kill_pid (c.vc t).tty.pid (c.vc t).vt_mode.acqsig) _ _ _ ?_ ?_
  all_goals exact ⟨[Call.kill_pid (c.vc t).tty.pid (c.vc t).vt_mode.acqsig], rfl, by simp⟩

/-- The mode of handoff of every console but the incoming one is left alone
by the statements that move the focus. -/
theorem select_focus_other (c : Consoles) (t i : Int) (h : i ≠ t) :
    ((select_focus c t).vc i).vt_mode = (c.vc i).vt_mode ∧
    ((select_focus c t).vc i).vc_mode = (c.vc i).vc_mode ∧
    ((select_focus c t).vc i).switchto_tty = (c.vc i).switchto_tty := by
  show ((if i = t then _ else if i = c.current_cons then _ else c.vc i : vconsole).vt_mode =
      (c.vc i).vt_mode) ∧
    ((if i = t then _ else if i = c.current_cons then _ else c.vc i : vconsole).vc_mode =
      (c.vc i).vc_mode) ∧
    ((if i = t then _ else if i = c.current_cons then _ else c.vc i : vconsole).switchto_tty =
      (c.vc i).switchto_tty)
  rw [if_neg h]
  by_cases e : i = c.current_cons
  · rw [if_pos e, e]; exact ⟨rfl, rfl, rfl⟩
  · rw [if_neg e]; exact ⟨rfl, rfl, rfl⟩

/-- A call of `vconsole_select_final` for a console of the table other than
the current one: what it leaves. -/
theorem select_final_switch (nr : Nat) (c : Consoles) (t kill : Int) (hnr : nr < 32768)
    (ht1 : 0 ≤ t) (ht2 : t ≤ (nr : Int)) (hcur : in_table nr c.current_cons)
    (hne : c.current_cons ≠ t) :
    ∃ r, vconsole_select_final nr c t kill = some r ∧ r.current_cons = t ∧
      r.video.address = c.video.address ∧
      foc (r.vc t) = (true, c.video.address) ∧ foc (r.vc c.current_cons) = (false, 0) ∧
      (∀ i, i ≠ t → i ≠ c.current_cons → foc (r.vc i) = foc (c.vc i)) ∧
      (∀ i, i ≠ t → (r.vc i).vt_mode = (c.vc i).vt_mode) ∧
      Call.on t Event.restore_screen ∈ r.log := by
  unfold vconsole_select_final
  have hw : wrap16 t = t := wrap16_id t (by omega) (by omega)
  rw [if_pos hne, if_pos ⟨⟨ht1, ht2⟩, hcur, by rw [hw]; exact ⟨ht1, ht2⟩⟩]
  refine ⟨_, rfl, ?_⟩
  obtain ⟨a1, a2, a3⟩ := select_acquire_frame c t kill
  obtain ⟨b1, b2, b3⟩ := select_unscroll_frame (select_acquire c t kill)
  obtain ⟨d1, d2, d3⟩ := select_focus_frame (select_unscroll (select_acquire c t kill)) t
  rw [b1, a1, b2, a2, b3] at d3
  rw [b2, a2] at d2
  rw [hw] at d1
  have hv : ∀ i, i ≠ t →
      ((select_focus (select_unscroll (select_acquire c t kill)) t).vc i).vt_mode =
        (c.vc i).vt_mode := by
    intro i hi
    rw [(select_focus_other _ t i hi).1, b3, select_acquire_other c t kill i hi]
  have hlog : Call.on t Event.restore_screen ∈
      (select_focus (select_unscroll (select_acquire c t kill)) t).log := by
    show Call.on t Event.restore_screen ∈ _ ++ [_] ++ [_] ++ [_] ++ [_] ++ [_] ++ [_]
    simp
  refine ⟨d1, d2, ?_, ?_, fun i h1 h2 => ?_, hv, hlog⟩
  · rw [d3 t, if_pos rfl]
  · rw [d3 c.current_cons, if_neg hne, if_pos rfl]
  · rw [d3 i, if_neg h1, if_neg h2, a3 i]

/-- C21.  PROCESS-mode handoff.  `vconsole_select` is asked for a console of
the table, `1 ≤ n + 1 ≤ NR_VCONSOLES`, other than the current one, and the
current console is in VT_PROCESS mode.  When `kill_pid` returns 0 (the
signal `acqsig` was delivered to the pid in control) the switch is deferred:
`current_cons`, `video`, every focus flag and every `vidmem` are unchanged,
no call but the `kill_pid` is made, and `switchto_tty` of the current console
holds the target `n + 1`.  When `kill_pid` returns anything else the mode of
the current console becomes VT_AUTO and the switch is made: `current_cons`
is the target, which has the focus flag and `vidmem = video.address`, and
the console left has neither. -/
theorem process_handoff (nr : Nat) (c : Consoles) (n kill1 kill2 : Int) (hnr : nr < 32768)
    (ht1 : 1 ≤ n + 1) (ht2 : n + 1 ≤ (nr : Int)) (hcur : in_table nr c.current_cons)
    (hne : c.current_cons ≠ n + 1)
    (hp : (c.vc c.current_cons).vt_mode.mode = VtMode.VT_PROCESS) :
    (kill1 = 0 → ∃ r, vconsole_select nr c n kill1 kill2 = some r ∧
      r.current_cons = c.current_cons ∧ r.video = c.video ∧
      (∀ i, foc (r.vc i) = foc (c.vc i)) ∧
      (r.vc c.current_cons).switchto_tty = n + 1 ∧
      r.log = c.log ++ [Call.kill_pid (c.vc c.current_cons).tty.pid
        (c.vc c.current_cons).vt_mode.acqsig]) ∧
    (kill1 ≠ 0 → ∃ r, vconsole_select nr c n kill1 kill2 = some r ∧
      r.current_cons = n + 1 ∧ r.video.address = c.video.address ∧
      (r.vc c.current_cons).vt_mode.mode = VtMode.VT_AUTO ∧
      foc (r.vc (n + 1)) = (true, c.video.address) ∧
      foc (r.vc c.current_cons) = (false, 0) ∧
      ∀ i, i ≠ n + 1 → i ≠ c.current_cons → foc (r.vc i) = foc (c.vc i)) := by
  have hw : wrap32 (n + 1) = n + 1 := wrap32_id _ (by omega) (by omega)
  unfold vconsole_select
  simp only [hw]
  rw [if_pos hne, if_pos hcur, if_pos hp]
  constructor
  · intro hk
    rw [if_pos hk]
    refine ⟨_, rfl, rfl, rfl, fun i => ?_, ?_, rfl⟩
    · show foc (if i = c.current_cons then _ else c.vc i) = foc (c.vc i)
      by_cases hi : i = c.current_cons
      · rw [if_pos hi, hi]; rfl
      · rw [if_neg hi]
    · show (if c.current_cons = c.current_cons then _ else c.vc c.current_cons :
        vconsole).switchto_tty = n + 1
      rw [if_pos rfl]
  · intro hk
    rw [if_neg hk]
    generalize hb : set_vc (emit c (Call.kill_pid (c.vc c.current_cons).tty.pid
      (c.vc c.current_cons).vt_mode.acqsig))
      (emit c (Call.kill_pid (c.vc c.current_cons).tty.pid
        (c.vc c.current_cons).vt_mode.acqsig)).current_cons
      (init_vt ((emit c (Call.kill_pid (c.vc c.current_cons).tty.pid
        (c.vc c.current_cons).vt_mode.acqsig)).vc
        (emit c (Call.kill_pid (c.vc c.current_cons).tty.pid
          (c.vc c.current_cons).vt_mode.acqsig)).current_cons)) = b
    have b1 : b.current_cons = c.current_cons := by rw [← hb]; rfl
    have b2 : b.video = c.video := by rw [← hb]; rfl
    have b3 : b.vc c.current_cons = init_vt (c.vc c.current_cons) := by
      rw [← hb]; exact set_vc_same _ _ _
    have b4 : ∀ i, foc (b.vc i) = foc (c.vc i) := by
      intro i
      rw [← hb, set_vc_foc]
      show (if i = c.current_cons then foc (init_vt (c.vc c.current_cons))
        else foc (c.vc i)) = foc (c.vc i)
      by_cases hi : i = c.current_cons
      · rw [if_pos hi, hi]; rfl
      · rw [if_neg hi]
    rw [if_neg (by rw [b1, b3]; simp [init_vt])]
    obtain ⟨r, e1, e2, e3, e4, e5, e6, e7, -⟩ := select_final_switch nr b (n + 1) kill2 hnr
      (by omega) ht2 (by rw [b1]; exact hcur) (by rw [b1]; exact hne)
    rw [b1] at e5 e6
    rw [b2] at e3 e4
    refine ⟨r, e1, e2, e3, ?_, e4, e5, fun i h1 h2 => ?_⟩
    · rw [e7 c.current_cons hne, b3]; rfl
    · rw [e6 i h1 h2, b4]

/-- C21 on four consoles: a switch from console 1, in VT_PROCESS mode, to
console 2 is deferred when the signal is delivered and made when it is
not. -/
theorem process_handoff_witness :
    (4 < 32768 ∧ (1 : Int) ≤ 1 + 1 ∧ (1 : Int) + 1 ≤ ((4 : Nat) : Int) ∧
      in_table 4 c_process.current_cons ∧ c_process.current_cons ≠ 1 + 1 ∧
      (c_process.vc c_process.current_cons).vt_mode.mode = VtMode.VT_PROCESS) ∧
    ((0 : Int) = 0 → ∃ r, vconsole_select 4 c_process 1 0 0 = some r ∧
      r.current_cons = c_process.current_cons ∧ r.video = c_process.video ∧
      (∀ i, foc (r.vc i) = foc (c_process.vc i)) ∧
      (r.vc c_process.current_cons).switchto_tty = 1 + 1 ∧
      r.log = c_process.log ++ [Call.kill_pid (c_process.vc c_process.current_cons).tty.pid
        (c_process.vc c_process.current_cons).vt_mode.acqsig]) ∧
    (vconsole_select 4 c_process 1 0 0).map
      (fun r => (r.current_cons, (r.vc 1).switchto_tty, foc (r.vc 1), foc (r.vc 2))) =
      some (1, 2, (true, 0xB8000), (false, 0)) ∧
    (vconsole_select 4 c_process 1 (-3) 0).map
      (fun r => (r.current_cons, (r.vc 1).vt_mode.mode, foc (r.vc 1), foc (r.vc 2))) =
      some (2, VtMode.VT_AUTO, (false, 0), (true, 0xB8000)) :=
  ⟨⟨by decide, by decide, by decide, by decide, by decide, by decide⟩,
   (process_handoff 4 c_process 1 0 0 (by decide) (by decide) (by decide) (by decide)
     (by decide) (by decide)).1,
   by decide, by decide⟩

/-! ## C22: a console in KD_GRAPHICS mode -/

/-- C22 fails as stated.  With console 1 current, in text mode and VT_AUTO,
and console 3 in KD_GRAPHICS mode, `vconsole_select(2)` does switch to
console 3: `current_cons` becomes 3, the focus flag and `vidmem` move from
console 1 to console 3, and `restore_screen` is called for console 3. -/
theorem graphics_target_taken :
    (c_target_graphics.vc 3).vc_mode = KdMode.KD_GRAPHICS ∧
    c_target_graphics.current_cons = 1 ∧
    foc (c_target_graphics.vc 1) = (true, 0xB8000) ∧
    foc (c_target_graphics.vc 3) = (false, 0) ∧
    (vconsole_select 4 c_target_graphics 2 0 0).map
      (fun r => (r.current_cons, foc (r.vc 1), foc (r.vc 3),
        decide (Call.on 3 Event.restore_screen ∈ r.log))) =
      some (3, (false, 0), (true, 0xB8000), true) := by
  decide

/-- C22, amended.  It is the mode of the current console that counts.  When
the current console is not in VT_PROCESS mode and is in KD_GRAPHICS mode,
`vconsole_select` returns with nothing changed, whatever the target:
`current_cons`, the table, `video` and the record of calls are the same, so
no `restore_screen` is called.  When it is in neither, a switch to another
console of the table is made whatever the `vc_mode` of the target:
`current_cons` becomes the target, which gets the focus flag and `vidmem`,
and `restore_screen` is called for it. -/
theorem graphics_refusal (nr : Nat) (c : Consoles) (n kill1 kill2 : Int)
    (hcur : in_table nr c.current_cons)
    (ha : (c.vc c.current_cons).vt_mode.mode ≠ VtMode.VT_PROCESS) :
    ((c.vc c.current_cons).vc_mode = KdMode.KD_GRAPHICS →
      vconsole_select nr c n kill1 kill2 = some c) ∧
    ((c.vc c.current_cons).vc_mode ≠ KdMode.KD_GRAPHICS → nr < 32768 → 1 ≤ n + 1 →
      n + 1 ≤ (nr : Int) → c.current_cons ≠ n + 1 →
      ∃ r, vconsole_select nr c n kill1 kill2 = some r ∧ r.current_cons = n + 1 ∧
        foc (r.vc (n + 1)) = (true, c.video.address) ∧
        foc (r.vc c.current_cons) = (false, 0) ∧
        Call.on (n + 1) Event.restore_screen ∈ r.log) := by
  constructor
  · intro hg
    unfold vconsole_select
    simp only []
    by_cases hne : c.current_cons ≠ wrap32 (n + 1)
    · rw [if_pos hne, if_pos hcur, if_neg ha, if_pos hg]
    · rw [if_neg hne]
  · intro hg hnr ht1 ht2 hne
    have hw : wrap32 (n + 1) = n + 1 := wrap32_id _ (by omega) (by omega)
    unfold vconsole_select
    simp only [hw]
    rw [if_pos hne, if_pos hcur, if_neg ha, if_neg hg]
    obtain ⟨r, e1, e2, -, e4, e5, -, -, e8⟩ := select_final_switch nr c (n + 1) kill2 hnr
      (by omega) ht2 hcur hne
    exact ⟨r, e1, e2, e4, e5, e8⟩

/-- C22, amended, on four consoles with the current one in KD_GRAPHICS
mode: a switch to console 2 changes nothing. -/
theorem graphics_refusal_witness :
    (in_table 4 c_current_graphics.current_cons ∧
      (c_current_graphics.vc c_current_graphics.current_cons).vt_mode.mode ≠
        VtMode.VT_PROCESS ∧
      (c_current_graphics.vc c_current_graphics.current_cons).vc_mode = KdMode.KD_GRAPHICS) ∧
    vconsole_select 4 c_current_graphics 1 0 0 = some c_current_graphics :=
  ⟨⟨by decide, by decide, by decide⟩,
   (graphics_refusal 4 c_current_graphics 1 0 0 (by decide) (by decide)).1 (by decide)⟩

/-! ## C23: a switch to a console that does not exist -/

/-- C23, the code at the failing inputs.  `vconsole_select` has no test of
its argument.  With the current console one of `1 .. NR_VCONSOLES`, in text
mode and not in VT_PROCESS mode, a call whose target `n + 1` is outside
`1 .. NR_VCONSOLES` is not a no-op: for the target 0 the entry `vc[0]`, which
is no console, becomes the current one, takes the focus flag and `vidmem`
from the console that had them and has `restore_screen` called for it; for
every other target the function reads and writes an entry outside the
table `vc[]`. -/
theorem select_unchecked (nr : Nat) (c : Consoles) (n kill1 kill2 : Int) (hnr : nr < 32768)
    (h1 : 1 ≤ c.current_cons) (h2 : c.current_cons ≤ (nr : Int))
    (ha : (c.vc c.current_cons).vt_mode.mode ≠ VtMode.VT_PROCESS)
    (hg : (c.vc c.current_cons).vc_mode ≠ KdMode.KD_GRAPHICS)
    (hmin : -2147483648 ≤ n + 1) (hmax : n + 1 < 2147483648)
    (hout : n + 1 < 1 ∨ (nr : Int) < n + 1) :
    (n + 1 = 0 → ∃ r, vconsole_select nr c n kill1 kill2 = some r ∧ r.current_cons = 0 ∧
      foc (r.vc 0) = (true, c.video.address) ∧ foc (r.vc c.current_cons) = (false, 0) ∧
      Call.on 0 Event.restore_screen ∈ r.log) ∧
    (n + 1 ≠ 0 → vconsole_select nr c n kill1 kill2 = none) := by
  have hw : wrap32 (n + 1) = n + 1 := wrap32_id _ hmin hmax
  have hcur : in_table nr c.current_cons := ⟨by omega, h2⟩
  have hne : c.current_cons ≠ n + 1 := by omega
  unfold vconsole_select
  simp only [hw]
  rw [if_pos hne, if_pos hcur, if_neg ha, if_neg hg]
  constructor
  · intro h0
    obtain ⟨r, e1, e2, -, e4, e5, -, -, e8⟩ := select_final_switch nr c (n + 1) kill2 hnr
      (by omega) (by omega) hcur hne
    rw [h0] at e1 e2 e4 e8
    rw [h0]
    exact ⟨r, e1, e2, e4, e5, e8⟩
  · intro h0
    unfold vconsole_select_final
    rw [if_pos hne, if_neg]
    intro hin
    have := hin.1
    unfold in_table at this
    omega

/-- C23 on four consoles as `console_init` leaves them: `vconsole_select(-1)`
makes `vc[0]` the current entry, and `vconsole_select(4)` leaves the table. -/
theorem select_unchecked_witness :
    (4 < 32768 ∧ 1 ≤ c_target_graphics.current_cons ∧
      c_target_graphics.current_cons ≤ ((4 : Nat) : Int) ∧
      (c_target_graphics.vc c_target_graphics.current_cons).vt_mode.mode ≠ VtMode.VT_PROCESS ∧
      (c_target_graphics.vc c_target_graphics.current_cons).vc_mode ≠ KdMode.KD_GRAPHICS) ∧
    (∃ r, vconsole_select 4 c_target_graphics (-1) 0 0 = some r ∧ r.current_cons = 0 ∧
      foc (r.vc 0) = (true, c_target_graphics.video.address) ∧
      foc (r.vc c_target_graphics.current_cons) = (false, 0) ∧
      Call.on 0 Event.restore_screen ∈ r.log) ∧
    vconsole_select 4 c_target_graphics 4 0 0 = none :=
  ⟨⟨by decide, by decide, by decide, by decide, by decide⟩,
   (select_unchecked 4 c_target_graphics (-1) 0 0 (by decide) (by decide) (by decide)
     (by decide) (by decide) (by decide) (by decide) (by decide)).1 (by decide),
   (select_unchecked 4 c_target_graphics 4 0 0 (by decide) (by decide) (by decide)
     (by decide) (by decide) (by decide) (by decide) (by decide)).2 (by decide)⟩

/-! ## C24: `sys_chmod` -/

theorem testBit_high32 (m i : Nat) (hm : m < 4294967296) (hi : 32 ≤ i) : m.testBit i = false :=
  Nat.testBit_lt_two_pow (lt_of_lt_of_le hm (by
    calc 4294967296 = 2 ^ 32 := by norm_num
    _ ≤ 2 ^ i := Nat.pow_le_pow_right (by norm_num) hi))

/-- The bits of `(a & F) | (m & ~F)`: those of `a` where `F` has a bit, those
of `m` elsewhere. -/
theorem mode_bits (a m F : Nat) (hF : F < 4294967296) (hm : m < 4294967296) (b : Nat) :
    ((a &&& F) ||| (m &&& not32 F)).testBit b =
      if F.testBit b = true then a.testBit b else m.testBit b := by
  unfold not32
  simp only [Nat.testBit_or, Nat.testBit_and, Nat.testBit_xor]
  have e : (0xFFFFFFFF : Nat) = 2 ^ 32 - 1 := by norm_num
  rw [e, Nat.testBit_two_pow_sub_one]
  by_cases hb : b < 32
  · by_cases hf : F.testBit b = true
    · rw [if_pos hf]; simp [hb, hf]
    · rw [if_neg hf]; simp [hb, hf]
  · have f0 := testBit_high32 F b hF (by omega)
    have m0 := testBit_high32 m b hm (by omega)
    rw [if_neg (by simp [f0])]
    simp [f0, m0]

theorem mode_type_bits (a m F : Nat) (hF : F < 4294967296) (hm : m < 4294967296) :
    ((a &&& F) ||| (m &&& not32 F)) &&& F = a &&& F := by
  apply Nat.eq_of_testBit_eq
  intro b
  rw [Nat.testBit_and, mode_bits a m F hF hm b, Nat.testBit_and]
  by_cases hf : F.testBit b = true
  · rw [if_pos hf]
  · rw [if_neg hf]; simp [hf]

theorem dirty_bits (s d : Nat) : (s ||| d) &&& d = d := by
  apply Nat.eq_of_testBit_eq
  intro b
  simp only [Nat.testBit_and, Nat.testBit_or]
  cases s.testBit b <;> cases d.testBit b <;> rfl

/-- C24.  `sys_chmod` changes only the mode bits outside `S_IFMT`.  For a
`mode` and an `S_IFMT` of at most 32 bits and error numbers `EROFS` and
`EPERM` above zero: when `malloc_name` and `namei` succeed, the file system
is not read-only and `check_user_permission` returns 0, `sys_chmod` returns
0, `i_mode` becomes `(i_mode & S_IFMT) | (mode & ~S_IFMT)`, which has the
bits of the old `i_mode` inside `S_IFMT`, whatever type bits `mode` has, and
the bits of `mode` outside, `i_ctime` is the current time and the inode has
the flag INODE_DIRTY when `iput` is called; on a read-only file system the
value returned is `-EROFS`, and `-EPERM` when the permission is refused;
and whenever the value returned is `-EROFS` or `-EPERM`, or any other than
0, the inode is as it was. -/
theorem chmod_mode (k : ChmodConsts) (e : ChmodEnv) (i : inode) (mode : Nat)
    (hF : k.S_IFMT < 4294967296) (hm : mode < 4294967296) (hE : 0 < k.EROFS)
    (hP : 0 < k.EPERM) :
    (¬ e.malloc_name < 0 → e.namei = 0 → e.IS_RDONLY_FS = false →
      e.check_user_permission = 0 →
      (sys_chmod k e i mode).1 = 0 ∧
      (sys_chmod k e i mode).2.1.i_mode = (i.i_mode &&& k.S_IFMT) ||| (mode &&& not32 k.S_IFMT) ∧
      (sys_chmod k e i mode).2.1.i_mode &&& k.S_IFMT = i.i_mode &&& k.S_IFMT ∧
      (∀ b, (sys_chmod k e i mode).2.1.i_mode.testBit b =
        if k.S_IFMT.testBit b = true then i.i_mode.testBit b else mode.testBit b) ∧
      (sys_chmod k e i mode).2.1.state &&& k.INODE_DIRTY = k.INODE_DIRTY ∧
      (sys_chmod k e i mode).2.1.i_ctime = e.CURRENT_TIME ∧
      (sys_chmod k e i mode).2.2 = [KCall.malloc_name, KCall.namei, KCall.check_user_permission,
        KCall.iput, KCall.free_name]) ∧
    (¬ e.malloc_name < 0 → e.namei = 0 → e.IS_RDONLY_FS = true →
      (sys_chmod k e i mode).1 = -k.EROFS) ∧
    (¬ e.malloc_name < 0 → e.namei = 0 → e.IS_RDONLY_FS = false →
      e.check_user_permission ≠ 0 → (sys_chmod k e i mode).1 = -k.EPERM) ∧
    ((sys_chmod k e i mode).1 ≠ 0 → (sys_chmod k e i mode).2.1 = i) ∧
    ((sys_chmod k e i mode).1 = -k.EROFS ∨ (sys_chmod k e i mode).1 = -k.EPERM →
      (sys_chmod k e i mode).2.1.i_mode = i.i_mode ∧
      (sys_chmod k e i mode).2.1.state = i.state) := by
  have key : (sys_chmod k e i mode).1 ≠ 0 → (sys_chmod k e i mode).2.1 = i := by
    unfold sys_chmod
    by_cases c1 : e.malloc_name < 0
    · rw [if_pos c1]; intro _; rfl
    · rw [if_neg c1]
      by_cases c2 : e.namei ≠ 0
      · rw [if_pos c2]; intro _; rfl
      · rw [if_neg c2]
        by_cases c3 : e.IS_RDONLY_FS = true
        · rw [if_pos c3]; intro _; rfl
        · rw [if_neg c3]
          by_cases c4 : e.check_user_permission ≠ 0
          · rw [if_pos c4]; intro _; rfl
          · rw [if_neg c4]; intro h; exact absurd rfl h
  refine ⟨fun c1 c2 c3 c4 => ?_, fun c1 c2 c3 => ?_, fun c1 c2 c3 c4 => ?_, key, fun h => ?_⟩
  · have e1 : sys_chmod k e i mode =
        (0, { i_mode := (i.i_mode &&& k.S_IFMT) ||| (mode &&& not32 k.S_IFMT),
              i_ctime := e.CURRENT_TIME, state := i.state ||| k.INODE_DIRTY },
          [KCall.malloc_name, KCall.namei, KCall.check_user_permission, KCall.iput,
            KCall.free_name]) := by
      unfold sys_chmod
      rw [if_neg c1, if_neg (by simp [c2]), if_neg (by simp [c3]), if_neg (by simp [c4])]
    rw [e1]
    exact ⟨rfl, rfl, mode_type_bits _ _ _ hF hm, mode_bits _ _ _ hF hm, dirty_bits _ _, rfl, rfl⟩
  · unfold sys_chmod
    rw [if_neg c1, if_neg (by simp [c2]), if_pos c3]
  · unfold sys_chmod
    rw [if_neg c1, if_neg (by simp [c2]), if_neg (by simp [c3]), if_pos c4]
  · have hne : (sys_chmod k e i mode).1 ≠ 0 := by
      rcases h with h | h <;> rw [h] <;> omega
    rw [key hne]
    exact ⟨rfl, rfl⟩

/-- C24 for a regular file of mode 0644 and a caller that passes the mode
of a directory, 040755: the file stays a regular file, with the permission
bits 0755; on a read-only file system the inode is left alone. -/
theorem chmod_mode_witness :
    (kc0.S_IFMT < 4294967296 ∧ 0o040755 < 4294967296 ∧ 0 < kc0.EROFS ∧ 0 < kc0.EPERM) ∧
    (sys_chmod kc0 env_ok i_file 0o040755).1 = 0 ∧
    (sys_chmod kc0 env_ok i_file 0o040755).2.1 =
      { i_mode := 0o100755, i_ctime := 1000, state := 2 } ∧
    (sys_chmod kc0 env_rofs i_file 0o040755).1 = -30 ∧
    ((sys_chmod kc0 env_rofs i_file 0o040755).1 = -kc0.EROFS ∨
      (sys_chmod kc0 env_rofs i_file 0o040755).1 = -kc0.EPERM →
      (sys_chmod kc0 env_rofs i_file 0o040755).2.1.i_mode = i_file.i_mode ∧
      (sys_chmod kc0 env_rofs i_file 0o040755).2.1.state = i_file.state) :=
  ⟨⟨by decide, by decide, by decide, by decide⟩,
   ((chmod_mode kc0 env_ok i_file 0o040755 (by decide) (by decide) (by decide) (by decide)).1
      (by decide) rfl rfl rfl).1,
   by decide, by decide,
   (chmod_mode kc0 env_rofs i_file 0o040755 (by decide) (by decide) (by decide)
      (by decide)).2.2.2.2⟩

/-! ## C2, C4, C8, C9, C11, C13, C17, C18: the ends of the arrays and of the parameters -/

/-! ## Runs that stay inside `parms[]` and `curpos[]` -/

theorem run_defined_nil (k : Consts) (p : State × Bool) : run_defined k p [] := trivial

theorem run_defined_cons (k : Consts) (p : State × Bool) (b : Nat) (q : List Nat) :
    run_defined k p (b :: q) ↔
      step_defined k p.1 b ∧ run_defined k (vconsole_write_body k p.1 p.2 b) q := Iff.rfl

theorem run_defined_append (k : Consts) (a b : List Nat) (p : State × Bool) :
    run_defined k p (a ++ b) ↔ run_defined k p a ∧ run_defined k (feed k p a) b := by
  induction a generalizing p with
  | nil => simp [run_defined, feed_nil]
  | cons c a ih =>
    rw [List.cons_append, run_defined_cons, run_defined_cons, ih, feed_cons, and_assoc]

/-- A byte that is no digit and neither `m` nor `n` reaches no array. -/
theorem step_defined_plain (k : Consts) (s : State) (ch : Nat) (hd : IS_NUMERIC ch = false)
    (hm : ch ≠ 109) (hn : ch ≠ 110) : step_defined k s ch := by
  intro _
  exact ⟨fun h => absurd h (by simp [hd]), fun h => absurd h hm, fun h => absurd h.1 hn⟩

/-- A byte met outside a CSI sequence reaches no array. -/
theorem step_defined_ground (k : Consts) (s : State) (ch : Nat)
    (h : s.vc.esc = false ∨ s.vc.sbracket = false) : step_defined k s ch := by
  intro h2
  rcases h with h | h
  · exact absurd h2.1 (by simp [h])
  · exact absurd h2.2 (by simp [h])

/-- Parameter bytes with fewer separators than `parms[]` has slots left are
stored inside the array. -/
theorem parms_run_defined (k : Consts) (q : List Nat) (s : State) (n : Bool)
    (hq : ∀ b ∈ q, IS_NUMERIC b = true ∨ b = 59)
    (he : s.vc.esc = true) (hb : s.vc.sbracket = true) (h0 : 0 ≤ s.vc.nparms)
    (hs : s.vc.nparms + (q.count 59 : Int) < (k.MAX_PARMS : Int)) :
    run_defined k (s, n) q := by
  induction q generalizing s n with
  | nil => trivial
  | cons b q ih =>
    rw [run_defined_cons]
    rcases hq b (List.mem_cons_self _ _) with hd | hd
    · have hr := is_numeric_range b hd
      have hne : b ≠ 59 := by omega
      have hcount : (b :: q).count 59 = q.count 59 := by
        rw [List.count_cons_of_ne (Ne.symm hne)]
      rw [hcount] at hs
      have hbody : vconsole_write_body k s n b = (csi_digit s b, true) := by
        rw [body_csi k s n b he hb]; unfold csi; rw [if_pos hd]
      have hlt : s.vc.nparms < (k.MAX_PARMS : Int) := by omega
      refine ⟨fun _ => ⟨fun _ => ⟨h0, hlt⟩, fun h => absurd h (by omega),
        fun h => absurd h.1 (by omega)⟩, ?_⟩
      rw [hbody]
      obtain ⟨-, d2, d3, d4⟩ := csi_digit_slot s b
      exact ih (csi_digit s b) true (fun c hc => hq c (List.mem_cons_of_mem _ hc))
        (d3.trans he) (d4.trans hb) (by rw [d2]; exact h0) (by rw [d2]; exact hs)
    · subst hd
      have hcount : ((59 : Nat) :: q).count 59 = q.count 59 + 1 := by
        rw [List.count_cons_self]
      rw [hcount] at hs
      push_cast at hs
      have hbody : vconsole_write_body k s n 59 = (csi_semicolon s, n) := by
        rw [body_csi k s n 59 he hb]; rfl
      refine ⟨step_defined_plain k s 59 (by decide) (by decide) (by decide), ?_⟩
      rw [hbody]
      exact ih (csi_semicolon s) n (fun c hc => hq c (List.mem_cons_of_mem _ hc))
        he hb (by show 0 ≤ s.vc.nparms + 1; omega) (by show s.vc.nparms + 1 + _ < _; omega)

theorem move_final_plain (ch : Nat) (hm : ch ∈ move_finals) :
    IS_NUMERIC ch = false ∧ ch ≠ 109 ∧ ch ≠ 110 := by
  simp only [move_finals, List.mem_cons, List.mem_singleton, List.not_mem_nil, or_false] at hm
  rcases hm with rfl | rfl | rfl | rfl | rfl | rfl | rfl | rfl | rfl | rfl | rfl <;> decide

/-- A CSI cursor movement with fewer than `MAX_PARMS` separators stays
inside `parms[]`, from any state. -/
theorem move_seq_defined (k : Consts) (s : State) (n : Bool) (p : List Nat × Nat)
    (hp : MoveSeq p) (hsep : sep_bound k p.1) :
    run_defined k (s, n) (csi_seq p.1 p.2) := by
  obtain ⟨hq, hm⟩ := hp
  have e : csi_seq p.1 p.2 = 27 :: 91 :: (p.1 ++ [p.2]) := by simp [csi_seq]
  rw [e, run_defined_cons, body_ESC, run_defined_cons, body_bracket k _ n rfl rfl,
    run_defined_append]
  obtain ⟨i1, i2, -⟩ := feed_parms k p.1 (esc_bracket k (esc_open s)) n hq rfl rfl
  obtain ⟨f1, f2, f3⟩ := move_final_plain p.2 hm
  refine ⟨step_defined_plain k s 27 (by decide) (by decide) (by decide),
    step_defined_plain k _ 91 (by decide) (by decide) (by decide),
    parms_run_defined k p.1 _ n hq rfl rfl (le_refl _) ?_,
    step_defined_plain k _ p.2 f1 f2 f3, trivial⟩
  show (0 : Int) + _ < _
  unfold sep_bound at hsep
  omega

theorem move_stream_defined (k : Consts) (l : List (List Nat × Nat)) (s : State) (n : Bool)
    (hl : ∀ p ∈ l, MoveSeq p) (hsep : ∀ p ∈ l, sep_bound k p.1) :
    run_defined k (s, n) (csi_stream l) := by
  induction l generalizing s n with
  | nil => trivial
  | cons p l ih =>
    show run_defined k (s, n) (csi_seq p.1 p.2 ++ csi_stream l)
    rw [run_defined_append]
    exact ⟨move_seq_defined k s n p (hl p (List.mem_cons_self _ _))
        (hsep p (List.mem_cons_self _ _)),
      ih _ _ (fun q hq => hl q (List.mem_cons_of_mem _ hq))
        (fun q hq => hsep q (List.mem_cons_of_mem _ hq))⟩

/-- C2.  Cursor clamp: on a console with at least one column and one line,
after any list of CSI cursor movements `A B C D E F G H d f` and backquote,
whatever the values of their parameters (none, zeros, or digits enough to
overflow), the cursor satisfies `0 ≤ x < columns` and `0 ≤ y < lines`.  Each
sequence holds fewer than `MAX_PARMS` separators, so that every digit is
stored inside `parms[]`: the run stays inside the arrays of the parser.  The
list is not empty, or the cursor was inside to begin with.  The statement is
made twice: for the loop body run over the bytes, from any state of the
parser, and for a call of `vconsole_write` on a console that is not
scroll-locked. -/
theorem cursor_clamp (k : Consts) (s : State) (n : Bool) (l : List (List Nat × Nat))
    (hl : ∀ p ∈ l, MoveSeq p) (hsep : ∀ p ∈ l, sep_bound k p.1)
    (hc : 1 ≤ s.vc.columns) (hli : 1 ≤ s.vc.lines)
    (hstart : l ≠ [] ∨
      (0 ≤ s.vc.x ∧ s.vc.x < s.vc.columns ∧ 0 ≤ s.vc.y ∧ s.vc.y < s.vc.lines)) :
    (run_defined k (s, n) (csi_stream l) ∧
      0 ≤ (feed k (s, n) (csi_stream l)).1.vc.x ∧
      (feed k (s, n) (csi_stream l)).1.vc.x < (feed k (s, n) (csi_stream l)).1.vc.columns ∧
      0 ≤ (feed k (s, n) (csi_stream l)).1.vc.y ∧
      (feed k (s, n) (csi_stream l)).1.vc.y < (feed k (s, n) (csi_stream l)).1.vc.lines) ∧
    (s.vc.scrlock = false →
      run_defined k (vconsole_write_restore (with_write_q s (csi_stream l)), false)
        (csi_stream l) ∧
      0 ≤ (vconsole_write k (with_write_q s (csi_stream l))).vc.x ∧
      (vconsole_write k (with_write_q s (csi_stream l))).vc.x <
        (vconsole_write k (with_write_q s (csi_stream l))).vc.columns ∧
      0 ≤ (vconsole_write k (with_write_q s (csi_stream l))).vc.y ∧
      (vconsole_write k (with_write_q s (csi_stream l))).vc.y <
        (vconsole_write k (with_write_q s (csi_stream l))).vc.lines) := by
  constructor
  · obtain ⟨h1, h2, h3⟩ := feed_move_stream k l s n hl hc hli hstart
    refine ⟨move_stream_defined k l s n hl hsep, ?_⟩
    rw [h1, h2]; exact h3
  · intro hlock
    refine ⟨move_stream_defined k l _ false hl hsep, ?_⟩
    rw [vconsole_write_unlocked k (with_write_q s (csi_stream l)) hlock,
      vconsole_write_finish_vc, with_write_q_vc_tty]
    have hv : (vconsole_write_restore (with_write_q s (csi_stream l))).vc =
        (with_write_q s (csi_stream l)).vc := vconsole_write_restore_vc _
    obtain ⟨h1, h2, h3⟩ := feed_move_stream k l
      (vconsole_write_restore (with_write_q s (csi_stream l))) false hl
      (by rw [hv]; exact hc) (by rw [hv]; exact hli) (by rw [hv]; exact hstart)
    rw [hv] at h1 h2 h3
    show 0 ≤ (feed k _ _).1.vc.x ∧ (feed k _ _).1.vc.x < (feed k _ _).1.vc.columns ∧
      0 ≤ (feed k _ _).1.vc.y ∧ (feed k _ _).1.vc.y < (feed k _ _).1.vc.lines
    rw [h1, h2]; exact h3

/-- C2 on the reset 80x25 console: after `ESC [ 99999999999 B` and
`ESC [ ; H` and `ESC [ 0 D` the cursor is inside the screen. -/
theorem cursor_clamp_witness :
    (1 ≤ s0.vc.columns ∧ 1 ≤ s0.vc.lines ∧ s0.vc.scrlock = false ∧
      ∀ p ∈ [([57, 57, 57, 57, 57, 57, 57, 57, 57, 57, 57], 66), ([59], 72), ([48], 68)],
        MoveSeq p ∧ sep_bound k0 p.1) ∧
    (run_defined k0 (vconsole_write_restore (with_write_q s0 (csi_stream
        [([57, 57, 57, 57, 57, 57, 57, 57, 57, 57, 57], 66), ([59], 72), ([48], 68)])), false)
        (csi_stream
          [([57, 57, 57, 57, 57, 57, 57, 57, 57, 57, 57], 66), ([59], 72), ([48], 68)]) ∧
      0 ≤ (vconsole_write k0 (with_write_q s0 (csi_stream
        [([57, 57, 57, 57, 57, 57, 57, 57, 57, 57, 57], 66), ([59], 72), ([48], 68)]))).vc.x ∧
      (vconsole_write k0 (with_write_q s0 (csi_stream
        [([57, 57, 57, 57, 57, 57, 57, 57, 57, 57, 57], 66), ([59], 72), ([48], 68)]))).vc.x <
      (vconsole_write k0 (with_write_q s0 (csi_stream
        [([57, 57, 57, 57, 57, 57, 57, 57, 57, 57, 57], 66), ([59], 72), ([48], 68)]))).vc.columns ∧
      0 ≤ (vconsole_write k0 (with_write_q s0 (csi_stream
        [([57, 57, 57, 57, 57, 57, 57, 57, 57, 57, 57], 66), ([59], 72), ([48], 68)]))).vc.y ∧
      (vconsole_write k0 (with_write_q s0 (csi_stream
        [([57, 57, 57, 57, 57, 57, 57, 57, 57, 57, 57], 66), ([59], 72), ([48], 68)]))).vc.y <
      (vconsole_write k0 (with_write_q s0 (csi_stream
        [([57, 57, 57, 57, 57, 57, 57, 57, 57, 57, 57], 66), ([59], 72), ([48], 68)]))).vc.lines) :=
  ⟨⟨by decide, by decide, by decide, by unfold MoveSeq; decide⟩,
   (cursor_clamp k0 s0 false
      [([57, 57, 57, 57, 57, 57, 57, 57, 57, 57, 57], 66), ([59], 72), ([48], 68)]
      (by unfold MoveSeq; decide) (by decide) (by decide) (by decide) (Or.inl (by simp))).2 rfl⟩

/-! ### C13 inside the arrays -/

theorem move_defined (k : Consts) (m : Move) (s : State) (n : Bool) (he : s.vc.esc = false)
    (hm : move_ok m) (hb : move_bound k m) : run_defined k (s, n) (move_bytes m) := by
  cases m with
  | csi p final => exact move_seq_defined k s n (p, final) hm hb
  | byte b => exact ⟨step_defined_ground k s b (Or.inl he), trivial⟩

theorem moves_defined (k : Consts) (l : List Move) (s : State) (n : Bool) (he : s.vc.esc = false)
    (hl : ∀ m ∈ l, move_ok m) (hb : ∀ m ∈ l, move_bound k m) :
    run_defined k (s, n) (move_stream l) := by
  induction l generalizing s n with
  | nil => trivial
  | cons m l ih =>
    show run_defined k (s, n) (move_bytes m ++ move_stream l)
    rw [run_defined_append]
    obtain ⟨-, h2⟩ := feed_move k m s n he (hl m (List.mem_cons_self _ _))
    exact ⟨move_defined k m s n he (hl m (List.mem_cons_self _ _))
        (hb m (List.mem_cons_self _ _)),
      ih (feed k (s, n) (move_bytes m)).1 (feed k (s, n) (move_bytes m)).2 h2
        (fun j hj => hl j (List.mem_cons_of_mem _ hj))
        (fun j hj => hb j (List.mem_cons_of_mem _ hj))⟩

/-- The two round trips stay inside the arrays of the parser. -/
theorem round_trip_defined (k : Consts) (s : State) (n : Bool) (l : List Move)
    (hl : ∀ m ∈ l, move_ok m) (hb : ∀ m ∈ l, move_bound k m) :
    run_defined k (s, n) ([27, 55] ++ move_stream l ++ [27, 56]) ∧
    run_defined k (s, n) ([27, 91, 115] ++ move_stream l ++ [27, 91, 117]) := by
  constructor
  · rw [run_defined_append, run_defined_append, feed_append, feed_save]
    obtain ⟨-, h2⟩ := feed_moves k l (CSE (save_cursor (esc_open s))) n rfl hl
    refine ⟨⟨⟨step_defined_plain k s 27 (by decide) (by decide) (by decide),
        step_defined_ground k _ 55 (Or.inr ?_), trivial⟩,
      moves_defined k l _ n rfl hl hb⟩,
      step_defined_plain k _ 27 (by decide) (by decide) (by decide), ?_, trivial⟩
    · rw [body_ESC]; rfl
    · rw [body_ESC]
      exact step_defined_ground k _ 56 (Or.inr rfl)
  · rw [run_defined_append, run_defined_append, feed_append, feed_csi_save]
    obtain ⟨-, h2⟩ := feed_moves k l (CSE (save_cursor (esc_bracket k (esc_open s)))) n rfl hl
    refine ⟨⟨⟨step_defined_plain k s 27 (by decide) (by decide) (by decide),
        step_defined_plain k _ 91 (by decide) (by decide) (by decide),
        step_defined_plain k _ 115 (by decide) (by decide) (by decide), trivial⟩,
      moves_defined k l _ n rfl hl hb⟩,
      step_defined_plain k _ 27 (by decide) (by decide) (by decide),
      step_defined_plain k _ 91 (by decide) (by decide) (by decide),
      step_defined_plain k _ 117 (by decide) (by decide) (by decide), trivial⟩

/-- C13.  Save/restore round trip: from any state of the console and of the
parser, with the cursor at `(x0, y0)`, `ESC 7`, then any list of pieces of
movement input (CSI cursor movements `A B C D E F G H d f` and backquote with
any parameter values and fewer than `MAX_PARMS` separators, so that every
digit is stored inside `parms[]`, and any bytes but ESC: BS, CR, LF, HT,
printable bytes), then `ESC 8` leave the cursor at `(x0, y0)`, in a run that
stays inside the arrays of the parser; the same holds for `ESC [ s` and
`ESC [ u`.  Stated for the loop body run over the bytes and for a call of
`vconsole_write` on a console that is not scroll-locked. -/
theorem save_restore (k : Consts) (s : State) (n : Bool) (l : List Move)
    (hl : ∀ m ∈ l, move_ok m) (hb : ∀ m ∈ l, move_bound k m) :
    (run_defined k (s, n) ([27, 55] ++ move_stream l ++ [27, 56]) ∧
      (feed k (s, n) ([27, 55] ++ move_stream l ++ [27, 56])).1.vc.x = s.vc.x ∧
      (feed k (s, n) ([27, 55] ++ move_stream l ++ [27, 56])).1.vc.y = s.vc.y) ∧
    (run_defined k (s, n) ([27, 91, 115] ++ move_stream l ++ [27, 91, 117]) ∧
      (feed k (s, n) ([27, 91, 115] ++ move_stream l ++ [27, 91, 117])).1.vc.x = s.vc.x ∧
      (feed k (s, n) ([27, 91, 115] ++ move_stream l ++ [27, 91, 117])).1.vc.y = s.vc.y) ∧
    (s.vc.scrlock = false →
      (run_defined k
          (vconsole_write_restore (with_write_q s ([27, 55] ++ move_stream l ++ [27, 56])),
            false) ([27, 55] ++ move_stream l ++ [27, 56]) ∧
        (vconsole_write k (with_write_q s ([27, 55] ++ move_stream l ++ [27, 56]))).vc.x
          = s.vc.x ∧
        (vconsole_write k (with_write_q s ([27, 55] ++ move_stream l ++ [27, 56]))).vc.y
          = s.vc.y) ∧
      (run_defined k
          (vconsole_write_restore
            (with_write_q s ([27, 91, 115] ++ move_stream l ++ [27, 91, 117])), false)
          ([27, 91, 115] ++ move_stream l ++ [27, 91, 117]) ∧
        (vconsole_write k
          (with_write_q s ([27, 91, 115] ++ move_stream l ++ [27, 91, 117]))).vc.x = s.vc.x ∧
        (vconsole_write k
          (with_write_q s ([27, 91, 115] ++ move_stream l ++ [27, 91, 117]))).vc.y = s.vc.y)) := by
  refine ⟨⟨(round_trip_defined k s n l hl hb).1, (feed_round_trip k s n l hl).1⟩,
    ⟨(round_trip_defined k s n l hl hb).2, (feed_round_trip k s n l hl).2⟩, ?_⟩
  intro hlock
  constructor
  · have hg := vconsole_write_geo k s ([27, 55] ++ move_stream l ++ [27, 56]) hlock
    have hf := (feed_round_trip k
      (vconsole_write_restore (with_write_q s ([27, 55] ++ move_stream l ++ [27, 56]))) false
      l hl).1
    rw [vconsole_write_restore_vc] at hf
    simp only [geo, Prod.mk.injEq] at hg
    exact ⟨(round_trip_defined k _ false l hl hb).1, hg.1.trans hf.1, hg.2.1.trans hf.2⟩
  · have hg := vconsole_write_geo k s ([27, 91, 115] ++ move_stream l ++ [27, 91, 117]) hlock
    have hf := (feed_round_trip k
      (vconsole_write_restore (with_write_q s ([27, 91, 115] ++ move_stream l ++ [27, 91, 117])))
      false l hl).2
    rw [vconsole_write_restore_vc] at hf
    simp only [geo, Prod.mk.injEq] at hg
    exact ⟨(round_trip_defined k _ false l hl hb).2, hg.1.trans hf.1, hg.2.1.trans hf.2⟩

/-- C13 on the reset 80x25 console with the cursor at `(5, 7)`: after
`ESC 7`, `ESC [ 3 ; 9 H`, the bytes `A`, LF, HT, BS, CR, and `ESC 8` the
cursor is at `(5, 7)` again. -/
theorem save_restore_witness :
    ((with_cursor s0 5 7).vc.scrlock = false ∧
      ∀ m ∈ [Move.csi [51, 59, 57] 72, Move.byte 65, Move.byte 10, Move.byte 9, Move.byte 8,
        Move.byte 13], move_ok m ∧ move_bound k0 m) ∧
    (vconsole_write k0 (with_write_q (with_cursor s0 5 7)
      ([27, 55] ++ move_stream [Move.csi [51, 59, 57] 72, Move.byte 65, Move.byte 10,
        Move.byte 9, Move.byte 8, Move.byte 13] ++ [27, 56]))).vc.x = (with_cursor s0 5 7).vc.x ∧
    (vconsole_write k0 (with_write_q (with_cursor s0 5 7)
      ([27, 55] ++ move_stream [Move.csi [51, 59, 57] 72, Move.byte 65, Move.byte 10,
        Move.byte 9, Move.byte 8, Move.byte 13] ++ [27, 56]))).vc.y = (with_cursor s0 5 7).vc.y ∧
    (vconsole_write k0 (with_write_q (with_cursor s0 5 7)
      ([27, 55] ++ move_stream [Move.csi [51, 59, 57] 72, Move.byte 65, Move.byte 10,
        Move.byte 9, Move.byte 8, Move.byte 13]))).vc.x = 0 :=
  have hm : ∀ m ∈ [Move.csi [51, 59, 57] 72, Move.byte 65, Move.byte 10, Move.byte 9,
      Move.byte 8, Move.byte 13], move_ok m ∧ move_bound k0 m := by
    intro m hm
    simp only [List.mem_cons, List.mem_singleton, List.not_mem_nil, or_false] at hm
    rcases hm with rfl | rfl | rfl | rfl | rfl | rfl
    · exact ⟨⟨by decide, by decide⟩, by show sep_bound k0 [51, 59, 57]; decide⟩
    all_goals exact ⟨by show (_ : Nat) ≠ 27; decide, trivial⟩
  ⟨⟨rfl, hm⟩,
   ((save_restore k0 (with_cursor s0 5 7) false
      [Move.csi [51, 59, 57] 72, Move.byte 65, Move.byte 10, Move.byte 9, Move.byte 8,
        Move.byte 13] (fun m h => (hm m h).1) (fun m h => (hm m h).2)).2.2 rfl).1.2.1,
   ((save_restore k0 (with_cursor s0 5 7) false
      [Move.csi [51, 59, 57] 72, Move.byte 65, Move.byte 10, Move.byte 9, Move.byte 8,
        Move.byte 13] (fun m h => (hm m h).1) (fun m h => (hm m h).2)).2.2 rfl).1.2.2,
   by decide⟩

/-! ### C4 and the index of the store -/

theorem semicolons_defined (k : Consts) (j : Nat) (s : State) (n : Bool)
    (he : s.vc.esc = true) (hb : s.vc.sbracket = true) :
    run_defined k (s, n) (List.replicate j 59) := by
  induction j generalizing s n with
  | zero => trivial
  | succ j ih =>
    rw [List.replicate_succ, run_defined_cons]
    refine ⟨step_defined_plain k s 59 (by decide) (by decide) (by decide), ?_⟩
    rw [body_csi k s n 59 he hb]
    exact ih (csi k s n 59).1 (csi k s n 59).2 he hb

/-- C4, the code at the failing input.  The separators are counted without a
bound: after `ESC [` and `j` semicolons, a run that reaches no array,
`nparms` is `j`, whatever `MAX_PARMS` is.  With as many semicolons as
`parms[]` has slots `nparms` is `MAX_PARMS`, and the digit that follows is
taken by the branch `if(IS_NUMERIC(ch))`, whose store `vc->parms[vc->nparms]`
is then at the index `MAX_PARMS`, one slot past the end of the array: the
run of the sequence `ESC [ ; ... ; 7 m` leaves `parms[]`, and its final `m`
leaves `nparms = MAX_PARMS + 1`. -/
theorem parms_overflow (k : Consts) (s : State) (hlock : s.vc.scrlock = false) :
    (vconsole_write k (with_write_q s (overflow_seq k))).vc.nparms = (k.MAX_PARMS : Int) + 1 ∧
    (∀ j : Nat,
      run_defined k (vconsole_write_restore
        (with_write_q s ([27, 91] ++ List.replicate j 59)), false)
        ([27, 91] ++ List.replicate j 59) ∧
      (vconsole_write k (with_write_q s ([27, 91] ++ List.replicate j 59))).vc.nparms = j) ∧
    ((feed k (vconsole_write_restore (with_write_q s (overflow_seq k)), false)
        ([27, 91] ++ List.replicate k.MAX_PARMS 59)).1.vc.esc = true ∧
      (feed k (vconsole_write_restore (with_write_q s (overflow_seq k)), false)
        ([27, 91] ++ List.replicate k.MAX_PARMS 59)).1.vc.sbracket = true ∧
      (feed k (vconsole_write_restore (with_write_q s (overflow_seq k)), false)
        ([27, 91] ++ List.replicate k.MAX_PARMS 59)).1.vc.nparms = (k.MAX_PARMS : Int) ∧
      ¬ parms_store_ok k (feed k (vconsole_write_restore (with_write_q s (overflow_seq k)), false)
        ([27, 91] ++ List.replicate k.MAX_PARMS 59)).1) ∧
    ¬ run_defined k (vconsole_write_restore (with_write_q s (overflow_seq k)), false)
      (overflow_seq k) := by
  have semis : ∀ (R : State) (j : Nat),
      (feed k (R, false) ([27, 91] ++ List.replicate j 59)).1.vc.esc = true ∧
      (feed k (R, false) ([27, 91] ++ List.replicate j 59)).1.vc.sbracket = true ∧
      (feed k (R, false) ([27, 91] ++ List.replicate j 59)).1.vc.nparms = (j : Int) ∧
      run_defined k (R, false) ([27, 91] ++ List.replicate j 59) := by
    intro R j
    have e : [27, 91] ++ List.replicate j 59 = 27 :: 91 :: List.replicate j 59 := rfl
    rw [e, feed_csi_open]
    obtain ⟨i1, i2, i3, -, -⟩ := feed_semicolons k j (esc_bracket k (esc_open R)) false rfl rfl
    refine ⟨i1, i2, by rw [i3]; show (0 : Int) + _ = _; omega, ?_⟩
    rw [run_defined_cons, body_ESC, run_defined_cons, body_bracket k _ false rfl rfl]
    exact ⟨step_defined_plain k R 27 (by decide) (by decide) (by decide),
      step_defined_plain k _ 91 (by decide) (by decide) (by decide),
      semicolons_defined k j _ false rfl rfl⟩
  have first : (vconsole_write k (with_write_q s (overflow_seq k))).vc.nparms =
      (k.MAX_PARMS : Int) + 1 := by
    rw [vconsole_write_unlocked k (with_write_q s (overflow_seq k)) hlock,
      vconsole_write_finish_vc, with_write_q_vc_tty]
    generalize vconsole_write_restore (with_write_q s (overflow_seq k)) = R
    have e : overflow_seq k = 27 :: 91 :: (List.replicate k.MAX_PARMS 59 ++ [55, 109]) := by
      simp [overflow_seq]
    rw [e, feed_csi_open, feed_append]
    obtain ⟨i1, i2, i3, -, -⟩ := feed_semicolons k k.MAX_PARMS (esc_bracket k (esc_open R)) false
      rfl rfl
    have i3' : (feed k (esc_bracket k (esc_open R), false)
        (List.replicate k.MAX_PARMS 59)).1.vc.nparms = (k.MAX_PARMS : Int) := by
      rw [i3]; show (0 : Int) + _ = _; omega
    generalize feed k (esc_bracket k (esc_open R), false) (List.replicate k.MAX_PARMS 59) = P
      at i1 i2 i3'
    obtain ⟨-, d2, d3, d4⟩ := csi_digit_slot P.1 55
    rw [feed_cons, body_csi k _ _ _ i1 i2, feed_cons, feed_nil]
    have hd : csi k P.1 P.2 55 = (csi_digit P.1 55, true) := rfl
    rw [hd, body_csi k _ _ _ (d3.trans i1) (d4.trans i2)]
    have hm : csi k (csi_digit P.1 55) true 109 =
        (CSE { csi_digit P.1 55 with
          vc := csi_m k { (csi_digit P.1 55).vc with
            nparms := (csi_digit P.1 55).vc.nparms + 1 } }, true) := rfl
    rw [hm]
    show (csi_m k _).nparms = _
    rw [csi_m_frame (fun v => v.nparms) (fun _ _ _ _ _ _ => rfl)]
    show (csi_digit P.1 55).vc.nparms + 1 = _
    rw [d2, i3']
  refine ⟨first, fun j => ?_, ?_, ?_⟩
  · obtain ⟨-, -, a3, a4⟩ := semis (vconsole_write_restore
      (with_write_q s ([27, 91] ++ List.replicate j 59))) j
    refine ⟨a4, ?_⟩
    rw [vconsole_write_unlocked k (with_write_q s ([27, 91] ++ List.replicate j 59)) hlock,
      vconsole_write_finish_vc, with_write_q_vc_tty]
    exact a3
  · obtain ⟨a1, a2, a3, -⟩ := semis (vconsole_write_restore (with_write_q s (overflow_seq k)))
      k.MAX_PARMS
    refine ⟨a1, a2, a3, fun h => ?_⟩
    have := h.2
    rw [a3] at this
    omega
  · generalize vconsole_write_restore (with_write_q s (overflow_seq k)) = R
    obtain ⟨a1, a2, a3, -⟩ := semis R k.MAX_PARMS
    have e : overflow_seq k = ([27, 91] ++ List.replicate k.MAX_PARMS 59) ++ [55, 109] := by
      simp [overflow_seq]
    rw [e, run_defined_append]
    intro h
    have h2 := h.2
    rw [run_defined_cons] at h2
    have h3 := (h2.1 ⟨a1, a2⟩).1 (by decide)
    have := h3.2
    rw [a3] at this
    omega

/-- C4 with 16 slots, on the reset console: after `ESC [` and 16 semicolons
`nparms` is 16, the index at which the digit `7` is stored, and the final
`m` leaves `nparms = 17`. -/
theorem parms_overflow_witness :
    s0.vc.scrlock = false ∧
    (vconsole_write k0 (with_write_q s0 (overflow_seq k0))).vc.nparms = 17 ∧
    (feed k0 (vconsole_write_restore (with_write_q s0 (overflow_seq k0)), false)
      ([27, 91] ++ List.replicate k0.MAX_PARMS 59)).1.vc.nparms = 16 ∧
    ¬ run_defined k0 (vconsole_write_restore (with_write_q s0 (overflow_seq k0)), false)
      (overflow_seq k0) :=
  ⟨rfl, (parms_overflow k0 s0 rfl).1, (parms_overflow k0 s0 rfl).2.2.1.2.2.1,
    (parms_overflow k0 s0 rfl).2.2.2⟩

/-! ### C8 and the buffer of the cursor report -/

theorem dec_digits_pos (fuel n : Nat) (h : 0 < fuel) : 1 ≤ (dec_digits fuel n).length := by
  cases fuel with
  | zero => omega
  | succ f =>
    simp only [dec_digits]
    by_cases c : n < 10
    · rw [if_pos c]; simp
    · rw [if_neg c]; simp

theorem dec_length (i : Int) (h : 10 ≤ i) : 2 ≤ (dec i).length := by
  unfold dec
  rw [if_neg (by omega)]
  have hn : 10 ≤ i.natAbs := by omega
  simp only [dec_digits]
  rw [if_neg (by omega), List.length_append]
  have := dec_digits_pos i.natAbs (i.natAbs / 10) (by omega)
  simp only [List.length_singleton]
  omega

/-- A cursor with two digits in its row and in its column gives a report of
at least eight bytes, which with the NUL after it does not fit `curpos`. -/
theorem curpos_long (vc : vconsole) (hx : 10 ≤ vc.x) (hy : 10 ≤ vc.y) : ¬ curpos_fits vc := by
  unfold curpos_fits curpos CURPOS_SIZE
  have h1 := dec_length vc.x hx
  have h2 := dec_length vc.y hy
  simp only [List.length_append, List.length_cons, List.length_nil]
  omega

theorem feed_6 (k : Consts) (s : State) (n : Bool) :
    feed k (s, n) [27, 91, 54] = (csi_digit (esc_bracket k (esc_open s)) 54, true) := by
  rw [feed_csi_open]; rfl

/-- The parser after `ESC [ 6`: the final `n` will take the case of the
cursor report. -/
theorem open_6_state (k : Consts) (s : State) :
    (csi_digit (esc_bracket k (esc_open s)) 54).vc.question = false ∧
    (csi_digit (esc_bracket k (esc_open s)) 54).vc.parmv1 = 6 := by
  obtain ⟨-, -, -, h4, -⟩ := csi_digit_parm (esc_bracket k (esc_open s)) 54
  obtain ⟨a, -⟩ := h4 rfl
  refine ⟨?_, ?_⟩
  · unfold csi_digit; rfl
  · rw [a]
    show wrap32 (wrap32 (0 * 10) + ((54 : Nat) - 48 : Int)) = 6
    decide

/-- The bytes `ESC [ 6 n` stay inside the arrays exactly when the report
fits `curpos`, on a console whose `parms[]` has a slot. -/
theorem report_defined (k : Consts) (s : State) (n : Bool) (hk : 1 ≤ k.MAX_PARMS) :
    run_defined k (s, n) [27, 91, 54, 110] ↔ curpos_fits s.vc := by
  have e : [27, 91, 54, 110] = [27, 91, 54] ++ [110] := rfl
  obtain ⟨q1, q2⟩ := open_6_state k s
  obtain ⟨e1, e2, -⟩ := open_digit_state k s 54
  obtain ⟨-, g, -⟩ := open_digit_frame k s 54
  simp only [geo, Prod.mk.injEq] at g
  have hc : curpos (csi_digit (esc_bracket k (esc_open s)) 54).vc = curpos s.vc :=
    curpos_congr _ _ g.1 g.2.1
  have hfit : curpos_fits (csi_digit (esc_bracket k (esc_open s)) 54).vc ↔ curpos_fits s.vc := by
    unfold curpos_fits; rw [hc]
  have h3 : run_defined k (s, n) [27, 91, 54] := by
    rw [run_defined_cons, body_ESC, run_defined_cons, body_bracket k _ n rfl rfl,
      run_defined_cons]
    refine ⟨step_defined_plain k s 27 (by decide) (by decide) (by decide),
      step_defined_plain k _ 91 (by decide) (by decide) (by decide), ?_, trivial⟩
    intro _
    refine ⟨fun _ => ⟨le_refl _, ?_⟩, fun h => absurd h (by decide),
      fun h => absurd h.1 (by decide)⟩
    show (0 : Int) < (k.MAX_PARMS : Int)
    omega
  rw [e, run_defined_append, feed_6, run_defined_cons]
  constructor
  · intro h
    exact hfit.1 ((h.2.1 ⟨e1, e2⟩).2.2 ⟨rfl, q1, q2⟩)
  · intro h
    exact ⟨h3, fun _ => ⟨fun hd => absurd hd (by decide), fun hm => absurd hm (by decide),
      fun _ => hfit.2 h⟩, trivial⟩

/-- C8, the code at the failing input.  The report is built in the buffer
`char curpos[8]`.  On a console that is not scroll-locked and whose `parms[]`
has a slot, from any state of the parser: when the report and the NUL that
ends it fit the buffer, the bytes `ESC [ 6 n` run inside the arrays and
append to the read queue exactly `ESC [`, the decimal digits of `y`, `;`,
the decimal digits of `x` and `R`, for the 0-based cursor `(x, y)`, the
cursor does not move and the log gains no call that changes a cell.  When
row and column both have two digits, `10 ≤ x` and `10 ≤ y`, the report has
eight bytes or more and the `sprintk` of the case `n` writes past the end of
`curpos`: the run leaves the buffer. -/
theorem cursor_report (k : Consts) (s : State) (hlock : s.vc.scrlock = false)
    (hk : 1 ≤ k.MAX_PARMS) :
    (curpos_fits s.vc →
      run_defined k (vconsole_write_restore (with_write_q s [27, 91, 54, 110]), false)
        [27, 91, 54, 110] ∧
      (vconsole_write k (with_write_q s [27, 91, 54, 110])).vc.tty.read_q =
        s.vc.tty.read_q ++ ([27, 91] ++ dec s.vc.y ++ [59] ++ dec s.vc.x ++ [82]) ∧
      (vconsole_write k (with_write_q s [27, 91, 54, 110])).vc.x = s.vc.x ∧
      (vconsole_write k (with_write_q s [27, 91, 54, 110])).vc.y = s.vc.y ∧
      cell_writes (vconsole_write k (with_write_q s [27, 91, 54, 110])).log =
        cell_writes s.log) ∧
    (10 ≤ s.vc.x → 10 ≤ s.vc.y →
      ¬ curpos_fits s.vc ∧
      ¬ run_defined k (vconsole_write_restore (with_write_q s [27, 91, 54, 110]), false)
        [27, 91, 54, 110]) := by
  have hv := vconsole_write_restore_vc (with_write_q s [27, 91, 54, 110])
  have hfit : curpos_fits (vconsole_write_restore (with_write_q s [27, 91, 54, 110])).vc ↔
      curpos_fits s.vc := by
    rw [hv]; exact Iff.rfl
  have hrun := report_defined k (vconsole_write_restore (with_write_q s [27, 91, 54, 110]))
    false hk
  constructor
  · intro hf
    refine ⟨hrun.2 (hfit.2 hf), ?_⟩
    have hq : (vconsole_write_restore (with_write_q s [27, 91, 54, 110])).vc.tty.read_q =
        s.vc.tty.read_q := by rw [hv]; rfl
    have hgs : geo (vconsole_write_restore (with_write_q s [27, 91, 54, 110])).vc =
        geo s.vc := by
      rw [hv]; rfl
    have hlog : cell_writes (vconsole_write_restore (with_write_q s [27, 91, 54, 110])).log =
        cell_writes s.log := restore_cell_writes _
    rw [vconsole_write_unlocked k (with_write_q s [27, 91, 54, 110]) hlock, with_write_q_vc_tty,
      feed_report]
    generalize vconsole_write_restore (with_write_q s [27, 91, 54, 110]) = S at hq hgs hlog ⊢
    obtain ⟨f1, f2, f3⟩ := open_digit_frame k S 54
    have hg := (geo_CSE_insert_seq (csi_digit (esc_bracket k (esc_open S)) 54)
      (curpos S.vc) (curpos S.vc).length).trans (f2.trans hgs)
    simp only [geo, Prod.mk.injEq] at hg hgs
    have hc : curpos S.vc = curpos s.vc := curpos_congr _ _ hgs.1 hgs.2.1
    refine ⟨?_, ?_, ?_, ?_⟩
    · rw [vconsole_write_finish_vc]
      show (CSE (insert_seq _ _ _)).vc.tty.read_q = _
      rw [read_q_CSE_insert_seq, List.take_length, f1, hq, hc]
      rfl
    · rw [vconsole_write_finish_vc]
      exact hg.1
    · rw [vconsole_write_finish_vc]
      exact hg.2.1
    · rw [finish_cell_writes]
      show cell_writes (CSE (insert_seq _ _ _)).log = _
      rw [log_CSE_insert_seq, f3, cell_writes_append, hlog]
      simp [cell_writes]
  · intro hx hy
    have hl := curpos_long s.vc hx hy
    exact ⟨hl, fun h => hl (hfit.1 (hrun.1 h))⟩

/-- C8 at the cursor `(x = 4, y = 7)`, where the read queue receives exactly
`ESC [ 7 ; 4 R`, and at the cursor `(x = 79, y = 24)` of the 80x25 console,
where the report `ESC [ 2 4 ; 7 9 R` and its NUL need nine bytes. -/
theorem cursor_report_witness :
    ((with_cursor s0 4 7).vc.scrlock = false ∧ 1 ≤ k0.MAX_PARMS ∧
      curpos_fits (with_cursor s0 4 7).vc) ∧
    (vconsole_write k0 (with_write_q (with_cursor s0 4 7) [27, 91, 54, 110])).vc.tty.read_q =
      [27, 91, 55, 59, 52, 82] ∧
    ((with_cursor s0 79 24).vc.scrlock = false ∧ 10 ≤ (with_cursor s0 79 24).vc.x ∧
      10 ≤ (with_cursor s0 79 24).vc.y) ∧
    (¬ curpos_fits (with_cursor s0 79 24).vc ∧
      ¬ run_defined k0 (vconsole_write_restore
        (with_write_q (with_cursor s0 79 24) [27, 91, 54, 110]), false) [27, 91, 54, 110]) ∧
    (curpos (with_cursor s0 79 24).vc).length + 1 = 9 :=
  ⟨⟨rfl, by decide, by decide⟩,
   ((cursor_report k0 (with_cursor s0 4 7) rfl (by decide)).1 (by decide)).2.1,
   ⟨rfl, by decide, by decide⟩,
   (cursor_report k0 (with_cursor s0 79 24) rfl (by decide)).2 (by decide) (by decide),
   by decide⟩

/-! ### C9 inside the arrays -/

theorem digit_wrap_nil (v : Int) : digit_wrap v [] = v := rfl

theorem digit_wrap_cons (v : Int) (d : Nat) (ds : List Nat) :
    digit_wrap v (d :: ds) = digit_wrap (wrap32 (wrap32 (v * 10) + ((d : Int) - 48))) ds := rfl

/-- Digits inside a CSI sequence accumulate into the current parameter, an
`int` of 32 bits, and change nothing else that the cases `r` and `J` look
at. -/
theorem feed_digits_wrap (k : Consts) (ds : List Nat) (s : State) (n : Bool)
    (hd : ∀ b ∈ ds, IS_NUMERIC b = true)
    (he : s.vc.esc = true) (hb : s.vc.sbracket = true) :
    (feed k (s, n) ds).1.vc.esc = true ∧ (feed k (s, n) ds).1.vc.sbracket = true ∧
    (feed k (s, n) ds).1.vc.semicolon = s.vc.semicolon ∧
    geo (feed k (s, n) ds).1.vc = geo s.vc ∧
    (feed k (s, n) ds).1.video = s.video ∧
    (feed k (s, n) ds).1.log = s.log ∧
    parm_slot (feed k (s, n) ds).1.vc = digit_wrap (parm_slot s.vc) ds ∧
    parm_other (feed k (s, n) ds).1.vc = parm_other s.vc := by
  induction ds generalizing s n with
  | nil => exact ⟨he, hb, rfl, rfl, rfl, rfl, rfl, rfl⟩
  | cons d ds ih =>
    have hdd := hd d (List.mem_cons_self _ _)
    have hbody : vconsole_write_body k s n d = (csi_digit s d, true) := by
      rw [body_csi k s n d he hb]; unfold csi; rw [if_pos hdd]
    rw [feed_cons, hbody]
    obtain ⟨c1, c2, c3, -, -⟩ := csi_digit_parm s d
    obtain ⟨v1, v2⟩ := csi_digit_slot_val s d
    obtain ⟨i1, i2, i3, i4, i5, i6, i7, i8⟩ := ih (csi_digit s d) true
      (fun b hb => hd b (List.mem_cons_of_mem _ hb))
      ((csi_digit_slot s d).2.2.1.trans he) ((csi_digit_slot s d).2.2.2.trans hb)
    refine ⟨i1, i2, i3.trans c1, i4.trans (csi_digit_calm calm_geo s d), i5.trans c2,
      i6.trans c3, ?_, i8.trans v2⟩
    rw [i7, v1, digit_wrap_cons]

/-- Below 2^31 the 32-bit value of a digit string is its value. -/
theorem digit_wrap_val (ds : List Nat) (v : Int) (hv : 0 ≤ v)
    (hd : ∀ b ∈ ds, IS_NUMERIC b = true) (hmax : digit_val v ds < 2147483648) :
    digit_wrap v ds = digit_val v ds := by
  induction ds generalizing v with
  | nil => rfl
  | cons d ds ih =>
    have hr := is_numeric_range d (hd d (List.mem_cons_self _ _))
    rw [digit_val_cons] at hmax ⊢
    have hmono := digit_val_mono ds (v * 10 + ((d : Int) - 48)) (by omega)
      (fun b hb => hd b (List.mem_cons_of_mem _ hb))
    have hw : wrap32 (wrap32 (v * 10) + ((d : Int) - 48)) = v * 10 + ((d : Int) - 48) := by
      rw [wrap32_id (v * 10) (by omega) (by omega)]
      exact wrap32_id _ (by omega) (by omega)
    rw [digit_wrap_cons, hw]
    exact ih _ (by omega) (fun b hb => hd b (List.mem_cons_of_mem _ hb)) hmax

/-! ### C11 with parameters that wrap -/

theorem region_code_congr (s s1 r : State) (a b : Int) (hg : geo s1.vc = geo s.vc)
    (hv : s1.video.lines = s.video.lines) (h : region_code s1 r a b) : region_code s r a b := by
  simp only [geo, Prod.mk.injEq] at hg
  obtain ⟨g1, g2, -, g4, g5, -⟩ := hg
  unfold region_code at h ⊢
  rw [hv, g1, g2, g4, g5] at h
  exact h

/-- The case `r` on its own, for any two parameter values. -/
theorem csi_r_code (S : State) (hc : 1 ≤ S.vc.columns) :
    region_code S (csi_r S) (region_a S.vc.parmv1) (region_b S.video.lines S.vc.parmv2) := by
  have ea : (if S.vc.parmv1 = 0 then S.vc.parmv1 + 1 else S.vc.parmv1) =
      region_a S.vc.parmv1 := by
    unfold region_a; split_ifs <;> omega
  have eb : (if S.vc.parmv2 = 0 then S.video.lines else S.vc.parmv2) =
      region_b S.video.lines S.vc.parmv2 := rfl
  unfold csi_r
  simp only []
  rw [ea, eb]
  generalize region_a S.vc.parmv1 = a
  generalize region_b S.video.lines S.vc.parmv2 = b
  unfold region_code
  by_cases h : a < b ∧ b ≤ S.video.lines
  · rw [if_pos h]
    refine ⟨fun _ => ?_, fun h2 => absurd h h2⟩
    simp only [adjust]
    refine ⟨by trivial, by trivial, ?_, ?_⟩
    · split_ifs <;> omega
    · split_ifs <;> omega
  · rw [if_neg h]
    exact ⟨fun h2 => absurd h2 h, fun _ => ⟨rfl, rfl, rfl, rfl⟩⟩

/-- The sequence `ESC [ da ; db r` for any digits. -/
theorem feed_region_code (k : Consts) (s : State) (n : Bool) (da db : List Nat)
    (hda : ∀ c ∈ da, IS_NUMERIC c = true) (hdb : ∀ c ∈ db, IS_NUMERIC c = true)
    (hc : 1 ≤ s.vc.columns) :
    region_code s (feed k (s, n) (csi_seq (da ++ [59] ++ db) 114)).1
      (region_a (digit_wrap 0 da)) (region_b s.video.lines (digit_wrap 0 db)) := by
  have e : csi_seq (da ++ [59] ++ db) 114 = 27 :: 91 :: (da ++ (59 :: (db ++ [114]))) := by
    simp [csi_seq]
  rw [e, feed_csi_open, feed_append, feed_cons]
  obtain ⟨i1, i2, i3, i4, i5, -, i7, i8⟩ := feed_digits_wrap k da (esc_bracket k (esc_open s)) n
    hda rfl rfl
  have hs : (feed k (esc_bracket k (esc_open s), n) da).1.vc.semicolon = false := i3
  have p1 : (feed k (esc_bracket k (esc_open s), n) da).1.vc.parmv1 = digit_wrap 0 da := by
    have := i7; unfold parm_slot at this; rw [hs] at this; exact this
  generalize feed k (esc_bracket k (esc_open s), n) da = P at i1 i2 i4 i5 p1 ⊢
  have hsemi : vconsole_write_body k P.1 P.2 59 = (csi_semicolon P.1, P.2) := by
    rw [body_csi k P.1 P.2 59 i1 i2]; rfl
  rw [hsemi, feed_append, feed_cons, feed_nil]
  obtain ⟨j1, j2, j3, j4, j5, -, j7, j8⟩ := feed_digits_wrap k db (csi_semicolon P.1) P.2 hdb
    i1 i2
  have hs2 : (feed k (csi_semicolon P.1, P.2) db).1.vc.semicolon = true := j3
  have q2 : (feed k (csi_semicolon P.1, P.2) db).1.vc.parmv2 = digit_wrap 0 db := by
    have := j7; unfold parm_slot at this; rw [hs2] at this; exact this
  have q1 : (feed k (csi_semicolon P.1, P.2) db).1.vc.parmv1 = digit_wrap 0 da := by
    have := j8; unfold parm_other at this; rw [hs2] at this; exact this.trans p1
  have hg : geo (feed k (csi_semicolon P.1, P.2) db).1.vc = geo s.vc :=
    j4.trans ((csi_semicolon_calm calm_geo P.1).trans i4)
  have hv : (feed k (csi_semicolon P.1, P.2) db).1.video.lines = s.video.lines :=
    (congrArg video_parms.lines j5).trans (congrArg video_parms.lines i5)
  rw [body_r k _ _ j1 j2]
  have hcse : ∀ (r : State), region_code s r (region_a (digit_wrap 0 da))
      (region_b s.video.lines (digit_wrap 0 db)) → region_code s (CSE r)
      (region_a (digit_wrap 0 da)) (region_b s.video.lines (digit_wrap 0 db)) := fun _ h => h
  refine hcse _ (region_code_congr s _ _ _ _ hg hv ?_)
  have hcol : (feed k (csi_semicolon P.1, P.2) db).1.vc.columns = s.vc.columns := by
    have := hg; simp only [geo, Prod.mk.injEq] at this; exact this.2.2.2.2.2
  have h := csi_r_code (feed k (csi_semicolon P.1, P.2) db).1 (by rw [hcol]; exact hc)
  rw [q1, q2, hv] at h
  exact h

theorem region_code_write (k : Consts) (s : State) (q : List Nat) (a b : Int)
    (hlock : s.vc.scrlock = false)
    (h : region_code (vconsole_write_restore (with_write_q s q))
      (feed k (vconsole_write_restore (with_write_q s q), false) q).1 a b) :
    region_code s (vconsole_write k (with_write_q s q)) a b := by
  have hg := vconsole_write_geo k s q hlock
  have h1 := region_code_congr s _ _ a b
    (by rw [vconsole_write_restore_vc]; rfl) (restore_video_lines (with_write_q s q)) h
  simp only [geo, Prod.mk.injEq] at hg
  obtain ⟨g1, g2, -, g4, g5, -⟩ := hg
  unfold region_code at h1 ⊢
  rw [g1, g2, g4, g5]
  exact h1

/-- C11, the code at the failing input.  The case `r` tests
`parmv1 < parmv2 && parmv2 <= video.lines` on the two parameters as the
parser holds them, each an `int` of 32 bits into which the digits were
multiplied and added with no test, and it does not test `1 <= parmv1`.  For
any digits `da`, `db`, on a console with at least one column, `ESC [ da ; db
r` does to region and cursor what `region_code` says for the 32-bit values.
So digits that make both values negative, such as `4294967291` and
`4294967293` (the values -5 and -3), pass the test on any screen of at least
one line: `top` becomes -6 and `lines` -3, and `adjust` leaves the cursor on
row -4, whereas the claim has region and cursor unchanged, since
4294967293 is above `video.lines`.  Stated for the loop body and for a call
of `vconsole_write` on a console that is not scroll-locked. -/
theorem scroll_region (k : Consts) (s : State) (n : Bool) (da db : List Nat)
    (hda : ∀ c ∈ da, IS_NUMERIC c = true) (hdb : ∀ c ∈ db, IS_NUMERIC c = true)
    (hc : 1 ≤ s.vc.columns) :
    region_code s (feed k (s, n) (csi_seq (da ++ [59] ++ db) 114)).1
      (region_a (digit_wrap 0 da)) (region_b s.video.lines (digit_wrap 0 db)) ∧
    (s.vc.scrlock = false →
      region_code s (vconsole_write k (with_write_q s (csi_seq (da ++ [59] ++ db) 114)))
        (region_a (digit_wrap 0 da)) (region_b s.video.lines (digit_wrap 0 db))) ∧
    (s.vc.scrlock = false → 1 ≤ s.video.lines →
      (vconsole_write k (with_write_q s (csi_seq ([52, 50, 57, 52, 57, 54, 55, 50, 57, 49] ++
        [59] ++ [52, 50, 57, 52, 57, 54, 55, 50, 57, 51]) 114))).vc.top = -6 ∧
      (vconsole_write k (with_write_q s (csi_seq ([52, 50, 57, 52, 57, 54, 55, 50, 57, 49] ++
        [59] ++ [52, 50, 57, 52, 57, 54, 55, 50, 57, 51]) 114))).vc.lines = -3 ∧
      (vconsole_write k (with_write_q s (csi_seq ([52, 50, 57, 52, 57, 54, 55, 50, 57, 49] ++
        [59] ++ [52, 50, 57, 52, 57, 54, 55, 50, 57, 51]) 114))).vc.y = -4) := by
  have two : ∀ (ea eb : List Nat), (∀ c ∈ ea, IS_NUMERIC c = true) →
      (∀ c ∈ eb, IS_NUMERIC c = true) → s.vc.scrlock = false →
      region_code s (vconsole_write k (with_write_q s (csi_seq (ea ++ [59] ++ eb) 114)))
        (region_a (digit_wrap 0 ea)) (region_b s.video.lines (digit_wrap 0 eb)) := by
    intro ea eb hea heb hlock
    refine region_code_write k s _ _ _ hlock ?_
    have h := feed_region_code k (vconsole_write_restore
      (with_write_q s (csi_seq (ea ++ [59] ++ eb) 114))) false ea eb hea heb
      (by rw [vconsole_write_restore_vc]; exact hc)
    rw [restore_video_lines] at h
    exact h
  refine ⟨feed_region_code k s n da db hda hdb hc, two da db hda hdb, fun hlock hl => ?_⟩
  have h := two [52, 50, 57, 52, 57, 54, 55, 50, 57, 49] [52, 50, 57, 52, 57, 54, 55, 50, 57, 51]
    (by decide) (by decide) hlock
  have ha : region_a (digit_wrap 0 [52, 50, 57, 52, 57, 54, 55, 50, 57, 49]) = -5 := by decide
  have hb : region_b s.video.lines (digit_wrap 0 [52, 50, 57, 52, 57, 54, 55, 50, 57, 51]) =
      -3 := by
    have : digit_wrap 0 [52, 50, 57, 52, 57, 54, 55, 50, 57, 51] = -3 := by decide
    rw [this]; unfold region_b; rw [if_neg (by decide)]
  rw [ha, hb] at h
  obtain ⟨t1, t2, -, t4⟩ := h.1 ⟨by decide, by omega⟩
  refine ⟨t1.trans (by decide), t2, t4.trans (by decide)⟩

/-- C11 on the reset 80x25 console: `ESC [ 4294967291 ; 4294967293 r` leaves
`top = -6`, `lines = -3` and the cursor on row -4. -/
theorem scroll_region_witness :
    (s0.vc.scrlock = false ∧ 1 ≤ s0.vc.columns ∧ 1 ≤ s0.video.lines ∧
      digit_val 0 [52, 50, 57, 52, 57, 54, 55, 50, 57, 49] = 4294967291 ∧
      digit_val 0 [52, 50, 57, 52, 57, 54, 55, 50, 57, 51] = 4294967293) ∧
    ((vconsole_write k0 (with_write_q s0 (csi_seq ([52, 50, 57, 52, 57, 54, 55, 50, 57, 49] ++
        [59] ++ [52, 50, 57, 52, 57, 54, 55, 50, 57, 51]) 114))).vc.top = -6 ∧
      (vconsole_write k0 (with_write_q s0 (csi_seq ([52, 50, 57, 52, 57, 54, 55, 50, 57, 49] ++
        [59] ++ [52, 50, 57, 52, 57, 54, 55, 50, 57, 51]) 114))).vc.lines = -3 ∧
      (vconsole_write k0 (with_write_q s0 (csi_seq ([52, 50, 57, 52, 57, 54, 55, 50, 57, 49] ++
        [59] ++ [52, 50, 57, 52, 57, 54, 55, 50, 57, 51]) 114))).vc.y = -4) :=
  ⟨by decide,
   (scroll_region k0 s0 false [] [] (by decide) (by decide) (by decide)).2.2 rfl
     (by decide)⟩

/-! ### C18 with a mode that wraps -/

/-- What `ESC [ da J` makes of the screen, of the cursor and of the colour,
for any digits. -/
theorem feed_J_wrap (k : Consts) (s : State) (n : Bool) (da : List Nat)
    (hda : ∀ c ∈ da, IS_NUMERIC c = true)
    (hx0 : 0 ≤ s.vc.x) (hx : s.vc.x < s.vc.columns) (hy0 : 0 ≤ s.vc.y)
    (hy : s.vc.y < s.video.lines) (hc : s.vc.columns = s.video.columns)
    (scr0 scr : Int → Nat × Nat) (hp : paint scr0 s.log = some scr) :
    paint scr0 (feed k (s, n) (csi_seq da 74)).1.log =
      some (erase_display scr (SCREEN_SIZE s) (cursor_offset s.vc) s.vc.color_attr
        (digit_wrap 0 da)) ∧
    geo (feed k (s, n) (csi_seq da 74)).1.vc = geo s.vc ∧
    (feed k (s, n) (csi_seq da 74)).1.video = s.video ∧
    (feed k (s, n) (csi_seq da 74)).1.vc.color_attr = s.vc.color_attr ∧
    (feed k (s, n) (csi_seq da 74)).1.vc.esc = false := by
  have e : csi_seq da 74 = 27 :: 91 :: (da ++ [74]) := by simp [csi_seq]
  rw [e, feed_csi_open, feed_append, feed_cons, feed_nil]
  obtain ⟨i1, i2, i3, i4, i5, i6, i7, -⟩ := feed_digits_wrap k da (esc_bracket k (esc_open s)) n hda
    rfl rfl
  have hcol := feed_digits_color k da (esc_bracket k (esc_open s)) n hda rfl rfl
  have hs : (feed k (esc_bracket k (esc_open s), n) da).1.vc.semicolon = false := i3
  have p1 : (feed k (esc_bracket k (esc_open s), n) da).1.vc.parmv1 = digit_wrap 0 da := by
    have := i7; unfold parm_slot at this; rw [hs] at this; exact this
  have hg : geo (feed k (esc_bracket k (esc_open s), n) da).1.vc = geo s.vc := i4
  have hv : (feed k (esc_bracket k (esc_open s), n) da).1.video = s.video := i5
  have hl : (feed k (esc_bracket k (esc_open s), n) da).1.log = s.log := i6
  have hcol2 : (feed k (esc_bracket k (esc_open s), n) da).1.vc.color_attr = s.vc.color_attr :=
    hcol
  rw [body_J k _ _ i1 i2, p1]
  generalize (feed k (esc_bracket k (esc_open s), n) da).1 = S at hg hv hl hcol2
  simp only [geo, Prod.mk.injEq] at hg
  obtain ⟨g1, g2, g3, g4, g5, g6⟩ := hg
  have key := csi_J_paint S (digit_wrap 0 da) scr0 scr (by rw [g1]; exact hx0)
    (by rw [g1, g6]; exact hx) (by rw [g2]; exact hy0) (by rw [g2, hv]; exact hy)
    (by rw [g6, hv]; exact hc) (by rw [hl]; exact hp)
  have e2 : SCREEN_SIZE S = SCREEN_SIZE s := by unfold SCREEN_SIZE; rw [hv]
  have e3 : cursor_offset S.vc = cursor_offset s.vc := by unfold cursor_offset; rw [g1, g2, g6]
  rw [e2, e3, hcol2] at key
  refine ⟨key, ?_, ?_, ?_, rfl⟩
  · show geo (csi_J S (digit_wrap 0 da)).vc = geo s.vc
    rw [csi_J_vc]; simp only [geo, g1, g2, g3, g4, g5, g6]
  · show (csi_J S (digit_wrap 0 da)).video = s.video
    rw [csi_J_video, hv]
  · show (csi_J S (digit_wrap 0 da)).vc.color_attr = s.vc.color_attr
    rw [csi_J_vc, hcol2]

/-- C18, amended.  Erase display, with a backend whose
`write_screen(from, n, a)` fills the `n` cells from the offset `from` with
`(space, a)`: on a console as wide as the screen, with the cursor `(x, y)`
inside the full-size screen, `ESC [ da J` with any digits `da` leaves the
screen that the spec describes for the mode `m` that the parser hands to
`csi_J`, the value of the digits in an `int` of 32 bits (`digit_wrap`): for
`m = 0` (also with no digit) the cells at the offsets `y * columns + x ≤ i <
SCREEN_SIZE` are blanked, for `m = 1` those at `0 ≤ i ≤ y * columns + x`, for
`m = 2` all of them, for another `m` none; a blanked cell holds `(space,
color_attr)`, every other cell is as before, and the cursor, the geometry
and `color_attr` are unchanged.  `ESC [ 2 J` twice leaves the screen that
`ESC [ 2 J` once leaves.  Stated for the loop of `vconsole_write` and for a
call of `vconsole_write` on a console that is not scroll-locked and does not
show the scrollback. -/
theorem erase_screen (k : Consts) (s : State) (n : Bool) (da : List Nat)
    (scr0 scr : Int → Nat × Nat)
    (hda : ∀ c ∈ da, IS_NUMERIC c = true)
    (hx0 : 0 ≤ s.vc.x) (hx : s.vc.x < s.vc.columns) (hy0 : 0 ≤ s.vc.y)
    (hy : s.vc.y < s.video.lines) (hc : s.vc.columns = s.video.columns)
    (hp : paint scr0 s.log = some scr) :
    (paint scr0 (feed k (s, n) (csi_seq da 74)).1.log =
        some (erase_display scr (SCREEN_SIZE s) (cursor_offset s.vc) s.vc.color_attr
          (digit_wrap 0 da)) ∧
      geo (feed k (s, n) (csi_seq da 74)).1.vc = geo s.vc ∧
      (feed k (s, n) (csi_seq da 74)).1.vc.color_attr = s.vc.color_attr) ∧
    paint scr0 (feed k (s, n) (csi_seq [50] 74 ++ csi_seq [50] 74)).1.log =
      paint scr0 (feed k (s, n) (csi_seq [50] 74)).1.log ∧
    (s.vc.scrlock = false → s.video.buf_top = 0 →
      paint scr0 (vconsole_write k (with_write_q s (csi_seq da 74))).log =
        some (erase_display scr (SCREEN_SIZE s) (cursor_offset s.vc) s.vc.color_attr
          (digit_wrap 0 da)) ∧
      geo (vconsole_write k (with_write_q s (csi_seq da 74))).vc = geo s.vc ∧
      (vconsole_write k (with_write_q s (csi_seq da 74))).vc.color_attr = s.vc.color_attr ∧
      paint scr0 (vconsole_write k (with_write_q s (csi_seq [50] 74 ++ csi_seq [50] 74))).log =
        paint scr0 (vconsole_write k (with_write_q s (csi_seq [50] 74))).log) := by
  have two : ∀ (S : State) (m : Bool), 0 ≤ S.vc.x → S.vc.x < S.vc.columns → 0 ≤ S.vc.y →
      S.vc.y < S.video.lines → S.vc.columns = S.video.columns → paint scr0 S.log = some scr →
      paint scr0 (feed k (S, m) (csi_seq [50] 74)).1.log =
        some (erase_display scr (SCREEN_SIZE S) (cursor_offset S.vc) S.vc.color_attr 2) ∧
      paint scr0 (feed k (S, m) (csi_seq [50] 74 ++ csi_seq [50] 74)).1.log =
        some (erase_display scr (SCREEN_SIZE S) (cursor_offset S.vc) S.vc.color_attr 2) := by
    intro S m a1 a2 a3 a4 a5 a6
    obtain ⟨b1, b2, b3, b4, -⟩ := feed_J_wrap k S m [50] (by decide) a1 a2 a3 a4 a5
      scr0 scr a6
    refine ⟨b1, ?_⟩
    rw [feed_append]
    simp only [geo, Prod.mk.injEq] at b2
    obtain ⟨g1, g2, -, -, -, g6⟩ := b2
    obtain ⟨c1, -⟩ := feed_J_wrap k (feed k (S, m) (csi_seq [50] 74)).1
      (feed k (S, m) (csi_seq [50] 74)).2 [50] (by decide)
      (by rw [g1]; exact a1) (by rw [g1, g6]; exact a2) (by rw [g2]; exact a3)
      (by rw [g2, b3]; exact a4) (by rw [g6, b3]; exact a5) scr0 _ b1
    rw [c1, b4]
    have e2 : SCREEN_SIZE (feed k (S, m) (csi_seq [50] 74)).1 = SCREEN_SIZE S := by
      unfold SCREEN_SIZE; rw [b3]
    rw [e2]
    exact congrArg some (erase_display_twice scr _ _ _ _)
  obtain ⟨f1, f2, -, f4, -⟩ := feed_J_wrap k s n da hda hx0 hx hy0 hy hc scr0 scr hp
  obtain ⟨t1, t2⟩ := two s n hx0 hx hy0 hy hc hp
  refine ⟨⟨f1, f2, f4⟩, t2.trans t1.symm, fun hlock htop => ?_⟩
  have wr : ∀ q : List Nat, vconsole_write k (with_write_q s q) =
      vconsole_write_finish (with_write_q (feed k (with_write_q s q, false) q).1 [])
        (q.getLastD 0) := by
    intro q
    rw [vconsole_write_unlocked k (with_write_q s q) hlock,
      restore_idle (with_write_q s q) htop]
    rfl
  have wp : ∀ (q : List Nat) (r : Int → Nat × Nat),
      paint scr0 (feed k (with_write_q s q, false) q).1.log = some r →
      paint scr0 (vconsole_write k (with_write_q s q)).log = some r := by
    intro q r h
    rw [wr q]
    exact paint_finish _ _ scr0 r h
  obtain ⟨w1, w2, -, w4, -⟩ := feed_J_wrap k (with_write_q s (csi_seq da 74)) false da hda hx0 hx
    hy0 hy hc scr0 scr hp
  obtain ⟨u1, -⟩ := two (with_write_q s (csi_seq [50] 74)) false hx0 hx hy0 hy hc hp
  obtain ⟨-, u2⟩ := two (with_write_q s (csi_seq [50] 74 ++ csi_seq [50] 74)) false hx0 hx hy0 hy
    hc hp
  refine ⟨wp _ _ w1, ?_, ?_, ?_⟩
  · rw [wr, vconsole_write_finish_vc]
    exact w2
  · rw [wr, vconsole_write_finish_vc]
    exact w4
  · rw [wp _ _ u1, wp _ _ u2]
    rfl

/-- C18 on an 80x25 screen filled with the glyph `A`, cursor in column 2 of
row 1: `ESC [ 1 J` blanks the offsets 0 to 82 and leaves the cell 83. -/
theorem erase_screen_witness :
    ((∀ c ∈ [49], IS_NUMERIC c = true) ∧
      0 ≤ (with_cursor s0 2 1).vc.x ∧ (with_cursor s0 2 1).vc.x < (with_cursor s0 2 1).vc.columns ∧
      0 ≤ (with_cursor s0 2 1).vc.y ∧ (with_cursor s0 2 1).vc.y < (with_cursor s0 2 1).video.lines ∧
      (with_cursor s0 2 1).vc.columns = (with_cursor s0 2 1).video.columns ∧
      paint (fun _ => (65, 7)) (with_cursor s0 2 1).log = some (fun _ => (65, 7)) ∧
      (with_cursor s0 2 1).vc.scrlock = false ∧ (with_cursor s0 2 1).video.buf_top = 0) ∧
    (paint (fun _ => (65, 7))
        (vconsole_write k0 (with_write_q (with_cursor s0 2 1) (csi_seq [49] 74))).log =
      some (erase_display (fun _ => (65, 7)) (SCREEN_SIZE (with_cursor s0 2 1))
        (cursor_offset (with_cursor s0 2 1).vc) (with_cursor s0 2 1).vc.color_attr
        (digit_wrap 0 [49]))) ∧
    (erase_display (fun _ => (65, 7)) (SCREEN_SIZE (with_cursor s0 2 1))
        (cursor_offset (with_cursor s0 2 1).vc) (with_cursor s0 2 1).vc.color_attr
        (digit_wrap 0 [49]) 82 = (32, 0x0700) ∧
      erase_display (fun _ => (65, 7)) (SCREEN_SIZE (with_cursor s0 2 1))
        (cursor_offset (with_cursor s0 2 1).vc) (with_cursor s0 2 1).vc.color_attr
        (digit_wrap 0 [49]) 83 = (65, 7)) ∧
    cell_writes (vconsole_write k0 (with_write_q (with_cursor s0 2 1) (csi_seq [49] 74))).log =
      [Event.write_screen 80 3 0x0700, Event.write_screen 0 80 0x0700] :=
  ⟨⟨by decide, by decide, by decide, by decide, by decide, by decide, rfl, rfl, rfl⟩,
   ((erase_screen k0 (with_cursor s0 2 1) false [49] (fun _ => (65, 7)) (fun _ => (65, 7))
      (by decide) (by decide) (by decide) (by decide) (by decide) (by decide)
      rfl).2.2 rfl rfl).1,
   by decide, by decide⟩

/-- C18 fails as stated.  The digits of `4294967298` make a mode other than
0, 1 and 2, and yet `ESC [ 4294967298 J` blanks the whole 80x25 screen: in
the `int` of the parser the value is 2. -/
theorem erase_mode_wrapped :
    digit_val 0 [52, 50, 57, 52, 57, 54, 55, 50, 57, 56] = 4294967298 ∧
    digit_wrap 0 [52, 50, 57, 52, 57, 54, 55, 50, 57, 56] = 2 ∧
    cell_writes (vconsole_write k0 (with_write_q (with_cursor s0 2 1)
      (csi_seq [52, 50, 57, 52, 57, 54, 55, 50, 57, 56] 74))).log =
      [Event.write_screen 0 2000 0x0700] ∧
    paint (fun _ => (65, 7)) (vconsole_write k0 (with_write_q (with_cursor s0 2 1)
      (csi_seq [52, 50, 57, 52, 57, 54, 55, 50, 57, 56] 74))).log =
      some (fill (fun _ => (65, 7)) 0 2000 0x0700) := by
  refine ⟨by decide, by decide, by decide, ?_⟩
  have h : (vconsole_write k0 (with_write_q (with_cursor s0 2 1)
      (csi_seq [52, 50, 57, 52, 57, 54, 55, 50, 57, 56] 74))).log =
      [Event.write_screen 0 2000 0x0700, Event.update_curpos 2 1, Event.wakeup] := by decide
  rw [h]; rfl

/-! ### C17 in any state of the parser and on any row -/

/-- What a HT taken in GROUND makes of the cursor, on any row. -/
theorem body_tab_row (k : Consts) (s : State) (n : Bool) (he : s.vc.esc = false) :
    (vconsole_write_body k s n 9).1.vc.x = (tab_forward s.vc).x ∧
    (vconsole_write_body k s n 9).1.vc.y =
      (if s.vc.y < s.vc.lines then s.vc.y else s.vc.y - 1) ∧
    (vconsole_write_body k s n 9).1.vc.check_x = true := by
  rw [body_echo k s n 9 he (by decide) (by decide)]
  simp only [call_vc, echo_vcbuf_vc]
  have hd : echo_dispatch (echo_restore s) 9 = echo_tab (echo_restore s) := by
    unfold echo_dispatch
    rw [if_neg (by decide), if_neg (by decide), if_neg (by decide), if_neg (by decide),
      if_pos rfl]
  rw [hd]
  have hv := echo_restore_vc s
  generalize echo_restore s = S at hv ⊢
  have ht : (echo_tab S).vc = { tab_forward s.vc with check_x := true } := by
    unfold echo_tab; rw [hv]
  have hty : (echo_tab S).vc.y = s.vc.y := by rw [ht]; rfl
  have htl : (echo_tab S).vc.lines = s.vc.lines := by rw [ht]; rfl
  unfold echo_scroll
  by_cases hy : s.vc.y < s.vc.lines
  · rw [if_neg (by rw [hty, htl]; omega), if_pos hy, ht]
    exact ⟨rfl, rfl, rfl⟩
  · rw [if_pos (by rw [hty, htl]; omega), if_neg hy]
    simp only [call_vc]
    rw [ht]
    exact ⟨rfl, rfl, rfl⟩

/-- A HT met inside an escape sequence ends the sequence and is handled as
in GROUND. -/
theorem body_tab_any (k : Consts) (s : State) (n : Bool) :
    (vconsole_write_body k s n 9).1.vc.x = (tab_forward s.vc).x ∧
    (vconsole_write_body k s n 9).1.vc.y =
      (if s.vc.y < s.vc.lines then s.vc.y else s.vc.y - 1) ∧
    (vconsole_write_body k s n 9).1.vc.check_x = true := by
  by_cases he : s.vc.esc = true
  · have hg : (vconsole_write_body k s n 9).1 = (vconsole_write_body k (CSE s) n 9).1 := by
      have hr : vconsole_write_body k (CSE s) n 9 = (ground k (CSE s) 9, n) := by
        unfold vconsole_write_body
        rw [if_neg (show ¬ (CSE s).vc.esc = true by simp [CSE])]
      rw [hr]
      by_cases hb : s.vc.sbracket = true
      · rw [body_csi k s n 9 he hb, csi_table_miss k s n 9 (by decide) (by decide)]
      · unfold vconsole_write_body
        rw [if_pos he, if_neg hb, esc_table_miss k s 9 (by decide)]
    rw [hg]
    exact body_tab_row k (CSE s) n rfl
  · exact body_tab_row k s n (by simpa using he)

/-- C17 fails as stated.  On the reset 80x25 console with the cursor at
`(0, 24)`, `ESC D` leaves the cursor at `(0, 25)`, in GROUND, with
`x < columns - 1`; a HT written next moves `x` to the tab stop 8 and also
changes `y`, to 24: `echo_char` scrolls for the line feed that `ESC D` left
pending. -/
theorem tab_moves_row :
    (vconsole_write k0 (with_write_q (with_cursor s0 0 24) [27, 68])).vc.x = 0 ∧
    (vconsole_write k0 (with_write_q (with_cursor s0 0 24) [27, 68])).vc.y = 25 ∧
    (vconsole_write k0 (with_write_q (with_cursor s0 0 24) [27, 68])).vc.columns = 80 ∧
    (vconsole_write k0 (with_write_q (with_cursor s0 0 24) [27, 68])).vc.esc = false ∧
    (vconsole_write k0 (with_write_q
      (vconsole_write k0 (with_write_q (with_cursor s0 0 24) [27, 68])) [9])).vc.x = 8 ∧
    (vconsole_write k0 (with_write_q
      (vconsole_write k0 (with_write_q (with_cursor s0 0 24) [27, 68])) [9])).vc.y = 24 ∧
    scrolls (vconsole_write k0 (with_write_q
      (vconsole_write k0 (with_write_q (with_cursor s0 0 24) [27, 68])) [9])).log = 1 := by
  decide

/-- C17, amended.  Horizontal tab: in any state of the parser, with the
cursor in a column `x < columns - 1`, a HT byte sets `x` to the smallest
column `x' > x` whose tab stop is set when there is one up to `columns - 1`,
and to `columns - 1` otherwise, and sets `check_x`; it leaves `y` unchanged
when `y < lines`, and makes it `y - 1` when `y ≥ lines`, the row below the
region on which `ESC D` and `ESC E` leave the cursor.  Stated for the loop
body and for a call of `vconsole_write` on a console that is not
scroll-locked. -/
theorem horizontal_tab (k : Consts) (s : State) (n : Bool)
    (hx : s.vc.x < s.vc.columns - 1) :
    (next_tab s.vc.tty.tab_stop s.vc.columns s.vc.x (vconsole_write_body k s n 9).1.vc.x ∧
      (vconsole_write_body k s n 9).1.vc.y =
        (if s.vc.y < s.vc.lines then s.vc.y else s.vc.y - 1) ∧
      (vconsole_write_body k s n 9).1.vc.check_x = true) ∧
    (s.vc.scrlock = false →
      next_tab s.vc.tty.tab_stop s.vc.columns s.vc.x
        (vconsole_write k (with_write_q s [9])).vc.x ∧
      (vconsole_write k (with_write_q s [9])).vc.y =
        (if s.vc.y < s.vc.lines then s.vc.y else s.vc.y - 1) ∧
      (vconsole_write k (with_write_q s [9])).vc.check_x = true) := by
  have key : ∀ (S : State) (m : Bool), S.vc.x < S.vc.columns - 1 →
      next_tab S.vc.tty.tab_stop S.vc.columns S.vc.x (vconsole_write_body k S m 9).1.vc.x ∧
      (vconsole_write_body k S m 9).1.vc.y =
        (if S.vc.y < S.vc.lines then S.vc.y else S.vc.y - 1) ∧
      (vconsole_write_body k S m 9).1.vc.check_x = true := by
    intro S m h2
    obtain ⟨b1, b2, b3⟩ := body_tab_any k S m
    rw [b1]
    exact ⟨tab_forward_next S.vc h2, b2, b3⟩
  refine ⟨key s n hx, fun hlock => ?_⟩
  have hg := vconsole_write_geo k s [9] hlock
  have hk := key (vconsole_write_restore (with_write_q s [9])) false
    (by rw [vconsole_write_restore_vc]; exact hx)
  rw [vconsole_write_restore_vc] at hk
  rw [show feed k (vconsole_write_restore (with_write_q s [9]), false) [9] =
    vconsole_write_body k (vconsole_write_restore (with_write_q s [9])) false 9 from rfl] at hg
  simp only [geo, Prod.mk.injEq] at hg
  obtain ⟨g1, g2, g3, -⟩ := hg
  rw [g1, g2, g3]
  exact hk

/-- C17 with the tab stops of the reset console, one every 8 columns: a HT
from column 0 ends in column 8, and two end in column 16 of row 0. -/
theorem horizontal_tab_witness :
    (s0.vc.x < s0.vc.columns - 1 ∧ s0.vc.scrlock = false ∧ s0.vc.x = 0 ∧ s0.vc.y = 0) ∧
    (next_tab s0.vc.tty.tab_stop s0.vc.columns s0.vc.x
        (vconsole_write k0 (with_write_q s0 [9])).vc.x ∧
      (vconsole_write k0 (with_write_q s0 [9])).vc.y =
        (if s0.vc.y < s0.vc.lines then s0.vc.y else s0.vc.y - 1) ∧
      (vconsole_write k0 (with_write_q s0 [9])).vc.check_x = true) ∧
    (vconsole_write k0 (with_write_q s0 [9])).vc.x = 8 ∧
    (vconsole_write k0 (with_write_q s0 [9, 9])).vc.x = 16 ∧
    (vconsole_write k0 (with_write_q s0 [9, 9])).vc.y = 0 :=
  ⟨by decide, (horizontal_tab k0 s0 false (by decide)).2 rfl,
   by decide, by decide, by decide⟩

end Fiwix
